import Mathlib

/-!
# EAP pseudocode interpreter (`interpreter.c`): evaluator core

A shallow embedding of the execution engine of `src/interpreter.c`:
runtime values, the chained hash table used for array cells and for
environments, array objects with bounds validation, and the tree-walking
`evaluate` / `execute_statement` pair.

Modelling conventions

* C `int` is a Lean `Int`; every arithmetic result is reduced by `wrap32`
  (two's complement, 32 bits).  The division of `INT_MIN` by -1, on which the
  target traps, is `Fault.undefined_behaviour`; the conversion of a `double`
  that fits no `int` gives `INT_MIN`, as the target does.
* C `double` is modelled by exact rationals (`Double`).  Conversions from
  `int` are exact in both; no statement below depends on rounding.
* The standard input is a list of bytes; `atoi` is the one of the C library
  of the target, `(int) strtol(s, NULL, 10)`.
* `exit(1)` after a `Runtime Error` diagnostic is `Fault.runtime_error`.
  Behaviour the C standard leaves undefined (reading an inactive union
  member, overrunning a fixed-size local buffer, dereferencing a value that
  is not an array handle) is `Fault.undefined_behaviour`.
* Heap-allocated `ArrayObject`s live in `State.heap`; an array handle is an
  index into it.  An `Environment` carries its `parent` as in the C struct.
* Recursion and loops are bounded by a fuel argument; running out of it is
  `Fault.out_of_fuel`.
-/

set_option autoImplicit false

namespace EAP

deriving instance DecidableEq for Except

/-! ## Machine integers and reals -/

def INT_MIN : Int := -2147483648

def INT_MAX : Int := 2147483647

/-- Reduction of a mathematical integer to the C `int` with the same low 32 bits. -/
def wrap32 (n : Int) : Int := (n + 2147483648) % 4294967296 - 2147483648

/-- The C type `double`, modelled by exact rationals. -/
abbrev Double := Rat

/-- The conversion `(int)d` of a double: truncation toward zero.  When the truncated value
is no `int` the conversion is undefined in C; the conversion instruction of the target
(`cvttsd2si` on x86-64) then gives `INT_MIN`, and so does this function. -/
def double_to_int (d : Double) : Int :=
  let t : Int := if 0 ≤ d then Int.floor d else Int.ceil d
  if INT_MIN ≤ t ∧ t ≤ INT_MAX then t else INT_MIN

/-! ## Runtime values -/

/-- The struct `RuntimeValue`: the tag `type` together with the active member of `value`.
An array value holds the address of its `ArrayObject` in the heap. -/
inductive RuntimeValue where
  | VAL_INT (int_val : Int)
  | VAL_REAL (real_val : Double)
  | VAL_BOOL (bool_val : Bool)
  | VAL_STRING (str_val : String)
  | VAL_ARRAY (arr_val : Nat)
  | VAL_NONE
  deriving DecidableEq, Repr

open RuntimeValue

/-- The diagnostics that precede `exit(1)` in the evaluator. -/
inductive RuntimeError where
  | incorrect_number_of_indices (num_indices : Nat) (num_dims : Nat)
  | index_out_of_bounds (index : Int) (dimension : Nat) (from_ : Int) (to_ : Int)
  | undefined_variable (name : String)
  | undefined_subroutine (name : String)
  | not_a_function (name : String)
  | division_by_zero
  | modulo_by_zero
  | unknown_statement_type
  deriving DecidableEq, Repr

inductive Fault where
  | runtime_error (e : RuntimeError)
  | undefined_behaviour
  | out_of_fuel
  deriving DecidableEq, Repr

/-- The function `copy_runtime_value`: strings are duplicated, array handles are shared. -/
def copy_runtime_value (val : RuntimeValue) : RuntimeValue :=
  match val with
  | VAL_INT n => VAL_INT n
  | VAL_REAL r => VAL_REAL r
  | VAL_BOOL b => VAL_BOOL b
  | VAL_STRING s => VAL_STRING s
  | VAL_ARRAY a => VAL_ARRAY a
  | VAL_NONE => VAL_NONE

def to_real (val : RuntimeValue) : Double :=
  match val with
  | VAL_REAL r => r
  | VAL_INT n => (n : Rat)
  | _ => 0

def to_bool (val : RuntimeValue) : Bool :=
  match val with
  | VAL_BOOL b => b
  | VAL_INT n => n != 0
  | VAL_REAL r => r != 0
  | VAL_STRING s => s.length > 0
  | _ => false

def to_int (val : RuntimeValue) : Int :=
  match val with
  | VAL_INT n => n
  | VAL_REAL r => double_to_int r
  | VAL_BOOL b => if b then 1 else 0
  | _ => 0

/-! ## C strings -/

/-- The function `toupper` in the C locale. -/
def toupper (c : Char) : Char :=
  if 'a' ≤ c ∧ c ≤ 'z' then Char.ofNat (c.toNat - 32) else c

def str_upper (str : String) : String := ⟨str.data.map toupper⟩

def str_equals_ignore_case (a b : String) : Bool :=
  a.data.map toupper == b.data.map toupper

/-- The bytes of a string as values of the (signed) C type `char`. -/
def c_chars (str : String) : List Int :=
  (str.data.flatMap String.utf8EncodeChar).map
    (fun b => if b.toNat < 128 then (b.toNat : Int) else (b.toNat : Int) - 256)

def MAX_HASH_SIZE : Nat := 10007

def MAX_ARRAY_DIMS : Nat := 10

/-- The function `hash_string`: `hash = ((hash << 5) + hash) + c` in `unsigned int`, from 5381. -/
def hash_string (str : String) : Nat :=
  ((c_chars str).foldl (fun hash c => (hash * 32 + hash + c) % 4294967296) (5381 : Int) % 10007).toNat

/-! ## Hash map of array cells -/

structure HashNode where
  key : String
  value : RuntimeValue
  deriving DecidableEq, Repr

/-- The struct `HashMap`: one chain of nodes per bucket index. -/
structure HashMap where
  buckets : Nat → List HashNode

def create_hashmap : HashMap := ⟨fun _ => []⟩

/-- The search loop of `hashmap_set`: the chain with the first node of that key overwritten,
or `none` when the loop runs off the end of the chain. -/
def hashmap_set_chain (key : String) (value : RuntimeValue) : List HashNode → Option (List HashNode)
  | [] => none
  | node :: rest =>
    if node.key = key then some ({ node with value := value } :: rest)
    else (hashmap_set_chain key value rest).map (fun r => node :: r)

def hashmap_set (map : HashMap) (key : String) (value : RuntimeValue) : HashMap :=
  let idx := hash_string key
  match hashmap_set_chain key value (map.buckets idx) with
  | some chain => ⟨Function.update map.buckets idx chain⟩
  | none => ⟨Function.update map.buckets idx (⟨key, value⟩ :: map.buckets idx)⟩

def hashmap_get_chain (key : String) : List HashNode → Option RuntimeValue
  | [] => none
  | node :: rest => if node.key = key then some node.value else hashmap_get_chain key rest

/-- The function `hashmap_get`; `none` is the `NULL` result. -/
def hashmap_get (map : HashMap) (key : String) : Option RuntimeValue :=
  hashmap_get_chain key (map.buckets (hash_string key))

/-! ## Array objects -/

structure ArrayBound where
  from_ : Int
  to_ : Int
  deriving DecidableEq, Repr

/-- The struct `ArrayObject`; `num_dims` is the length of `bounds`. -/
structure ArrayObject where
  data : HashMap
  bounds : List ArrayBound

def ArrayObject.num_dims (arr : ArrayObject) : Nat := arr.bounds.length

def create_array (bounds : List ArrayBound) : ArrayObject :=
  { data := create_hashmap, bounds := bounds }

/-- The loop of `validate_array_indices` from dimension `i` on. -/
def validate_array_indices_loop (i : Nat) : List Int → List ArrayBound → Except Fault Unit
  | index :: indices, b :: bounds =>
    if index < b.from_ ∨ index > b.to_ then
      .error (.runtime_error (.index_out_of_bounds index (i + 1) b.from_ b.to_))
    else validate_array_indices_loop (i + 1) indices bounds
  | _, _ => .ok ()

def validate_array_indices (arr : ArrayObject) (indices : List Int) : Except Fault Unit :=
  if indices.length ≠ arr.num_dims then
    .error (.runtime_error (.incorrect_number_of_indices indices.length arr.num_dims))
  else validate_array_indices_loop 0 indices arr.bounds

/-- Decimal digits of a natural number, most significant first. -/
def decimal_digits : Nat → Nat → List Char
  | 0, _ => []
  | fuel + 1, n =>
    if n < 10 then [Char.ofNat (48 + n)]
    else decimal_digits fuel (n / 10) ++ [Char.ofNat (48 + n % 10)]

/-- The text written by `sprintf(temp, "%d", n)`. -/
def sprintf_d (n : Int) : String :=
  if n < 0 then ⟨'-' :: decimal_digits (n.natAbs + 1) n.natAbs⟩
  else ⟨decimal_digits (n.natAbs + 1) n.natAbs⟩

/-- The key-building loop shared by `array_get` and `array_set`, from position `i`
with the buffer holding `key`. -/
def array_key_loop (i : Nat) (key : String) : List Int → String
  | [] => key
  | index :: indices =>
    array_key_loop (i + 1) ((if i > 0 then key ++ "," else key) ++ sprintf_d index) indices

def array_key (indices : List Int) : String := array_key_loop 0 "" indices

def array_get (arr : ArrayObject) (indices : List Int) : Except Fault RuntimeValue := do
  validate_array_indices arr indices
  match hashmap_get arr.data (array_key indices) with
  | some val => pure val
  | none => pure (VAL_INT 0)

/-- The function `array_set`; it builds the key and stores a copy of the value. -/
def array_set (arr : ArrayObject) (indices : List Int) (val : RuntimeValue) : ArrayObject :=
  { arr with data := hashmap_set arr.data (array_key indices) (copy_runtime_value val) }

/-! ## Abstract syntax -/

/-- An `AST_PARAMETER` node. -/
structure Parameter where
  name : String
  param_type : String
  is_reference : Bool
  deriving DecidableEq, Repr

/-- An `AST_VAR_DECL` node of a subroutine's local data section (never an array). -/
structure LocalDecl where
  name : String
  var_type : String
  deriving DecidableEq, Repr

/-- The struct `ASTNode`, one constructor per `ASTNodeType` the parser builds.
Node lists stand for the pointer arrays with their counts; `else_branch` may be `NULL`. -/
inductive ASTNode where
  | AST_PROGRAM (name : String) (declarations : List ASTNode) (body : List ASTNode)
  | AST_CONST_DECL (name : String) (value : ASTNode)
  | AST_VAR_DECL (name : String) (var_type : String) (arr_bound_exprs : List (ASTNode × ASTNode))
  | AST_FUNC_DECL (name : String) (return_type : String) (parameters : List Parameter)
      (local_decls : List LocalDecl) (body : List ASTNode)
  | AST_PROC_DECL (name : String) (parameters : List Parameter)
      (local_decls : List LocalDecl) (body : List ASTNode)
  | AST_ASSIGN (identifier : String) (indices : List ASTNode) (value : ASTNode)
  | AST_PRINT (expressions : List ASTNode)
  | AST_READ (vars : List ASTNode)
  | AST_IF (condition : ASTNode) (then_branch : List ASTNode) (else_branch : Option (List ASTNode))
  | AST_FOR (loop_variable : String) (start : ASTNode) (end_ : ASTNode) (step : ASTNode)
      (body : List ASTNode)
  | AST_WHILE (condition : ASTNode) (body : List ASTNode) (is_repeat_until : Bool)
  | AST_CALL (name : String) (arguments : List ASTNode) (is_statement : Bool)
  | AST_BINARY_OP (operator : String) (left : ASTNode) (right : ASTNode)
  | AST_UNARY_OP (operator : String) (operand : ASTNode)
  | AST_LITERAL (value : RuntimeValue)
  | AST_IDENTIFIER (name : String)
  | AST_ARRAY_ACCESS (name : String) (indices : List ASTNode)

open ASTNode

/-! ## Environments -/

structure EnvEntry where
  name : String
  value : RuntimeValue
  subroutine : Option ASTNode

/-- The struct `Environment`: the bucket chains `entries` and the `parent` link;
`root` is an environment whose `parent` is `NULL`. -/
inductive Environment where
  | root (entries : Nat → List EnvEntry)
  | child (entries : Nat → List EnvEntry) (parent : Environment)

namespace Environment

def entries : Environment → Nat → List EnvEntry
  | root e => e
  | child e _ => e

def parent : Environment → Option Environment
  | root _ => none
  | child _ p => some p

def set_entries (env : Environment) (e : Nat → List EnvEntry) : Environment :=
  match env with
  | root _ => root e
  | child _ p => child e p

end Environment

def create_environment (parent : Option Environment) : Environment :=
  match parent with
  | none => .root (fun _ => [])
  | some p => .child (fun _ => []) p

/-- The search loop of `env_define` and `env_assign`: the chain with the value of the first
entry of that name replaced, or `none` when no entry has the name. -/
def env_set_chain (upper_name : String) (value : RuntimeValue) : List EnvEntry → Option (List EnvEntry)
  | [] => none
  | existing :: rest =>
    if existing.name = upper_name then
      some ({ existing with value := copy_runtime_value value } :: rest)
    else (env_set_chain upper_name value rest).map (fun r => existing :: r)

def env_define (env : Environment) (name : String) (value : RuntimeValue) : Environment :=
  let upper_name := str_upper name
  let idx := hash_string upper_name
  match env_set_chain upper_name value (env.entries idx) with
  | some chain => env.set_entries (Function.update env.entries idx chain)
  | none =>
    env.set_entries (Function.update env.entries idx
      ({ name := upper_name, value := copy_runtime_value value, subroutine := none }
        :: env.entries idx))

def env_define_subroutine (env : Environment) (name : String) (subroutine : ASTNode) : Environment :=
  let upper_name := str_upper name
  let idx := hash_string upper_name
  env.set_entries (Function.update env.entries idx
    ({ name := upper_name, value := VAL_NONE, subroutine := some subroutine } :: env.entries idx))

def env_get_chain (upper_name : String) : List EnvEntry → Option RuntimeValue
  | [] => none
  | entry :: rest => if entry.name = upper_name then some entry.value else env_get_chain upper_name rest

/-- The function `env_get`; the result is the value held by the entry it points to. -/
def env_get : Environment → String → Except Fault RuntimeValue
  | .root entries, name =>
    match env_get_chain (str_upper name) (entries (hash_string (str_upper name))) with
    | some v => .ok v
    | none => .error (.runtime_error (.undefined_variable name))
  | .child entries parent, name =>
    match env_get_chain (str_upper name) (entries (hash_string (str_upper name))) with
    | some v => .ok v
    | none => env_get parent name

def env_get_subroutine_chain (upper_name : String) : List EnvEntry → Option ASTNode
  | [] => none
  | entry :: rest =>
    match entry.subroutine with
    | some sub => if entry.name = upper_name then some sub else env_get_subroutine_chain upper_name rest
    | none => env_get_subroutine_chain upper_name rest

def env_get_subroutine : Environment → String → Except Fault ASTNode
  | .root entries, name =>
    match env_get_subroutine_chain (str_upper name) (entries (hash_string (str_upper name))) with
    | some sub => .ok sub
    | none => .error (.runtime_error (.undefined_subroutine name))
  | .child entries parent, name =>
    match env_get_subroutine_chain (str_upper name) (entries (hash_string (str_upper name))) with
    | some sub => .ok sub
    | none => env_get_subroutine parent name

def env_assign : Environment → String → RuntimeValue → Environment
  | .root entries, name, value =>
    match env_set_chain (str_upper name) value (entries (hash_string (str_upper name))) with
    | some chain => .root (Function.update entries (hash_string (str_upper name)) chain)
    | none => env_define (.root entries) name value
  | .child entries parent, name, value =>
    match env_set_chain (str_upper name) value (entries (hash_string (str_upper name))) with
    | some chain => .child (Function.update entries (hash_string (str_upper name)) chain) parent
    | none => .child entries (env_assign parent name value)

/-! ## Interpreter state -/

/-- One `printf` of the evaluator: literal text, or a real rendered by `%g`. -/
inductive OutputItem where
  | text (s : String)
  | real_g (r : Double)
  deriving DecidableEq, Repr

/-- The memory the evaluator works on: the environment currently passed as `env`
(with its chain of parents), the heap of array objects, and the two standard streams. -/
structure State where
  env : Environment
  heap : List ArrayObject
  stdout : List OutputItem
  stdin : List Nat

def State.printf (st : State) (item : OutputItem) : State :=
  { st with stdout := st.stdout ++ [item] }

abbrev Eval := ASTNode → State → Except Fault (RuntimeValue × State)

abbrev Exec := ASTNode → State → Except Fault State

/-- The environment `env` of the caller while `st.env` is the callee's `func_env` / `sub_env`. -/
def caller_env (st : State) : Except Fault Environment :=
  match st.env.parent with
  | some p => .ok p
  | none => .error .undefined_behaviour

/-- Runs `m` with the caller's `env` as current environment, as in `evaluate(arg, env)`
inside a call, and links the callee's environment back to the resulting parent. -/
def in_caller_env {α : Type} (m : State → Except Fault (α × State)) (st : State) :
    Except Fault (α × State) :=
  match st.env with
  | .child entries parent => do
    let (a, st1) ← m { st with env := parent }
    pure (a, { st1 with env := .child entries st1.env })
  | .root _ => .error .undefined_behaviour

/-- The array object behind `v.value.arr_val`. -/
def heap_array (st : State) (v : RuntimeValue) : Except Fault ArrayObject :=
  match v with
  | VAL_ARRAY a =>
    match st.heap[a]? with
    | some arr => .ok arr
    | none => .error .undefined_behaviour
  | _ => .error .undefined_behaviour

/-- The call `array_set(v.value.arr_val, indices, num_indices, val)` on the heap. -/
def heap_array_set (st : State) (v : RuntimeValue) (indices : List Int) (val : RuntimeValue) :
    Except Fault State :=
  match v with
  | VAL_ARRAY a =>
    match st.heap[a]? with
    | some arr => .ok { st with heap := st.heap.set a (array_set arr indices val) }
    | none => .error .undefined_behaviour
  | _ => .error .undefined_behaviour

/-! ## Operators -/

/-- The operand read `v.type == VAL_REAL ? v.value.real_val : v.value.int_val`. -/
def real_or_int_val (v : RuntimeValue) : Except Fault Double :=
  match v with
  | VAL_REAL r => .ok r
  | VAL_INT n => .ok (n : Rat)
  | _ => .error .undefined_behaviour

/-- The operand read `v.value.int_val`. -/
def int_val (v : RuntimeValue) : Except Fault Int :=
  match v with
  | VAL_INT n => .ok n
  | _ => .error .undefined_behaviour

def is_real (v : RuntimeValue) : Bool :=
  match v with
  | VAL_REAL _ => true
  | _ => false

/-- The arithmetic branch shared by `+`, `-` and `*`. -/
def arith (fr : Double → Double → Double) (fi : Int → Int → Int) (left right : RuntimeValue) :
    Except Fault RuntimeValue :=
  if is_real left || is_real right then do
    let l ← real_or_int_val left
    let r ← real_or_int_val right
    pure (VAL_REAL (fr l r))
  else do
    let l ← int_val left
    let r ← int_val right
    pure (VAL_INT (wrap32 (fi l r)))

/-- The ordering comparisons `<`, `>`, `<=`, `>=`. -/
def compare (p : Double → Double → Bool) (left right : RuntimeValue) : Except Fault RuntimeValue := do
  let l ← real_or_int_val left
  let r ← real_or_int_val right
  pure (VAL_BOOL (p l r))

/-- The one pair of `int` operands for which `a / b` and `a % b` are undefined in C with a
divisor that is not zero: the quotient of `INT_MIN` and -1 is no `int`, and the division
instruction of the target traps on it. -/
def division_overflows (a b : Int) : Bool := a = INT_MIN && b = -1

/-- The case `AST_BINARY_OP` of `evaluate` once both operands are evaluated. -/
def binary_op (operator : String) (left right : RuntimeValue) : Except Fault RuntimeValue :=
  if operator = "+" then arith (fun l r => l + r) (fun l r => l + r) left right
  else if operator = "-" then arith (fun l r => l - r) (fun l r => l - r) left right
  else if operator = "*" then arith (fun l r => l * r) (fun l r => l * r) left right
  else if operator = "/" then do
    let l ← real_or_int_val left
    let r ← real_or_int_val right
    if r = 0 then .error (.runtime_error .division_by_zero)
    else pure (VAL_REAL (l / r))
  else if operator = "DIV" then
    let r := to_int right
    if r = 0 then .error (.runtime_error .division_by_zero)
    else if division_overflows (to_int left) r then .error .undefined_behaviour
    else pure (VAL_INT (wrap32 (Int.tdiv (to_int left) r)))
  else if operator = "MOD" then
    let r := to_int right
    if r = 0 then .error (.runtime_error .modulo_by_zero)
    else if division_overflows (to_int left) r then .error .undefined_behaviour
    else pure (VAL_INT (wrap32 (Int.tmod (to_int left) r)))
  else if operator = "=" then pure (VAL_BOOL (to_real left == to_real right))
  else if operator = "<>" then pure (VAL_BOOL (to_real left != to_real right))
  else if operator = "<" then compare (fun l r => l < r) left right
  else if operator = ">" then compare (fun l r => l > r) left right
  else if operator = "<=" then compare (fun l r => l ≤ r) left right
  else if operator = ">=" then compare (fun l r => l ≥ r) left right
  else if str_equals_ignore_case operator "AND" || str_equals_ignore_case operator "ΚΑΙ" then
    pure (VAL_BOOL (to_bool left && to_bool right))
  else if str_equals_ignore_case operator "OR" || str_equals_ignore_case operator "Ή" then
    pure (VAL_BOOL (to_bool left || to_bool right))
  else pure (VAL_INT 0)

/-- The case `AST_UNARY_OP` of `evaluate` once the operand is evaluated. -/
def unary_op (operator : String) (operand : RuntimeValue) : Except Fault RuntimeValue :=
  if operator = "-" then
    match operand with
    | VAL_REAL r => pure (VAL_REAL (-r))
    | _ => do
      let n ← int_val operand
      pure (VAL_INT (wrap32 (-n)))
  else if str_equals_ignore_case operator "NOT" || str_equals_ignore_case operator "ΟΧΙ" then
    pure (VAL_BOOL (!to_bool operand))
  else pure VAL_NONE

/-! ## Text of a C string -/

/-- The start of a UTF-8 sequence at byte `b`: the character when `b` is a sequence of its
own (U+FFFD when `b` can start none), else the number of bytes still to come and the bits
read so far. -/
def utf8_start (b : Nat) : Option Char × Nat × Nat :=
  if b < 128 then (some (Char.ofNat b), 0, 0)
  else if 192 ≤ b ∧ b < 224 then (none, 1, b - 192)
  else if 224 ≤ b ∧ b < 240 then (none, 2, b - 224)
  else if 240 ≤ b ∧ b < 248 then (none, 3, b - 240)
  else (some (Char.ofNat 65533), 0, 0)

/-- The characters a C string of the source holds, its bytes read as UTF-8 from a state with
`pending` bytes of a sequence still to come; a sequence that is cut short, and a byte that
can start none, are read as U+FFFD. -/
def utf8_decode : Nat → Nat → List Nat → List Char
  | pending, _, [] => if pending > 0 then [Char.ofNat 65533] else []
  | pending, bits, b :: rest =>
    if pending > 0 ∧ 128 ≤ b ∧ b < 192 then
      if pending = 1 then Char.ofNat (bits * 64 + (b - 128)) :: utf8_decode 0 0 rest
      else utf8_decode (pending - 1) (bits * 64 + (b - 128)) rest
    else
      (if pending > 0 then [Char.ofNat 65533] else []) ++ (utf8_start b).1.toList ++
        utf8_decode (utf8_start b).2.1 (utf8_start b).2.2 rest

/-- The copy `strdup(value)` of a lexeme into the syntax tree, as text. -/
def c_text (value : List Nat) : String := ⟨utf8_decode 0 0 value⟩

/-! ## Standard input -/

def isspace (c : Char) : Bool :=
  c = ' ' || c = '\t' || c = '\n' || c = '\x0b' || c = '\x0c' || c = '\r'

def isdigit (c : Char) : Bool := decide ('0' ≤ c ∧ c ≤ '9')

def digits_value (cs : List Char) : Nat :=
  cs.foldl (fun acc c => acc * 10 + (c.toNat - 48)) 0

def LONG_MIN : Int := -9223372036854775808

def LONG_MAX : Int := 9223372036854775807

/-- The library function `strtol` in base 10: blanks, an optional sign, then the leading
digits; a value that is no `long` is replaced by the nearest one. -/
def strtol (s : String) : Int :=
  let cs := s.data.dropWhile isspace
  let n (ds : List Char) : Int := (digits_value (ds.takeWhile isdigit) : Nat)
  match cs with
  | '-' :: rest => max LONG_MIN (-(n rest))
  | '+' :: rest => min LONG_MAX (n rest)
  | _ => min LONG_MAX (n cs)

/-- The library function `atoi` as the C library of the target has it: `(int) strtol(s,
NULL, 10)`, the low 32 bits of the `long`. -/
def atoi (s : String) : Int := wrap32 (strtol s)

/-- The exponent part of a decimal floating literal: `e`, an optional sign, digits. -/
def atof_exponent (cs : List Char) : Int :=
  match cs with
  | c :: rest =>
    if c = 'e' || c = 'E' then
      match rest with
      | '-' :: ds => if (ds.takeWhile isdigit).isEmpty then 0 else -((digits_value (ds.takeWhile isdigit) : Nat) : Int)
      | '+' :: ds => ((digits_value (ds.takeWhile isdigit) : Nat) : Int)
      | ds => ((digits_value (ds.takeWhile isdigit) : Nat) : Int)
    else 0
  | [] => 0

/-- The library function `atof` on decimal input: blanks, an optional sign, digits with an
optional fraction, an optional exponent.  Hexadecimal, infinity and NaN forms are not modelled. -/
def atof (s : String) : Double :=
  let cs := s.data.dropWhile isspace
  let unsigned (ds : List Char) : Double :=
    let ip := ds.takeWhile isdigit
    let after := ds.dropWhile isdigit
    let (fp, tail) : List Char × List Char :=
      match after with
      | '.' :: r => (r.takeWhile isdigit, r.dropWhile isdigit)
      | r => ([], r)
    if ip.isEmpty && fp.isEmpty then 0
    else
      ((digits_value ip : Nat) + (digits_value fp : Nat) / (10 : Rat) ^ fp.length)
        * (10 : Rat) ^ (atof_exponent tail)
  match cs with
  | '-' :: rest => -(unsigned rest)
  | '+' :: rest => unsigned rest
  | _ => unsigned cs

/-- The bytes `fgets` stores for a buffer with room for `n` of them, and the rest of the
stream: it stops behind a newline, at the end of the stream, and when the room is used up. -/
def fgets_loop : Nat → List Nat → List Nat × List Nat
  | 0, rest => ([], rest)
  | _ + 1, [] => ([], [])
  | n + 1, c :: rest =>
    if c = 10 then ([c], rest)
    else ((fgets_loop n rest).1.cons c, (fgets_loop n rest).2)

/-- The call `fgets(input, size, stdin)` on the bytes of the stream; `none` is the `NULL`
result at end of input. -/
def fgets (size : Nat) (stdin : List Nat) : Option (List Nat × List Nat) :=
  if stdin.isEmpty then none
  else some (fgets_loop (size - 1) stdin)

/-- The C string left in `input` by `input[strcspn(input, "\n")] = 0`: the bytes stored
up to the first newline, or up to the first NUL, which ends a C string. -/
def cut_at_newline (stored : List Nat) : List Nat :=
  stored.takeWhile (fun c => c != 10 && c != 0)

/-- The bytes of a C string as the library functions `atoi` and `atof` read them: one
character for each byte, so that a byte of 0x80 and above is no digit and no blank. -/
def byte_chars (value : List Nat) : String := ⟨value.map Char.ofNat⟩

/-- The value `AST_READ` builds from one input line, after the newline is cut off.  The tests
`strlen(input) == 0`, `strchr(input, '.')` and `isdigit(input[0]) || input[0] == '-'` read
the bytes; a byte of 0x80 and above is no digit.  The copy `strdup(input)` is kept as text. -/
def read_value (input : List Nat) : RuntimeValue :=
  if input.length = 0 then VAL_INT (-1)
  else if input.contains '.'.toNat then VAL_REAL (atof (byte_chars input))
  else if (match input with
      | c :: _ => decide ('0'.toNat ≤ c ∧ c ≤ '9'.toNat) || c = '-'.toNat
      | [] => false) then VAL_INT (atoi (byte_chars input))
  else VAL_STRING (c_text input)

/-! ## Evaluator -/

/-- The loops `indices[i] = to_int(evaluate(index_i, env))` over an index list, from
position `i`; the local buffer `indices` has `MAX_ARRAY_DIMS` slots. -/
def evaluate_indices (ev : Eval) (i : Nat) : List ASTNode → State → Except Fault (List Int × State)
  | [], st => .ok ([], st)
  | e :: es, st => do
    let (idx, st1) ← ev e st
    if i ≥ MAX_ARRAY_DIMS then .error .undefined_behaviour
    else do
      let (rest, st2) ← evaluate_indices ev (i + 1) es st1
      pure (to_int idx :: rest, st2)

/-- The loops `for (i = 0; i < num_stmts; i++) execute_statement(body[i], env)`. -/
def execute_statements (ex : Exec) : List ASTNode → State → Except Fault State
  | [], st => .ok st
  | stmt :: rest, st => do
    let st1 ← ex stmt st
    execute_statements ex rest st1

/-- The initialisation of the local variables of a subroutine to integer zero. -/
def define_locals (env : Environment) : List LocalDecl → Environment
  | [] => env
  | decl :: rest => define_locals (env_define env decl.name (VAL_INT 0)) rest

/-- The body of the parameter-binding loop of a call (both in `evaluate` and in
`execute_statement`) for one parameter; `st.env` is the callee's environment, the argument
is evaluated in the caller's.  The by-reference and the by-value branch of
`execute_statement` bind in the same way. -/
def bind_parameter (ev : Eval) (param : Parameter) (arg : ASTNode) (st : State) :
    Except Fault State := do
  let regular : Except Fault State := do
    let (arg_val, st1) ← in_caller_env (ev arg) st
    pure { st1 with env := env_define st1.env param.name arg_val }
  match arg with
  | AST_IDENTIFIER name => do
    let env ← caller_env st
    let potential_array ← env_get env name
    match potential_array with
    | VAL_ARRAY a => pure { st with env := env_define st.env param.name (VAL_ARRAY a) }
    | _ => regular
  | _ => regular

/-- The loop `for (i = 0; i < num_params && i < num_args; i++)` binding the parameters. -/
def bind_parameters (ev : Eval) : List Parameter → List ASTNode → State → Except Fault State
  | param :: params, arg :: args, st => do
    let st1 ← bind_parameter ev param arg st
    bind_parameters ev params args st1
  | _, _, st => .ok st

/-- The assignment `env_assign(env, name, val)` to the caller while `st.env` is the callee's. -/
def assign_in_caller (st : State) (name : String) (val : RuntimeValue) : Except Fault State :=
  match st.env with
  | .child entries parent => .ok { st with env := .child entries (env_assign parent name val) }
  | .root _ => .error .undefined_behaviour

/-- The body of the copy-back loop after a function call in `evaluate`, for one parameter. -/
def copy_back_function_step (param : Parameter) (arg : ASTNode) (st : State) :
    Except Fault State :=
  if param.is_reference then do
    let func_val ← env_get st.env param.name
    match func_val with
    | VAL_ARRAY _ => pure st
    | _ =>
      match arg with
      | AST_IDENTIFIER name => assign_in_caller st name func_val
      | _ => pure st
  else pure st

/-- The copy-back loop after a function call in `evaluate`. -/
def copy_back_function : List Parameter → List ASTNode → State → Except Fault State
  | param :: params, arg :: args, st => do
    let st1 ← copy_back_function_step param arg st
    copy_back_function params args st1
  | _, _, st => .ok st

/-- The copy-back of a parameter value into an array-element argument. -/
def copy_back_element (ev : Eval) (param : Parameter) (name : String) (indices : List ASTNode)
    (st : State) : Except Fault State := do
  let env ← caller_env st
  let arr_val ← env_get env name
  match arr_val with
  | VAL_ARRAY _ => do
    let (idx, st2) ← in_caller_env (evaluate_indices ev 0 indices) st
    let env2 ← caller_env st2
    let arr_now ← env_get env2 name
    let sub_now ← env_get st2.env param.name
    heap_array_set st2 arr_now idx sub_now
  | _ => pure st

/-- The body of the copy-back loop after a call statement in `execute_statement`, for one
parameter. -/
def copy_back_procedure_step (ev : Eval) (param : Parameter) (arg : ASTNode) (st : State) :
    Except Fault State :=
  if param.is_reference then do
    let sub_val ← env_get st.env param.name
    match sub_val with
    | VAL_ARRAY _ => pure st
    | _ =>
      match arg with
      | AST_IDENTIFIER name => assign_in_caller st name sub_val
      | AST_ARRAY_ACCESS name indices => copy_back_element ev param name indices st
      | _ => pure st
  else pure st

/-- The copy-back loop after a call statement in `execute_statement`. -/
def copy_back_procedure (ev : Eval) : List Parameter → List ASTNode → State → Except Fault State
  | param :: params, arg :: args, st => do
    let st1 ← copy_back_procedure_step ev param arg st
    copy_back_procedure ev params args st1
  | _, _, st => .ok st

/-- The output of one `AST_PRINT` argument at position `i`. -/
def print_value (i : Nat) (val : RuntimeValue) (st : State) : State :=
  if val = VAL_STRING "__EOLN__" then st.printf (.text "\n")
  else
    let st1 := if i > 0 then st.printf (.text " ") else st
    match val with
    | VAL_INT n => st1.printf (.text (sprintf_d n))
    | VAL_REAL r => st1.printf (.real_g r)
    | VAL_BOOL b => st1.printf (.text (if b then "TRUE" else "FALSE"))
    | VAL_STRING s => st1.printf (.text s)
    | _ => st1

def print_loop (ev : Eval) (i : Nat) : List ASTNode → State → Except Fault State
  | [], st => .ok st
  | e :: es, st => do
    let (val, st1) ← ev e st
    print_loop ev (i + 1) es (print_value i val st1)

/-- The loop of `AST_READ`; it stops without error at end of input. -/
def read_loop (ev : Eval) : List ASTNode → State → Except Fault State
  | [], st => .ok st
  | var :: vars, st =>
    match fgets 256 st.stdin with
    | none => .ok st
    | some (line, rest) => do
      let input := cut_at_newline line
      let val := read_value input
      let st0 := { st with stdin := rest }
      let st1 ←
        match var with
        | AST_ARRAY_ACCESS name indices => do
          let arr_val ← env_get st0.env name
          match arr_val with
          | VAL_ARRAY _ => do
            let (idx, st2) ← evaluate_indices ev 0 indices st0
            let arr_now ← env_get st2.env name
            heap_array_set st2 arr_now idx val
          | _ => pure st0
        | AST_IDENTIFIER name => pure { st0 with env := env_assign st0.env name val }
        | _ => pure st0
      read_loop ev vars st1

/-- The loop `while (current <= end)` of `AST_FOR`, with `n` tests of its condition left. -/
def for_loop_up (ex : Exec) (loop_variable : String) (body : List ASTNode) (end_ step : Int) :
    Nat → Int → State → Except Fault State
  | 0, _, _ => .error .out_of_fuel
  | n + 1, current, st =>
    if current ≤ end_ then do
      let st1 := { st with env := env_assign st.env loop_variable (VAL_INT current) }
      let st2 ← execute_statements ex body st1
      for_loop_up ex loop_variable body end_ step n (wrap32 (current + step)) st2
    else .ok st

/-- The loop `while (current >= end)` of `AST_FOR`, with `n` tests of its condition left. -/
def for_loop_down (ex : Exec) (loop_variable : String) (body : List ASTNode) (end_ step : Int) :
    Nat → Int → State → Except Fault State
  | 0, _, _ => .error .out_of_fuel
  | n + 1, current, st =>
    if current ≥ end_ then do
      let st1 := { st with env := env_assign st.env loop_variable (VAL_INT current) }
      let st2 ← execute_statements ex body st1
      for_loop_down ex loop_variable body end_ step n (wrap32 (current + step)) st2
    else .ok st

/-- The `while (true)` loop of a WHILE statement, with `n` tests of its condition left. -/
def while_loop (ev : Eval) (ex : Exec) (condition : ASTNode) (body : List ASTNode) :
    Nat → State → Except Fault State
  | 0, _ => .error .out_of_fuel
  | n + 1, st => do
    let (cond, st1) ← ev condition st
    if !to_bool cond then pure st1
    else do
      let st2 ← execute_statements ex body st1
      while_loop ev ex condition body n st2

/-- The `do ... while (true)` loop of a REPEAT-UNTIL statement, with `n` iterations left. -/
def repeat_until_loop (ev : Eval) (ex : Exec) (condition : ASTNode) (body : List ASTNode) :
    Nat → State → Except Fault State
  | 0, _ => .error .out_of_fuel
  | n + 1, st => do
    let st1 ← execute_statements ex body st
    let (cond, st2) ← ev condition st1
    if to_bool cond then pure st2
    else repeat_until_loop ev ex condition body n st2

/-- The environment of a call: a fresh child of `env` with the locals set to integer zero. -/
def call_environment (env : Environment) (local_decls : List LocalDecl) : Environment :=
  define_locals (create_environment (some env)) local_decls

/-- The return from a call: the caller's environment becomes current again. -/
def leave_call (st : State) : Except Fault State := do
  let env ← caller_env st
  pure { st with env := env }

mutual

/-- The function `evaluate`, with `fuel` bounding the nesting of evaluation. -/
def evaluate : Nat → ASTNode → State → Except Fault (RuntimeValue × State)
  | 0, _, _ => .error .out_of_fuel
  | _ + 1, AST_LITERAL value, st => .ok (copy_runtime_value value, st)
  | _ + 1, AST_IDENTIFIER name, st => do
    let val ← env_get st.env name
    pure (copy_runtime_value val, st)
  | fuel + 1, AST_BINARY_OP operator left right, st => do
    let (l, st1) ← evaluate fuel left st
    let (r, st2) ← evaluate fuel right st1
    let result ← binary_op operator l r
    pure (result, st2)
  | fuel + 1, AST_UNARY_OP operator operand, st => do
    let (v, st1) ← evaluate fuel operand st
    let result ← unary_op operator v
    pure (result, st1)
  | fuel + 1, AST_ARRAY_ACCESS name indices, st => do
    let _ ← env_get st.env name
    let (idx, st1) ← evaluate_indices (evaluate fuel) 0 indices st
    let arr_val ← env_get st1.env name
    let arr ← heap_array st1 arr_val
    let val_in_array ← array_get arr idx
    pure (copy_runtime_value val_in_array, st1)
  | fuel + 1, AST_CALL name arguments _, st => do
    let function ← env_get_subroutine st.env name
    match function with
    | AST_FUNC_DECL fname _ parameters local_decls body => do
      let func_env := call_environment st.env local_decls
      let st1 ← bind_parameters (evaluate fuel) parameters arguments { st with env := func_env }
      let st2 := { st1 with env := env_define st1.env fname (VAL_REAL 0) }
      let st3 ← execute_statements (execute_statement fuel) body st2
      let st4 ← copy_back_function parameters arguments st3
      let return_val ← env_get st4.env fname
      let st5 ← leave_call st4
      pure (copy_runtime_value return_val, st5)
    | _ => .error (.runtime_error (.not_a_function name))
  | _ + 1, _, st => .ok (VAL_INT 0, st)

/-- The function `execute_statement`, with `fuel` bounding nesting and loop iterations. -/
def execute_statement : Nat → ASTNode → State → Except Fault State
  | 0, _, _ => .error .out_of_fuel
  | fuel + 1, AST_ASSIGN identifier indices value, st => do
    let (val, st1) ← evaluate fuel value st
    if indices.length > 0 then do
      let arr_runtime ← env_get st1.env identifier
      match arr_runtime with
      | VAL_ARRAY _ => do
        let (idx, st2) ← evaluate_indices (evaluate fuel) 0 indices st1
        let arr_now ← env_get st2.env identifier
        heap_array_set st2 arr_now idx val
      | _ => pure st1
    else pure { st1 with env := env_assign st1.env identifier val }
  | fuel + 1, AST_PRINT expressions, st => print_loop (evaluate fuel) 0 expressions st
  | fuel + 1, AST_READ vars, st => read_loop (evaluate fuel) vars st
  | fuel + 1, AST_IF condition then_branch else_branch, st => do
    let (cond, st1) ← evaluate fuel condition st
    if to_bool cond then execute_statements (execute_statement fuel) then_branch st1
    else
      match else_branch with
      | some stmts => execute_statements (execute_statement fuel) stmts st1
      | none => pure st1
  | fuel + 1, AST_FOR loop_variable start end_ step body, st => do
    let (start_val, st1) ← evaluate fuel start st
    let (end_val, st2) ← evaluate fuel end_ st1
    let (step_val, st3) ← evaluate fuel step st2
    if to_int step_val > 0 then
      for_loop_up (execute_statement fuel) loop_variable body (to_int end_val) (to_int step_val)
        (fuel + 1) (to_int start_val) st3
    else
      for_loop_down (execute_statement fuel) loop_variable body (to_int end_val) (to_int step_val)
        (fuel + 1) (to_int start_val) st3
  | fuel + 1, AST_WHILE condition body is_repeat_until, st =>
    if is_repeat_until then
      repeat_until_loop (evaluate fuel) (execute_statement fuel) condition body (fuel + 1) st
    else
      while_loop (evaluate fuel) (execute_statement fuel) condition body (fuel + 1) st
  | fuel + 1, AST_CALL name arguments _, st => do
    let subroutine ← env_get_subroutine st.env name
    let run (parameters : List Parameter) (local_decls : List LocalDecl) (body : List ASTNode) :
        Except Fault State := do
      let sub_env := call_environment st.env local_decls
      let st1 ← bind_parameters (evaluate fuel) parameters arguments { st with env := sub_env }
      let st2 ← execute_statements (execute_statement fuel) body st1
      let st3 ← copy_back_procedure (evaluate fuel) parameters arguments st2
      leave_call st3
    match subroutine with
    | AST_FUNC_DECL _ _ parameters local_decls body => run parameters local_decls body
    | AST_PROC_DECL _ parameters local_decls body => run parameters local_decls body
    | _ => .error .undefined_behaviour
  | _ + 1, _, _ => .error (.runtime_error .unknown_statement_type)

end

/-! ## Program execution -/

/-- Phase 1 of `execute_program`: constants and subroutines, in source order. -/
def define_constants (ev : Eval) : List ASTNode → State → Except Fault State
  | [], st => .ok st
  | decl :: rest, st =>
    match decl with
    | AST_CONST_DECL name value => do
      let (val, st1) ← ev value st
      define_constants ev rest { st1 with env := env_define st1.env name val }
    | AST_FUNC_DECL name _ _ _ _ =>
      define_constants ev rest { st with env := env_define_subroutine st.env name decl }
    | AST_PROC_DECL name _ _ _ =>
      define_constants ev rest { st with env := env_define_subroutine st.env name decl }
    | _ => define_constants ev rest st

/-- The loop filling the local buffer `bounds[MAX_ARRAY_DIMS]` from position `j`. -/
def evaluate_bounds (ev : Eval) (j : Nat) :
    List (ASTNode × ASTNode) → State → Except Fault (List ArrayBound × State)
  | [], st => .ok ([], st)
  | (start_expr, end_expr) :: rest, st => do
    let (start_val, st1) ← ev start_expr st
    let (end_val, st2) ← ev end_expr st1
    if j ≥ MAX_ARRAY_DIMS then .error .undefined_behaviour
    else do
      let (bounds, st3) ← evaluate_bounds ev (j + 1) rest st2
      pure ({ from_ := to_int start_val, to_ := to_int end_val } :: bounds, st3)

/-- Phase 2 of `execute_program`: variables; an array object is allocated on the heap. -/
def define_variables (ev : Eval) : List ASTNode → State → Except Fault State
  | [], st => .ok st
  | decl :: rest, st =>
    match decl with
    | AST_VAR_DECL name _ arr_bound_exprs =>
      if arr_bound_exprs.length > 0 then do
        let (bounds, st1) ← evaluate_bounds ev 0 arr_bound_exprs st
        define_variables ev rest
          { st1 with
            heap := st1.heap ++ [create_array bounds]
            env := env_define st1.env name (VAL_ARRAY st1.heap.length) }
      else define_variables ev rest { st with env := env_define st.env name (VAL_INT 0) }
    | _ => define_variables ev rest st

/-- The state `execute_program` starts from: a root environment holding `EOLN`. -/
def initial_state (stdin : List Nat) : State :=
  { env := env_define (create_environment none) "EOLN" (VAL_STRING "__EOLN__")
    heap := []
    stdout := []
    stdin := stdin }

def execute_program (fuel : Nat) (prog : ASTNode) (stdin : List Nat) : Except Fault State :=
  match prog with
  | AST_PROGRAM _ declarations body => do
    let st1 ← define_constants (evaluate fuel) declarations (initial_state stdin)
    let st2 ← define_variables (evaluate fuel) declarations st1
    execute_statements (execute_statement fuel) body st2
  | _ => .error .undefined_behaviour

/-! ## Array bounds validation -/

/-- Every index lies in the closed interval declared for its dimension. -/
def indices_in_bounds (bounds : List ArrayBound) (indices : List Int) : Prop :=
  ∀ (k : Nat) (x : Int) (b : ArrayBound),
    indices[k]? = some x → bounds[k]? = some b → b.from_ ≤ x ∧ x ≤ b.to_

/-! ## An assignment outside the declared bounds -/

/-- An integer literal node, as `parse_primary` builds it for a number without a decimal point. -/
def int_literal (n : Int) : ASTNode := AST_LITERAL (VAL_INT n)

/-- The program `ALGORITHM T DATA A: ARRAY [2..4] OF INTEGER; BEGIN A[7] := 1; A[3, 3] := 5 END`. -/
def out_of_bounds_assignment_program : ASTNode :=
  AST_PROGRAM "T" [AST_VAR_DECL "A" "INTEGER" [(int_literal 2, int_literal 4)]]
    [AST_ASSIGN "A" [int_literal 7] (int_literal 1),
     AST_ASSIGN "A" [int_literal 3, int_literal 3] (int_literal 5)]

/-! ## Operand kinds and ranges -/

/-- The operand is an integer or a real. -/
def is_numeric (v : RuntimeValue) : Prop :=
  (∃ n, v = VAL_INT n) ∨ (∃ r, v = VAL_REAL r)

def in_int_range (n : Int) : Prop := INT_MIN ≤ n ∧ n ≤ INT_MAX

/-! ## Scenario A -/

/-- The state of Scenario A when the main body starts: constant `N = 3`, variable `x`. -/
def scenario_a_state : State :=
  { initial_state [] with
    env := env_define (env_define (initial_state []).env "N" (VAL_INT 3)) "x" (VAL_INT 0) }

/-- The expression `N*N + 1`. -/
def scenario_a_expression : ASTNode :=
  AST_BINARY_OP "+" (AST_BINARY_OP "*" (AST_IDENTIFIER "N") (AST_IDENTIFIER "N")) (int_literal 1)

/-! ## For loops, as specified -/

/-- The test a for loop applies to a value of its counter. -/
def for_loop_test (end_ step v : Int) : Prop :=
  if step > 0 then v ≤ end_ else v ≥ end_

instance (end_ step v : Int) : Decidable (for_loop_test end_ step v) := by
  unfold for_loop_test
  infer_instance

/-- The number of values `start, start + step, ...` that pass the test. -/
def for_loop_count (start end_ step : Int) : Nat :=
  if step > 0 then
    if start ≤ end_ then ((end_ - start) / step).toNat + 1 else 0
  else if step < 0 then
    if start ≥ end_ then ((start - end_) / (-step)).toNat + 1 else 0
  else 0

/-- The values `start, start + step, start + 2*step, ...` that pass the test, in that order. -/
def for_loop_values (start end_ step : Int) : List Int :=
  (List.range (for_loop_count start end_ step)).map (fun (k : Nat) => start + (k : Int) * step)

/-- The counter of a for loop after `k` increments `current += step` in `int` arithmetic. -/
def for_loop_counter (start step : Int) : Nat → Int
  | 0 => start
  | k + 1 => wrap32 (for_loop_counter start step k + step)

/-- One iteration: the loop variable is bound to the value, then the body runs. -/
def for_loop_iteration (ex : Exec) (loop_variable : String) (body : List ASTNode)
    (st : State) (v : Int) : Except Fault State :=
  execute_statements ex body { st with env := env_assign st.env loop_variable (VAL_INT v) }

/-! ## Scenario B -/

/-- The loop of Scenario B: `FOR i := 3 TO 1 STEP -1 REPEAT PRINT(i, EOLN) END_FOR`. -/
def scenario_b_loop : ASTNode :=
  AST_FOR "i" (int_literal 3) (int_literal 1) (AST_UNARY_OP "-" (int_literal 1))
    [AST_PRINT [AST_IDENTIFIER "i", AST_IDENTIFIER "EOLN"]]

/-- The state of Scenario B when the main body starts: variable `i`. -/
def scenario_b_state : State :=
  { initial_state [] with env := env_define (initial_state []).env "i" (VAL_INT 0) }

/-! ## Scenario D -/

/-- The loop `REPEAT i := i + 1 UNTIL i = 3`. -/
def scenario_d_loop : ASTNode :=
  AST_WHILE (AST_BINARY_OP "=" (AST_IDENTIFIER "i") (int_literal 3))
    [AST_ASSIGN "i" [] (AST_BINARY_OP "+" (AST_IDENTIFIER "i") (int_literal 1))] true

/-- The state of Scenario D after `k` iterations of the loop, starting from `i = 0`. -/
def scenario_d_state : Nat → State
  | 0 => { initial_state [] with env := env_define (initial_state []).env "i" (VAL_INT 0) }
  | k + 1 =>
    { scenario_d_state k with
      env := env_assign (scenario_d_state k).env "i" (VAL_INT ((k : Int) + 1)) }

/-! ## Expressions without calls -/

/-- An expression built from literals, identifiers, operators and array accesses only. -/
inductive CallFree : ASTNode → Prop where
  | literal (value : RuntimeValue) : CallFree (AST_LITERAL value)
  | identifier (name : String) : CallFree (AST_IDENTIFIER name)
  | binary (operator : String) (left right : ASTNode) :
      CallFree left → CallFree right → CallFree (AST_BINARY_OP operator left right)
  | unary (operator : String) (operand : ASTNode) :
      CallFree operand → CallFree (AST_UNARY_OP operator operand)
  | array_access (name : String) (indices : List ASTNode) :
      (∀ e, e ∈ indices → CallFree e) → CallFree (AST_ARRAY_ACCESS name indices)

/-! ## Parameter slots -/

/-- The value held by the entry of that name in the environment's own table, as opposed to
its parents'; for a callee's environment this is its parameter or local slot. -/
def slot_value (env : Environment) (name : String) : Option RuntimeValue :=
  env_get_chain (str_upper name) (env.entries (hash_string (str_upper name)))

/-- Copying a parameter back into this argument leaves the caller's binding of `x` alone:
the argument is another variable, an array element whose indices call no function, or an
expression that is not copied back at all. -/
def copy_back_preserves (x : String) : ASTNode → Prop
  | AST_IDENTIFIER y => str_upper y ≠ str_upper x
  | AST_ARRAY_ACCESS _ indices => ∀ e, e ∈ indices → CallFree e
  | _ => True

/-- The caller's binding of `x` while `env` is the callee's environment. -/
def caller_get (env : Environment) (x : String) : Except Fault RuntimeValue :=
  match env.parent with
  | some p => env_get p x
  | none => .error .undefined_behaviour
/-! ## Scenario E and an aliased call -/

/-- The procedure `SWAP` with output parameters `a`, `b` and a local `t`:
`t := a; a := b; b := t`. -/
def swap_procedure : ASTNode :=
  AST_PROC_DECL "SWAP" [⟨"a", "INTEGER", true⟩, ⟨"b", "INTEGER", true⟩] [⟨"t", "INTEGER"⟩]
    [AST_ASSIGN "t" [] (AST_IDENTIFIER "a"),
     AST_ASSIGN "a" [] (AST_IDENTIFIER "b"),
     AST_ASSIGN "b" [] (AST_IDENTIFIER "t")]

/-- The caller's state of Scenario E with `x = v1` and `y = v2`. -/
def swap_state (v1 v2 : RuntimeValue) : State :=
  { initial_state [] with
    env := env_define (env_define
      (env_define_subroutine (initial_state []).env "SWAP" swap_procedure) "x" v1) "y" v2 }

/-- The statement `SWAP(x, y)`. -/
def swap_call : ASTNode := AST_CALL "SWAP" [AST_IDENTIFIER "x", AST_IDENTIFIER "y"] true

/-- A procedure `P` with output parameters `a`, `b`: `a := 1; b := 2`. -/
def alias_procedure : ASTNode :=
  AST_PROC_DECL "P" [⟨"a", "INTEGER", true⟩, ⟨"b", "INTEGER", true⟩] []
    [AST_ASSIGN "a" [] (int_literal 1), AST_ASSIGN "b" [] (int_literal 2)]

/-- A caller's state with `P` declared and `x = 0`. -/
def alias_state : State :=
  { initial_state [] with
    env := env_define (env_define_subroutine (initial_state []).env "P" alias_procedure)
      "x" (VAL_INT 0) }

/-- The statement `P(x, x)`. -/
def alias_call : ASTNode := AST_CALL "P" [AST_IDENTIFIER "x", AST_IDENTIFIER "x"] true

/-! ## A by-value parameter aliased by a by-reference one -/

/-- A procedure `Q` with input parameter `a` and output parameter `b`: `b := 7`. -/
def value_alias_procedure : ASTNode :=
  AST_PROC_DECL "Q" [⟨"a", "INTEGER", false⟩, ⟨"b", "INTEGER", true⟩] []
    [AST_ASSIGN "b" [] (int_literal 7)]

/-- A caller's state with `Q` declared and `x = 1`. -/
def value_alias_state : State :=
  { initial_state [] with
    env := env_define (env_define_subroutine (initial_state []).env "Q" value_alias_procedure)
      "x" (VAL_INT 1) }

/-- The statement `Q(x, x)`. -/
def value_alias_call : ASTNode := AST_CALL "Q" [AST_IDENTIFIER "x", AST_IDENTIFIER "x"] true

/-- A procedure `RESET` with input parameter `n`: `n := 0`. -/
def by_value_procedure : ASTNode :=
  AST_PROC_DECL "RESET" [⟨"n", "INTEGER", false⟩] [] [AST_ASSIGN "n" [] (int_literal 0)]

/-- A caller's state with `RESET` declared and `x = 5`. -/
def by_value_state : State :=
  { initial_state [] with
    env := env_define (env_define_subroutine (initial_state []).env "RESET" by_value_procedure)
      "x" (VAL_INT 5) }

/-! ## Array parameters -/

/-- A procedure `STORE` with one parameter `p` of the given passing mode whose body is the
indexed assignment `p[t] := v`. -/
def store_procedure (is_reference : Bool) (t : List Int) (v : RuntimeValue) : ASTNode :=
  AST_PROC_DECL "STORE" [⟨"p", "ARRAY", is_reference⟩] []
    [AST_ASSIGN "p" (t.map int_literal) (AST_LITERAL v)]

/-- A function `STOREF` with one parameter `p` of the given passing mode whose body is the
indexed assignment `p[t] := v`. -/
def store_function (is_reference : Bool) (t : List Int) (v : RuntimeValue) : ASTNode :=
  AST_FUNC_DECL "STOREF" "INTEGER" [⟨"p", "ARRAY", is_reference⟩] []
    [AST_ASSIGN "p" (t.map int_literal) (AST_LITERAL v)]

/-- The program `ALGORITHM T DATA A: ARRAY [2..4] OF INTEGER; ... BEGIN STORE(A) END` with
`STORE` taking its parameter by value and storing 9 at index 3; the state when the main
body starts. -/
def store_state : State :=
  { env := env_define
      (env_define_subroutine (initial_state []).env "STORE"
        (store_procedure false [3] (VAL_INT 9)))
      "A" (VAL_ARRAY 0)
    heap := [create_array [⟨2, 4⟩]]
    stdout := []
    stdin := [] }

/-! ## Scope chains -/

/-- The scopes of a chain, innermost first: the environment itself, then its parents up to
the root. -/
def scope_chain : Environment → List Environment
  | .root entries => [.root entries]
  | .child entries parent => .child entries parent :: scope_chain parent

/-- The value bound to the name in the `j`-th scope of the chain (0 is the innermost), if
that scope binds the name. -/
def scope_value (env : Environment) (j : Nat) (name : String) : Option RuntimeValue :=
  match (scope_chain env)[j]? with
  | some scope => slot_value scope name
  | none => none

/-! ## Spelling variants of a name -/

/-- The two characters are the same, or they are the upper-case and the lower-case form of
one of the letters `A` to `Z`. -/
def ascii_case_variant_char (a b : Char) : Prop :=
  a = b ∨ (65 ≤ a.toNat ∧ a.toNat ≤ 90 ∧ b.toNat = a.toNat + 32) ∨
    (65 ≤ b.toNat ∧ b.toNat ≤ 90 ∧ a.toNat = b.toNat + 32)

/-- The two names differ only in the case of the letters `A` to `Z`. -/
def ascii_case_variant (n n' : String) : Prop :=
  List.Forall₂ ascii_case_variant_char n.data n'.data

/-! ## A by-reference parameter bound to an array element -/

/-- The function `F(r): INTEGER` with output parameter `r`: `r := 7; F := 1`. -/
def element_function : ASTNode :=
  AST_FUNC_DECL "F" "INTEGER" [⟨"r", "INTEGER", true⟩] []
    [AST_ASSIGN "r" [] (int_literal 7), AST_ASSIGN "F" [] (int_literal 1)]

/-- The program `ALGORITHM T DATA A: ARRAY [1..3] OF INTEGER; y: INTEGER; FUNCTION F ...
BEGIN <statement> END` around one statement of the main body. -/
def element_program (statement : ASTNode) : ASTNode :=
  AST_PROGRAM "T"
    [AST_VAR_DECL "A" "INTEGER" [(int_literal 1, int_literal 3)], AST_VAR_DECL "y" "INTEGER" [],
      element_function]
    [statement]

/-- The statement `y := F(A[2])`: the call is in expression position. -/
def element_call_expression : ASTNode :=
  AST_ASSIGN "y" [] (AST_CALL "F" [AST_ARRAY_ACCESS "A" [int_literal 2]] false)

/-- The statement `F(A[2])`: the same call as a statement. -/
def element_call_statement : ASTNode :=
  AST_CALL "F" [AST_ARRAY_ACCESS "A" [int_literal 2]] true

/-- The value of the expression in the state a run ends in. -/
def value_after (run : Except Fault State) (fuel : Nat) (e : ASTNode) : Except Fault RuntimeValue :=
  run >>= fun st => (evaluate fuel e st).map Prod.fst

/-! ## Environments along a run -/

/-- The environment `env'` has the scopes of `env`, in the same nesting, and each of them
binds at least the names it binds in `env`. -/
def extends_scopes : Environment → Environment → Prop
  | .root entries, .root entries' =>
    ∀ name, slot_value (.root entries) name ≠ none → slot_value (.root entries') name ≠ none
  | .child entries parent, .child entries' parent' =>
    (∀ name, slot_value (.child entries parent) name ≠ none →
      slot_value (.child entries' parent') name ≠ none) ∧ extends_scopes parent parent'
  | _, _ => False

/-- Every successful run of `ev` keeps the scopes of the environment it starts in. -/
def keeps_scopes_eval (ev : Eval) : Prop :=
  ∀ e st v st', ev e st = .ok (v, st') → extends_scopes st.env st'.env

/-- Every successful run of `ex` keeps the scopes of the environment it starts in. -/
def keeps_scopes_exec (ex : Exec) : Prop :=
  ∀ s st st', ex s st = .ok st' → extends_scopes st.env st'.env

/-! ## Statements that leave a variable alone -/

/-- A READ into this target does not write the variable `x`, and its indices call no
function. -/
def read_target_keeps (x : String) : ASTNode → Prop
  | AST_IDENTIFIER y => str_upper y ≠ str_upper x
  | AST_ARRAY_ACCESS _ indices => ∀ e, e ∈ indices → CallFree e
  | _ => True

/-- A statement that calls no subroutine and does not write the variable `x`: it does not
assign to `x`, does not use `x` as a loop variable and does not read into `x`, and neither
do the statements nested in it. -/
inductive Keeps (x : String) : ASTNode → Prop where
  | assign (identifier : String) (indices : List ASTNode) (value : ASTNode) :
      (indices.length > 0 ∨ str_upper identifier ≠ str_upper x) →
      (∀ e, e ∈ indices → CallFree e) → CallFree value →
      Keeps x (AST_ASSIGN identifier indices value)
  | print (expressions : List ASTNode) :
      (∀ e, e ∈ expressions → CallFree e) → Keeps x (AST_PRINT expressions)
  | read (vars : List ASTNode) :
      (∀ v, v ∈ vars → read_target_keeps x v) → Keeps x (AST_READ vars)
  | if_then (condition : ASTNode) (then_branch : List ASTNode)
      (else_branch : Option (List ASTNode)) :
      CallFree condition → (∀ s, s ∈ then_branch → Keeps x s) →
      (∀ stmts, else_branch = some stmts → ∀ s, s ∈ stmts → Keeps x s) →
      Keeps x (AST_IF condition then_branch else_branch)
  | for_loop (loop_variable : String) (start end_ step : ASTNode) (body : List ASTNode) :
      str_upper loop_variable ≠ str_upper x → CallFree start → CallFree end_ → CallFree step →
      (∀ s, s ∈ body → Keeps x s) → Keeps x (AST_FOR loop_variable start end_ step body)
  | while_loop (condition : ASTNode) (body : List ASTNode) (is_repeat_until : Bool) :
      CallFree condition → (∀ s, s ∈ body → Keeps x s) →
      Keeps x (AST_WHILE condition body is_repeat_until)

/-! ## Scenario F -/

/-- The function `SUM(n): INTEGER` with input parameter `n` and local `i`:
`FOR i := 1 TO n REPEAT SUM := SUM + i END_FOR`. -/
def sum_function : ASTNode :=
  AST_FUNC_DECL "SUM" "INTEGER" [⟨"n", "INTEGER", false⟩] [⟨"i", "INTEGER"⟩]
    [AST_FOR "i" (int_literal 1) (AST_IDENTIFIER "n") (int_literal 1)
      [AST_ASSIGN "SUM" [] (AST_BINARY_OP "+" (AST_IDENTIFIER "SUM") (AST_IDENTIFIER "i"))]]

/-- The state of Scenario F when the main body starts: `SUM` is declared. -/
def sum_state : State :=
  { initial_state [] with
    env := env_define_subroutine (initial_state []).env "SUM" sum_function }

/-- The expression `SUM(10)`. -/
def sum_call : ASTNode := AST_CALL "SUM" [int_literal 10] false

/-- The callee's state of `SUM(10)` once the argument is bound. -/
def sum_bound_state : State :=
  { sum_state with
    env := env_define (call_environment sum_state.env [⟨"i", "INTEGER"⟩]) "n" (VAL_INT 10) }

/-! ## Source text

The lexer scans the source as the C string it is: a list of bytes, each a value of
`unsigned char`.  Positions (`pos`, `line`, `col`) are C `int`s; a source text is taken to
be shorter than `2^31` bytes, so that none of them overflows. -/

/-- The bytes of a string literal of `interpreter.c`, which is encoded in UTF-8. -/
def c_bytes (s : String) : List Nat :=
  (s.data.flatMap String.utf8EncodeChar).map UInt8.toNat

namespace Bytes

/-- The function `isspace` in the C locale. -/
def isspace (c : Nat) : Bool := c = 32 || (9 ≤ c && c ≤ 13)

/-- The function `isdigit`. -/
def isdigit (c : Nat) : Bool := '0'.toNat ≤ c && c ≤ '9'.toNat

/-- The function `isalpha` in the C locale. -/
def isalpha (c : Nat) : Bool :=
  ('A'.toNat ≤ c && c ≤ 'Z'.toNat) || ('a'.toNat ≤ c && c ≤ 'z'.toNat)

/-- The function `isalnum` in the C locale. -/
def isalnum (c : Nat) : Bool := isalpha c || isdigit c

/-- The function `toupper` in the C locale. -/
def toupper (c : Nat) : Nat := if 'a'.toNat ≤ c ∧ c ≤ 'z'.toNat then c - 32 else c

/-- The function `str_equals_ignore_case` on two C strings. -/
def str_equals_ignore_case : List Nat → List Nat → Bool
  | a :: as, b :: bs => if toupper a ≠ toupper b then false else str_equals_ignore_case as bs
  | [], [] => true
  | _, _ => false

end Bytes

/-! ## Tokens -/

def MAX_TOKEN_LEN : Nat := 256

def MAX_TOKENS : Nat := 10000

inductive TokenType where
  | TOK_ALGORITHM | TOK_CONSTANTS | TOK_DATA | TOK_BEGIN | TOK_END | TOK_PROCEDURE
  | TOK_FUNCTION | TOK_INTERFACE | TOK_INPUT_PARAM | TOK_OUTPUT_PARAM | TOK_END_FUNCTION
  | TOK_END_PROCEDURE | TOK_IF | TOK_THEN | TOK_ELSE | TOK_END_IF | TOK_FOR | TOK_TO
  | TOK_STEP | TOK_REPEAT | TOK_END_FOR | TOK_WHILE | TOK_END_WHILE | TOK_UNTIL | TOK_PRINT
  | TOK_READ | TOK_CALCULATE | TOK_INTEGER_TYPE | TOK_REAL_TYPE | TOK_BOOLEAN_TYPE
  | TOK_CHAR_TYPE | TOK_STRING_TYPE | TOK_ARRAY | TOK_OF | TOK_ASSIGN | TOK_PLUS | TOK_MINUS
  | TOK_MULTIPLY | TOK_DIVIDE | TOK_MOD | TOK_DIV | TOK_EQUALS | TOK_NOT_EQUALS
  | TOK_LESS_THAN | TOK_GREATER_THAN | TOK_LESS_EQUALS | TOK_GREATER_EQUALS | TOK_AND
  | TOK_OR | TOK_NOT | TOK_LEFT_PAREN | TOK_RIGHT_PAREN | TOK_LEFT_BRACKET
  | TOK_RIGHT_BRACKET | TOK_COMMA | TOK_COLON | TOK_SEMICOLON | TOK_DOT | TOK_PERCENT
  | TOK_NUMBER | TOK_STRING | TOK_BOOLEAN_LITERAL | TOK_IDENTIFIER | TOK_EOF | TOK_ERROR
  deriving DecidableEq, Repr

open TokenType

/-- The struct `Token`; `value` holds the bytes of the lexeme before the terminating NUL. -/
structure Token where
  type : TokenType
  value : List Nat
  line : Int
  column : Int
  deriving DecidableEq, Repr

/-- The ways `tokenize` ends in `exit(1)`; `out_of_fuel` is the bound on the iterations of
the model running out. -/
inductive LexError where
  | too_many_tokens
  | unexpected_character (c : Nat) (line : Int) (column : Int)
  | out_of_fuel
  deriving DecidableEq, Repr

def is_keyword (str : List Nat) (keyword : String) : Bool :=
  Bytes.str_equals_ignore_case str (c_bytes keyword)

def get_keyword_type (str : List Nat) : TokenType :=
  if is_keyword str "ΑΛΓΟΡΙΘΜΟΣ" || is_keyword str "ALGORITHM" then TOK_ALGORITHM
  else if is_keyword str "ΣΤΑΘΕΡΕΣ" || is_keyword str "CONSTANTS" then TOK_CONSTANTS
  else if is_keyword str "ΔΕΔΟΜΕΝΑ" || is_keyword str "DATA" then TOK_DATA
  else if is_keyword str "ΑΡΧΗ" || is_keyword str "BEGIN" then TOK_BEGIN
  else if is_keyword str "ΤΕΛΟΣ" || is_keyword str "END" then TOK_END
  else if is_keyword str "ΣΥΝΑΡΤΗΣΗ" || is_keyword str "FUNCTION" then TOK_FUNCTION
  else if is_keyword str "ΔΙΑΔΙΚΑΣΙΑ" || is_keyword str "PROCEDURE" then TOK_PROCEDURE
  else if is_keyword str "ΔΙΕΠΑΦΗ" || is_keyword str "INTERFACE" then TOK_INTERFACE
  else if is_keyword str "ΕΙΣΟΔΟΣ" then TOK_INPUT_PARAM
  else if is_keyword str "ΕΞΟΔΟΣ" then TOK_OUTPUT_PARAM
  else if is_keyword str "ΤΕΛΟΣ-ΣΥΝΑΡΤΗΣΗΣ" || is_keyword str "END_FUNCTION" then
    TOK_END_FUNCTION
  else if is_keyword str "ΤΕΛΟΣ-ΔΙΑΔΙΚΑΣΙΑΣ" || is_keyword str "END_PROCEDURE" then
    TOK_END_PROCEDURE
  else if is_keyword str "ΕΑΝ" || is_keyword str "IF" then TOK_IF
  else if is_keyword str "ΤΟΤΕ" || is_keyword str "THEN" then TOK_THEN
  else if is_keyword str "ΑΛΛΙΩΣ" || is_keyword str "ELSE" then TOK_ELSE
  else if is_keyword str "ΕΑΝ-ΤΕΛΟΣ" || is_keyword str "END_IF" || is_keyword str "ENDIF" then
    TOK_END_IF
  else if is_keyword str "ΓΙΑ" || is_keyword str "FOR" then TOK_FOR
  else if is_keyword str "ΕΩΣ" || is_keyword str "TO" then TOK_TO
  else if is_keyword str "ΒΗΜΑ" || is_keyword str "ΜΕ" || is_keyword str "STEP" then TOK_STEP
  else if is_keyword str "ΕΠΑΝΑΛΑΒΕ" || is_keyword str "REPEAT" then TOK_REPEAT
  else if is_keyword str "ΓΙΑ-ΤΕΛΟΣ" || is_keyword str "END_FOR" || is_keyword str "ENDFOR" then
    TOK_END_FOR
  else if is_keyword str "ΕΝΟΣΩ" || is_keyword str "WHILE" then TOK_WHILE
  else if is_keyword str "ΕΝΟΣΩ-ΤΕΛΟΣ" || is_keyword str "END_WHILE"
      || is_keyword str "ENDWHILE" then TOK_END_WHILE
  else if is_keyword str "ΜΕΧΡΙ" || is_keyword str "UNTIL" then TOK_UNTIL
  else if is_keyword str "ΤΥΠΩΣΕ" || is_keyword str "PRINT" then TOK_PRINT
  else if is_keyword str "ΔΙΑΒΑΣΕ" || is_keyword str "READ" then TOK_READ
  else if is_keyword str "ΥΠΟΛΟΓΙΣΕ" || is_keyword str "CALCULATE" then TOK_CALCULATE
  else if is_keyword str "ΑΚΕΡΑΙΟΣ" || is_keyword str "INTEGER" then TOK_INTEGER_TYPE
  else if is_keyword str "ΠΡΑΓΜΑΤΙΚΟΣ" || is_keyword str "REAL" then TOK_REAL_TYPE
  else if is_keyword str "ΛΟΓΙΚΟΣ" || is_keyword str "BOOLEAN" then TOK_BOOLEAN_TYPE
  else if is_keyword str "ΧΑΡΑΚΤΗΡΑΣ" || is_keyword str "CHAR" then TOK_CHAR_TYPE
  else if is_keyword str "ΣΥΜΒΟΛΟΣΕΙΡΑ" || is_keyword str "STRING" then TOK_STRING_TYPE
  else if is_keyword str "ARRAY" then TOK_ARRAY
  else if is_keyword str "OF" then TOK_OF
  else if is_keyword str "ΚΑΙ" || is_keyword str "AND" then TOK_AND
  else if is_keyword str "Ή" || is_keyword str "OR" then TOK_OR
  else if is_keyword str "ΟΧΙ" || is_keyword str "NOT" then TOK_NOT
  else if is_keyword str "MOD" then TOK_MOD
  else if is_keyword str "DIV" then TOK_DIV
  else if is_keyword str "ΑΛΗΘΗΣ" || is_keyword str "TRUE" then TOK_BOOLEAN_LITERAL
  else if is_keyword str "ΨΕΥΔΗΣ" || is_keyword str "FALSE" then TOK_BOOLEAN_LITERAL
  else TOK_IDENTIFIER

/-- The function `add_token` on the token array filled so far. -/
def add_token (tokens : List Token) (type : TokenType) (value : List Nat) (line col : Int) :
    Except LexError (List Token) :=
  if tokens.length ≥ MAX_TOKENS then .error .too_many_tokens
  else .ok (tokens ++ [⟨type, value.take (MAX_TOKEN_LEN - 1), line, col⟩])

/-- The whitespace loop at the head of an iteration of `tokenize`: the text left, `line`
and `col`. -/
def skip_whitespace : List Nat → Int → Int → List Nat × Int × Int
  | [], line, col => ([], line, col)
  | c :: rest, line, col =>
    if Bytes.isspace c then
      if c = '\n'.toNat then skip_whitespace rest (line + 1) 1
      else skip_whitespace rest line (col + 1)
    else (c :: rest, line, col)

/-- The loop over a block comment, entered after its opening `/*`: the text left after the
closing `*/` (none when the comment is not closed) and `line`. -/
def skip_block_comment : List Nat → Int → List Nat × Int
  | c :: d :: rest, line =>
    if c = '*'.toNat ∧ d = '/'.toNat then (rest, line)
    else skip_block_comment (d :: rest) (if c = '\n'.toNat then line + 1 else line)
  | _, line => ([], line)

/-- The loop that collects a string literal, with room for `room` more bytes in `str`:
the bytes collected and the text left. -/
def scan_string : Nat → List Nat → List Nat × List Nat
  | 0, code => ([], code)
  | _ + 1, [] => ([], [])
  | room + 1, c :: rest =>
    if c = '"'.toNat then ([], c :: rest)
    else ((scan_string room rest).1.cons c, (scan_string room rest).2)

/-- The loop that collects a numeric literal, with room for `room` more bytes in `num`:
the bytes collected and the text left. -/
def scan_number : Nat → Bool → List Nat → List Nat × List Nat
  | 0, _, code => ([], code)
  | _ + 1, _, [] => ([], [])
  | room + 1, has_dot, c :: rest =>
    if Bytes.isdigit c then
      ((scan_number room has_dot rest).1.cons c, (scan_number room has_dot rest).2)
    else if c = '.'.toNat ∧ has_dot = false then
      if rest.head? = some '.'.toNat then ([], c :: rest)
      else if rest.head?.any Bytes.isdigit then
        ((scan_number room true rest).1.cons c, (scan_number room true rest).2)
      else ([], c :: rest)
    else ([], c :: rest)

/-- The loop that collects an identifier or keyword, with room for `room` more bytes in
`ident`: the bytes collected and the text left. -/
def scan_identifier : Nat → List Nat → List Nat × List Nat
  | 0, code => ([], code)
  | _ + 1, [] => ([], [])
  | room + 1, c :: rest =>
    if Bytes.isalnum c ∨ c = '_'.toNat ∨ c ≥ 128 then
      ((scan_identifier room rest).1.cons c, (scan_identifier room rest).2)
    else if c = '-'.toNat ∧ rest.head?.any (fun d => !Bytes.isdigit d) then
      ((scan_identifier room rest).1.cons c, (scan_identifier room rest).2)
    else ([], c :: rest)

/-- The token kind `tokenize` finds for the two bytes at `pos`; `TOK_ERROR` when they are no
two-character operator. -/
def two_char_type (c d : Nat) : TokenType :=
  if c = ':'.toNat ∧ d = '='.toNat then TOK_ASSIGN
  else if c = '<'.toNat ∧ d = '>'.toNat then TOK_NOT_EQUALS
  else if c = '<'.toNat ∧ d = '='.toNat then TOK_LESS_EQUALS
  else if c = '>'.toNat ∧ d = '='.toNat then TOK_GREATER_EQUALS
  else if c = '.'.toNat ∧ d = '.'.toNat then TOK_DOT
  else TOK_ERROR

/-- The `switch` of `tokenize` over the byte at `pos`; `TOK_ERROR` when no case applies. -/
def single_char_type (c : Nat) : TokenType :=
  if c = '+'.toNat then TOK_PLUS
  else if c = '-'.toNat then TOK_MINUS
  else if c = '*'.toNat then TOK_MULTIPLY
  else if c = '/'.toNat then TOK_DIVIDE
  else if c = '='.toNat then TOK_EQUALS
  else if c = '<'.toNat then TOK_LESS_THAN
  else if c = '>'.toNat then TOK_GREATER_THAN
  else if c = '('.toNat then TOK_LEFT_PAREN
  else if c = ')'.toNat then TOK_RIGHT_PAREN
  else if c = '['.toNat then TOK_LEFT_BRACKET
  else if c = ']'.toNat then TOK_RIGHT_BRACKET
  else if c = ','.toNat then TOK_COMMA
  else if c = ':'.toNat then TOK_COLON
  else if c = ';'.toNat then TOK_SEMICOLON
  else if c = '%'.toNat then TOK_PERCENT
  else TOK_ERROR

/-- The loop `while (pos < len)` of `tokenize` and the final `add_token(TOK_EOF, ...)`, with
`fuel` iterations left; `code` is the text from `pos` on. -/
def tokenize_loop : Nat → List Nat → Int → Int → List Token → Except LexError (List Token)
  | 0, _, _, _, _ => .error .out_of_fuel
  | fuel + 1, code, line, col, tokens =>
    match skip_whitespace code line col with
    | ([], line, col) => add_token tokens TOK_EOF (c_bytes "EOF") line col
    | (c :: rest, line, col) =>
      let start_col := col
      if c = '/'.toNat ∧ rest.head? = some '/'.toNat then
        tokenize_loop fuel ((c :: rest).dropWhile (fun b => b != '\n'.toNat)) line col tokens
      else if c = '/'.toNat ∧ rest.head? = some '*'.toNat then
        tokenize_loop fuel (skip_block_comment (rest.drop 1) line).1
          (skip_block_comment (rest.drop 1) line).2 col tokens
      else if c = '"'.toNat then
        let str := (scan_string (MAX_TOKEN_LEN - 1) rest).1
        let rest1 := (scan_string (MAX_TOKEN_LEN - 1) rest).2
        if rest1.head? = some '"'.toNat then do
          let tokens1 ← add_token tokens TOK_STRING str line start_col
          tokenize_loop fuel (rest1.drop 1) line (col + 1 + str.length + 1) tokens1
        else do
          let tokens1 ← add_token tokens TOK_STRING str line start_col
          tokenize_loop fuel rest1 line (col + 1 + str.length) tokens1
      else if Bytes.isdigit c then do
        let num := (scan_number (MAX_TOKEN_LEN - 1) false (c :: rest)).1
        let tokens1 ← add_token tokens TOK_NUMBER num line start_col
        tokenize_loop fuel (scan_number (MAX_TOKEN_LEN - 1) false (c :: rest)).2 line
          (col + num.length) tokens1
      else
        let single : Except LexError (List Token) :=
          if single_char_type c ≠ TOK_ERROR then do
            let tokens1 ← add_token tokens (single_char_type c) [c] line start_col
            tokenize_loop fuel rest line (col + 1) tokens1
          else if Bytes.isalpha c ∨ c ≥ 128 then do
            let ident := (scan_identifier (MAX_TOKEN_LEN - 1) (c :: rest)).1
            let tokens1 ← add_token tokens (get_keyword_type ident) ident line start_col
            tokenize_loop fuel (scan_identifier (MAX_TOKEN_LEN - 1) (c :: rest)).2 line
              (col + ident.length) tokens1
          else .error (.unexpected_character c line col)
        match rest with
        | d :: rest' =>
          if two_char_type c d ≠ TOK_ERROR then do
            let tokens1 ← add_token tokens (two_char_type c d) [c, d] line start_col
            tokenize_loop fuel rest' line (col + 2) tokens1
          else single
        | [] => single

/-- The function `tokenize`, started on an empty token array. -/
def tokenize (code : List Nat) : Except LexError (List Token) :=
  tokenize_loop (code.length + 1) code 1 1 []

/-- The end-of-input token at a position. -/
def eof_token (line col : Int) : Token := ⟨TOK_EOF, c_bytes "EOF", line, col⟩

/-- A run of the lexer ended well: it stopped with a diagnostic, or it returned tokens that
satisfy `P` followed by one end-of-input token. -/
def ends_well (P : Token → Prop) (r : Except LexError (List Token)) : Prop :=
  (∃ e, r = .error e ∧ e ≠ .out_of_fuel) ∨
    ∃ init line col, r = .ok (init ++ [eof_token line col]) ∧ ∀ t, t ∈ init → P t

/-- A byte the identifier loop of `tokenize` always takes: a letter, a digit, an underscore
or a byte of a multi-byte character. -/
def is_word_byte (c : Nat) : Prop := Bytes.isalnum c = true ∨ c = '_'.toNat ∨ c ≥ 128

/-! ## The keyword table -/

/-- The spellings `get_keyword_type` compares with, each with the kind of its line, in the
order of the source. -/
def keyword_table : List (String × TokenType) :=
  [("ΑΛΓΟΡΙΘΜΟΣ", TOK_ALGORITHM), ("ALGORITHM", TOK_ALGORITHM),
   ("ΣΤΑΘΕΡΕΣ", TOK_CONSTANTS), ("CONSTANTS", TOK_CONSTANTS),
   ("ΔΕΔΟΜΕΝΑ", TOK_DATA), ("DATA", TOK_DATA),
   ("ΑΡΧΗ", TOK_BEGIN), ("BEGIN", TOK_BEGIN),
   ("ΤΕΛΟΣ", TOK_END), ("END", TOK_END),
   ("ΣΥΝΑΡΤΗΣΗ", TOK_FUNCTION), ("FUNCTION", TOK_FUNCTION),
   ("ΔΙΑΔΙΚΑΣΙΑ", TOK_PROCEDURE), ("PROCEDURE", TOK_PROCEDURE),
   ("ΔΙΕΠΑΦΗ", TOK_INTERFACE), ("INTERFACE", TOK_INTERFACE),
   ("ΕΙΣΟΔΟΣ", TOK_INPUT_PARAM), ("ΕΞΟΔΟΣ", TOK_OUTPUT_PARAM),
   ("ΤΕΛΟΣ-ΣΥΝΑΡΤΗΣΗΣ", TOK_END_FUNCTION), ("END_FUNCTION", TOK_END_FUNCTION),
   ("ΤΕΛΟΣ-ΔΙΑΔΙΚΑΣΙΑΣ", TOK_END_PROCEDURE), ("END_PROCEDURE", TOK_END_PROCEDURE),
   ("ΕΑΝ", TOK_IF), ("IF", TOK_IF),
   ("ΤΟΤΕ", TOK_THEN), ("THEN", TOK_THEN),
   ("ΑΛΛΙΩΣ", TOK_ELSE), ("ELSE", TOK_ELSE),
   ("ΕΑΝ-ΤΕΛΟΣ", TOK_END_IF), ("END_IF", TOK_END_IF), ("ENDIF", TOK_END_IF),
   ("ΓΙΑ", TOK_FOR), ("FOR", TOK_FOR),
   ("ΕΩΣ", TOK_TO), ("TO", TOK_TO),
   ("ΒΗΜΑ", TOK_STEP), ("ΜΕ", TOK_STEP), ("STEP", TOK_STEP),
   ("ΕΠΑΝΑΛΑΒΕ", TOK_REPEAT), ("REPEAT", TOK_REPEAT),
   ("ΓΙΑ-ΤΕΛΟΣ", TOK_END_FOR), ("END_FOR", TOK_END_FOR), ("ENDFOR", TOK_END_FOR),
   ("ΕΝΟΣΩ", TOK_WHILE), ("WHILE", TOK_WHILE),
   ("ΕΝΟΣΩ-ΤΕΛΟΣ", TOK_END_WHILE), ("END_WHILE", TOK_END_WHILE), ("ENDWHILE", TOK_END_WHILE),
   ("ΜΕΧΡΙ", TOK_UNTIL), ("UNTIL", TOK_UNTIL),
   ("ΤΥΠΩΣΕ", TOK_PRINT), ("PRINT", TOK_PRINT),
   ("ΔΙΑΒΑΣΕ", TOK_READ), ("READ", TOK_READ),
   ("ΥΠΟΛΟΓΙΣΕ", TOK_CALCULATE), ("CALCULATE", TOK_CALCULATE),
   ("ΑΚΕΡΑΙΟΣ", TOK_INTEGER_TYPE), ("INTEGER", TOK_INTEGER_TYPE),
   ("ΠΡΑΓΜΑΤΙΚΟΣ", TOK_REAL_TYPE), ("REAL", TOK_REAL_TYPE),
   ("ΛΟΓΙΚΟΣ", TOK_BOOLEAN_TYPE), ("BOOLEAN", TOK_BOOLEAN_TYPE),
   ("ΧΑΡΑΚΤΗΡΑΣ", TOK_CHAR_TYPE), ("CHAR", TOK_CHAR_TYPE),
   ("ΣΥΜΒΟΛΟΣΕΙΡΑ", TOK_STRING_TYPE), ("STRING", TOK_STRING_TYPE),
   ("ARRAY", TOK_ARRAY), ("OF", TOK_OF),
   ("ΚΑΙ", TOK_AND), ("AND", TOK_AND),
   ("Ή", TOK_OR), ("OR", TOK_OR),
   ("ΟΧΙ", TOK_NOT), ("NOT", TOK_NOT),
   ("MOD", TOK_MOD), ("DIV", TOK_DIV),
   ("ΑΛΗΘΗΣ", TOK_BOOLEAN_LITERAL), ("TRUE", TOK_BOOLEAN_LITERAL),
   ("ΨΕΥΔΗΣ", TOK_BOOLEAN_LITERAL), ("FALSE", TOK_BOOLEAN_LITERAL)]

/-- The two bytes are the same, or they are the upper-case and the lower-case form of one
of the letters `A` to `Z`. -/
def ascii_case_variant_byte (a b : Nat) : Prop :=
  a = b ∨ (65 ≤ a ∧ a ≤ 90 ∧ b = a + 32) ∨ (65 ≤ b ∧ b ≤ 90 ∧ a = b + 32)

/-- The two byte strings differ only in the case of the letters `A` to `Z`. -/
def ascii_case_variant_bytes (k k' : List Nat) : Prop :=
  List.Forall₂ ascii_case_variant_byte k k'

/-! ## Parser: tokens and the interface of a subroutine -/

/-- The globals `tokens` (with `token_count` its length) and `token_pos`. -/
structure ParserState where
  tokens : List Token
  token_pos : Nat
  deriving DecidableEq, Repr

/-- The ways the parser ends without a tree.  The first two are its diagnostics before
`exit(1)`: the one of `expect_token`, and a `Syntax Error` message of its own at a token.
The next two are behaviour the C standard leaves undefined: storing past the end of the
local array `array_bound_exprs[MAX_ARRAY_DIMS]`, and reading `tokens[token_pos + 1]` past the
tokens written.  `out_of_fuel` is the bound on the iterations of the model running out. -/
inductive ParseError where
  | unexpected_token (expected : TokenType) (got : Token)
  | syntax_error (message : String) (got : Token)
  | bounds_overrun
  | read_past_end
  | out_of_fuel
  deriving DecidableEq, Repr

/-- The function `current_token`; the array `tokens` is static, so an entry that was never
written is all zero. -/
def current_token (ps : ParserState) : Token :=
  ps.tokens.getD ps.token_pos ⟨TOK_ALGORITHM, [], 0, 0⟩

def advance_token (ps : ParserState) : ParserState :=
  if ps.token_pos + 1 < ps.tokens.length then { ps with token_pos := ps.token_pos + 1 } else ps

def expect_token (type : TokenType) (ps : ParserState) : Except ParseError ParserState :=
  if (current_token ps).type ≠ type then .error (.unexpected_token type (current_token ps))
  else .ok (advance_token ps)

def match_token (type : TokenType) (ps : ParserState) : Bool :=
  (current_token ps).type = type

def match_any (types : List TokenType) (ps : ParserState) : Bool :=
  types.any (fun type => (current_token ps).type = type)

/-- The loop `do { names[name_count++] = strdup(...); expect_token(TOK_IDENTIFIER); }
while (match_token(TOK_COMMA) && (advance_token(), 1))`. -/
def parse_names : Nat → ParserState → Except ParseError (List String × ParserState)
  | 0, _ => .error .out_of_fuel
  | fuel + 1, ps => do
    let name := c_text (current_token ps).value
    let ps1 ← expect_token TOK_IDENTIFIER ps
    if match_token TOK_COMMA ps1 then do
      let (names, ps2) ← parse_names fuel (advance_token ps1)
      pure (name :: names, ps2)
    else pure ([name], ps1)

/-- The loop of `parse_interface` that captures an array type as text in `type_buf[256]`. -/
def capture_array_type : Nat → List Nat → ParserState → Except ParseError (List Nat × ParserState)
  | 0, _, _ => .error .out_of_fuel
  | fuel + 1, type_buf, ps =>
    if type_buf.length < 255 ∧ match_token TOK_SEMICOLON ps = false then
      let spaced := if type_buf.length > 0 then type_buf ++ [' '.toNat] else type_buf
      capture_array_type fuel
        (spaced ++ (current_token ps).value.take (255 - spaced.length)) (advance_token ps)
    else .ok (type_buf, ps)

/-- The type of a group of parameters in `parse_interface`: `type_str`, which stays `NULL`
when no type is written. -/
def parse_interface_type (fuel : Nat) (ps : ParserState) :
    Except ParseError (Option String × ParserState) :=
  if match_token TOK_ARRAY ps then do
    let (type_buf, ps1) ← capture_array_type fuel [] ps
    pure (some (c_text type_buf), ps1)
  else if match_any [TOK_INTEGER_TYPE, TOK_REAL_TYPE, TOK_BOOLEAN_TYPE, TOK_CHAR_TYPE,
      TOK_STRING_TYPE] ps then
    pure (some (c_text (current_token ps).value), advance_token ps)
  else if match_token TOK_IDENTIFIER ps then
    pure (some (c_text (current_token ps).value), advance_token ps)
  else pure (none, ps)

/-- The parameter nodes made for the names of one group. -/
def make_parameters (names : List String) (type_str : Option String) (is_reference : Bool) :
    List Parameter :=
  names.map (fun name => ⟨name, type_str.getD "INTEGER", is_reference⟩)

/-- The loop `while (match_token(TOK_IDENTIFIER))` of the input subsection. -/
def parse_input_params :
    Nat → List Parameter → ParserState → Except ParseError (List Parameter × ParserState)
  | 0, _, _ => .error .out_of_fuel
  | fuel + 1, params, ps =>
    if match_token TOK_IDENTIFIER ps then do
      let (names, ps1) ← parse_names (fuel + 1) ps
      let ps2 ← expect_token TOK_COLON ps1
      let (type_str, ps3) ← parse_interface_type (fuel + 1) ps2
      let ps4 ← expect_token TOK_SEMICOLON ps3
      parse_input_params fuel (params ++ make_parameters names type_str false) ps4
    else .ok (params, ps)

/-- The search `for (j = 0; j < *num_params; j++)` for a parameter of that name, which is
marked by-reference; `none` when `found` stays false. -/
def mark_reference (name : String) : List Parameter → Option (List Parameter)
  | [] => none
  | param :: params =>
    if str_equals_ignore_case param.name name then
      some ({ param with is_reference := true } :: params)
    else (mark_reference name params).map (fun ps => param :: ps)

/-- The loop over the names of one group of the output subsection. -/
def add_output_names (func_name : Option String) (type_str : Option String) :
    List String → List Parameter → List Parameter
  | [], params => params
  | name :: names, params =>
    if (match func_name with
        | some f => str_equals_ignore_case name f
        | none => false) then
      add_output_names func_name type_str names params
    else
      match mark_reference name params with
      | some marked => add_output_names func_name type_str names marked
      | none =>
        add_output_names func_name type_str names
          (params ++ [⟨name, type_str.getD "INTEGER", true⟩])

/-- The loop `while (match_token(TOK_IDENTIFIER))` of the output subsection. -/
def parse_output_params (func_name : Option String) :
    Nat → List Parameter → ParserState → Except ParseError (List Parameter × ParserState)
  | 0, _, _ => .error .out_of_fuel
  | fuel + 1, params, ps =>
    if match_token TOK_IDENTIFIER ps then do
      let (names, ps1) ← parse_names (fuel + 1) ps
      let ps2 ← expect_token TOK_COLON ps1
      let (type_str, ps3) ← parse_interface_type (fuel + 1) ps2
      let ps4 ← expect_token TOK_SEMICOLON ps3
      parse_output_params func_name fuel (add_output_names func_name type_str names params) ps4
    else .ok (params, ps)

/-- The function `parse_interface`; `func_name` is `NULL` for a procedure. -/
def parse_interface (fuel : Nat) (func_name : Option String) (ps : ParserState) :
    Except ParseError (List Parameter × ParserState) := do
  let ps1 ← expect_token TOK_INTERFACE ps
  let (params, ps2) ←
    if match_token TOK_INPUT_PARAM ps1 then parse_input_params fuel [] (advance_token ps1)
    else pure ([], ps1)
  if match_token TOK_OUTPUT_PARAM ps2 then
    parse_output_params func_name fuel params (advance_token ps2)
  else pure (params, ps2)

/-! ## An interface written with the English words -/

/-- The interface `INTERFACE INPUT n: INTEGER; OUTPUT r: INTEGER;`. -/
def english_interface : List Nat := c_bytes "INTERFACE INPUT n: INTEGER; OUTPUT r: INTEGER;"

/-- The same interface with the Greek words: `INTERFACE ΕΙΣΟΔΟΣ n: INTEGER; ΕΞΟΔΟΣ r: INTEGER;`. -/
def greek_interface : List Nat := c_bytes "INTERFACE ΕΙΣΟΔΟΣ n: INTEGER; ΕΞΟΔΟΣ r: INTEGER;"

/-- The parameters `parse_interface` returns for the text of an interface of a procedure,
and the position it stops at; `none` when the text does not lex. -/
def interface_of (code : List Nat) : Option (Except ParseError (List Parameter × Nat)) :=
  (tokenize code).toOption.map
    (fun tokens => (parse_interface tokens.length none ⟨tokens, 0⟩).map
      (fun r => (r.1, r.2.token_pos)))

/-! ## Logical operators -/

/-- The expression `FALSE AND (1 DIV 0 = 0)`. -/
def false_and_division_by_zero : ASTNode :=
  AST_BINARY_OP "AND" (AST_LITERAL (VAL_BOOL false))
    (AST_BINARY_OP "=" (AST_BINARY_OP "DIV" (int_literal 1) (int_literal 0)) (int_literal 0))

/-! ## Reading a line -/

/-- A line of input that READ takes whole: bytes without a newline and without a NUL, at
most the 255 that `fgets` stores in the buffer `input[256]`. -/
def is_input_line (line : List Nat) : Prop :=
  10 ∉ line ∧ 0 ∉ line ∧ line.length ≤ 255

/-- What follows a line in the input: its newline and the rest of the input, or the end of the
input when the line is not empty. -/
def ends_line (line tail : List Nat) : Prop :=
  (tail = [] ∧ line ≠ []) ∨ ∃ rest, tail = 10 :: rest

/-- What READ leaves in the input behind a line: the newline is taken with a line of fewer
than 255 bytes, and left for the next READ behind a line that fills the buffer. -/
def input_left (line tail : List Nat) : List Nat :=
  if line.length < 255 then tail.drop 1 else tail

/-- The value READ gives the variable `x` from the input `stdin`, and the input it leaves. -/
def value_read (stdin : List Nat) : Except Fault (RuntimeValue × List Nat) := do
  let st ← execute_statement 1 (AST_READ [AST_IDENTIFIER "x"])
    { scenario_a_state with stdin := stdin }
  let v ← env_get st.env "x"
  pure (v, st.stdin)

/-! ## What PRINT writes -/

/-- The rendering of a value by PRINT: an integer by `%d`, a real by `%g`, a boolean as
`TRUE` or `FALSE`, a string as it is; an array handle and the empty value have none. -/
def print_rendering : RuntimeValue → List OutputItem
  | VAL_INT n => [.text (sprintf_d n)]
  | VAL_REAL r => [.real_g r]
  | VAL_BOOL b => [.text (if b then "TRUE" else "FALSE")]
  | VAL_STRING s => [.text s]
  | _ => []

/-- The value of the end-of-line sentinel `EOLN`. -/
def end_of_line_sentinel : RuntimeValue := VAL_STRING "__EOLN__"

/-- What PRINT writes for the argument at position `i` whose value is `v`: a newline for the
end-of-line sentinel; otherwise a space, unless the argument is the first, and the rendering. -/
def print_piece (i : Nat) (v : RuntimeValue) : List OutputItem :=
  if v = end_of_line_sentinel then [.text "\n"]
  else (if i > 0 then [.text " "] else []) ++ print_rendering v

/-- What PRINT writes for arguments with the values `vs`, the first at position `i`. -/
def print_output (i : Nat) : List RuntimeValue → List OutputItem
  | [] => []
  | v :: vs => print_piece i v ++ print_output (i + 1) vs

/-- The evaluation of `e` has the value `v` and no effect, in the state `st` and in every
state that differs from it in the output written so far. -/
def has_value (fuel : Nat) (st : State) (e : ASTNode) (v : RuntimeValue) : Prop :=
  ∀ out, evaluate fuel e { st with stdout := out } = .ok (v, { st with stdout := out })

/-! ## Scenario C -/

/-- The state of Scenario C before its PRINT: `A: ARRAY [2..4] OF INTEGER` holds 4, 9, 16
and `i` is 4. -/
def scenario_c_state : State :=
  { initial_state [] with
    env := env_define (env_define (initial_state []).env "A" (VAL_ARRAY 0)) "i" (VAL_INT 4)
    heap := [array_set (array_set (array_set (create_array [⟨2, 4⟩]) [2] (VAL_INT 4)) [3]
      (VAL_INT 9)) [4] (VAL_INT 16)] }

/-- The arguments of `PRINT(A[2], A[3], A[4])`. -/
def scenario_c_arguments : List ASTNode :=
  [AST_ARRAY_ACCESS "A" [int_literal 2], AST_ARRAY_ACCESS "A" [int_literal 3],
    AST_ARRAY_ACCESS "A" [int_literal 4]]

/-! ## An integer expression with an effect -/

/-- The function `NEXT`, which adds one to the variable `k` of its caller and returns it:
`FUNCTION NEXT(): INTEGER INTERFACE BEGIN k := k + 1; NEXT := k END_FUNCTION`. -/
def next_function : ASTNode :=
  AST_FUNC_DECL "NEXT" "INTEGER" [] []
    [AST_ASSIGN "k" [] (AST_BINARY_OP "+" (AST_IDENTIFIER "k") (int_literal 1)),
     AST_ASSIGN "NEXT" [] (AST_IDENTIFIER "k")]

/-- A state in which `NEXT` is declared and `k` is 0. -/
def next_state : State :=
  { initial_state [] with
    env := env_define (env_define_subroutine (initial_state []).env "NEXT" next_function)
      "k" (VAL_INT 0) }

/-- The expression `NEXT() + 1`. -/
def next_expression : ASTNode :=
  AST_BINARY_OP "+" (AST_CALL "NEXT" [] false) (int_literal 1)

/-- The values of two evaluations of `e` in a row, and the binding of `x` after the first. -/
def evaluate_twice (fuel : Nat) (e : ASTNode) (x : String) (st : State) :
    Except Fault (RuntimeValue × RuntimeValue × Except Fault RuntimeValue) := do
  let (v1, st1) ← evaluate fuel e st
  let (v2, _) ← evaluate fuel e st1
  pure (v1, v2, env_get st1.env x)

/-! ## Transpiler: identifiers and types -/

/-- The loop of `sanitize_identifier` with room for `room` more bytes in `buffer`. -/
def sanitize_identifier_loop : Nat → List Nat → List Nat
  | 0, _ => []
  | _ + 1, [] => []
  | room + 1, c :: rest =>
    (if Bytes.isalnum c ∨ c = '_'.toNat then c else '_'.toNat) ::
      sanitize_identifier_loop room rest

/-- The function `sanitize_identifier` on a name that is not `NULL`: the content of the
static `buffer[MAX_TOKEN_LEN]` it returns. -/
def sanitize_identifier (name : List Nat) : List Nat :=
  sanitize_identifier_loop (MAX_TOKEN_LEN - 1) name

/-- A byte that may stand in an identifier of the target language: a letter (`A` to `Z`,
`a` to `z`), a digit or an underscore. -/
def is_identifier_byte (c : Nat) : Prop := Bytes.isalnum c = true ∨ c = '_'.toNat

/-- The function `map_type`; `none` is a `NULL` type name. -/
def map_type (eap_type : Option String) : String :=
  match eap_type with
  | none => "int"
  | some t =>
    if str_equals_ignore_case t "ΑΚΕΡΑΙΟΣ" || str_equals_ignore_case t "INTEGER" then "int"
    else if str_equals_ignore_case t "ΠΡΑΓΜΑΤΙΚΟΣ" || str_equals_ignore_case t "REAL" then
      "double"
    else if str_equals_ignore_case t "ΛΟΓΙΚΟΣ" || str_equals_ignore_case t "BOOLEAN" then "bool"
    else if str_equals_ignore_case t "ΧΑΡΑΚΤΗΡΑΣ" || str_equals_ignore_case t "CHAR" then "char"
    else "int"

/-! ## Transpiler: the code generator -/

/-- The struct `ArrayBoundsInfo`; a slot of `bounds_start` or `bounds_end` that was never
written is `none`. -/
structure ArrayBoundsInfo where
  array_name : String
  bounds_start : List (Option Int)
  bounds_end : List (Option Int)
  num_dims : Nat
  deriving DecidableEq, Repr

/-- The struct `VarTypeInfo`. -/
structure VarTypeInfo where
  var_name : String
  type_name : String
  deriving DecidableEq, Repr

/-- The struct `CodeGenerator`: `output` is what was written to the stream so far,
`array_bounds` and `var_types` hold the entries in use (`num_arrays` and `num_vars` are their
lengths), and `buffer` is the static buffer of `sanitize_identifier`, which every call of it
overwrites. -/
structure CodeGenerator where
  output : List OutputItem
  indent_level : Int
  in_function : Bool
  current_function_name : Option String
  env : Option Environment
  program : Option ASTNode
  array_bounds : List ArrayBoundsInfo
  var_types : List VarTypeInfo
  buffer : List Nat

namespace CodeGenerator

/-- One `fprintf(gen->output, ...)` of a text. -/
def fprintf (gen : CodeGenerator) (s : String) : CodeGenerator :=
  { gen with output := gen.output ++ [.text s] }

/-- The call `sanitize_identifier(name)`, which fills the static buffer. -/
def sanitize (gen : CodeGenerator) (name : String) : CodeGenerator :=
  { gen with buffer := sanitize_identifier (c_bytes name) }

/-- The text in the static buffer of `sanitize_identifier`. -/
def sanitized (gen : CodeGenerator) : String := c_text gen.buffer

end CodeGenerator

/-- The function `codegen_init` on a generator for a fresh output stream. -/
def codegen_init : CodeGenerator :=
  { output := [], indent_level := 0, in_function := false, current_function_name := none,
    env := none, program := none, array_bounds := [], var_types := [], buffer := [] }

/-- The search of `codegen_register_array` for the entry of an array: its index. -/
def find_array_bounds (name : String) : List ArrayBoundsInfo → Option Nat
  | [] => none
  | info :: rest =>
    if info.array_name = name then some 0 else (find_array_bounds name rest).map (· + 1)

/-- The function `codegen_register_array`. -/
def codegen_register_array (gen : CodeGenerator) (name : String) (start end_ : Int)
    (dimension : Nat) : CodeGenerator :=
  let found : List ArrayBoundsInfo × Option Nat :=
    match find_array_bounds name gen.array_bounds with
    | some i => (gen.array_bounds, some i)
    | none =>
      if gen.array_bounds.length < 100 then
        (gen.array_bounds ++
          [⟨name, List.replicate MAX_ARRAY_DIMS none, List.replicate MAX_ARRAY_DIMS none, 0⟩],
          some gen.array_bounds.length)
      else (gen.array_bounds, none)
  match found with
  | (array_bounds, some i) =>
    if dimension < MAX_ARRAY_DIMS then
      { gen with
        array_bounds := array_bounds.modify
          (fun info =>
            { info with
              bounds_start := info.bounds_start.set dimension (some start)
              bounds_end := info.bounds_end.set dimension (some end_)
              num_dims := if dimension ≥ info.num_dims then dimension + 1 else info.num_dims })
          i }
    else { gen with array_bounds := array_bounds }
  | (array_bounds, none) => { gen with array_bounds := array_bounds }

/-- The read of a slot of `bounds_start` or `bounds_end`. -/
def bounds_slot (slots : List (Option Int)) (dimension : Nat) : Except Fault Int :=
  match slots.getD dimension none with
  | some v => .ok v
  | none => .error .undefined_behaviour

/-- The loop of `codegen_get_array_offset` over the entries from some index on. -/
def array_offset_loop (name : String) (dimension : Nat) : List ArrayBoundsInfo → Except Fault Int
  | [] => .ok 1
  | info :: rest =>
    if info.array_name = name ∧ dimension < info.num_dims then
      bounds_slot info.bounds_start dimension
    else array_offset_loop name dimension rest

def codegen_get_array_offset (gen : CodeGenerator) (name : String) (dimension : Nat) :
    Except Fault Int :=
  array_offset_loop name dimension gen.array_bounds

/-- The loop of `codegen_get_array_size` over the entries from some index on. -/
def array_size_loop (name : String) (dimension : Nat) : List ArrayBoundsInfo → Except Fault Int
  | [] => .ok 100
  | info :: rest =>
    if info.array_name = name ∧ dimension < info.num_dims then do
      let end_ ← bounds_slot info.bounds_end dimension
      let start ← bounds_slot info.bounds_start dimension
      pure (wrap32 (wrap32 (end_ - start) + 1))
    else array_size_loop name dimension rest

def codegen_get_array_size (gen : CodeGenerator) (name : String) (dimension : Nat) :
    Except Fault Int :=
  array_size_loop name dimension gen.array_bounds

/-- The update of `codegen_register_var_type` when the variable has an entry. -/
def set_var_type (name type : String) : List VarTypeInfo → Option (List VarTypeInfo)
  | [] => none
  | info :: rest =>
    if info.var_name = name then some ({ info with type_name := type } :: rest)
    else (set_var_type name type rest).map (fun r => info :: r)

def codegen_register_var_type (gen : CodeGenerator) (name type : String) : CodeGenerator :=
  if gen.var_types.length ≥ 1000 then gen
  else
    match set_var_type name type gen.var_types with
    | some var_types => { gen with var_types := var_types }
    | none => { gen with var_types := gen.var_types ++ [⟨name, type⟩] }

/-- The loop of `codegen_get_var_type`. -/
def var_type_loop (name : String) : List VarTypeInfo → String
  | [] => "int"
  | info :: rest => if info.var_name = name then info.type_name else var_type_loop name rest

def codegen_get_var_type (gen : CodeGenerator) (name : String) : String :=
  var_type_loop name gen.var_types

/-- The function `codegen_infer_printf_format`. -/
def codegen_infer_printf_format (gen : CodeGenerator) : ASTNode → String
  | AST_LITERAL value =>
    match value with
    | VAL_INT _ => "%d"
    | VAL_REAL _ => "%g"
    | VAL_BOOL _ => "%s"
    | VAL_STRING _ => "%s"
    | _ => "%d"
  | AST_IDENTIFIER name =>
    if str_equals_ignore_case name "EOLN" then "%c"
    else if codegen_get_var_type gen name = "double" then "%g"
    else if codegen_get_var_type gen name = "bool" then "%d"
    else if codegen_get_var_type gen name = "char*" then "%s"
    else "%d"
  | AST_BINARY_OP operator left right =>
    if operator = "/" then "%g"
    else if codegen_infer_printf_format gen left = "%g" ∨
        codegen_infer_printf_format gen right = "%g" then "%g"
    else "%d"
  | _ => "%d"

/-- The loop of `codegen_find_subroutine` over the declarations of the program. -/
def find_subroutine_loop (name : String) : List ASTNode → Option ASTNode
  | [] => none
  | decl :: rest =>
    match decl with
    | AST_FUNC_DECL fname _ _ _ _ =>
      if str_equals_ignore_case fname name then some decl else find_subroutine_loop name rest
    | AST_PROC_DECL pname _ _ _ =>
      if str_equals_ignore_case pname name then some decl else find_subroutine_loop name rest
    | _ => find_subroutine_loop name rest

def codegen_find_subroutine (gen : CodeGenerator) (name : String) : Option ASTNode :=
  match gen.program with
  | some (AST_PROGRAM _ declarations _) => find_subroutine_loop name declarations
  | _ => none

def codegen_is_param_by_ref (subroutine : Option ASTNode) (param_index : Nat) : Bool :=
  match subroutine with
  | some (AST_FUNC_DECL _ _ parameters _ _) =>
    match parameters[param_index]? with
    | some param => param.is_reference
    | none => false
  | some (AST_PROC_DECL _ parameters _ _) =>
    match parameters[param_index]? with
    | some param => param.is_reference
    | none => false
  | _ => false

def codegen_indent (gen : CodeGenerator) : CodeGenerator :=
  { gen with output := gen.output ++ List.replicate gen.indent_level.toNat (.text "    ") }

/-- The function `codegen_line` for a format without conversions. -/
def codegen_line (gen : CodeGenerator) (fmt : String) : CodeGenerator :=
  ((codegen_indent gen).fprintf fmt).fprintf "\n"

/-- The text `codegen_expression` writes for a binary operator. -/
def binary_operator_text (operator : String) : String :=
  if operator = "=" then " == "
  else if operator = "<>" then " != "
  else if str_equals_ignore_case operator "DIV" then " / "
  else if str_equals_ignore_case operator "MOD" then " % "
  else if str_equals_ignore_case operator "AND" || str_equals_ignore_case operator "ΚΑΙ" then
    " && "
  else if str_equals_ignore_case operator "OR" || str_equals_ignore_case operator "Ή" then
    " || "
  else " " ++ operator ++ " "

mutual

/-- The function `codegen_expression`. -/
def codegen_expression : CodeGenerator → ASTNode → Except Fault CodeGenerator
  | gen, AST_LITERAL value =>
    match value with
    | VAL_INT n => .ok (gen.fprintf (sprintf_d n))
    | VAL_REAL r => .ok { gen with output := gen.output ++ [.real_g r] }
    | VAL_BOOL b => .ok (gen.fprintf (if b then "true" else "false"))
    | VAL_STRING s =>
      if s = "__EOLN__" ∨ s = "EOLN" then .ok (gen.fprintf "'\\n'")
      else .ok (gen.fprintf ("\"" ++ s ++ "\""))
    | _ => .ok (gen.fprintf "0")
  | gen, AST_IDENTIFIER name =>
    if str_equals_ignore_case name "EOLN" then .ok (gen.fprintf "'\\n'")
    else .ok ((gen.sanitize name).fprintf (gen.sanitize name).sanitized)
  | gen, AST_BINARY_OP operator left right => do
    let gen1 ← codegen_expression (gen.fprintf "(") left
    let gen2 ← codegen_expression (gen1.fprintf (binary_operator_text operator)) right
    pure (gen2.fprintf ")")
  | gen, AST_UNARY_OP operator operand => do
    let gen1 :=
      if str_equals_ignore_case operator "NOT" || str_equals_ignore_case operator "ΟΧΙ" then
        gen.fprintf "!("
      else gen.fprintf (operator ++ "(")
    let gen2 ← codegen_expression gen1 operand
    pure (gen2.fprintf ")")
  | gen, AST_ARRAY_ACCESS name indices => do
    let gen1 := (gen.sanitize name).fprintf ((gen.sanitize name).sanitized ++ "[")
    let gen2 ← codegen_indices name 0 gen1 indices
    pure (gen2.fprintf "]")
  | gen, AST_CALL name arguments _ => do
    let gen1 := (gen.sanitize name).fprintf ((gen.sanitize name).sanitized ++ "(")
    let gen2 ← codegen_arguments 0 gen1 arguments
    pure (gen2.fprintf ")")
  | gen, _ => .ok (gen.fprintf "0")

/-- The loop over the indices of an array element, from index `i`: each index expression
minus the offset of its dimension, when that is not zero. -/
def codegen_indices (name : String) (i : Nat) :
    CodeGenerator → List ASTNode → Except Fault CodeGenerator
  | gen, [] => .ok gen
  | gen, index :: indices => do
    let gen1 := if i > 0 then gen.fprintf "][" else gen
    let offset ← codegen_get_array_offset gen1 name i
    let gen2 ←
      if offset ≠ 0 then do
        let gen3 ← codegen_expression (gen1.fprintf "(") index
        pure (gen3.fprintf (" - " ++ sprintf_d offset ++ ")"))
      else codegen_expression gen1 index
    codegen_indices name (i + 1) gen2 indices

/-- The loop over the arguments of a call in an expression, from argument `i`. -/
def codegen_arguments (i : Nat) : CodeGenerator → List ASTNode → Except Fault CodeGenerator
  | gen, [] => .ok gen
  | gen, arg :: args => do
    let gen1 := if i > 0 then gen.fprintf ", " else gen
    let gen2 ← codegen_expression gen1 arg
    codegen_arguments (i + 1) gen2 args

end

/-- The loop over the indices of an array element that is the target of READ, from index `j`. -/
def codegen_read_indices (j : Nat) : CodeGenerator → List ASTNode → Except Fault CodeGenerator
  | gen, [] => .ok gen
  | gen, index :: indices => do
    let gen1 := if j > 0 then gen.fprintf "][" else gen
    let gen2 ← codegen_expression gen1 index
    codegen_read_indices (j + 1) (gen2.fprintf " - 1") indices

/-- The loop of `AST_READ` in `codegen_statement`. -/
def codegen_read_loop : CodeGenerator → List ASTNode → Except Fault CodeGenerator
  | gen, [] => .ok gen
  | gen, var :: vars => do
    let gen1 := codegen_indent gen
    let gen2 ←
      match var with
      | AST_IDENTIFIER name =>
        pure ((gen1.sanitize name).fprintf
          ("scanf(\"%d\", &" ++ (gen1.sanitize name).sanitized ++ ");\n"))
      | AST_ARRAY_ACCESS name indices => do
        let gen3 := (gen1.sanitize name).fprintf
          ("scanf(\"%d\", &" ++ (gen1.sanitize name).sanitized ++ "[")
        let gen4 ← codegen_read_indices 0 gen3 indices
        pure (gen4.fprintf "]);\n")
      | _ => pure gen1
    codegen_read_loop gen2 vars

/-- The loop of `AST_PRINT` in `codegen_statement` that writes the format string. -/
def codegen_print_formats (gen : CodeGenerator) : List ASTNode → CodeGenerator
  | [] => gen
  | expr :: exprs =>
    codegen_print_formats (gen.fprintf (codegen_infer_printf_format gen expr)) exprs

/-- The loop of `AST_PRINT` in `codegen_statement` that writes the arguments. -/
def codegen_print_arguments : CodeGenerator → List ASTNode → Except Fault CodeGenerator
  | gen, [] => .ok gen
  | gen, expr :: exprs => do
    let gen1 := gen.fprintf ", "
    let gen2 ←
      match expr with
      | AST_LITERAL (VAL_BOOL b) =>
        pure (gen1.fprintf ("(" ++ (if b then "1" else "0") ++ " ? \"true\" : \"false\")"))
      | _ => codegen_expression gen1 expr
    codegen_print_arguments gen2 exprs

/-- The loop over the arguments of a call statement, from argument `i`. -/
def codegen_call_arguments (subroutine : Option ASTNode) (i : Nat) :
    CodeGenerator → List ASTNode → Except Fault CodeGenerator
  | gen, [] => .ok gen
  | gen, arg :: args => do
    let gen1 := if i > 0 then gen.fprintf ", " else gen
    let needs_ref := subroutine.isSome && codegen_is_param_by_ref subroutine i
    let is_place :=
      match arg with
      | AST_IDENTIFIER _ => true
      | AST_ARRAY_ACCESS _ _ => true
      | _ => false
    let gen2 := if needs_ref && is_place then gen1.fprintf "&" else gen1
    let gen3 ← codegen_expression gen2 arg
    codegen_call_arguments subroutine (i + 1) gen3 args

mutual

/-- The function `codegen_statement`. -/
def codegen_statement : CodeGenerator → ASTNode → Except Fault CodeGenerator
  | gen, AST_ASSIGN identifier indices value => do
    let gen1 := codegen_indent gen
    let to_result : Option String :=
      match gen1.current_function_name with
      | some f => if gen1.in_function && str_equals_ignore_case identifier f then some f else none
      | none => none
    let gen2 ←
      match to_result with
      | some f => pure ((gen1.sanitize f).fprintf ((gen1.sanitize f).sanitized ++ "_result = "))
      | none =>
        if indices.length > 0 then do
          let gen3 := (gen1.sanitize identifier).fprintf
            ((gen1.sanitize identifier).sanitized ++ "[")
          let gen4 ← codegen_indices identifier 0 gen3 indices
          pure (gen4.fprintf "] = ")
        else
          pure ((gen1.sanitize identifier).fprintf
            ((gen1.sanitize identifier).sanitized ++ " = "))
    let gen5 ← codegen_expression gen2 value
    pure (gen5.fprintf ";\n")
  | gen, AST_PRINT expressions => do
    let gen1 := (codegen_indent gen).fprintf "printf(\""
    let gen2 := (codegen_print_formats gen1 expressions).fprintf "\""
    let gen3 ← codegen_print_arguments gen2 expressions
    pure (gen3.fprintf ");\n")
  | gen, AST_READ vars => codegen_read_loop gen vars
  | gen, AST_IF condition then_branch else_branch => do
    let gen1 ← codegen_expression ((codegen_indent gen).fprintf "if (") condition
    let gen2 := gen1.fprintf ") \x7b\n"
    let gen3 ← codegen_statements { gen2 with indent_level := gen2.indent_level + 1 } then_branch
    let gen4 := { gen3 with indent_level := gen3.indent_level - 1 }
    let gen5 ←
      match else_branch with
      | some (stmt :: stmts) => do
        let gen6 := (codegen_indent gen4).fprintf "\x7d else \x7b\n"
        let gen7 ← codegen_statements { gen6 with indent_level := gen6.indent_level + 1 }
          (stmt :: stmts)
        pure { gen7 with indent_level := gen7.indent_level - 1 }
      | _ => pure gen4
    pure ((codegen_indent gen5).fprintf "\x7d\n")
  | gen, AST_FOR loop_variable start end_ step body => do
    let gen1 := (codegen_indent gen).sanitize loop_variable
    let is_positive_step : Bool :=
      match step with
      | AST_LITERAL (VAL_INT n) => n ≥ 0
      | _ => true
    let gen2 ← codegen_expression (gen1.fprintf ("for (" ++ gen1.sanitized ++ " = ")) start
    let gen3 ← codegen_expression
      (gen2.fprintf ("; " ++ gen2.sanitized ++ " " ++ (if is_positive_step then "<=" else ">=")
        ++ " ")) end_
    let gen4 ← codegen_expression (gen3.fprintf ("; " ++ gen3.sanitized ++ " += ")) step
    let gen5 := gen4.fprintf ") \x7b\n"
    let gen6 ← codegen_statements { gen5 with indent_level := gen5.indent_level + 1 } body
    let gen7 := { gen6 with indent_level := gen6.indent_level - 1 }
    pure ((codegen_indent gen7).fprintf "\x7d\n")
  | gen, AST_WHILE condition body is_repeat_until =>
    if is_repeat_until then do
      let gen1 := (codegen_indent gen).fprintf "do \x7b\n"
      let gen2 ← codegen_statements { gen1 with indent_level := gen1.indent_level + 1 } body
      let gen3 := { gen2 with indent_level := gen2.indent_level - 1 }
      let gen4 ← codegen_expression ((codegen_indent gen3).fprintf "\x7d while (!(") condition
      pure (gen4.fprintf "));\n")
    else do
      let gen1 ← codegen_expression ((codegen_indent gen).fprintf "while (") condition
      let gen2 := gen1.fprintf ") \x7b\n"
      let gen3 ← codegen_statements { gen2 with indent_level := gen2.indent_level + 1 } body
      let gen4 := { gen3 with indent_level := gen3.indent_level - 1 }
      pure ((codegen_indent gen4).fprintf "\x7d\n")
  | gen, AST_CALL name arguments _ => do
    let gen1 := codegen_indent gen
    let subroutine := codegen_find_subroutine gen1 name
    let gen2 := (gen1.sanitize name).fprintf ((gen1.sanitize name).sanitized ++ "(")
    let gen3 ← codegen_call_arguments subroutine 0 gen2 arguments
    pure (gen3.fprintf ");\n")
  | gen, _ => .ok (codegen_line gen "// Unknown statement type")

/-- The loops `for (i = 0; i < num; i++) codegen_statement(gen, stmts[i])`. -/
def codegen_statements : CodeGenerator → List ASTNode → Except Fault CodeGenerator
  | gen, [] => .ok gen
  | gen, stmt :: stmts => do
    let gen1 ← codegen_statement gen stmt
    codegen_statements gen1 stmts

end

/-- The text written by a run of the code generator; `none` when it holds a real literal,
whose rendering by `%g` is left open. -/
def output_text : List OutputItem → Option String
  | [] => some ""
  | .text s :: rest => (output_text rest).map (fun t => s ++ t)
  | .real_g _ :: _ => none

/-- The text a run of the code generator adds to an empty output. -/
def emitted (run : Except Fault CodeGenerator) : Except Fault (Option String) :=
  run.map (fun gen => output_text gen.output)

/-! ## An array with a declared origin -/

/-- The generator after the declaration `name: ARRAY [start..end_] OF INTEGER` was registered. -/
def array_generator (name : String) (start end_ : Int) : CodeGenerator :=
  codegen_register_array codegen_init name start end_ 0

/-- The array element `name[i]`. -/
def element_i (name : String) : ASTNode := AST_ARRAY_ACCESS name [AST_IDENTIFIER "i"]

/-! ## Parser: expressions -/

abbrev Parser (α : Type) := ParserState → Except ParseError (α × ParserState)

/-- The loops `do { list[n++] = item(); } while (match_token(TOK_COMMA) && (advance_token(), 1))`. -/
def parse_list (item : Parser ASTNode) : Nat → Parser (List ASTNode)
  | 0, _ => .error .out_of_fuel
  | n + 1, ps => do
    let (x, ps1) ← item ps
    if match_token TOK_COMMA ps1 then do
      let (xs, ps2) ← parse_list item n (advance_token ps1)
      pure (x :: xs, ps2)
    else pure ([x], ps1)

/-- The loop `while (match_any(...)) { node = binary(operator, left, operand()); left = node; }`
of a binary level of the expression grammar, entered with `left` parsed. -/
def parse_binary_loop (types : List TokenType) (operand : Parser ASTNode) :
    Nat → ASTNode → Parser ASTNode
  | 0, _, _ => .error .out_of_fuel
  | n + 1, left, ps =>
    if match_any types ps then do
      let operator := c_text (current_token ps).value
      let (right, ps1) ← operand (advance_token ps)
      parse_binary_loop types operand n (AST_BINARY_OP operator left right) ps1
    else .ok (left, ps)

/-- The operators of `parse_multiplicative`. -/
def multiplicative_types : List TokenType := [TOK_MULTIPLY, TOK_DIVIDE, TOK_MOD, TOK_DIV]

/-- The operators of `parse_additive`. -/
def additive_types : List TokenType := [TOK_PLUS, TOK_MINUS]

/-- The operators of `parse_comparison`. -/
def comparison_types : List TokenType :=
  [TOK_EQUALS, TOK_NOT_EQUALS, TOK_LESS_THAN, TOK_GREATER_THAN, TOK_LESS_EQUALS,
    TOK_GREATER_EQUALS]

/-- The skip `if (match_token(TOK_SEMICOLON)) advance_token();` after a statement. -/
def skip_semicolon (ps : ParserState) : ParserState :=
  if match_token TOK_SEMICOLON ps then advance_token ps else ps

mutual

/-- The function `parse_primary`, with `fuel` bounding the nesting of the parser. -/
def parse_primary : Nat → Parser ASTNode
  | 0, _ => .error .out_of_fuel
  | fuel + 1, ps =>
    if match_token TOK_NUMBER ps then
      if (current_token ps).value.contains '.'.toNat then
        .ok (AST_LITERAL (VAL_REAL (atof (c_text (current_token ps).value))), advance_token ps)
      else
        .ok (AST_LITERAL (VAL_INT (atoi (c_text (current_token ps).value))), advance_token ps)
    else if match_token TOK_BOOLEAN_LITERAL ps then
      .ok (AST_LITERAL (VAL_BOOL (is_keyword (current_token ps).value "ΑΛΗΘΗΣ" ||
        is_keyword (current_token ps).value "TRUE")), advance_token ps)
    else if match_token TOK_STRING ps then
      .ok (AST_LITERAL (VAL_STRING (c_text (current_token ps).value)), advance_token ps)
    else if match_token TOK_IDENTIFIER ps then
      let name := c_text (current_token ps).value
      let ps1 := advance_token ps
      if match_token TOK_LEFT_PAREN ps1 then do
        let ps2 := advance_token ps1
        let (arguments, ps3) ←
          if match_token TOK_RIGHT_PAREN ps2 = false then
            parse_list (parse_expression fuel) fuel ps2
          else pure ([], ps2)
        let ps4 ← expect_token TOK_RIGHT_PAREN ps3
        pure (AST_CALL name arguments false, ps4)
      else if match_token TOK_LEFT_BRACKET ps1 then do
        let (indices, ps3) ← parse_list (parse_expression fuel) fuel (advance_token ps1)
        let ps4 ← expect_token TOK_RIGHT_BRACKET ps3
        pure (AST_ARRAY_ACCESS name indices, ps4)
      else .ok (AST_IDENTIFIER name, ps1)
    else if match_token TOK_LEFT_PAREN ps then do
      let (expr, ps2) ← parse_expression fuel (advance_token ps)
      let ps3 ← expect_token TOK_RIGHT_PAREN ps2
      pure (expr, ps3)
    else .error (.syntax_error "Unexpected token" (current_token ps))

def parse_unary : Nat → Parser ASTNode
  | 0, _ => .error .out_of_fuel
  | fuel + 1, ps =>
    if match_token TOK_NOT ps || match_token TOK_MINUS ps then do
      let operator := c_text (current_token ps).value
      let (operand, ps1) ← parse_unary fuel (advance_token ps)
      pure (AST_UNARY_OP operator operand, ps1)
    else parse_primary fuel ps

def parse_multiplicative : Nat → Parser ASTNode
  | 0, _ => .error .out_of_fuel
  | fuel + 1, ps => do
    let (left, ps1) ← parse_unary fuel ps
    parse_binary_loop multiplicative_types (parse_unary fuel) fuel left ps1

def parse_additive : Nat → Parser ASTNode
  | 0, _ => .error .out_of_fuel
  | fuel + 1, ps => do
    let (left, ps1) ← parse_multiplicative fuel ps
    parse_binary_loop additive_types (parse_multiplicative fuel) fuel left ps1

def parse_comparison : Nat → Parser ASTNode
  | 0, _ => .error .out_of_fuel
  | fuel + 1, ps => do
    let (left, ps1) ← parse_additive fuel ps
    parse_binary_loop comparison_types (parse_additive fuel) fuel left ps1

def parse_and : Nat → Parser ASTNode
  | 0, _ => .error .out_of_fuel
  | fuel + 1, ps => do
    let (left, ps1) ← parse_comparison fuel ps
    parse_binary_loop [TOK_AND] (parse_comparison fuel) fuel left ps1

def parse_expression : Nat → Parser ASTNode
  | 0, _ => .error .out_of_fuel
  | fuel + 1, ps => do
    let (left, ps1) ← parse_and fuel ps
    parse_binary_loop [TOK_OR] (parse_and fuel) fuel left ps1

end

/-! ## Parser: statements -/

/-- The argument list `( item, ... )` of PRINT, READ and a call statement, which may be
empty, and the semicolon that may follow. -/
def parse_parenthesized (item : Parser ASTNode) (fuel : Nat) : Parser (List ASTNode) :=
  fun ps => do
    let ps1 ← expect_token TOK_LEFT_PAREN ps
    let (items, ps2) ←
      if match_token TOK_RIGHT_PAREN ps1 = false then parse_list item fuel ps1
      else pure ([], ps1)
    let ps3 ← expect_token TOK_RIGHT_PAREN ps2
    pure (items, skip_semicolon ps3)

def parse_print (fuel : Nat) : Parser ASTNode := fun ps => do
  let ps1 ← expect_token TOK_PRINT ps
  let (expressions, ps2) ← parse_parenthesized (parse_expression fuel) fuel ps1
  pure (AST_PRINT expressions, ps2)

def parse_read (fuel : Nat) : Parser ASTNode := fun ps => do
  let ps1 ← expect_token TOK_READ ps
  let (vars, ps2) ← parse_parenthesized (parse_primary fuel) fuel ps1
  pure (AST_READ vars, ps2)

def parse_assignment (fuel : Nat) : Parser ASTNode := fun ps => do
  let identifier := c_text (current_token ps).value
  let ps1 ← expect_token TOK_IDENTIFIER ps
  let (indices, ps2) ←
    if match_token TOK_LEFT_BRACKET ps1 then do
      let (indices, ps3) ← parse_list (parse_expression fuel) fuel (advance_token ps1)
      let ps4 ← expect_token TOK_RIGHT_BRACKET ps3
      pure (indices, ps4)
    else pure ([], ps1)
  let ps5 ← expect_token TOK_ASSIGN ps2
  let (value, ps6) ← parse_expression fuel ps5
  pure (AST_ASSIGN identifier indices value, skip_semicolon ps6)

/-- An argument of a call statement: a percent sign before it is skipped. -/
def parse_call_argument (fuel : Nat) : Parser ASTNode := fun ps =>
  parse_expression fuel (if match_token TOK_PERCENT ps then advance_token ps else ps)

def parse_call_statement (fuel : Nat) : Parser ASTNode := fun ps => do
  let name := c_text (current_token ps).value
  let ps1 ← expect_token TOK_IDENTIFIER ps
  let (arguments, ps2) ← parse_parenthesized (parse_call_argument fuel) fuel ps1
  pure (AST_CALL name arguments true, ps2)

/-- The token types at which `parse_block` stops. -/
def block_end_types : List TokenType :=
  [TOK_END, TOK_ELSE, TOK_UNTIL, TOK_END_IF, TOK_END_FOR, TOK_END_WHILE, TOK_EOF,
    TOK_END_FUNCTION, TOK_END_PROCEDURE]

mutual

def parse_if : Nat → Parser ASTNode
  | 0, _ => .error .out_of_fuel
  | fuel + 1, ps => do
    let ps1 ← expect_token TOK_IF ps
    let (condition, ps2) ← parse_expression fuel ps1
    let ps3 ← expect_token TOK_THEN ps2
    let (then_branch, ps4) ← parse_block fuel ps3
    let (else_branch, ps5) ←
      if match_token TOK_ELSE ps4 then do
        let (stmts, ps6) ← parse_block fuel (advance_token ps4)
        pure (some stmts, ps6)
      else pure (none, ps4)
    let ps7 ← expect_token TOK_END_IF ps5
    pure (AST_IF condition then_branch else_branch, skip_semicolon ps7)

def parse_for : Nat → Parser ASTNode
  | 0, _ => .error .out_of_fuel
  | fuel + 1, ps => do
    let ps1 ← expect_token TOK_FOR ps
    let loop_variable := c_text (current_token ps1).value
    let ps2 ← expect_token TOK_IDENTIFIER ps1
    let ps3 ← expect_token TOK_ASSIGN ps2
    let (start, ps4) ← parse_expression fuel ps3
    let ps5 ← expect_token TOK_TO ps4
    let (end_, ps6) ← parse_expression fuel ps5
    let (step, ps7) ←
      if match_token TOK_STEP ps6 then parse_expression fuel (advance_token ps6)
      else pure (AST_LITERAL (VAL_INT 1), ps6)
    let ps8 ← expect_token TOK_REPEAT ps7
    let (body, ps9) ← parse_block fuel ps8
    let ps10 ← expect_token TOK_END_FOR ps9
    pure (AST_FOR loop_variable start end_ step body, skip_semicolon ps10)

def parse_while : Nat → Parser ASTNode
  | 0, _ => .error .out_of_fuel
  | fuel + 1, ps => do
    let ps1 ← expect_token TOK_WHILE ps
    let (condition, ps2) ← parse_expression fuel ps1
    let ps3 ← expect_token TOK_REPEAT ps2
    let (body, ps4) ← parse_block fuel ps3
    let ps5 ← expect_token TOK_END_WHILE ps4
    pure (AST_WHILE condition body false, skip_semicolon ps5)

def parse_repeat : Nat → Parser ASTNode
  | 0, _ => .error .out_of_fuel
  | fuel + 1, ps => do
    let ps1 ← expect_token TOK_REPEAT ps
    let (body, ps2) ← parse_block fuel ps1
    let ps3 ← expect_token TOK_UNTIL ps2
    let (condition, ps4) ← parse_expression fuel ps3
    pure (AST_WHILE condition body true, skip_semicolon ps4)

/-- The function `parse_statement`; the read of `tokens[token_pos + 1]` is `read_past_end`
when no token was written there. -/
def parse_statement : Nat → Parser ASTNode
  | 0, _ => .error .out_of_fuel
  | fuel + 1, ps =>
    if match_token TOK_PRINT ps then parse_print fuel ps
    else if match_token TOK_READ ps then parse_read fuel ps
    else if match_token TOK_CALCULATE ps then parse_call_statement fuel (advance_token ps)
    else if match_token TOK_IF ps then parse_if fuel ps
    else if match_token TOK_FOR ps then parse_for fuel ps
    else if match_token TOK_WHILE ps then parse_while fuel ps
    else if match_token TOK_REPEAT ps then parse_repeat fuel ps
    else if match_token TOK_IDENTIFIER ps then
      match ps.tokens[ps.token_pos + 1]? with
      | some next =>
        if next.type = TOK_LEFT_PAREN then parse_call_statement fuel ps
        else parse_assignment fuel ps
      | none => .error .read_past_end
    else .error (.syntax_error "Unexpected token in statement" (current_token ps))

/-- The function `parse_block`: statements up to a token that ends a block. -/
def parse_block : Nat → Parser (List ASTNode)
  | 0, _ => .error .out_of_fuel
  | fuel + 1, ps =>
    if match_any block_end_types ps then .ok ([], ps)
    else do
      let (stmt, ps1) ← parse_statement fuel ps
      let (stmts, ps2) ← parse_block fuel ps1
      pure (stmt :: stmts, ps2)

end

/-! ## Parser: declarations and the program -/

/-- The loop that skips the parameter names in the header of a subroutine; `types` are the
token types it accepts. -/
def skip_header_parameters (types : List TokenType) (message : String) :
    Nat → ParserState → Except ParseError ParserState
  | 0, _ => .error .out_of_fuel
  | n + 1, ps =>
    if match_token TOK_RIGHT_PAREN ps then .ok ps
    else if match_any types ps = false then .error (.syntax_error message (current_token ps))
    else skip_header_parameters types message n (advance_token ps)

/-- The header parameter list of a subroutine, when there is one. -/
def parse_header_parameters (types : List TokenType) (message : String) (fuel : Nat)
    (ps : ParserState) : Except ParseError ParserState :=
  if match_token TOK_LEFT_PAREN ps then do
    let ps1 ← skip_header_parameters types message fuel (advance_token ps)
    expect_token TOK_RIGHT_PAREN ps1
  else .ok ps

/-- The type keywords of a scalar type. -/
def scalar_types : List TokenType :=
  [TOK_INTEGER_TYPE, TOK_REAL_TYPE, TOK_BOOLEAN_TYPE, TOK_CHAR_TYPE, TOK_STRING_TYPE]

/-- The type of a declaration: a type keyword or an identifier. -/
def parse_type_name (message : String) (ps : ParserState) : Except ParseError (String × ParserState) :=
  if match_any scalar_types ps then .ok (c_text (current_token ps).value, advance_token ps)
  else if match_token TOK_IDENTIFIER ps then
    .ok (c_text (current_token ps).value, advance_token ps)
  else .error (.syntax_error message (current_token ps))

/-- The loop `while (match_token(TOK_IDENTIFIER))` over the local declarations of a
subroutine. -/
def parse_local_decls (fuel : Nat) : Nat → List LocalDecl → Parser (List LocalDecl)
  | 0, _, _ => .error .out_of_fuel
  | n + 1, decls, ps =>
    if match_token TOK_IDENTIFIER ps then do
      let (names, ps1) ← parse_names fuel ps
      let ps2 ← expect_token TOK_COLON ps1
      let (type_str, ps3) ← parse_type_name "Expected type" ps2
      let ps4 ← expect_token TOK_SEMICOLON ps3
      parse_local_decls fuel n (decls ++ names.map (fun name => ⟨name, type_str⟩)) ps4
    else .ok (decls, ps)

/-- The local data section of a subroutine, its body and the closing keyword. -/
def parse_subroutine_rest (closing : TokenType) (fuel : Nat) :
    Parser (List LocalDecl × List ASTNode) := fun ps => do
  let (local_decls, ps1) ←
    if match_token TOK_DATA ps then parse_local_decls fuel fuel [] (advance_token ps)
    else pure ([], ps)
  let ps2 ← expect_token TOK_BEGIN ps1
  let (body, ps3) ← parse_block fuel ps2
  let ps4 ← expect_token closing ps3
  pure ((local_decls, body), ps4)

def parse_function (fuel : Nat) : Parser ASTNode := fun ps => do
  let ps1 ← expect_token TOK_FUNCTION ps
  let name := c_text (current_token ps1).value
  let ps2 ← expect_token TOK_IDENTIFIER ps1
  let ps3 ← parse_header_parameters [TOK_IDENTIFIER, TOK_COMMA]
    "Expected parameter name or comma" fuel ps2
  let ps4 ← expect_token TOK_COLON ps3
  let return_type := c_text (current_token ps4).value
  let (parameters, ps5) ← parse_interface fuel (some name) (advance_token ps4)
  let ((local_decls, body), ps6) ← parse_subroutine_rest TOK_END_FUNCTION fuel ps5
  pure (AST_FUNC_DECL name return_type parameters local_decls body, ps6)

def parse_procedure (fuel : Nat) : Parser ASTNode := fun ps => do
  let ps1 ← expect_token TOK_PROCEDURE ps
  let name := c_text (current_token ps1).value
  let ps2 ← expect_token TOK_IDENTIFIER ps1
  let ps3 ← parse_header_parameters [TOK_IDENTIFIER, TOK_COMMA, TOK_PERCENT]
    "Expected parameter name, comma or %" fuel ps2
  let (parameters, ps4) ← parse_interface fuel none ps3
  let ((local_decls, body), ps5) ← parse_subroutine_rest TOK_END_PROCEDURE fuel ps4
  pure (AST_PROC_DECL name parameters local_decls body, ps5)

/-- The loop over the constants section of `parse_program`. -/
def parse_constants (fuel : Nat) : Nat → List ASTNode → Parser (List ASTNode)
  | 0, _, _ => .error .out_of_fuel
  | n + 1, decls, ps =>
    if match_token TOK_IDENTIFIER ps then do
      let name := c_text (current_token ps).value
      let ps1 ← expect_token TOK_IDENTIFIER ps
      let ps2 ← expect_token TOK_EQUALS ps1
      let (value, ps3) ← parse_expression fuel ps2
      if match_token TOK_SEMICOLON ps3 = false then
        .error (.syntax_error "Expected semicolon after constant declaration" (current_token ps3))
      else do
        let ps4 ← expect_token TOK_SEMICOLON ps3
        parse_constants fuel n (decls ++ [AST_CONST_DECL name value]) ps4
    else .ok (decls, ps)

/-- The loop over the dimensions of an array type, which stores the bounds of dimension
`num_dims` in `array_bound_exprs[num_dims]`. -/
def parse_bounds (fuel : Nat) : Nat → Nat → Parser (List (ASTNode × ASTNode))
  | 0, _, _ => .error .out_of_fuel
  | n + 1, num_dims, ps => do
    let (start_expr, ps1) ← parse_expression fuel ps
    if num_dims ≥ MAX_ARRAY_DIMS then .error .bounds_overrun
    else do
      let ps2 ← expect_token TOK_DOT ps1
      let (end_expr, ps3) ← parse_expression fuel ps2
      if match_token TOK_COMMA ps3 then do
        let (rest, ps4) ← parse_bounds fuel n (num_dims + 1) (advance_token ps3)
        pure ((start_expr, end_expr) :: rest, ps4)
      else pure ([(start_expr, end_expr)], ps3)

/-- The type of a group of variables in the data section of `parse_program`: the base type
and the bounds of an array type (none for a scalar). -/
def parse_variable_type (fuel : Nat) : Parser (String × List (ASTNode × ASTNode)) := fun ps =>
  if match_token TOK_ARRAY ps then do
    let ps1 ← expect_token TOK_LEFT_BRACKET (advance_token ps)
    let (bounds, ps2) ← parse_bounds fuel fuel 0 ps1
    let ps3 ← expect_token TOK_RIGHT_BRACKET ps2
    let ps4 ← expect_token TOK_OF ps3
    let (base_type, ps5) ← parse_type_name "Expected type after OF" ps4
    pure ((base_type, bounds), ps5)
  else do
    let (base_type, ps1) ← parse_type_name "Expected type" ps
    pure ((base_type, []), ps1)

/-- The loop over the data section of `parse_program`. -/
def parse_data (fuel : Nat) : Nat → List ASTNode → Parser (List ASTNode)
  | 0, _, _ => .error .out_of_fuel
  | n + 1, decls, ps =>
    if match_token TOK_IDENTIFIER ps then do
      let (names, ps1) ← parse_names fuel ps
      let ps2 ← expect_token TOK_COLON ps1
      let ((base_type, bounds), ps3) ← parse_variable_type fuel ps2
      let ps4 ← expect_token TOK_SEMICOLON ps3
      parse_data fuel n (decls ++ names.map (fun name => AST_VAR_DECL name base_type bounds)) ps4
    else .ok (decls, ps)

/-- The loop over the functions and procedures of `parse_program`. -/
def parse_subroutines (fuel : Nat) : Nat → List ASTNode → Parser (List ASTNode)
  | 0, _, _ => .error .out_of_fuel
  | n + 1, decls, ps =>
    if match_token TOK_FUNCTION ps then do
      let (decl, ps1) ← parse_function fuel ps
      parse_subroutines fuel n (decls ++ [decl]) ps1
    else if match_token TOK_PROCEDURE ps then do
      let (decl, ps1) ← parse_procedure fuel ps
      parse_subroutines fuel n (decls ++ [decl]) ps1
    else .ok (decls, ps)

/-- The function `parse_program`. -/
def parse_program (fuel : Nat) : Parser ASTNode := fun ps => do
  let ps1 ← expect_token TOK_ALGORITHM ps
  let name := c_text (current_token ps1).value
  let ps2 ← expect_token TOK_IDENTIFIER ps1
  let (constants, ps3) ←
    if match_token TOK_CONSTANTS ps2 then parse_constants fuel fuel [] (advance_token ps2)
    else pure ([], ps2)
  let (vars, ps4) ←
    if match_token TOK_DATA ps3 then parse_data fuel fuel constants (advance_token ps3)
    else pure (constants, ps3)
  let (declarations, ps5) ← parse_subroutines fuel fuel vars ps4
  let ps6 ← expect_token TOK_BEGIN ps5
  let (body, ps7) ← parse_block fuel ps6
  let ps8 ← expect_token TOK_END ps7
  pure (AST_PROGRAM name declarations body, ps8)

/-- The fuel with which the parser is run on a token array. -/
def parse_fuel (tokens : List Token) : Nat := 10 * tokens.length + 300

/-- The run `tokenize(code); parse_program();` of `main` on a source text: `none` when the
lexer stops with its diagnostic, else the tree or the way the parser stops. -/
def parse_source (code : List Nat) : Option (Except ParseError ASTNode) :=
  (tokenize code).toOption.map
    (fun tokens => (parse_program (parse_fuel tokens) ⟨tokens, 0⟩).map Prod.fst)

/-! ## Precedence of the binary operators -/

/-- The precedence of a binary operator, from the loosest to the tightest: logical-or,
logical-and, comparison, additive, multiplicative; `none` for every other token. -/
def precedence : TokenType → Option Nat
  | TOK_OR => some 1
  | TOK_AND => some 2
  | TOK_EQUALS => some 3
  | TOK_NOT_EQUALS => some 3
  | TOK_LESS_THAN => some 3
  | TOK_GREATER_THAN => some 3
  | TOK_LESS_EQUALS => some 3
  | TOK_GREATER_EQUALS => some 3
  | TOK_PLUS => some 4
  | TOK_MINUS => some 4
  | TOK_MULTIPLY => some 5
  | TOK_DIVIDE => some 5
  | TOK_MOD => some 5
  | TOK_DIV => some 5
  | _ => none

/-- The text of the operator at the cursor, as the parser puts it in the tree. -/
def operator_text (ps : ParserState) : String := c_text (current_token ps).value

/-- With enough fuel `parse_primary` reads `a` from `ps` and leaves the cursor at `ps'`. -/
def primary_at (ps : ParserState) (a : ASTNode) (ps' : ParserState) : Prop :=
  ∃ fuel, parse_primary fuel ps = .ok (a, ps')

/-- From some fuel on `parse_expression` reads `e` from `ps` and leaves the cursor at `ps'`. -/
def expression_at (ps : ParserState) (e : ASTNode) (ps' : ParserState) : Prop :=
  ∃ fuel0, ∀ fuel, fuel0 ≤ fuel → parse_expression fuel ps = .ok (e, ps')

/-- Every result of `p` is a result of `q`. -/
def parser_le {α : Type} (p q : Parser α) : Prop :=
  ∀ ps r, p ps = .ok r → q ps = .ok r

/-- All the levels of the expression grammar at one fuel are below those at another. -/
def expression_le (f f' : Nat) : Prop :=
  parser_le (parse_primary f) (parse_primary f') ∧
  parser_le (parse_unary f) (parse_unary f') ∧
  parser_le (parse_multiplicative f) (parse_multiplicative f') ∧
  parser_le (parse_additive f) (parse_additive f') ∧
  parser_le (parse_comparison f) (parse_comparison f') ∧
  parser_le (parse_and f) (parse_and f') ∧
  parser_le (parse_expression f) (parse_expression f')

/-- The operators of the binary levels, numbered from the tightest: 1 multiplicative,
2 additive, 3 comparison, 4 logical-and, 5 logical-or. -/
def level_types : Nat → List TokenType
  | 1 => multiplicative_types
  | 2 => additive_types
  | 3 => comparison_types
  | 4 => [TOK_AND]
  | 5 => [TOK_OR]
  | _ => []

/-- The parsers of the levels as `parse_expression (fuel + 6)` calls them: level 0 is
`parse_unary (fuel + 1)`, level 5 is `parse_expression (fuel + 6)`. -/
def parse_level (fuel : Nat) : Nat → Parser ASTNode
  | 0 => parse_unary (fuel + 1)
  | k + 1 => fun ps => do
    let (left, ps1) ← parse_level fuel k ps
    parse_binary_loop (level_types (k + 1)) (parse_level fuel k) (fuel + 1 + k) left ps1

/-- The tokens of a source text; none when the text does not lex. -/
def tokens_of (code : String) : List Token := ((tokenize (c_bytes code)).toOption).getD []

/-- The parser state with the cursor at token `pos` of a source text. -/
def cursor (code : String) (pos : Nat) : ParserState := ⟨tokens_of code, pos⟩

/-! ## The names listed in an interface -/

/-- The groups `names : type ;` of a subsection of an interface, read while the cursor is at
an identifier: the names and the type of each group. -/
def parse_groups : Nat → Parser (List (List String × Option String))
  | 0, _ => .error .out_of_fuel
  | fuel + 1, ps =>
    if match_token TOK_IDENTIFIER ps then do
      let (names, ps1) ← parse_names (fuel + 1) ps
      let ps2 ← expect_token TOK_COLON ps1
      let (type_str, ps3) ← parse_interface_type (fuel + 1) ps2
      let ps4 ← expect_token TOK_SEMICOLON ps3
      let (groups, ps5) ← parse_groups fuel ps4
      pure ((names, type_str) :: groups, ps5)
    else .ok ([], ps)

/-- What an interface lists: the groups of its input subsection and those of its output
subsection, each subsection being optional. -/
def interface_listing (fuel : Nat) (ps : ParserState) :
    Except ParseError
      (List (List String × Option String) × List (List String × Option String) × ParserState) := do
  let ps1 ← expect_token TOK_INTERFACE ps
  let (inputs, ps2) ←
    if match_token TOK_INPUT_PARAM ps1 then parse_groups fuel (advance_token ps1)
    else pure ([], ps1)
  let (outputs, ps3) ←
    if match_token TOK_OUTPUT_PARAM ps2 then parse_groups fuel (advance_token ps2)
    else pure ([], ps2)
  pure (inputs, outputs, ps3)

/-- The names of the groups of a subsection, in the order they are written. -/
def listed_names (groups : List (List String × Option String)) : List String :=
  groups.flatMap (fun g => g.1)

/-- The name is the function's own name, ignoring case; never so in a procedure. -/
def is_return_slot (func_name : Option String) (name : String) : Bool :=
  match func_name with
  | some f => str_equals_ignore_case name f
  | none => false

/-- The output names that are not the function's own name. -/
def output_names (func_name : Option String) (outputs : List (List String × Option String)) :
    List String :=
  (listed_names outputs).filter (fun o => !is_return_slot func_name o)

/-- The body of the loop of `add_output_names` for one name. -/
def add_output_name (func_name : Option String) (params : List Parameter)
    (o : String × Option String) : List Parameter :=
  if is_return_slot func_name o.1 then params
  else
    match mark_reference o.1 params with
    | some marked => marked
    | none => params ++ [⟨o.1, o.2.getD "INTEGER", true⟩]

/-- The names of the groups of a subsection, each with the type of its group. -/
def typed_names (groups : List (List String × Option String)) : List (String × Option String) :=
  groups.flatMap (fun g => g.1.map (fun name => (name, g.2)))
/-- The by-value parameters made for the names of the input subsection. -/
def by_value_parameters (inputs : List (List String × Option String)) : List Parameter :=
  inputs.flatMap (fun g => make_parameters g.1 g.2 false)

/-- The parameters `params` of the input subsection with their passing modes, given the
output names `outputs`: a parameter becomes by-reference when its name, ignoring case, is
among the output names and no parameter before it (`seen` holds their names) has that name. -/
def marked_inputs (outputs : List String) : List String → List Parameter → List Parameter
  | _, [] => []
  | seen, p :: rest =>
    { p with
      is_reference := p.is_reference ||
        (outputs.any (fun o => str_equals_ignore_case p.name o) &&
          !seen.any (fun s => str_equals_ignore_case s p.name)) } ::
      marked_inputs outputs (seen ++ [p.name]) rest

/-- What the loop over the output names has built after the names `os`. -/
def output_invariant (func_name : Option String) (params : List Parameter)
    (os : List (String × Option String)) (result : List Parameter) : Prop :=
  ∃ added : List Parameter,
    result = marked_inputs ((os.map (fun o => o.1)).filter
      (fun o => !is_return_slot func_name o)) [] params ++ added ∧
    (∀ r, r ∈ added → r.is_reference = true ∧
      r.name ∈ (os.map (fun o => o.1)).filter (fun o => !is_return_slot func_name o) ∧
      ∀ p, p ∈ params → str_equals_ignore_case p.name r.name = false) ∧
    (∀ o, o ∈ (os.map (fun o => o.1)).filter (fun o => !is_return_slot func_name o) →
      (∀ p, p ∈ params → str_equals_ignore_case p.name o = false) →
      ∃ r, r ∈ added ∧ str_equals_ignore_case r.name o = true) ∧
    added.Pairwise (fun r s => str_equals_ignore_case r.name s.name = false)
/-- The interface `INTERFACE ΕΙΣΟΔΟΣ a, b: INTEGER; ΕΞΟΔΟΣ b, c, F: INTEGER;` of a function `F`,
followed by `BEGIN`. -/
def mixed_interface : String := "INTERFACE ΕΙΣΟΔΟΣ a, b: INTEGER; ΕΞΟΔΟΣ b, c, F: INTEGER; BEGIN"

/-! ## Runs of the parser -/

/-- The token array ends in the end-of-input token the lexer adds last. -/
def ends_in_eof (tokens : List Token) : Prop :=
  ∃ init line col, tokens = init ++ [eof_token line col]

/-- A step of the parser over the token array `tokens` went well: it returned with the
cursor at a token of the array, at `lo` or after it, or it stopped with a diagnostic or
with the overrun of the array bounds, not by reading past the tokens and not because the
bound on the iterations of the model was reached. -/
def moves (tokens : List Token) (lo : Nat) : Except ParseError ParserState → Prop
  | .ok ps => ps.tokens = tokens ∧ lo ≤ ps.token_pos ∧ ps.token_pos < tokens.length
  | .error e => e ≠ .out_of_fuel ∧ e ≠ .read_past_end

/-- A parser function that returns a value went well, in the sense of `moves`. -/
def proceeds {α : Type} (tokens : List Token) (lo : Nat)
    (r : Except ParseError (α × ParserState)) : Prop :=
  moves tokens lo (r.map Prod.snd)

/-- A program that declares an array of eleven dimensions. -/
def eleven_dimensions : List Nat :=
  c_bytes ("ALGORITHM T DATA A: ARRAY [1..2,1..2,1..2,1..2,1..2,1..2,1..2,1..2,1..2,1..2,1..2] " ++
    "OF INTEGER; BEGIN END")

/-- The same program with an array of ten dimensions. -/
def ten_dimensions : List Nat :=
  c_bytes ("ALGORITHM T DATA A: ARRAY [1..2,1..2,1..2,1..2,1..2,1..2,1..2,1..2,1..2,1..2] " ++
    "OF INTEGER; BEGIN END")

/-- The number of dimensions of the first declaration of a program. -/
def declared_dimensions : Except ParseError ASTNode → Option Nat
  | .ok (AST_PROGRAM _ (AST_VAR_DECL _ _ bounds :: _) _) => some bounds.length
  | _ => none

/-- The way a run of the parser stopped without a tree, when it did. -/
def stopped : Option (Except ParseError ASTNode) → Option ParseError
  | some (.error e) => some e
  | _ => none

/-! ## A loop whose body assigns the loop variable -/

/-- The loop `FOR i := 1 TO 3 REPEAT PRINT(i, EOLN); i := 10 END_FOR`. -/
def assigning_loop : ASTNode :=
  AST_FOR "i" (int_literal 1) (int_literal 3) (int_literal 1)
    [AST_PRINT [AST_IDENTIFIER "i", AST_IDENTIFIER "EOLN"], AST_ASSIGN "i" [] (int_literal 10)]

/-- The loop `FOR i := 1 TO 3 REPEAT PRINT(i, EOLN) END_FOR`. -/
def printing_loop : ASTNode :=
  AST_FOR "i" (int_literal 1) (int_literal 3) (int_literal 1)
    [AST_PRINT [AST_IDENTIFIER "i", AST_IDENTIFIER "EOLN"]]

/-- What a statement wrote and the value it left in `x`. -/
def output_and_value (run : Except Fault State) (x : String) :
    Except Fault (List OutputItem × Except Fault RuntimeValue) :=
  run.map (fun st => (st.stdout, env_get st.env x))

/-! ## Runs that end -/

/-- The run ended, in a result or in a fatal error of the program: the bound on the
iterations of the model was not reached. -/
def settled {α : Type} (r : Except Fault α) : Prop := r ≠ .error .out_of_fuel

/-- Whatever `ev` settles, `ev'` settles in the same way. -/
def eval_le (ev ev' : Eval) : Prop := ∀ e st, settled (ev e st) → ev' e st = ev e st

/-- Whatever `ex` settles, `ex'` settles in the same way. -/
def exec_le (ex ex' : Exec) : Prop := ∀ s st, settled (ex s st) → ex' s st = ex s st

/-- The loop `FOR i := 2147483647 TO 2147483647 REPEAT END_FOR`, with the default step 1. -/
def loop_to_int_max : ASTNode :=
  AST_FOR "i" (int_literal 2147483647) (int_literal 2147483647) (int_literal 1) []

/-- The statement never ends from the state: whatever the fuel, the bound on the iterations
of the model is reached. -/
def never_ends (s : ASTNode) (st : State) : Prop :=
  ∀ fuel, execute_statement fuel s st = .error .out_of_fuel

/-! ## Source reader: encodings -/

/-- The table `greek_map` of `convert_windows1253_to_utf8_new`, without its end marker. -/
def greek_map : List (Nat × String) :=
  [(0xC1, "Α"), (0xC2, "Β"), (0xC3, "Γ"), (0xC4, "Δ"), (0xC5, "Ε"), (0xC6, "Ζ"), (0xC7, "Η"),
   (0xC8, "Θ"), (0xC9, "Ι"), (0xCA, "Κ"), (0xCB, "Λ"), (0xCC, "Μ"), (0xCD, "Ν"), (0xCE, "Ξ"),
   (0xCF, "Ο"), (0xD0, "Π"), (0xD1, "Ρ"), (0xD3, "Σ"), (0xD4, "Τ"), (0xD5, "Υ"), (0xD6, "Φ"),
   (0xD7, "Χ"), (0xD8, "Ψ"), (0xD9, "Ω"), (0xE1, "α"), (0xE2, "β"), (0xE3, "γ"), (0xE4, "δ"),
   (0xE5, "ε"), (0xE6, "ζ"), (0xE7, "η"), (0xE8, "θ"), (0xE9, "ι"), (0xEA, "κ"), (0xEB, "λ"),
   (0xEC, "μ"), (0xED, "ν"), (0xEE, "ξ"), (0xEF, "ο"), (0xF0, "π"), (0xF1, "ρ"), (0xF2, "ς"),
   (0xF3, "σ"), (0xF4, "τ"), (0xF5, "υ"), (0xF6, "φ"), (0xF7, "χ"), (0xF8, "ψ"), (0xF9, "ω"),
   (0xDC, "ά"), (0xDD, "έ"), (0xDE, "ή"), (0xDF, "ί"), (0xFC, "ό"), (0xFD, "ύ"), (0xFE, "ώ"),
   (0xA1, "Ά"), (0xA2, "Έ"), (0xA3, "Ή"), (0xA4, "Ί"), (0xA5, "Ό"), (0xA6, "Ύ"), (0xA7, "Ώ")]

/-- The search `for (j = 0; greek_map[j].utf8 != NULL; j++)` for a byte: the text of the
first entry with that byte, `none` when `found` stays 0. -/
def greek_map_find (c : Nat) : List (Nat × String) → Option String
  | [] => none
  | entry :: rest => if entry.1 = c then some entry.2 else greek_map_find c rest

/-- What the conversion loop writes for the byte `c`. -/
def convert_byte (c : Nat) : List Nat :=
  if c ≥ 0x80 then
    match greek_map_find c greek_map with
    | some utf8 => c_bytes utf8
    | none => [c]
  else [c]

/-- The function `convert_windows1253_to_utf8_new` on the `size` bytes of `content`: the
bytes of the buffer it returns, before the final NUL. -/
def convert_windows1253_to_utf8_new (content : List Nat) : List Nat :=
  content.flatMap convert_byte

/-- The byte at the head of the list is in the closed range. -/
def head_in_range (bytes : List Nat) (lo hi : Nat) : Bool :=
  match bytes with
  | b :: _ => lo ≤ b && b ≤ hi
  | [] => false

/-- The loop of `is_valid_utf8` over the bytes from index `i` on, with `fuel` bounding its
iterations. -/
def is_valid_utf8_loop : Nat → List Nat → Bool
  | 0, _ => false
  | _ + 1, [] => true
  | fuel + 1, b :: rest =>
    if b ≤ 0x7F then is_valid_utf8_loop fuel rest
    else if 0xC2 ≤ b ∧ b ≤ 0xDF ∧ head_in_range rest 0x80 0xBF then
      is_valid_utf8_loop fuel (rest.drop 1)
    else if b = 0xE0 ∧ head_in_range rest 0xA0 0xBF ∧ head_in_range (rest.drop 1) 0x80 0xBF then
      is_valid_utf8_loop fuel (rest.drop 2)
    else if 0xE1 ≤ b ∧ b ≤ 0xEF ∧ head_in_range rest 0x80 0xBF ∧
        head_in_range (rest.drop 1) 0x80 0xBF then
      is_valid_utf8_loop fuel (rest.drop 2)
    else if b = 0xF0 ∧ head_in_range rest 0x90 0xBF ∧ head_in_range (rest.drop 1) 0x80 0xBF ∧
        head_in_range (rest.drop 2) 0x80 0xBF then
      is_valid_utf8_loop fuel (rest.drop 3)
    else false

/-- The function `is_valid_utf8` on the `len` bytes of `str`. -/
def is_valid_utf8 (str : List Nat) : Bool := is_valid_utf8_loop (str.length + 1) str

/-- The array `utf8_algo` of `read_file`: the word ΑΛΓΟΡΙΘΜΟΣ in UTF-8. -/
def utf8_algo : List Nat :=
  [0xCE, 0x91, 0xCE, 0x9B, 0xCE, 0x93, 0xCE, 0x9F, 0xCE, 0xA1, 0xCE, 0x99, 0xCE, 0x98, 0xCE, 0x9C,
   0xCE, 0x9F, 0xCE, 0xA3]

/-- The word ΑΛΓΟΡΙΘΜΟΣ in the single-byte Greek code page. -/
def win1253_algo : List Nat := [0xC1, 0xCB, 0xC3, 0xCF, 0xD1, 0xC9, 0xC8, 0xCC, 0xCF, 0xD3]

/-- Every byte of the buffer from 0x80 on has an entry in `greek_map`. -/
def all_mapped (content : List Nat) : Prop :=
  ∀ c, c ∈ content → c ≥ 0x80 → (greek_map_find c greek_map).isSome = true

/-- The value `codegen_declaration` takes for a bound of an array: the integer literal, the
integer constant of that name in `gen->env`, and else the default it starts from. -/
def codegen_bound (gen : CodeGenerator) (default : Int) (expr : ASTNode) : Except Fault Int :=
  match expr with
  | AST_LITERAL (VAL_INT n) => .ok n
  | AST_IDENTIFIER name =>
    match gen.env with
    | some env => do
      let val ← env_get env name
      match val with
      | VAL_INT n => pure n
      | _ => pure default
    | none => .ok default
  | _ => .ok default

/-- The loop of `codegen_declaration` over the dimensions of an array, from dimension `i`:
it writes the size of the dimension and registers its bounds. -/
def codegen_dimensions (name : String) (i : Nat) :
    CodeGenerator → List (ASTNode × ASTNode) → Except Fault CodeGenerator
  | gen, [] => .ok gen
  | gen, (start_expr, end_expr) :: rest => do
    let start ← codegen_bound gen 1 start_expr
    let end_ ← codegen_bound gen 100 end_expr
    let size := wrap32 (wrap32 (end_ - start) + 1)
    let gen1 := gen.fprintf ("[" ++ sprintf_d size ++ "]")
    codegen_dimensions name (i + 1) (codegen_register_array gen1 name start end_ i) rest

/-- The loop of `codegen_declaration` that writes the bounds of an array in a comment. -/
def codegen_bounds_comment (name : String) (i : Nat) :
    CodeGenerator → List (ASTNode × ASTNode) → Except Fault CodeGenerator
  | gen, [] => .ok gen
  | gen, _ :: rest => do
    let gen1 := if i > 0 then gen.fprintf ", " else gen
    let start ← codegen_get_array_offset gen1 name i
    let size ← codegen_get_array_size gen1 name i
    codegen_bounds_comment name (i + 1)
      (gen1.fprintf ("[" ++ sprintf_d start ++ ".." ++
        sprintf_d (wrap32 (wrap32 (start + size) - 1)) ++ "]")) rest

/-- The function `codegen_declaration`. -/
def codegen_declaration (gen : CodeGenerator) (decl : ASTNode) : Except Fault CodeGenerator :=
  match decl with
  | AST_CONST_DECL name value => do
    let gen1 := (codegen_indent gen).sanitize name
    let gen2 ← codegen_expression (gen1.fprintf ("#define " ++ gen1.sanitized ++ " ")) value
    pure (gen2.fprintf "\n")
  | AST_VAR_DECL name var_type arr_bound_exprs =>
    let c_type := map_type (some var_type)
    let gen1 := (codegen_indent (codegen_register_var_type gen name c_type)).sanitize name
    if arr_bound_exprs.length > 0 then do
      let gen2 ← codegen_dimensions name 0 (gen1.fprintf (c_type ++ " " ++ gen1.sanitized))
        arr_bound_exprs
      let gen3 ← codegen_bounds_comment name 0 (gen2.fprintf "; /* bounds: ") arr_bound_exprs
      pure (gen3.fprintf " */\n")
    else pure (gen1.fprintf (c_type ++ " " ++ gen1.sanitized ++ ";\n"))
  | _ => .ok gen

/-- The loop over the parameters in the definition of a subroutine, from parameter `i`. -/
def codegen_parameters (i : Nat) : CodeGenerator → List Parameter → CodeGenerator
  | gen, [] => gen
  | gen, param :: params =>
    let gen1 := (if i > 0 then gen.fprintf ", " else gen).sanitize param.name
    codegen_parameters (i + 1)
      (gen1.fprintf (map_type (some param.param_type) ++
        (if param.is_reference then " *" else " ") ++ gen1.sanitized)) params

/-- The loop over the local declarations of a subroutine. -/
def codegen_local_decls : CodeGenerator → List LocalDecl → Except Fault CodeGenerator
  | gen, [] => .ok gen
  | gen, decl :: decls => do
    let gen1 ← codegen_declaration gen (AST_VAR_DECL decl.name decl.var_type [])
    codegen_local_decls gen1 decls

/-- The function `codegen_function` on an `AST_FUNC_DECL` node. -/
def codegen_function (gen : CodeGenerator) (name return_type : String)
    (parameters : List Parameter) (local_decls : List LocalDecl) (body : List ASTNode) :
    Except Fault CodeGenerator := do
  let gen1 := (gen.fprintf "\n").sanitize name
  let gen2 := codegen_parameters 0
    (gen1.fprintf (map_type (some return_type) ++ " " ++ gen1.sanitized ++ "(")) parameters
  let gen3 := gen2.fprintf ") \x7b\n"
  let gen4 := (codegen_indent { gen3 with indent_level := gen3.indent_level + 1 }).sanitize name
  let gen5 := gen4.fprintf (map_type (some return_type) ++ " " ++ gen4.sanitized ++ "_result = 0;\n")
  let gen6 ← codegen_local_decls gen5 local_decls
  let gen7 ← codegen_statements
    { gen6 with in_function := true, current_function_name := some name } body
  let gen8 := (codegen_indent { gen7 with in_function := false }).sanitize name
  let gen9 := gen8.fprintf ("return " ++ gen8.sanitized ++ "_result;\n")
  pure ({ gen9 with indent_level := gen9.indent_level - 1 }.fprintf "\x7d\n")

/-- The function `codegen_procedure` on an `AST_PROC_DECL` node. -/
def codegen_procedure (gen : CodeGenerator) (name : String) (parameters : List Parameter)
    (local_decls : List LocalDecl) (body : List ASTNode) : Except Fault CodeGenerator := do
  let gen1 := (gen.fprintf "\n").sanitize name
  let gen2 := codegen_parameters 0 (gen1.fprintf ("void " ++ gen1.sanitized ++ "(")) parameters
  let gen3 := gen2.fprintf ") \x7b\n"
  let gen4 ← codegen_local_decls { gen3 with indent_level := gen3.indent_level + 1 } local_decls
  let gen5 ← codegen_statements gen4 body
  pure ({ gen5 with indent_level := gen5.indent_level - 1 }.fprintf "\x7d\n")

/-- The first pass of `codegen_program`: each constant is evaluated and defined in
`const_env`, the environment of the state `st`, and declared. -/
def codegen_constants (fuel : Nat) :
    CodeGenerator → State → List ASTNode → Except Fault (CodeGenerator × State)
  | gen, st, [] => .ok (gen, st)
  | gen, st, decl :: decls =>
    match decl with
    | AST_CONST_DECL name value => do
      let (val, st1) ← evaluate fuel value st
      let st2 := { st1 with env := env_define st1.env name val }
      let gen1 ← codegen_declaration { gen with env := some st2.env } decl
      codegen_constants fuel gen1 st2 decls
    | _ => codegen_constants fuel gen st decls

/-- The loop over the parameter types in a forward declaration, from parameter `j`. -/
def codegen_parameter_types (j : Nat) : CodeGenerator → List Parameter → CodeGenerator
  | gen, [] => gen
  | gen, param :: params =>
    let gen1 := if j > 0 then gen.fprintf ", " else gen
    codegen_parameter_types (j + 1)
      (gen1.fprintf (map_type (some param.param_type) ++ (if param.is_reference then "*" else "")))
      params

/-- The loop of `codegen_program` that writes the forward declarations. -/
def codegen_forward_declarations : CodeGenerator → List ASTNode → CodeGenerator
  | gen, [] => gen
  | gen, decl :: decls =>
    match decl with
    | AST_FUNC_DECL name return_type parameters _ _ =>
      let gen1 := gen.sanitize name
      let gen2 := codegen_parameter_types 0
        (gen1.fprintf (map_type (some return_type) ++ " " ++ gen1.sanitized ++ "(")) parameters
      codegen_forward_declarations (gen2.fprintf ");\n") decls
    | AST_PROC_DECL name parameters _ _ =>
      let gen1 := gen.sanitize name
      let gen2 := codegen_parameter_types 0 (gen1.fprintf ("void " ++ gen1.sanitized ++ "("))
        parameters
      codegen_forward_declarations (gen2.fprintf ");\n") decls
    | _ => codegen_forward_declarations gen decls

/-- The loop of `codegen_program` over the global variables.  For a variable that is no
array `parse_program` has freed the text of its type, which `codegen_declaration` reads. -/
def codegen_globals : CodeGenerator → List ASTNode → Except Fault CodeGenerator
  | gen, [] => .ok gen
  | gen, decl :: decls =>
    match decl with
    | AST_VAR_DECL _ _ arr_bound_exprs =>
      if arr_bound_exprs.length > 0 then do
        let gen1 ← codegen_declaration gen decl
        codegen_globals gen1 decls
      else .error .undefined_behaviour
    | _ => codegen_globals gen decls

/-- The loop of `codegen_program` over the functions and procedures. -/
def codegen_subroutines : CodeGenerator → List ASTNode → Except Fault CodeGenerator
  | gen, [] => .ok gen
  | gen, decl :: decls =>
    match decl with
    | AST_FUNC_DECL name return_type parameters local_decls body => do
      let gen1 ← codegen_function gen name return_type parameters local_decls body
      codegen_subroutines gen1 decls
    | AST_PROC_DECL name parameters local_decls body => do
      let gen1 ← codegen_procedure gen name parameters local_decls body
      codegen_subroutines gen1 decls
    | _ => codegen_subroutines gen decls

/-- The function `codegen_program`; `fuel` bounds the evaluation of the constants. -/
def codegen_program (fuel : Nat) (gen : CodeGenerator) (prog : ASTNode) :
    Except Fault CodeGenerator :=
  match prog with
  | AST_PROGRAM name declarations body => do
    let gen1 := ((((({ gen with program := some prog }.fprintf "/*\n").fprintf
      " * Generated C code from EAP pseudocode\n").fprintf (" * Program: " ++ name ++ "\n")).fprintf
      " */\n\n").fprintf "#include <stdio.h>\n").fprintf "#include <stdlib.h>\n"
    let gen2 := ((gen1.fprintf "#include <stdbool.h>\n").fprintf "#include <math.h>\n").fprintf
      "#include <string.h>\n\n"
    let const_env := create_environment none
    let (gen3, _) ← codegen_constants fuel { gen2 with env := some const_env }
      { env := const_env, heap := [], stdout := [], stdin := [] } declarations
    let gen4 := codegen_forward_declarations (gen3.fprintf "\n") declarations
    let gen5 ← codegen_globals (gen4.fprintf "\n") declarations
    let gen6 ← codegen_subroutines gen5 declarations
    let gen7 ← codegen_statements { gen6.fprintf "\nint main() \x7b\n" with indent_level := 1 } body
    pure ((codegen_line gen7 "return 0;").fprintf "\x7d\n")
  | _ => .error .undefined_behaviour

/-- The run `tokenize(code); parse_program(); codegen_program(&gen, program);` of `main` in
transpile mode: the text written, `none` when the lexer or the parser stops. -/
def transpile (fuel : Nat) (code : String) : Option (Except Fault (Option String)) :=
  match parse_source (c_bytes code) with
  | some (.ok prog) => some (emitted (codegen_program fuel codegen_init prog))
  | _ => none

/-- The run `tokenize(code); parse_program(); execute_program(program);` of `main`: what
the program writes on an empty input, `none` when the lexer or the parser stops. -/
def interpret (fuel : Nat) (code : String) : Option (Except Fault (List OutputItem)) :=
  match parse_source (c_bytes code) with
  | some (.ok prog) => some ((execute_program fuel prog []).map (fun st => st.stdout))
  | _ => none


/-! ## Programs for the transpiler -/

/-- The origin and the size the transpiler has recorded for dimension `i` of the array
`name` when it has generated the program. -/
def recorded_dimension (fuel : Nat) (code : String) (name : String) (i : Nat) :
    Option (Except Fault (Int × Int)) :=
  match parse_source (c_bytes code) with
  | some (.ok prog) =>
    some (do
      let gen ← codegen_program fuel codegen_init prog
      let origin ← codegen_get_array_offset gen name i
      let size ← codegen_get_array_size gen name i
      pure (origin, size))
  | _ => none

/-- The origin `from` and the size `to - from + 1` of dimension `i` of the `k`-th array the
evaluator has created when it has executed the program. -/
def evaluated_dimension (fuel : Nat) (code : String) (k i : Nat) :
    Option (Except Fault (Option (Int × Int))) :=
  match parse_source (c_bytes code) with
  | some (.ok prog) =>
    some ((execute_program fuel prog []).map (fun st =>
      (st.heap[k]?).bind (fun arr =>
        (arr.bounds[i]?).map (fun b => (b.from_, b.to_ - b.from_ + 1)))))
  | _ => none

/-- A program that declares `A` from -5 to 5, `B` from 1 to `N-1` and `C` from 0 to `N`,
where `N` is the constant 3. -/
def array_origins_program : String :=
  "ALGORITHM T CONSTANTS N = 3; DATA A: ARRAY [-5..5] OF INTEGER; " ++
    "B: ARRAY [1..N-1] OF INTEGER; C: ARRAY [0..N] OF INTEGER; BEGIN END"

/-- The loop of Scenario B in a program that declares no variable. -/
def descending_loop_program : String :=
  "ALGORITHM T BEGIN FOR i := 3 TO 1 STEP -1 REPEAT PRINT(i, EOLN) END_FOR END"

/-- The generator in the body of `main`, before any statement. -/
def main_generator : CodeGenerator := { codegen_init with indent_level := 1 }

/-- A program with a function `F` and a procedure `P`, each with the output parameter `r`,
which are called with the array element `A[1]`. -/
def reference_calls_program : String :=
  "ALGORITHM T DATA A: ARRAY [1..3] OF INTEGER; " ++
    "FUNCTION F(r): INTEGER INTERFACE ΕΞΟΔΟΣ r: INTEGER; BEGIN r := 7; F := 1 END_FUNCTION " ++
    "PROCEDURE P(r) INTERFACE ΕΞΟΔΟΣ r: INTEGER; BEGIN r := 7 END_PROCEDURE " ++
    "BEGIN P(A[1]); A[2] := F(A[1]); PRINT(A[1], A[2]) END"

/-- A program that prints three integers. -/
def print_integers_program : String := "ALGORITHM T BEGIN PRINT(4, 9, 16) END"

/-- The array and the PRINT statement of Scenario C, with the elements assigned one by one. -/
def print_elements_program : String :=
  "ALGORITHM T DATA A: ARRAY [2..4] OF INTEGER; " ++
    "BEGIN A[2] := 4; A[3] := 9; A[4] := 16; PRINT(A[2], A[3], A[4]) END"

/-- The text `codegen_program` writes before the constants of a program named `T`. -/
def generated_header : String :=
  "/*\n * Generated C code from EAP pseudocode\n * Program: T\n */\n\n" ++
    "#include <stdio.h>\n#include <stdlib.h>\n#include <stdbool.h>\n#include <math.h>\n" ++
    "#include <string.h>\n\n"

/-- The loop `FOR i := 2147483646 TO 2147483647 STEP 2` with the body
`x := 1 DIV (i DIV 2 + 1073741824)`, which divides by zero when `i` is the smallest `int`
(or the one after it) and by 2147483647 when `i` is the start of the loop. -/
def overflowing_loop : ASTNode :=
  AST_FOR "i" (int_literal 2147483646) (int_literal 2147483647) (int_literal 2)
    [AST_ASSIGN "x" [] (AST_BINARY_OP "DIV" (int_literal 1)
      (AST_BINARY_OP "+" (AST_BINARY_OP "DIV" (AST_IDENTIFIER "i") (int_literal 2))
        (int_literal 1073741824)))]

/-! ## A function whose name is assigned by a procedure it calls -/

/-- The function `F(n)` whose body is the call `P(n)`. -/
def calling_function : ASTNode :=
  AST_FUNC_DECL "F" "INTEGER" [⟨"n", "INTEGER", false⟩] [] [AST_CALL "P" [AST_IDENTIFIER "n"] true]

/-- The procedure `P(m)` whose body is `F := 5`. -/
def assigning_procedure : ASTNode :=
  AST_PROC_DECL "P" [⟨"m", "INTEGER", false⟩] [] [AST_ASSIGN "F" [] (int_literal 5)]

/-- A state in which `F` and `P` are declared. -/
def callee_assigns_state : State :=
  { initial_state [] with
    env := env_define_subroutine
      (env_define_subroutine (initial_state []).env "F" calling_function) "P"
      assigning_procedure }

/-- The same declarations as source text, in a program that prints `F(1)`. -/
def callee_assigns_program : String :=
  "ALGORITHM T " ++
    "FUNCTION F(n): INTEGER INTERFACE ΕΙΣΟΔΟΣ n: INTEGER; BEGIN P(n) END_FUNCTION " ++
    "PROCEDURE P(m) INTERFACE ΕΙΣΟΔΟΣ m: INTEGER; BEGIN F := 5 END_PROCEDURE " ++
    "BEGIN PRINT(F(1)) END"

/-- The program with `m := 5` in the place of `F := 5`. -/
def callee_idle_program : String :=
  "ALGORITHM T " ++
    "FUNCTION F(n): INTEGER INTERFACE ΕΙΣΟΔΟΣ n: INTEGER; BEGIN P(n) END_FUNCTION " ++
    "PROCEDURE P(m) INTERFACE ΕΙΣΟΔΟΣ m: INTEGER; BEGIN m := 5 END_PROCEDURE " ++
    "BEGIN PRINT(F(1)) END"

/-! # Theorems -/

theorem validate_array_indices_loop_spec (i : Nat) (indices : List Int) (bounds : List ArrayBound)
    (hlen : indices.length = bounds.length) :
    (validate_array_indices_loop i indices bounds = .ok () ∧ indices_in_bounds bounds indices) ∨
    (∃ e, validate_array_indices_loop i indices bounds = .error (.runtime_error e) ∧
      ¬ indices_in_bounds bounds indices) := by
  induction indices generalizing i bounds with
  | nil =>
    left
    refine ⟨by cases bounds <;> rfl, ?_⟩
    intro k x b hx
    simp at hx
  | cons x xs ih =>
    cases bounds with
    | nil => simp at hlen
    | cons b bs =>
      have hlen2 : xs.length = bs.length := by simpa using hlen
      by_cases hx : x < b.from_ ∨ x > b.to_
      · right
        refine ⟨.index_out_of_bounds x (i + 1) b.from_ b.to_,
          by simp only [validate_array_indices_loop, if_pos hx], ?_⟩
        intro hall
        have := hall 0 x b (by simp) (by simp)
        omega
      · rcases ih (i + 1) bs hlen2 with ⟨hok, hall⟩ | ⟨e, herr, hnot⟩
        · left
          refine ⟨by simp only [validate_array_indices_loop, if_neg hx, hok], ?_⟩
          intro k y c hy hc
          cases k with
          | zero =>
            simp at hy hc
            subst hy hc
            omega
          | succ k => exact hall k y c (by simpa using hy) (by simpa using hc)
        · right
          refine ⟨e, by simp only [validate_array_indices_loop, if_neg hx, herr], ?_⟩
          intro hall
          exact hnot (fun k y c hy hc => hall (k + 1) y c (by simpa using hy) (by simpa using hc))

theorem array_get_of_validate_ok (arr : ArrayObject) (indices : List Int)
    (h : validate_array_indices arr indices = .ok ()) :
    array_get arr indices =
      .ok ((hashmap_get arr.data (array_key indices)).getD (VAL_INT 0)) := by
  unfold array_get
  rw [h]
  cases hashmap_get arr.data (array_key indices) <;> rfl

theorem array_get_of_validate_error (arr : ArrayObject) (indices : List Int) (e : Fault)
    (h : validate_array_indices arr indices = .error e) :
    array_get arr indices = .error e := by
  unfold array_get
  rw [h]
  rfl

/-- C1: `array_get` succeeds exactly when the number of indices equals the number of
dimensions and every index lies in the closed interval declared for its dimension; every
other read ends in a fatal runtime error. -/
theorem C1_array_get_succeeds_iff_in_bounds (arr : ArrayObject) (indices : List Int) :
    ((∃ v, array_get arr indices = .ok v) ↔
      (indices.length = arr.num_dims ∧ indices_in_bounds arr.bounds indices)) ∧
    (¬ (indices.length = arr.num_dims ∧ indices_in_bounds arr.bounds indices) →
      ∃ e, array_get arr indices = .error (.runtime_error e)) := by
  by_cases hlen : indices.length = arr.num_dims
  · rcases validate_array_indices_loop_spec 0 indices arr.bounds hlen with
      ⟨hok, hall⟩ | ⟨e, herr, hnot⟩
    · have hv : validate_array_indices arr indices = .ok () := by
        simp only [validate_array_indices, hlen, ne_eq, not_true_eq_false, if_false, hok]
      refine ⟨⟨fun _ => ⟨hlen, hall⟩, fun _ => ⟨_, array_get_of_validate_ok arr indices hv⟩⟩, ?_⟩
      intro hn
      exact absurd ⟨hlen, hall⟩ hn
    · have hv : validate_array_indices arr indices = .error (.runtime_error e) := by
        simp only [validate_array_indices, hlen, ne_eq, not_true_eq_false, if_false, herr]
      have hg := array_get_of_validate_error arr indices _ hv
      refine ⟨⟨?_, fun h => absurd h.2 hnot⟩, fun _ => ⟨e, hg⟩⟩
      rintro ⟨v, hv2⟩
      rw [hg] at hv2
      cases hv2
  · have hv : validate_array_indices arr indices =
        .error (.runtime_error (.incorrect_number_of_indices indices.length arr.num_dims)) := by
      simp only [validate_array_indices, ne_eq, hlen, not_false_eq_true, if_true]
    have hg := array_get_of_validate_error arr indices _ hv
    refine ⟨⟨?_, fun h => absurd h.1 hlen⟩, fun _ => ⟨_, hg⟩⟩
    rintro ⟨v, hv2⟩
    rw [hg] at hv2
    cases hv2

theorem C1_witness :
    (∃ v, array_get (create_array [⟨2, 4⟩]) [3] = .ok v) ∧
    (∃ e, array_get (create_array [⟨2, 4⟩]) [7] = .error (.runtime_error e)) ∧
    (∃ e, array_get (create_array [⟨2, 4⟩]) [3, 3] = .error (.runtime_error e)) :=
  ⟨(C1_array_get_succeeds_iff_in_bounds (create_array [⟨2, 4⟩]) [3]).1.2
      ⟨rfl, by
        intro k x b hx hb
        cases k with
        | zero =>
          simp [create_array] at hx hb
          subst hx hb
          decide
        | succ k => simp at hx⟩,
   (C1_array_get_succeeds_iff_in_bounds (create_array [⟨2, 4⟩]) [7]).2
      (fun h => absurd (h.2 0 7 ⟨2, 4⟩ rfl rfl).2 (by decide)),
   (C1_array_get_succeeds_iff_in_bounds (create_array [⟨2, 4⟩]) [3, 3]).2
      (fun h => absurd h.1 (by decide))⟩

/-! ## Decimal rendering and array keys -/

theorem digit_char_toNat (d : Nat) (hd : d < 10) : (Char.ofNat (48 + d)).toNat = 48 + d := by
  interval_cases d <;> rfl

theorem digits_value_append (l : List Char) (c : Char) :
    digits_value (l ++ [c]) = digits_value l * 10 + (c.toNat - 48) := by
  simp [digits_value, List.foldl_append]

theorem digits_value_decimal_digits (fuel n : Nat) (h : n < fuel) :
    digits_value (decimal_digits fuel n) = n := by
  induction fuel generalizing n with
  | zero => omega
  | succ fuel ih =>
    unfold decimal_digits
    by_cases h10 : n < 10
    · simp only [if_pos h10]
      simp [digits_value, digit_char_toNat n h10]
    · simp only [if_neg h10]
      rw [digits_value_append, ih (n / 10) (by omega), digit_char_toNat (n % 10) (by omega)]
      omega

theorem decimal_digits_are_digits (fuel n : Nat) :
    ∀ c ∈ decimal_digits fuel n, 48 ≤ c.toNat ∧ c.toNat ≤ 57 := by
  induction fuel generalizing n with
  | zero => intro c hc; simp [decimal_digits] at hc
  | succ fuel ih =>
    intro c hc
    unfold decimal_digits at hc
    by_cases h10 : n < 10
    · simp only [if_pos h10, List.mem_singleton] at hc
      subst hc
      rw [digit_char_toNat n h10]
      omega
    · simp only [if_neg h10, List.mem_append, List.mem_singleton] at hc
      rcases hc with hc | hc
      · exact ih _ c hc
      · subst hc
        rw [digit_char_toNat (n % 10) (by omega)]
        omega

theorem decimal_digits_ne_nil (fuel n : Nat) : decimal_digits (fuel + 1) n ≠ [] := by
  unfold decimal_digits
  by_cases h10 : n < 10
  · simp [if_pos h10]
  · simp [if_neg h10]

theorem sprintf_d_ne_nil (x : Int) : (sprintf_d x).data ≠ [] := by
  unfold sprintf_d
  by_cases hx : x < 0
  · simp [if_pos hx]
  · simp only [if_neg hx]
    exact decimal_digits_ne_nil _ _

theorem sprintf_d_comma_free (x : Int) : ',' ∉ (sprintf_d x).data := by
  unfold sprintf_d
  intro hc
  by_cases hx : x < 0
  · simp only [if_pos hx, List.mem_cons] at hc
    rcases hc with hc | hc
    · exact absurd hc (by decide)
    · have := decimal_digits_are_digits _ _ _ hc
      have h44 : (',' : Char).toNat = 44 := rfl
      omega
  · simp only [if_neg hx] at hc
    have := decimal_digits_are_digits _ _ _ hc
    have h44 : (',' : Char).toNat = 44 := rfl
    omega

theorem sprintf_d_injective (x y : Int) (h : sprintf_d x = sprintf_d y) : x = y := by
  have hd : (sprintf_d x).data = (sprintf_d y).data := by rw [h]
  unfold sprintf_d at hd
  have h45 : ('-' : Char).toNat = 45 := rfl
  by_cases hx : x < 0 <;> by_cases hy : y < 0
  · simp only [if_pos hx, if_pos hy, List.cons.injEq, true_and] at hd
    have := congrArg digits_value hd
    rw [digits_value_decimal_digits _ _ (by omega), digits_value_decimal_digits _ _ (by omega)] at this
    omega
  · simp only [if_pos hx, if_neg hy] at hd
    have hmem : '-' ∈ decimal_digits (y.natAbs + 1) y.natAbs := by rw [← hd]; simp
    have := decimal_digits_are_digits _ _ _ hmem
    omega
  · simp only [if_neg hx, if_pos hy] at hd
    have hmem : '-' ∈ decimal_digits (x.natAbs + 1) x.natAbs := by rw [hd]; simp
    have := decimal_digits_are_digits _ _ _ hmem
    omega
  · simp only [if_neg hx, if_neg hy] at hd
    have := congrArg digits_value hd
    rw [digits_value_decimal_digits _ _ (by omega), digits_value_decimal_digits _ _ (by omega)] at this
    omega

/-- The characters of a key after its first component: each further index preceded by a comma. -/
theorem array_key_loop_data (i : Nat) (hi : i > 0) (key : String) (indices : List Int) :
    (array_key_loop i key indices).data =
      key.data ++ indices.flatMap (fun x => ',' :: (sprintf_d x).data) := by
  induction indices generalizing i key with
  | nil => simp [array_key_loop]
  | cons x xs ih =>
    unfold array_key_loop
    rw [ih (i + 1) (by omega)]
    simp [if_pos hi, String.data_append]

theorem array_key_data_cons (x : Int) (xs : List Int) :
    (array_key (x :: xs)).data =
      (sprintf_d x).data ++ xs.flatMap (fun y => ',' :: (sprintf_d y).data) := by
  unfold array_key array_key_loop
  rw [array_key_loop_data 1 (by omega)]
  simp [String.data_append]

theorem comma_split (a a' r r' : List Char) (ha : ',' ∉ a) (ha' : ',' ∉ a')
    (hr : r = [] ∨ ∃ t, r = ',' :: t) (hr' : r' = [] ∨ ∃ t, r' = ',' :: t)
    (h : a ++ r = a' ++ r') : a = a' ∧ r = r' := by
  induction a generalizing a' with
  | nil =>
    cases a' with
    | nil => exact ⟨rfl, by simpa using h⟩
    | cons c cs =>
      exfalso
      rcases hr with hr | ⟨t, hr⟩
      · subst hr; simp at h
      · subst hr
        simp only [List.nil_append, List.cons_append, List.cons.injEq] at h
        exact ha' (by rw [← h.1]; simp)
  | cons c cs ih =>
    cases a' with
    | nil =>
      exfalso
      rcases hr' with hr' | ⟨t, hr'⟩
      · subst hr'; simp at h
      · subst hr'
        simp only [List.nil_append, List.cons_append, List.cons.injEq] at h
        exact ha (by rw [h.1]; simp)
    | cons c' cs' =>
      simp only [List.cons_append, List.cons.injEq] at h
      have hcs : ',' ∉ cs := fun hm => ha (List.mem_cons_of_mem _ hm)
      have hcs' : ',' ∉ cs' := fun hm => ha' (List.mem_cons_of_mem _ hm)
      obtain ⟨h1, h2⟩ := ih cs' hcs hcs' h.2
      exact ⟨by rw [h.1, h1], h2⟩

theorem key_tail_shape (xs : List Int) :
    xs.flatMap (fun y => ',' :: (sprintf_d y).data) = [] ∨
      ∃ t, xs.flatMap (fun y => ',' :: (sprintf_d y).data) = ',' :: t := by
  cases xs with
  | nil => left; rfl
  | cons x xs =>
    right
    exact ⟨(sprintf_d x).data ++ xs.flatMap (fun y => ',' :: (sprintf_d y).data),
      by simp [List.flatMap_cons]⟩

theorem key_tail_injective (xs ys : List Int)
    (h : xs.flatMap (fun y => ',' :: (sprintf_d y).data) =
      ys.flatMap (fun y => ',' :: (sprintf_d y).data)) : xs = ys := by
  induction xs generalizing ys with
  | nil =>
    cases ys with
    | nil => rfl
    | cons y ys => simp [List.flatMap_cons] at h
  | cons x xs ih =>
    cases ys with
    | nil => simp [List.flatMap_cons] at h
    | cons y ys =>
      simp only [List.flatMap_cons, List.cons_append, List.cons.injEq, true_and] at h
      obtain ⟨h1, h2⟩ := comma_split _ _ _ _ (sprintf_d_comma_free x) (sprintf_d_comma_free y)
        (key_tail_shape xs) (key_tail_shape ys) h
      rw [sprintf_d_injective x y (String.ext h1), ih ys h2]

theorem array_key_injective (t t' : List Int) (h : array_key t = array_key t') : t = t' := by
  have hd : (array_key t).data = (array_key t').data := by rw [h]
  cases t with
  | nil =>
    cases t' with
    | nil => rfl
    | cons y ys =>
      exfalso
      rw [array_key_data_cons] at hd
      have : (array_key []).data = [] := rfl
      rw [this] at hd
      have := sprintf_d_ne_nil y
      cases hy : (sprintf_d y).data with
      | nil => exact this hy
      | cons c cs => rw [hy] at hd; simp at hd
  | cons x xs =>
    cases t' with
    | nil =>
      exfalso
      rw [array_key_data_cons] at hd
      have : (array_key []).data = [] := rfl
      rw [this] at hd
      have := sprintf_d_ne_nil x
      cases hx : (sprintf_d x).data with
      | nil => exact this hx
      | cons c cs => rw [hx] at hd; simp at hd
    | cons y ys =>
      rw [array_key_data_cons, array_key_data_cons] at hd
      obtain ⟨h1, h2⟩ := comma_split _ _ _ _ (sprintf_d_comma_free x) (sprintf_d_comma_free y)
        (key_tail_shape xs) (key_tail_shape ys) hd
      rw [sprintf_d_injective x y (String.ext h1), key_tail_injective xs ys h2]

/-! ## Hash map and array cells -/

theorem copy_runtime_value_eq (v : RuntimeValue) : copy_runtime_value v = v := by
  cases v <;> rfl

theorem hashmap_get_chain_of_set (key key' : String) (value : RuntimeValue)
    (chain chain' : List HashNode) (h : hashmap_set_chain key value chain = some chain') :
    hashmap_get_chain key' chain' =
      if key' = key then some value else hashmap_get_chain key' chain := by
  induction chain generalizing chain' with
  | nil => simp [hashmap_set_chain] at h
  | cons node rest ih =>
    unfold hashmap_set_chain at h
    by_cases hk : node.key = key
    · simp only [if_pos hk, Option.some.injEq] at h
      subst h
      by_cases hk' : key' = key
      · simp [hashmap_get_chain, hk, hk']
      · have : ¬ node.key = key' := fun hh => hk' (by rw [← hh, hk])
        simp [hashmap_get_chain, hk', this]
    · simp only [if_neg hk, Option.map_eq_some'] at h
      obtain ⟨r, hr, hc⟩ := h
      subst hc
      have := ih r hr
      by_cases hk' : key' = key
      · have hne : ¬ node.key = key' := fun hh => hk (by rw [hh, hk'])
        simp only [hashmap_get_chain, if_neg hne, this]
      · by_cases hn : node.key = key'
        · simp [hashmap_get_chain, hn, hk']
        · simp only [hashmap_get_chain, if_neg hn, this]

theorem hashmap_set_buckets (map : HashMap) (key : String) (value : RuntimeValue) :
    (hashmap_set map key value).buckets =
      Function.update map.buckets (hash_string key)
        ((hashmap_set_chain key value (map.buckets (hash_string key))).getD
          (⟨key, value⟩ :: map.buckets (hash_string key))) := by
  dsimp only [hashmap_set]
  cases hashmap_set_chain key value (map.buckets (hash_string key)) <;> rfl

theorem hashmap_get_set (map : HashMap) (key key' : String) (value : RuntimeValue) :
    hashmap_get (hashmap_set map key value) key' =
      if key' = key then some value else hashmap_get map key' := by
  unfold hashmap_get
  rw [hashmap_set_buckets]
  by_cases hh : hash_string key' = hash_string key
  · rw [hh, Function.update_same]
    cases hs : hashmap_set_chain key value (map.buckets (hash_string key)) with
    | some chain =>
      exact hashmap_get_chain_of_set key key' value _ chain hs
    | none =>
      by_cases hk : key' = key
      · simp [hashmap_get_chain, hk]
      · have : ¬ key = key' := fun h => hk h.symm
        simp [hashmap_get_chain, hk, this]
  · have hk : key' ≠ key := fun h => hh (by rw [h])
    rw [Function.update_noteq hh]
    simp [hk]

theorem validate_array_indices_array_set (arr : ArrayObject) (t t' : List Int) (v : RuntimeValue) :
    validate_array_indices (array_set arr t v) t' = validate_array_indices arr t' := rfl

theorem validate_array_indices_ok_of_in_bounds (arr : ArrayObject) (t : List Int)
    (hlen : t.length = arr.num_dims) (hin : indices_in_bounds arr.bounds t) :
    validate_array_indices arr t = .ok () := by
  rcases validate_array_indices_loop_spec 0 t arr.bounds hlen with ⟨hok, _⟩ | ⟨e, _, hnot⟩
  · simp only [validate_array_indices, hlen, ne_eq, not_true_eq_false, if_false, hok]
  · exact absurd hin hnot

theorem array_get_array_set (arr : ArrayObject) (t t' : List Int) (v : RuntimeValue)
    (hlen : t'.length = arr.num_dims) (hin : indices_in_bounds arr.bounds t') :
    array_get (array_set arr t v) t' = if t' = t then .ok v else array_get arr t' := by
  have hv := validate_array_indices_ok_of_in_bounds arr t' hlen hin
  rw [array_get_of_validate_ok _ _ (by rw [validate_array_indices_array_set]; exact hv),
    array_get_of_validate_ok _ _ hv]
  simp only [array_set, hashmap_get_set, copy_runtime_value_eq]
  by_cases ht : t' = t
  · simp [ht]
  · have : array_key t' ≠ array_key t := fun h => ht (array_key_injective _ _ h)
    simp [ht, this]

/-- C3: an array is a total map with default integer zero on its in-bounds index tuples:
a read returns the value last stored at that tuple, a store at `t` leaves the read at every
other tuple `t'` unchanged, the comma-joined decimal key is injective, and a cell of a
freshly created array reads integer 0. -/
theorem C3_array_is_total_map_with_default_zero (arr : ArrayObject) (t t' : List Int)
    (v : RuntimeValue)
    (ht : t.length = arr.num_dims ∧ indices_in_bounds arr.bounds t)
    (ht' : t'.length = arr.num_dims ∧ indices_in_bounds arr.bounds t') :
    array_get (array_set arr t v) t = .ok v ∧
    (t' ≠ t → array_get (array_set arr t v) t' = array_get arr t') ∧
    (array_key t = array_key t' → t = t') ∧
    array_get (create_array arr.bounds) t = .ok (VAL_INT 0) := by
  refine ⟨?_, ?_, array_key_injective t t', ?_⟩
  · rw [array_get_array_set arr t t v ht.1 ht.2]
    simp
  · intro hne
    rw [array_get_array_set arr t t' v ht'.1 ht'.2]
    simp [hne]
  · rw [array_get_of_validate_ok _ _
      (validate_array_indices_ok_of_in_bounds (create_array arr.bounds) t ht.1 ht.2)]
    rfl

theorem C3_witness :
    array_get (array_set (create_array [⟨2, 4⟩]) [3] (VAL_INT 9)) [3] = .ok (VAL_INT 9) ∧
    (([2] : List Int) ≠ [3] →
      array_get (array_set (create_array [⟨2, 4⟩]) [3] (VAL_INT 9)) [2] =
        array_get (create_array [⟨2, 4⟩]) [2]) ∧
    (array_key [3] = array_key [2] → ([3] : List Int) = [2]) ∧
    array_get (create_array (create_array [⟨2, 4⟩]).bounds) [3] = .ok (VAL_INT 0) :=
  C3_array_is_total_map_with_default_zero (create_array [⟨2, 4⟩]) [3] [2] (VAL_INT 9)
    ⟨rfl, by
      intro k x b hx hb
      cases k with
      | zero =>
        simp [create_array] at hx hb
        subst hx hb
        decide
      | succ k => simp at hx⟩
    ⟨rfl, by
      intro k x b hx hb
      cases k with
      | zero =>
        simp [create_array] at hx hb
        subst hx hb
        decide
      | succ k => simp at hx⟩

/-- C2: the indexed assignments `A[7] := 1` and `A[3, 3] := 5` to an array declared `[2..4]`
run to completion and leave both values in the array's cell table. -/
theorem C2_out_of_bounds_assignment_is_stored :
    (execute_program 3 out_of_bounds_assignment_program []).map
      (fun st => st.heap.map
        (fun arr => (arr.bounds, hashmap_get arr.data "7", hashmap_get arr.data "3,3"))) =
      .ok [([⟨2, 4⟩], some (VAL_INT 1), some (VAL_INT 5))] := by
  decide

/-! ## Binary operators -/

theorem evaluate_binary_op (fuel : Nat) (op : String) (left right : ASTNode)
    (st st1 st2 : State) (l r : RuntimeValue)
    (hl : evaluate fuel left st = .ok (l, st1)) (hr : evaluate fuel right st1 = .ok (r, st2)) :
    evaluate (fuel + 1) (AST_BINARY_OP op left right) st =
      (binary_op op l r).map (fun v => (v, st2)) := by
  simp only [evaluate, hl, hr, bind, Except.bind]
  cases binary_op op l r <;> rfl

theorem wrap32_of_in_range (n : Int) (h1 : INT_MIN ≤ n) (h2 : n ≤ INT_MAX) : wrap32 n = n := by
  unfold wrap32
  unfold INT_MIN at h1
  unfold INT_MAX at h2
  omega

theorem arith_of_numeric (fr : Double → Double → Double) (fi : Int → Int → Int)
    (l r : RuntimeValue) (hl : is_numeric l) (hr : is_numeric r) :
    arith fr fi l r =
      .ok (if is_real l || is_real r then VAL_REAL (fr (to_real l) (to_real r))
        else VAL_INT (wrap32 (fi (to_int l) (to_int r)))) := by
  rcases hl with ⟨a, rfl⟩ | ⟨a, rfl⟩ <;> rcases hr with ⟨b, rfl⟩ | ⟨b, rfl⟩ <;> rfl

/-- C4: on integer or real operands `+`, `-` and `*` give a real as soon as one operand is
real and otherwise the 32-bit integer sum, difference or product; `/` with a non-zero
right operand always gives a real. -/
theorem C4_arithmetic_result_kind (fuel : Nat) (left right : ASTNode) (st st1 st2 : State)
    (l r : RuntimeValue)
    (hl : evaluate fuel left st = .ok (l, st1)) (hr : evaluate fuel right st1 = .ok (r, st2))
    (hnl : is_numeric l) (hnr : is_numeric r) :
    evaluate (fuel + 1) (AST_BINARY_OP "+" left right) st =
      .ok (if is_real l || is_real r then VAL_REAL (to_real l + to_real r)
        else VAL_INT (wrap32 (to_int l + to_int r)), st2) ∧
    evaluate (fuel + 1) (AST_BINARY_OP "-" left right) st =
      .ok (if is_real l || is_real r then VAL_REAL (to_real l - to_real r)
        else VAL_INT (wrap32 (to_int l - to_int r)), st2) ∧
    evaluate (fuel + 1) (AST_BINARY_OP "*" left right) st =
      .ok (if is_real l || is_real r then VAL_REAL (to_real l * to_real r)
        else VAL_INT (wrap32 (to_int l * to_int r)), st2) ∧
    (to_real r ≠ 0 →
      evaluate (fuel + 1) (AST_BINARY_OP "/" left right) st =
        .ok (VAL_REAL (to_real l / to_real r), st2)) := by
  refine ⟨?_, ?_, ?_, ?_⟩
  · rw [evaluate_binary_op fuel "+" left right st st1 st2 l r hl hr]
    have : binary_op "+" l r = arith (fun a b => a + b) (fun a b => a + b) l r := by
      simp [binary_op]
    rw [this, arith_of_numeric _ _ l r hnl hnr]
    rfl
  · rw [evaluate_binary_op fuel "-" left right st st1 st2 l r hl hr]
    have : binary_op "-" l r = arith (fun a b => a - b) (fun a b => a - b) l r := by
      simp [binary_op]
    rw [this, arith_of_numeric _ _ l r hnl hnr]
    rfl
  · rw [evaluate_binary_op fuel "*" left right st st1 st2 l r hl hr]
    have : binary_op "*" l r = arith (fun a b => a * b) (fun a b => a * b) l r := by
      simp [binary_op]
    rw [this, arith_of_numeric _ _ l r hnl hnr]
    rfl
  · intro hz
    rw [evaluate_binary_op fuel "/" left right st st1 st2 l r hl hr]
    have : binary_op "/" l r = .ok (VAL_REAL (to_real l / to_real r)) := by
      rcases hnl with ⟨a, rfl⟩ | ⟨a, rfl⟩ <;> rcases hnr with ⟨b, rfl⟩ | ⟨b, rfl⟩ <;>
        simp [binary_op, real_or_int_val, to_real, bind, Except.bind, pure, Except.pure] at hz ⊢ <;>
        exact hz
    rw [this]
    rfl

theorem C4_witness :
    evaluate 3 scenario_a_expression scenario_a_state = .ok (VAL_INT 10, scenario_a_state) :=
  (C4_arithmetic_result_kind 2
    (AST_BINARY_OP "*" (AST_IDENTIFIER "N") (AST_IDENTIFIER "N")) (int_literal 1)
    scenario_a_state scenario_a_state scenario_a_state (VAL_INT 9) (VAL_INT 1)
    (by rfl) (by rfl) (Or.inl ⟨9, rfl⟩) (Or.inl ⟨1, rfl⟩)).1

/-! ## Division -/

theorem env_get_chain_of_set (upper upper' : String) (value : RuntimeValue)
    (chain chain' : List EnvEntry) (h : env_set_chain upper value chain = some chain') :
    env_get_chain upper' chain' =
      if upper' = upper then some value else env_get_chain upper' chain := by
  induction chain generalizing chain' with
  | nil => simp [env_set_chain] at h
  | cons entry rest ih =>
    unfold env_set_chain at h
    by_cases hk : entry.name = upper
    · simp only [if_pos hk, Option.some.injEq] at h
      subst h
      by_cases hk' : upper' = upper
      · simp [env_get_chain, hk, hk', copy_runtime_value_eq]
      · have : ¬ entry.name = upper' := fun hh => hk' (by rw [← hh, hk])
        simp [env_get_chain, hk', this]
    · simp only [if_neg hk, Option.map_eq_some'] at h
      obtain ⟨r, hr, hc⟩ := h
      subst hc
      have := ih r hr
      by_cases hk' : upper' = upper
      · have hne : ¬ entry.name = upper' := fun hh => hk (by rw [hh, hk'])
        simp only [env_get_chain, if_neg hne, this]
      · by_cases hn : entry.name = upper'
        · simp [env_get_chain, hn, hk']
        · simp only [env_get_chain, if_neg hn, this]

theorem env_get_chain_of_set_none (upper : String) (value : RuntimeValue)
    (chain : List EnvEntry) (h : env_set_chain upper value chain = none) :
    env_get_chain upper chain = none := by
  induction chain with
  | nil => rfl
  | cons entry rest ih =>
    unfold env_set_chain at h
    by_cases hk : entry.name = upper
    · simp [if_pos hk] at h
    · simp only [if_neg hk, Option.map_eq_none'] at h
      simp only [env_get_chain, if_neg hk, ih h]

theorem env_get_chain_update (entries : Nat → List EnvEntry) (upper upper' : String)
    (value : RuntimeValue) (chain : List EnvEntry)
    (h : env_set_chain upper value (entries (hash_string upper)) = some chain) :
    env_get_chain upper' (Function.update entries (hash_string upper) chain (hash_string upper')) =
      if upper' = upper then some value
      else env_get_chain upper' (entries (hash_string upper')) := by
  by_cases hh : hash_string upper' = hash_string upper
  · rw [hh, Function.update_same, env_get_chain_of_set upper upper' value _ chain h]
  · have hk : upper' ≠ upper := fun e => hh (by rw [e])
    rw [Function.update_noteq hh]
    simp [hk]

theorem env_get_chain_update_cons (entries : Nat → List EnvEntry) (upper upper' : String)
    (value : RuntimeValue) (sub : Option ASTNode) :
    env_get_chain upper' (Function.update entries (hash_string upper)
        (⟨upper, value, sub⟩ :: entries (hash_string upper)) (hash_string upper')) =
      if upper' = upper then some value
      else env_get_chain upper' (entries (hash_string upper')) := by
  by_cases hh : hash_string upper' = hash_string upper
  · rw [hh, Function.update_same]
    by_cases hk : upper' = upper
    · simp [env_get_chain, hk]
    · have : ¬ upper = upper' := fun e => hk e.symm
      simp [env_get_chain, hk, this]
  · have hk : upper' ≠ upper := fun e => hh (by rw [e])
    rw [Function.update_noteq hh]
    simp [hk]

/-- The chain `env_get` searches first, after `env_define`. -/
theorem env_define_entries (env : Environment) (name name' : String) (value : RuntimeValue) :
    env_get_chain (str_upper name')
        ((env_define env name value).entries (hash_string (str_upper name'))) =
      if str_upper name' = str_upper name then some value
      else env_get_chain (str_upper name') (env.entries (hash_string (str_upper name'))) := by
  dsimp only [env_define]
  cases hs : env_set_chain (str_upper name) value (env.entries (hash_string (str_upper name))) with
  | some chain =>
    cases env <;>
      exact env_get_chain_update _ (str_upper name) (str_upper name') value chain hs
  | none =>
    cases env <;>
      simpa [copy_runtime_value_eq] using
        env_get_chain_update_cons _ (str_upper name) (str_upper name') value none

theorem env_define_parent (env : Environment) (name : String) (value : RuntimeValue) :
    (env_define env name value).parent = env.parent := by
  dsimp only [env_define]
  cases env_set_chain (str_upper name) value (env.entries (hash_string (str_upper name))) <;>
    cases env <;> rfl

theorem env_get_eq (env : Environment) (name : String) :
    env_get env name =
      match env_get_chain (str_upper name) (env.entries (hash_string (str_upper name))) with
      | some v => .ok v
      | none =>
        match env.parent with
        | some p => env_get p name
        | none => .error (.runtime_error (.undefined_variable name)) := by
  cases env <;> rfl

theorem env_get_env_define (env : Environment) (name name' : String) (value : RuntimeValue) :
    env_get (env_define env name value) name' =
      if str_upper name' = str_upper name then .ok value else env_get env name' := by
  rw [env_get_eq, env_define_entries, env_define_parent]
  by_cases hk : str_upper name' = str_upper name
  · simp [hk]
  · simp only [if_neg hk]
    rw [env_get_eq env name']

theorem env_get_env_assign (env : Environment) (name name' : String) (value : RuntimeValue) :
    env_get (env_assign env name value) name' =
      if str_upper name' = str_upper name then .ok value else env_get env name' := by
  induction env with
  | root entries =>
    unfold env_assign
    cases hs : env_set_chain (str_upper name) value (entries (hash_string (str_upper name))) with
    | some chain =>
      simp only [env_get]
      rw [env_get_chain_update entries _ _ value chain hs]
      by_cases hk : str_upper name' = str_upper name <;> simp [hk]
    | none => exact env_get_env_define _ _ _ _
  | child entries parent ih =>
    unfold env_assign
    cases hs : env_set_chain (str_upper name) value (entries (hash_string (str_upper name))) with
    | some chain =>
      simp only [env_get]
      rw [env_get_chain_update entries _ _ value chain hs]
      by_cases hk : str_upper name' = str_upper name <;> simp [hk]
    | none =>
      simp only [env_get]
      by_cases hk : str_upper name' = str_upper name
      · rw [hk, env_get_chain_of_set_none _ value _ hs]
        simp only [if_pos]
        rw [ih]
        simp [hk]
      · simp only [if_neg hk]
        rw [ih]
        simp [hk]

/-! ## For loops -/

theorem for_loop_count_pos_step (start end_ step : Int) (hs : step > 0) (hle : start ≤ end_) :
    for_loop_count start end_ step = for_loop_count (start + step) end_ step + 1 := by
  unfold for_loop_count
  simp only [if_pos hs, if_pos hle]
  by_cases h2 : start + step ≤ end_
  · simp only [if_pos h2]
    have e : end_ - start = (end_ - (start + step)) + 1 * step := by ring
    rw [e, Int.add_mul_ediv_right _ _ (by omega : step ≠ 0)]
    have : 0 ≤ (end_ - (start + step)) / step := Int.ediv_nonneg (by omega) (by omega)
    omega
  · simp only [if_neg h2]
    have : (end_ - start) / step = 0 := Int.ediv_eq_zero_of_lt (by omega) (by omega)
    rw [this]
    rfl

theorem for_loop_count_neg_step (start end_ step : Int) (hs : step < 0) (hge : start ≥ end_) :
    for_loop_count start end_ step = for_loop_count (start + step) end_ step + 1 := by
  unfold for_loop_count
  have hn : ¬ step > 0 := by omega
  simp only [if_neg hn, if_pos hs, if_pos hge]
  by_cases h2 : start + step ≥ end_
  · simp only [if_pos h2]
    have e : start - end_ = (start + step - end_) + 1 * (-step) := by ring
    rw [e, Int.add_mul_ediv_right _ _ (by omega : -step ≠ 0)]
    have : 0 ≤ (start + step - end_) / (-step) := Int.ediv_nonneg (by omega) (by omega)
    omega
  · simp only [if_neg h2]
    have : (start - end_) / (-step) = 0 := Int.ediv_eq_zero_of_lt (by omega) (by omega)
    rw [this]
    rfl

theorem for_loop_values_of_count_succ (start end_ step : Int)
    (h : for_loop_count start end_ step = for_loop_count (start + step) end_ step + 1) :
    for_loop_values start end_ step = start :: for_loop_values (start + step) end_ step := by
  unfold for_loop_values
  rw [h, List.range_succ_eq_map]
  simp only [List.map_cons, List.map_map, Nat.cast_zero, zero_mul, add_zero, List.cons.injEq,
    true_and]
  apply List.map_congr_left
  intro k _
  simp only [Function.comp, Nat.cast_succ]
  ring

theorem for_loop_values_nil_pos (start end_ step : Int) (hs : step > 0) (h : ¬ start ≤ end_) :
    for_loop_values start end_ step = [] := by
  simp [for_loop_values, for_loop_count, hs, h]

theorem for_loop_values_nil_neg (start end_ step : Int) (hs : step < 0) (h : ¬ start ≥ end_) :
    for_loop_values start end_ step = [] := by
  have hn : ¬ step > 0 := by omega
  simp only [for_loop_values, for_loop_count, if_neg hn, if_pos hs, if_neg h, List.range_zero,
    List.map_nil]

theorem for_loop_up_eq (ex : Exec) (loop_variable : String) (body : List ASTNode)
    (end_ step : Int) (hs : step > 0) (hmax : end_ + step ≤ INT_MAX)
    (n : Nat) (current : Int) (st : State) (hmin : INT_MIN ≤ current)
    (hn : for_loop_count current end_ step < n) :
    for_loop_up ex loop_variable body end_ step n current st =
      (for_loop_values current end_ step).foldlM (for_loop_iteration ex loop_variable body) st := by
  induction n generalizing current st with
  | zero => omega
  | succ n ih =>
    unfold for_loop_up
    by_cases hle : current ≤ end_
    · have hc := for_loop_count_pos_step current end_ step hs hle
      rw [for_loop_values_of_count_succ _ _ _ hc]
      have hw : wrap32 (current + step) = current + step :=
        wrap32_of_in_range _ (by omega) (by omega)
      simp only [if_pos hle, hw, List.foldlM_cons, for_loop_iteration, bind, Except.bind]
      cases execute_statements ex body
          { st with env := env_assign st.env loop_variable (VAL_INT current) } with
      | error e => rfl
      | ok st2 => exact ih (current + step) st2 (by omega) (by omega)
    · rw [for_loop_values_nil_pos _ _ _ hs hle]
      simp only [if_neg hle]
      rfl

theorem for_loop_down_eq (ex : Exec) (loop_variable : String) (body : List ASTNode)
    (end_ step : Int) (hs : step < 0) (hmin : INT_MIN ≤ end_ + step)
    (n : Nat) (current : Int) (st : State) (hmax : current ≤ INT_MAX)
    (hn : for_loop_count current end_ step < n) :
    for_loop_down ex loop_variable body end_ step n current st =
      (for_loop_values current end_ step).foldlM (for_loop_iteration ex loop_variable body) st := by
  induction n generalizing current st with
  | zero => omega
  | succ n ih =>
    unfold for_loop_down
    by_cases hge : current ≥ end_
    · have hc := for_loop_count_neg_step current end_ step hs hge
      rw [for_loop_values_of_count_succ _ _ _ hc]
      have hw : wrap32 (current + step) = current + step :=
        wrap32_of_in_range _ (by omega) (by omega)
      simp only [if_pos hge, hw, List.foldlM_cons, for_loop_iteration, bind, Except.bind]
      cases execute_statements ex body
          { st with env := env_assign st.env loop_variable (VAL_INT current) } with
      | error e => rfl
      | ok st2 => exact ih (current + step) st2 (by omega) (by omega)
    · rw [for_loop_values_nil_neg _ _ _ hs hge]
      simp only [if_neg hge]
      rfl

theorem for_loop_values_length (start end_ step : Int) :
    (for_loop_values start end_ step).length = for_loop_count start end_ step := by
  simp [for_loop_values]

/-- The `k`-th value of the list is `start + k * step`, and it exists exactly when that
value passes the loop test. -/
theorem for_loop_values_getElem? (start end_ step : Int) (hs : step ≠ 0) (k : Nat) :
    (for_loop_values start end_ step)[k]? =
      if for_loop_test end_ step (start + (k : Int) * step) then some (start + (k : Int) * step)
      else none := by
  have hiff : k < for_loop_count start end_ step ↔
      for_loop_test end_ step (start + (k : Int) * step) := by
    unfold for_loop_count for_loop_test
    by_cases hp : step > 0
    · simp only [if_pos hp]
      have hk : (0 : Int) ≤ (k : Int) * step := mul_nonneg (by omega) (by omega)
      by_cases hle : start ≤ end_
      · simp only [if_pos hle]
        have hq : 0 ≤ (end_ - start) / step := Int.ediv_nonneg (by omega) (by omega)
        have hiff2 := @Int.le_ediv_iff_mul_le (k : Int) (end_ - start) step hp
        constructor
        · intro h
          have : (k : Int) ≤ (end_ - start) / step := by omega
          have := hiff2.1 this
          omega
        · intro h
          have : (k : Int) ≤ (end_ - start) / step := hiff2.2 (by omega)
          omega
      · simp only [if_neg hle]
        constructor
        · intro h; omega
        · intro h; omega
    · have hneg : step < 0 := by omega
      simp only [if_neg hp, if_pos hneg]
      have hk : (0 : Int) ≤ (k : Int) * (-step) := mul_nonneg (by omega) (by omega)
      have hk2 : (k : Int) * (-step) = -((k : Int) * step) := by ring
      by_cases hge : start ≥ end_
      · simp only [if_pos hge]
        have hq : 0 ≤ (start - end_) / (-step) := Int.ediv_nonneg (by omega) (by omega)
        have hiff2 := @Int.le_ediv_iff_mul_le (k : Int) (start - end_) (-step) (by omega)
        constructor
        · intro h
          have : (k : Int) ≤ (start - end_) / (-step) := by omega
          have := hiff2.1 this
          omega
        · intro h
          have : (k : Int) ≤ (start - end_) / (-step) := hiff2.2 (by omega)
          omega
      · simp only [if_neg hge]
        constructor
        · intro h; omega
        · intro h; omega
  by_cases hk : k < for_loop_count start end_ step
  · rw [if_pos (hiff.1 hk)]
    simp [for_loop_values, hk]
  · rw [if_neg (fun h => hk (hiff.2 h))]
    simp [for_loop_values]
    omega

/-! ## For loops in machine arithmetic -/

theorem for_loop_counter_shift (start step : Int) (k : Nat) :
    for_loop_counter start step (k + 1) = for_loop_counter (wrap32 (start + step)) step k := by
  induction k with
  | zero => rfl
  | succ k ih =>
    show wrap32 (for_loop_counter start step (k + 1) + step) = _
    rw [ih]
    rfl

theorem for_loop_counter_range (start step : Int) (n : Nat) :
    (List.range (n + 1)).map (for_loop_counter start step) =
      start :: (List.range n).map (for_loop_counter (wrap32 (start + step)) step) := by
  rw [List.range_succ_eq_map]
  simp only [List.map_cons, List.map_map, List.cons.injEq]
  refine ⟨rfl, ?_⟩
  apply List.map_congr_left
  intro k _
  exact for_loop_counter_shift start step k

theorem for_loop_up_trace (ex : Exec) (loop_variable : String) (body : List ASTNode)
    (end_ step : Int) (n : Nat) :
    ∀ (budget : Nat) (current : Int) (st : State), n < budget →
      (∀ k, k < n → for_loop_counter current step k ≤ end_) →
      ¬ for_loop_counter current step n ≤ end_ →
      for_loop_up ex loop_variable body end_ step budget current st =
        ((List.range n).map (for_loop_counter current step)).foldlM
          (for_loop_iteration ex loop_variable body) st := by
  induction n with
  | zero =>
    intro budget current st hb _ hfail
    obtain ⟨m, rfl⟩ : ∃ m, budget = m + 1 := ⟨budget - 1, by omega⟩
    have hf : ¬ current ≤ end_ := hfail
    simp only [for_loop_up, if_neg hf]
    rfl
  | succ n ih =>
    intro budget current st hb hpass hfail
    obtain ⟨m, rfl⟩ : ∃ m, budget = m + 1 := ⟨budget - 1, by omega⟩
    have h0 : current ≤ end_ := hpass 0 (by omega)
    rw [for_loop_counter_range]
    simp only [for_loop_up, if_pos h0, List.foldlM_cons, for_loop_iteration, bind, Except.bind]
    cases execute_statements ex body
        { st with env := env_assign st.env loop_variable (VAL_INT current) } with
    | error e => rfl
    | ok st2 =>
      exact ih m (wrap32 (current + step)) st2 (by omega)
        (fun k hk => by rw [← for_loop_counter_shift]; exact hpass (k + 1) (by omega))
        (by rw [← for_loop_counter_shift]; exact hfail)

theorem for_loop_down_trace (ex : Exec) (loop_variable : String) (body : List ASTNode)
    (end_ step : Int) (n : Nat) :
    ∀ (budget : Nat) (current : Int) (st : State), n < budget →
      (∀ k, k < n → for_loop_counter current step k ≥ end_) →
      ¬ for_loop_counter current step n ≥ end_ →
      for_loop_down ex loop_variable body end_ step budget current st =
        ((List.range n).map (for_loop_counter current step)).foldlM
          (for_loop_iteration ex loop_variable body) st := by
  induction n with
  | zero =>
    intro budget current st hb _ hfail
    obtain ⟨m, rfl⟩ : ∃ m, budget = m + 1 := ⟨budget - 1, by omega⟩
    have hf : ¬ current ≥ end_ := hfail
    simp only [for_loop_down, if_neg hf]
    rfl
  | succ n ih =>
    intro budget current st hb hpass hfail
    obtain ⟨m, rfl⟩ : ∃ m, budget = m + 1 := ⟨budget - 1, by omega⟩
    have h0 : current ≥ end_ := hpass 0 (by omega)
    rw [for_loop_counter_range]
    simp only [for_loop_down, if_pos h0, List.foldlM_cons, for_loop_iteration, bind, Except.bind]
    cases execute_statements ex body
        { st with env := env_assign st.env loop_variable (VAL_INT current) } with
    | error e => rfl
    | ok st2 =>
      exact ih m (wrap32 (current + step)) st2 (by omega)
        (fun k hk => by rw [← for_loop_counter_shift]; exact hpass (k + 1) (by omega))
        (by rw [← for_loop_counter_shift]; exact hfail)

/-- While the counter stays representable it is `start + k * step`. -/
theorem for_loop_counter_eq (start end_ step : Int) (hstart : in_int_range start)
    (hrepr : in_int_range (end_ + step)) (k : Nat)
    (hpass : ∀ j, j < k → for_loop_test end_ step (start + (j : Int) * step)) :
    for_loop_counter start step k = start + (k : Int) * step := by
  induction k with
  | zero => simp [for_loop_counter]
  | succ k ih =>
    have hk := ih (fun j hj => hpass j (by omega))
    have ht := hpass k (by omega)
    show wrap32 (for_loop_counter start step k + step) = _
    rw [hk]
    have e : start + ((k + 1 : Nat) : Int) * step = start + (k : Int) * step + step := by
      push_cast
      ring
    rw [e]
    unfold for_loop_test at ht
    obtain ⟨hs1, hs2⟩ := hstart
    obtain ⟨hr1, hr2⟩ := hrepr
    unfold INT_MIN at hs1 hr1
    unfold INT_MAX at hs2 hr2
    have hb : -2147483648 ≤ start + (k : Int) * step + step ∧
        start + (k : Int) * step + step ≤ 2147483647 := by
      by_cases hp : step > 0
      · rw [if_pos hp] at ht
        have : (0 : Int) ≤ (k : Int) * step := mul_nonneg (by omega) (by omega)
        omega
      · rw [if_neg hp] at ht
        have : (k : Int) * step ≤ 0 := mul_nonpos_of_nonneg_of_nonpos (by omega) (by omega)
        omega
    unfold wrap32
    omega

/-- C6: a for loop evaluates start, end and step once each (in that order) to integers and
then, with the loop variable bound to the counter at the start of each iteration, runs its
body once for each value of the counter up to the first that fails the test (`<= end` for a
positive step, `>= end` otherwise), in that order; when the first value fails the test the
body never runs.  While the counter stays representable these values are
`start, start + step, start + 2*step, ...`, exactly those that pass the test. -/
theorem C6_for_loop_runs_body_once_per_value (fuel : Nat) (loop_variable : String)
    (start end_ step : ASTNode) (body : List ASTNode) (st st1 st2 st3 : State)
    (start_val end_val step_val : RuntimeValue)
    (hs : evaluate fuel start st = .ok (start_val, st1))
    (he : evaluate fuel end_ st1 = .ok (end_val, st2))
    (ht : evaluate fuel step st2 = .ok (step_val, st3)) :
    (∀ n : Nat, n ≤ fuel →
      (∀ k, k < n → for_loop_test (to_int end_val) (to_int step_val)
        (for_loop_counter (to_int start_val) (to_int step_val) k)) →
      ¬ for_loop_test (to_int end_val) (to_int step_val)
        (for_loop_counter (to_int start_val) (to_int step_val) n) →
      execute_statement (fuel + 1) (AST_FOR loop_variable start end_ step body) st =
        ((List.range n).map (for_loop_counter (to_int start_val) (to_int step_val))).foldlM
          (for_loop_iteration (execute_statement fuel) loop_variable body) st3) ∧
    (to_int step_val ≠ 0 → in_int_range (to_int start_val) →
      in_int_range (to_int end_val + to_int step_val) →
      for_loop_count (to_int start_val) (to_int end_val) (to_int step_val) ≤ fuel →
      execute_statement (fuel + 1) (AST_FOR loop_variable start end_ step body) st =
        (for_loop_values (to_int start_val) (to_int end_val) (to_int step_val)).foldlM
          (for_loop_iteration (execute_statement fuel) loop_variable body) st3 ∧
      (∀ k : Nat,
        (for_loop_values (to_int start_val) (to_int end_val) (to_int step_val))[k]? =
          if for_loop_test (to_int end_val) (to_int step_val)
              (to_int start_val + (k : Int) * to_int step_val)
          then some (to_int start_val + (k : Int) * to_int step_val) else none) ∧
      (∀ k : Nat, k ≤ for_loop_count (to_int start_val) (to_int end_val) (to_int step_val) →
        for_loop_counter (to_int start_val) (to_int step_val) k =
          to_int start_val + (k : Int) * to_int step_val)) ∧
    (∀ (s : State) (v : Int),
      env_get (env_assign s.env loop_variable (VAL_INT v)) loop_variable = .ok (VAL_INT v)) ∧
    (¬ for_loop_test (to_int end_val) (to_int step_val) (to_int start_val) →
      execute_statement (fuel + 1) (AST_FOR loop_variable start end_ step body) st = .ok st3) := by
  have htrace : ∀ n : Nat, n ≤ fuel →
      (∀ k, k < n → for_loop_test (to_int end_val) (to_int step_val)
        (for_loop_counter (to_int start_val) (to_int step_val) k)) →
      ¬ for_loop_test (to_int end_val) (to_int step_val)
        (for_loop_counter (to_int start_val) (to_int step_val) n) →
      execute_statement (fuel + 1) (AST_FOR loop_variable start end_ step body) st =
        ((List.range n).map (for_loop_counter (to_int start_val) (to_int step_val))).foldlM
          (for_loop_iteration (execute_statement fuel) loop_variable body) st3 := by
    intro n hn hpass hfail
    simp only [execute_statement, hs, he, ht, bind, Except.bind]
    unfold for_loop_test at hpass hfail
    by_cases hp : to_int step_val > 0
    · simp only [if_pos hp] at hpass hfail ⊢
      exact for_loop_up_trace _ _ _ _ _ n _ _ _ (by omega) hpass hfail
    · simp only [if_neg hp] at hpass hfail ⊢
      exact for_loop_down_trace _ _ _ _ _ n _ _ _ (by omega) hpass hfail
  refine ⟨htrace, ?_, ?_, ?_⟩
  · intro hstep hstart hrepr hfuel
    have hval := for_loop_values_getElem? (to_int start_val) (to_int end_val) (to_int step_val)
      hstep
    refine ⟨?_, hval, ?_⟩
    · simp only [execute_statement, hs, he, ht, bind, Except.bind]
      by_cases hp : to_int step_val > 0
      · simp only [if_pos hp]
        exact for_loop_up_eq _ _ _ _ _ hp hrepr.2 _ _ _ hstart.1 (by omega)
      · simp only [if_neg hp]
        exact for_loop_down_eq _ _ _ _ _ (by omega) hrepr.1 _ _ _ hstart.2 (by omega)
    · intro k hk
      apply for_loop_counter_eq _ (to_int end_val) _ hstart hrepr
      intro j hj
      have hj2 := hval j
      have hlt : j < (for_loop_values (to_int start_val) (to_int end_val)
          (to_int step_val)).length := by
        rw [for_loop_values_length]
        omega
      by_contra hnot
      rw [if_neg hnot, List.getElem?_eq_getElem hlt] at hj2
      cases hj2
  · intro s v
    rw [env_get_env_assign]
    simp
  · intro hfail
    have := htrace 0 (by omega) (fun k hk => by omega) hfail
    rw [this]
    rfl

theorem C6_witness :
    (execute_statement 4 scenario_b_loop scenario_b_state).map (fun st => st.stdout) =
      .ok [.text "3", .text "\n", .text "2", .text "\n", .text "1", .text "\n"] := by
  have h := ((C6_for_loop_runs_body_once_per_value 3 "i" (int_literal 3) (int_literal 1)
    (AST_UNARY_OP "-" (int_literal 1)) [AST_PRINT [AST_IDENTIFIER "i", AST_IDENTIFIER "EOLN"]]
    scenario_b_state scenario_b_state scenario_b_state scenario_b_state
    (VAL_INT 3) (VAL_INT 1) (VAL_INT (-1)) (by rfl) (by rfl) (by rfl)).2.1 (by decide)
    ⟨by decide, by decide⟩ ⟨by decide, by decide⟩ (by decide)).1
  unfold scenario_b_loop
  rw [h]
  decide

/-! ## While and repeat-until loops -/

theorem while_loop_trace (ev : Eval) (ex : Exec) (condition : ASTNode) (body : List ASTNode)
    (n budget : Nat) (s t : Nat → State) (c : Nat → RuntimeValue)
    (hiter : ∀ i, i < n → ev condition (s i) = .ok (c i, t i) ∧ to_bool (c i) = true ∧
      execute_statements ex body (t i) = .ok (s (i + 1)))
    (hlast : ev condition (s n) = .ok (c n, t n)) (hfalse : to_bool (c n) = false)
    (hb : n < budget) :
    ∀ d j, j + d = n → while_loop ev ex condition body (budget - j) (s j) = .ok (t n) := by
  intro d
  induction d with
  | zero =>
    intro j hj
    have hjn : j = n := by omega
    subst hjn
    obtain ⟨m, hm⟩ : ∃ m, budget - j = m + 1 := ⟨budget - j - 1, by omega⟩
    rw [hm]
    simp only [while_loop, hlast, hfalse, bind, Except.bind]
    rfl
  | succ d ih =>
    intro j hj
    obtain ⟨m, hm⟩ : ∃ m, budget - j = m + 1 := ⟨budget - j - 1, by omega⟩
    obtain ⟨h1, h2, h3⟩ := hiter j (by omega)
    have hm2 : m = budget - (j + 1) := by omega
    rw [hm]
    simp only [while_loop, h1, h2, h3, bind, Except.bind]
    rw [hm2]
    exact ih (j + 1) (by omega)

theorem repeat_until_loop_trace (ev : Eval) (ex : Exec) (condition : ASTNode)
    (body : List ASTNode) (n budget : Nat) (s t : Nat → State) (c : Nat → RuntimeValue)
    (hiter : ∀ i, i ≤ n → execute_statements ex body (s i) = .ok (t i) ∧
      ev condition (t i) = .ok (c i, s (i + 1)))
    (hfalse : ∀ i, i < n → to_bool (c i) = false) (htrue : to_bool (c n) = true)
    (hb : n < budget) :
    ∀ d j, j + d = n →
      repeat_until_loop ev ex condition body (budget - j) (s j) = .ok (s (n + 1)) := by
  intro d
  induction d with
  | zero =>
    intro j hj
    have hjn : j = n := by omega
    subst hjn
    obtain ⟨m, hm⟩ : ∃ m, budget - j = m + 1 := ⟨budget - j - 1, by omega⟩
    obtain ⟨h1, h2⟩ := hiter j (le_refl _)
    rw [hm]
    simp only [repeat_until_loop, h1, h2, htrue, bind, Except.bind]
    rfl
  | succ d ih =>
    intro j hj
    obtain ⟨m, hm⟩ : ∃ m, budget - j = m + 1 := ⟨budget - j - 1, by omega⟩
    obtain ⟨h1, h2⟩ := hiter j (by omega)
    have h3 := hfalse j (by omega)
    have hm2 : m = budget - (j + 1) := by omega
    rw [hm]
    simp only [repeat_until_loop, h1, h2, h3, bind, Except.bind]
    rw [hm2]
    exact ih (j + 1) (by omega)

/-- C7: a while loop tests its condition before every iteration and stops at the first test
that is false, so it runs its body zero times when the condition is false at the start
(`n = 0`); a repeat-until loop runs its body, then tests, and stops after the first
iteration at whose end the condition is true, so it runs the body at least once. -/
theorem C7_while_and_repeat_until (fuel n : Nat) (condition : ASTNode) (body : List ASTNode)
    (s t : Nat → State) (c : Nat → RuntimeValue) (hn : n ≤ fuel) :
    ((∀ i, i < n → evaluate fuel condition (s i) = .ok (c i, t i) ∧ to_bool (c i) = true ∧
        execute_statements (execute_statement fuel) body (t i) = .ok (s (i + 1))) →
      evaluate fuel condition (s n) = .ok (c n, t n) → to_bool (c n) = false →
      execute_statement (fuel + 1) (AST_WHILE condition body false) (s 0) = .ok (t n)) ∧
    ((∀ i, i ≤ n → execute_statements (execute_statement fuel) body (s i) = .ok (t i) ∧
        evaluate fuel condition (t i) = .ok (c i, s (i + 1))) →
      (∀ i, i < n → to_bool (c i) = false) → to_bool (c n) = true →
      execute_statement (fuel + 1) (AST_WHILE condition body true) (s 0) = .ok (s (n + 1))) := by
  constructor
  · intro hiter hlast hfalse
    have h := while_loop_trace (evaluate fuel) (execute_statement fuel) condition body n
      (fuel + 1) s t c hiter hlast hfalse (by omega) n 0 (by omega)
    simpa [execute_statement] using h
  · intro hiter hfalse htrue
    have h := repeat_until_loop_trace (evaluate fuel) (execute_statement fuel) condition body n
      (fuel + 1) s t c hiter hfalse htrue (by omega) n 0 (by omega)
    simpa [execute_statement] using h

theorem C7_witness :
    execute_statement 4 scenario_d_loop (scenario_d_state 0) = .ok (scenario_d_state 3) ∧
    env_get (scenario_d_state 3).env "i" = .ok (VAL_INT 3) ∧
    execute_statement 2
        (AST_WHILE (AST_LITERAL (VAL_BOOL false)) [AST_PRINT [AST_IDENTIFIER "i"]] false)
        (scenario_d_state 0) = .ok (scenario_d_state 0) := by
  refine ⟨?_, by decide, ?_⟩
  · have h := (C7_while_and_repeat_until 3 2
      (AST_BINARY_OP "=" (AST_IDENTIFIER "i") (int_literal 3))
      [AST_ASSIGN "i" [] (AST_BINARY_OP "+" (AST_IDENTIFIER "i") (int_literal 1))]
      scenario_d_state (fun k => scenario_d_state (k + 1))
      (fun k => VAL_BOOL (decide (k = 2))) (by decide)).2
    refine h ?_ ?_ ?_
    · intro i hi
      interval_cases i
      · exact ⟨by rfl, by rfl⟩
      · exact ⟨by rfl, by rfl⟩
      · exact ⟨by rfl, by rfl⟩
    · intro i hi
      interval_cases i <;> rfl
    · rfl
  · exact (C7_while_and_repeat_until 1 0 (AST_LITERAL (VAL_BOOL false))
      [AST_PRINT [AST_IDENTIFIER "i"]] (fun _ => scenario_d_state 0)
      (fun _ => scenario_d_state 0) (fun _ => VAL_BOOL false) (by decide)).1
      (fun i hi => absurd hi (by omega)) (by rfl) (by rfl)

/-! ## Sequencing in `Except` -/

theorem bind_eq_ok {ε α β : Type} (x : Except ε α) (f : α → Except ε β) (b : β) :
    (x >>= f) = .ok b ↔ ∃ a, x = .ok a ∧ f a = .ok b := by
  cases x with
  | error e => simp [bind, Except.bind]
  | ok a => simp [bind, Except.bind]

theorem bind_ok {ε α β : Type} (a : α) (f : α → Except ε β) :
    ((Except.ok a : Except ε α) >>= f) = f a := rfl

theorem pure_eq_ok {ε α : Type} (a b : α) :
    (pure a : Except ε α) = .ok b ↔ a = b := by
  simp [pure, Except.pure]

/-! ## Evaluation of call-free expressions leaves the state unchanged -/

theorem evaluate_indices_state (ev : Eval) (es : List ASTNode)
    (hpure : ∀ e, e ∈ es → ∀ st v st', ev e st = .ok (v, st') → st' = st) :
    ∀ (i : Nat) (st : State) (idx : List Int) (st' : State),
      evaluate_indices ev i es st = .ok (idx, st') → st' = st := by
  induction es with
  | nil =>
    intro i st idx st' h
    simp only [evaluate_indices, Except.ok.injEq, Prod.mk.injEq] at h
    exact h.2.symm
  | cons e es ih =>
    intro i st idx st' h
    simp only [evaluate_indices, bind_eq_ok] at h
    obtain ⟨⟨v, st1⟩, he, h⟩ := h
    have h1 : st1 = st := hpure e (List.mem_cons_self _ _) st v st1 he
    subst h1
    by_cases hi : i ≥ MAX_ARRAY_DIMS
    · simp [hi] at h
    · simp only [if_neg hi, bind_eq_ok, pure_eq_ok, Prod.mk.injEq] at h
      obtain ⟨⟨rest, st2⟩, hr, -, h2⟩ := h
      have h3 := ih (fun e' he' => hpure e' (List.mem_cons_of_mem _ he')) (i + 1) st1 rest st2 hr
      rw [← h2, h3]

theorem evaluate_call_free (fuel : Nat) :
    ∀ (e : ASTNode), CallFree e → ∀ (st : State) (v : RuntimeValue) (st' : State),
      evaluate fuel e st = .ok (v, st') → st' = st := by
  induction fuel with
  | zero =>
    intro e _ st v st' h
    simp [evaluate] at h
  | succ fuel ih =>
    intro e he st v st' h
    cases he with
    | literal value =>
      simp only [evaluate, Except.ok.injEq, Prod.mk.injEq] at h
      exact h.2.symm
    | identifier name =>
      simp only [evaluate, bind_eq_ok, pure_eq_ok, Prod.mk.injEq] at h
      obtain ⟨val, -, -, h⟩ := h
      exact h.symm
    | binary operator left right hl hr =>
      simp only [evaluate, bind_eq_ok, pure_eq_ok, Prod.mk.injEq] at h
      obtain ⟨⟨l, st1⟩, h1, ⟨r, st2⟩, h2, res, -, -, h⟩ := h
      have e1 := ih left hl st l st1 h1
      have e2 := ih right hr st1 r st2 h2
      rw [← h, e2, e1]
    | unary operator operand ho =>
      simp only [evaluate, bind_eq_ok, pure_eq_ok, Prod.mk.injEq] at h
      obtain ⟨⟨o, st1⟩, h1, res, -, -, h⟩ := h
      have e1 := ih operand ho st o st1 h1
      rw [← h, e1]
    | array_access name indices hidx =>
      simp only [evaluate, bind_eq_ok, pure_eq_ok, Prod.mk.injEq] at h
      obtain ⟨val, -, ⟨idx, st1⟩, hi, val2, -, arr, -, x, -, -, h⟩ := h
      have e1 := evaluate_indices_state (evaluate fuel) indices
        (fun e he' => ih e (hidx e he')) 0 st idx st1 hi
      rw [← h, e1]

/-! ## The copy-back loop of a call statement -/

theorem assign_in_caller_ok (st st' : State) (x : String) (v : RuntimeValue)
    (h : assign_in_caller st x v = .ok st') :
    st'.env.entries = st.env.entries ∧ st'.heap = st.heap ∧
    (∀ y, caller_get st'.env y =
      if str_upper y = str_upper x then .ok v else caller_get st.env y) := by
  unfold assign_in_caller at h
  cases henv : st.env with
  | root entries => rw [henv] at h; simp at h
  | child entries parent =>
    rw [henv] at h
    simp only [Except.ok.injEq] at h
    subst h
    refine ⟨rfl, rfl, ?_⟩
    intro y
    simp only [caller_get, Environment.parent]
    exact env_get_env_assign parent x y v

theorem in_caller_env_state {α : Type} (m : State → Except Fault (α × State)) (st : State)
    (a : α) (st' : State) (hm : ∀ s b s', m s = .ok (b, s') → s' = s)
    (h : in_caller_env m st = .ok (a, st')) : st' = st := by
  unfold in_caller_env at h
  cases henv : st.env with
  | root entries => rw [henv] at h; simp at h
  | child entries parent =>
    rw [henv] at h
    simp only [bind_eq_ok, pure_eq_ok, Prod.mk.injEq] at h
    obtain ⟨⟨b, s1⟩, h1, -, h2⟩ := h
    have := hm _ _ _ h1
    subst this
    rw [← h2]
    cases st
    simp only at henv
    subst henv
    rfl

theorem in_caller_env_entries {α : Type} (m : State → Except Fault (α × State)) (st : State)
    (a : α) (st' : State) (h : in_caller_env m st = .ok (a, st')) :
    st'.env.entries = st.env.entries := by
  unfold in_caller_env at h
  cases henv : st.env with
  | root entries => rw [henv] at h; simp at h
  | child entries parent =>
    rw [henv] at h
    simp only [bind_eq_ok, pure_eq_ok, Prod.mk.injEq] at h
    obtain ⟨⟨b, s1⟩, h1, -, h2⟩ := h
    rw [← h2]
    rfl

theorem heap_array_set_env (st st' : State) (v : RuntimeValue) (idx : List Int)
    (val : RuntimeValue) (h : heap_array_set st v idx val = .ok st') : st'.env = st.env := by
  unfold heap_array_set at h
  cases v with
  | VAL_ARRAY a =>
    simp only at h
    cases ha : st.heap[a]? with
    | none => rw [ha] at h; simp at h
    | some arr =>
      rw [ha] at h
      simp only [Except.ok.injEq] at h
      rw [← h]
  | _ => simp at h

theorem copy_back_element_entries (ev : Eval) (param : Parameter) (name : String)
    (indices : List ASTNode) (st st' : State)
    (h : copy_back_element ev param name indices st = .ok st') :
    st'.env.entries = st.env.entries := by
  unfold copy_back_element at h
  simp only [bind_eq_ok] at h
  obtain ⟨env, -, arr_val, -, h⟩ := h
  split at h
  · simp only [bind_eq_ok] at h
    obtain ⟨⟨idx, st2⟩, h1, env2, -, arr_now, -, sub_now, -, h⟩ := h
    rw [heap_array_set_env _ _ _ _ _ h]
    exact in_caller_env_entries _ _ _ _ h1
  · simp only [pure_eq_ok] at h
    rw [← h]

theorem copy_back_element_env (ev : Eval) (param : Parameter) (name : String)
    (indices : List ASTNode) (st st' : State)
    (hev : ∀ e, e ∈ indices → ∀ s v s', ev e s = .ok (v, s') → s' = s)
    (h : copy_back_element ev param name indices st = .ok st') :
    st'.env = st.env := by
  unfold copy_back_element at h
  simp only [bind_eq_ok] at h
  obtain ⟨env, -, arr_val, -, h⟩ := h
  split at h
  · simp only [bind_eq_ok] at h
    obtain ⟨⟨idx, st2⟩, h1, env2, -, arr_now, -, sub_now, -, h⟩ := h
    rw [heap_array_set_env _ _ _ _ _ h]
    have := in_caller_env_state _ _ _ _
      (fun s b s' hs => evaluate_indices_state ev indices hev 0 s b s' hs) h1
    rw [this]
  · simp only [pure_eq_ok] at h
    rw [← h]

theorem copy_back_procedure_step_entries (ev : Eval) (param : Parameter) (arg : ASTNode)
    (st st' : State) (h : copy_back_procedure_step ev param arg st = .ok st') :
    st'.env.entries = st.env.entries := by
  unfold copy_back_procedure_step at h
  split at h
  · simp only [bind_eq_ok] at h
    obtain ⟨sub_val, -, h⟩ := h
    split at h
    · simp only [pure_eq_ok] at h
      rw [← h]
    · split at h
      · exact (assign_in_caller_ok _ _ _ _ h).1
      · exact copy_back_element_entries _ _ _ _ _ _ h
      · simp only [pure_eq_ok] at h
        rw [← h]
  · simp only [pure_eq_ok] at h
    rw [← h]

theorem copy_back_procedure_step_frame (ev : Eval) (param : Parameter) (arg : ASTNode)
    (st st' : State) (x : String)
    (hev : ∀ e, CallFree e → ∀ s v s', ev e s = .ok (v, s') → s' = s)
    (hpres : param.is_reference = true → copy_back_preserves x arg)
    (h : copy_back_procedure_step ev param arg st = .ok st') :
    caller_get st'.env x = caller_get st.env x := by
  unfold copy_back_procedure_step at h
  split at h
  · rename_i href
    have hp := hpres href
    simp only [bind_eq_ok] at h
    obtain ⟨sub_val, -, h⟩ := h
    split at h
    · simp only [pure_eq_ok] at h
      rw [← h]
    · split at h
      · rename_i name
        have hne : str_upper name ≠ str_upper x := hp
        have hne2 : ¬ str_upper x = str_upper name := fun e => hne e.symm
        rw [(assign_in_caller_ok _ _ _ _ h).2.2 x, if_neg hne2]
      · rename_i name indices
        have hcf : ∀ e, e ∈ indices → CallFree e := hp
        rw [copy_back_element_env ev param name indices st st'
          (fun e he => hev e (hcf e he)) h]
      · simp only [pure_eq_ok] at h
        rw [← h]
  · simp only [pure_eq_ok] at h
    rw [← h]

theorem copy_back_procedure_entries (ev : Eval) :
    ∀ (params : List Parameter) (args : List ASTNode) (st st' : State),
      copy_back_procedure ev params args st = .ok st' →
      st'.env.entries = st.env.entries := by
  intro params
  induction params with
  | nil =>
    intro args st st' h
    simp only [copy_back_procedure, Except.ok.injEq] at h
    rw [← h]
  | cons param params ih =>
    intro args st st' h
    cases args with
    | nil =>
      simp only [copy_back_procedure, Except.ok.injEq] at h
      rw [← h]
    | cons arg args =>
      simp only [copy_back_procedure, bind_eq_ok] at h
      obtain ⟨st1, h1, h2⟩ := h
      rw [ih args st1 st' h2, copy_back_procedure_step_entries ev param arg st st1 h1]

theorem copy_back_procedure_frame (ev : Eval) (x : String)
    (hev : ∀ e, CallFree e → ∀ s v s', ev e s = .ok (v, s') → s' = s) :
    ∀ (params : List Parameter) (args : List ASTNode) (st st' : State),
      (∀ (j : Nat) (p : Parameter) (a : ASTNode), params[j]? = some p → args[j]? = some a →
        p.is_reference = true → copy_back_preserves x a) →
      copy_back_procedure ev params args st = .ok st' →
      caller_get st'.env x = caller_get st.env x := by
  intro params
  induction params with
  | nil =>
    intro args st st' _ h
    simp only [copy_back_procedure, Except.ok.injEq] at h
    rw [← h]
  | cons param params ih =>
    intro args st st' hpres h
    cases args with
    | nil =>
      simp only [copy_back_procedure, Except.ok.injEq] at h
      rw [← h]
    | cons arg args =>
      simp only [copy_back_procedure, bind_eq_ok] at h
      obtain ⟨st1, h1, h2⟩ := h
      rw [ih args st1 st' (fun j p a hp ha => hpres (j + 1) p a (by simpa using hp)
          (by simpa using ha)) h2]
      exact copy_back_procedure_step_frame ev param arg st st1 x hev
        (hpres 0 param arg (by simp) (by simp)) h1

theorem env_get_of_slot_value (env : Environment) (name : String) (v : RuntimeValue)
    (h : slot_value env name = some v) : env_get env name = .ok v := by
  rw [env_get_eq]
  unfold slot_value at h
  rw [h]

theorem slot_value_of_entries (env env' : Environment) (name : String)
    (h : env'.entries = env.entries) : slot_value env' name = slot_value env name := by
  unfold slot_value
  rw [h]

theorem copy_back_procedure_step_copy_out (ev : Eval) (param : Parameter) (x : String)
    (st st' : State) (v : RuntimeValue) (href : param.is_reference = true)
    (hslot : slot_value st.env param.name = some v) (hv : ∀ a, v ≠ VAL_ARRAY a)
    (h : copy_back_procedure_step ev param (AST_IDENTIFIER x) st = .ok st') :
    caller_get st'.env x = .ok v := by
  have hget := env_get_of_slot_value _ _ _ hslot
  unfold copy_back_procedure_step at h
  rw [if_pos href, hget, bind_ok] at h
  have h2 : assign_in_caller st x v = .ok st' := by
    cases v with
    | VAL_ARRAY a => exact absurd rfl (hv a)
    | _ => exact h
  rw [(assign_in_caller_ok _ _ _ _ h2).2.2 x]
  simp

/-- The copy-back loop writes the final value of the `i`-th parameter slot into the caller's
variable `x` when later by-reference arguments leave `x` alone. -/
theorem copy_back_procedure_copy_out (ev : Eval) (x : String) (v : RuntimeValue)
    (hev : ∀ e, CallFree e → ∀ s w s', ev e s = .ok (w, s') → s' = s)
    (hv : ∀ a, v ≠ VAL_ARRAY a) :
    ∀ (params : List Parameter) (args : List ASTNode) (i : Nat) (param : Parameter)
      (st st' : State),
      params[i]? = some param → args[i]? = some (AST_IDENTIFIER x) →
      param.is_reference = true → slot_value st.env param.name = some v →
      (∀ (j : Nat) (p : Parameter) (a : ASTNode), i < j → params[j]? = some p →
        args[j]? = some a → p.is_reference = true → copy_back_preserves x a) →
      copy_back_procedure ev params args st = .ok st' →
      caller_get st'.env x = .ok v := by
  intro params
  induction params with
  | nil =>
    intro args i param st st' hp
    simp at hp
  | cons param0 params ih =>
    intro args i param st st' hp ha href hslot hlater h
    cases args with
    | nil => simp at ha
    | cons arg0 args =>
      simp only [copy_back_procedure, bind_eq_ok] at h
      obtain ⟨st1, h1, h2⟩ := h
      cases i with
      | zero =>
        simp only [List.getElem?_cons_zero, Option.some.injEq] at hp ha
        subst hp ha
        rw [copy_back_procedure_frame ev x hev params args st1 st'
          (fun j p a hpj haj => hlater (j + 1) p a (by omega) (by simpa using hpj)
            (by simpa using haj)) h2]
        exact copy_back_procedure_step_copy_out ev param0 x st st1 v href hslot hv h1
      | succ i =>
        have he := copy_back_procedure_step_entries ev param0 arg0 st st1 h1
        exact ih args i param st1 st' (by simpa using hp) (by simpa using ha) href
          (by rw [slot_value_of_entries _ _ _ he]; exact hslot)
          (fun j p a hij hpj haj => hlater (j + 1) p a (by omega) (by simpa using hpj)
            (by simpa using haj)) h2

theorem leave_call_of_caller_get (st : State) (x : String) (v : RuntimeValue)
    (h : caller_get st.env x = .ok v) :
    ∃ st', leave_call st = .ok st' ∧ env_get st'.env x = .ok v ∧ st'.heap = st.heap := by
  unfold caller_get at h
  cases hp : st.env.parent with
  | none => rw [hp] at h; simp at h
  | some p =>
    rw [hp] at h
    refine ⟨{ st with env := p }, ?_, h, rfl⟩
    simp only [leave_call, caller_env, hp, bind_ok]
    rfl

theorem execute_call_procedure (fuel : Nat) (name pname : String) (arguments : List ASTNode)
    (is_statement : Bool) (parameters : List Parameter) (local_decls : List LocalDecl)
    (body : List ASTNode) (st st1 st2 st3 : State)
    (hsub : env_get_subroutine st.env name =
      .ok (AST_PROC_DECL pname parameters local_decls body))
    (hbind : bind_parameters (evaluate fuel) parameters arguments
      { st with env := call_environment st.env local_decls } = .ok st1)
    (hbody : execute_statements (execute_statement fuel) body st1 = .ok st2)
    (hcopy : copy_back_procedure (evaluate fuel) parameters arguments st2 = .ok st3) :
    execute_statement (fuel + 1) (AST_CALL name arguments is_statement) st = leave_call st3 := by
  simp only [execute_statement, hsub, bind_ok, hbind, hbody, hcopy]

theorem swap_exchanges (v1 v2 : RuntimeValue)
    (h1 : ∀ a, v1 ≠ VAL_ARRAY a) (h2 : ∀ a, v2 ≠ VAL_ARRAY a) :
    ∃ st', execute_statement 3 swap_call (swap_state v1 v2) = .ok st' ∧
      env_get st'.env "x" = .ok v2 ∧ env_get st'.env "y" = .ok v1 := by
  cases v1 with
  | VAL_ARRAY a => exact absurd rfl (h1 a)
  | _ =>
    cases v2 with
    | VAL_ARRAY a => exact absurd rfl (h2 a)
    | _ => exact ⟨_, rfl, rfl, rfl⟩

/-- C8 (amended): after a procedure call whose `i`-th parameter is by-reference and whose
`i`-th argument is a plain identifier `x`, the caller's `x` holds the final value of the
parameter slot, provided that value is not an array handle and every later by-reference
argument leaves `x` alone (it is another variable, or an array element whose indices call no
function).  In particular `SWAP(x, y)` exchanges any two scalar values. -/
theorem C8_reference_parameter_copy_out (fuel : Nat) (name pname : String)
    (arguments : List ASTNode) (is_statement : Bool) (parameters : List Parameter)
    (local_decls : List LocalDecl) (body : List ASTNode) (st st1 st2 st3 : State)
    (i : Nat) (param : Parameter) (x : String) (v : RuntimeValue)
    (hsub : env_get_subroutine st.env name =
      .ok (AST_PROC_DECL pname parameters local_decls body))
    (hbind : bind_parameters (evaluate fuel) parameters arguments
      { st with env := call_environment st.env local_decls } = .ok st1)
    (hbody : execute_statements (execute_statement fuel) body st1 = .ok st2)
    (hcopy : copy_back_procedure (evaluate fuel) parameters arguments st2 = .ok st3)
    (hparam : parameters[i]? = some param) (href : param.is_reference = true)
    (harg : arguments[i]? = some (AST_IDENTIFIER x))
    (hslot : slot_value st2.env param.name = some v)
    (hscalar : ∀ a, v ≠ VAL_ARRAY a)
    (hlater : ∀ (j : Nat) (p : Parameter) (a : ASTNode), i < j → parameters[j]? = some p →
      arguments[j]? = some a → p.is_reference = true → copy_back_preserves x a) :
    (∃ st', execute_statement (fuel + 1) (AST_CALL name arguments is_statement) st = .ok st' ∧
      env_get st'.env x = .ok v) ∧
    (∀ v1 v2 : RuntimeValue, (∀ a, v1 ≠ VAL_ARRAY a) → (∀ a, v2 ≠ VAL_ARRAY a) →
      ∃ st', execute_statement 3 swap_call (swap_state v1 v2) = .ok st' ∧
        env_get st'.env "x" = .ok v2 ∧ env_get st'.env "y" = .ok v1) := by
  refine ⟨?_, swap_exchanges⟩
  have hc := copy_back_procedure_copy_out (evaluate fuel) x v
    (fun e he s w s' hs => evaluate_call_free fuel e he s w s' hs) hscalar
    parameters arguments i param st2 st3 hparam harg href hslot hlater hcopy
  obtain ⟨st', hl, hx, -⟩ := leave_call_of_caller_get st3 x v hc
  refine ⟨st', ?_, hx⟩
  rw [execute_call_procedure fuel name pname arguments is_statement parameters local_decls body
    st st1 st2 st3 hsub hbind hbody hcopy, hl]

theorem C8_witness :
    (∃ st', execute_statement 3 swap_call (swap_state (VAL_INT 1) (VAL_INT 2)) = .ok st' ∧
      env_get st'.env "x" = .ok (VAL_INT 2)) ∧
    (∃ st', execute_statement 3 swap_call (swap_state (VAL_INT 1) (VAL_INT 2)) = .ok st' ∧
      env_get st'.env "y" = .ok (VAL_INT 1)) :=
  ⟨(C8_reference_parameter_copy_out 2 "SWAP" "SWAP"
      [AST_IDENTIFIER "x", AST_IDENTIFIER "y"] true
      [⟨"a", "INTEGER", true⟩, ⟨"b", "INTEGER", true⟩] [⟨"t", "INTEGER"⟩]
      [AST_ASSIGN "t" [] (AST_IDENTIFIER "a"),
       AST_ASSIGN "a" [] (AST_IDENTIFIER "b"),
       AST_ASSIGN "b" [] (AST_IDENTIFIER "t")]
      (swap_state (VAL_INT 1) (VAL_INT 2)) _ _ _ 0 ⟨"a", "INTEGER", true⟩ "x" (VAL_INT 2)
      rfl rfl rfl rfl rfl rfl rfl rfl (fun a h => by cases h)
      (fun j p a hj hp ha _ => by
        match j with
        | 0 => omega
        | 1 =>
          simp only [List.getElem?_cons_succ, List.getElem?_cons_zero, Option.some.injEq] at ha
          subst ha
          show str_upper "y" ≠ str_upper "x"
          decide
        | j + 2 => simp at hp)).1,
   (C8_reference_parameter_copy_out 2 "SWAP" "SWAP"
      [AST_IDENTIFIER "x", AST_IDENTIFIER "y"] true
      [⟨"a", "INTEGER", true⟩, ⟨"b", "INTEGER", true⟩] [⟨"t", "INTEGER"⟩]
      [AST_ASSIGN "t" [] (AST_IDENTIFIER "a"),
       AST_ASSIGN "a" [] (AST_IDENTIFIER "b"),
       AST_ASSIGN "b" [] (AST_IDENTIFIER "t")]
      (swap_state (VAL_INT 1) (VAL_INT 2)) _ _ _ 1 ⟨"b", "INTEGER", true⟩ "y" (VAL_INT 1)
      rfl rfl rfl rfl rfl rfl rfl rfl (fun a h => by cases h)
      (fun j p a hj hp ha _ => by
        match j with
        | 0 => omega
        | 1 => omega
        | j + 2 => simp at hp)).1⟩

/-- C8 as stated, without the proviso on later arguments, fails: `P(x, x)` with
`a := 1; b := 2` leaves `x = 2` although the first parameter's slot ends with value 1. -/
theorem C8_counterexample :
    ¬ ∀ (fuel : Nat) (name pname : String) (arguments : List ASTNode) (is_statement : Bool)
        (parameters : List Parameter) (local_decls : List LocalDecl) (body : List ASTNode)
        (st st1 st2 st3 : State) (i : Nat) (param : Parameter) (x : String)
        (v w : RuntimeValue),
        env_get_subroutine st.env name =
          .ok (AST_PROC_DECL pname parameters local_decls body) →
        bind_parameters (evaluate fuel) parameters arguments
          { st with env := call_environment st.env local_decls } = .ok st1 →
        execute_statements (execute_statement fuel) body st1 = .ok st2 →
        copy_back_procedure (evaluate fuel) parameters arguments st2 = .ok st3 →
        parameters[i]? = some param → param.is_reference = true →
        arguments[i]? = some (AST_IDENTIFIER x) →
        env_get st.env x = .ok w → (∀ a, w ≠ VAL_ARRAY a) →
        slot_value st2.env param.name = some v →
        ∃ st', execute_statement (fuel + 1) (AST_CALL name arguments is_statement) st = .ok st' ∧
          env_get st'.env x = .ok v := by
  intro h
  obtain ⟨st', hexec, hx⟩ := h 2 "P" "P" [AST_IDENTIFIER "x", AST_IDENTIFIER "x"] true
    [⟨"a", "INTEGER", true⟩, ⟨"b", "INTEGER", true⟩] []
    [AST_ASSIGN "a" [] (int_literal 1), AST_ASSIGN "b" [] (int_literal 2)]
    alias_state _ _ _ 0 ⟨"a", "INTEGER", true⟩ "x" (VAL_INT 1) (VAL_INT 0)
    rfl rfl rfl rfl rfl rfl rfl rfl (fun a h => by cases h) rfl
  have hrun : (execute_statement 3 alias_call alias_state >>= fun s => env_get s.env "x") =
      .ok (VAL_INT 2) := by decide
  have hexec' : execute_statement 3 alias_call alias_state = .ok st' := hexec
  rw [hexec', bind_ok, hx] at hrun
  exact absurd hrun (by decide)

/-! ## By-value parameters -/

theorem env_set_chain_isSome (upper : String) (value : RuntimeValue) (chain : List EnvEntry)
    (h : env_get_chain upper chain ≠ none) :
    ∃ chain', env_set_chain upper value chain = some chain' := by
  cases hs : env_set_chain upper value chain with
  | some c => exact ⟨c, rfl⟩
  | none => exact absurd (env_get_chain_of_set_none upper value chain hs) h

theorem env_assign_own_slot (env : Environment) (name : String) (v : RuntimeValue)
    (h : slot_value env name ≠ none) :
    (env_assign env name v).parent = env.parent ∧
    ∀ y, slot_value (env_assign env name v) y =
      if str_upper y = str_upper name then some v else slot_value env y := by
  unfold slot_value at h
  cases env with
  | root entries =>
    obtain ⟨chain, hc⟩ := env_set_chain_isSome (str_upper name) v _ h
    simp only [Environment.entries] at hc
    simp only [env_assign, hc]
    refine ⟨rfl, fun y => ?_⟩
    exact env_get_chain_update entries (str_upper name) (str_upper y) v chain hc
  | child entries parent =>
    obtain ⟨chain, hc⟩ := env_set_chain_isSome (str_upper name) v _ h
    simp only [Environment.entries] at hc
    simp only [env_assign, hc]
    refine ⟨rfl, fun y => ?_⟩
    exact env_get_chain_update entries (str_upper name) (str_upper y) v chain hc

/-- An assignment to a name bound in the current environment's own table changes that slot
only: the parent chain, the heap and every other slot are as the evaluation of the
right-hand side left them. -/
theorem execute_assign_own_slot (fuel : Nat) (name : String) (e : ASTNode)
    (s s1 : State) (val : RuntimeValue)
    (heval : evaluate fuel e s = .ok (val, s1)) (hslot : slot_value s1.env name ≠ none) :
    ∃ s', execute_statement (fuel + 1) (AST_ASSIGN name [] e) s = .ok s' ∧
      slot_value s'.env name = some val ∧ s'.env.parent = s1.env.parent ∧
      s'.heap = s1.heap ∧
      ∀ y, str_upper y ≠ str_upper name → slot_value s'.env y = slot_value s1.env y := by
  obtain ⟨hp, hs⟩ := env_assign_own_slot s1.env name val hslot
  refine ⟨{ s1 with env := env_assign s1.env name val }, ?_, ?_, hp, rfl, ?_⟩
  · simp only [execute_statement, heval, bind_ok]
    rfl
  · rw [hs name]
    simp
  · intro y hy
    rw [hs y, if_neg hy]

/-- Binding a parameter to an identifier argument that names a scalar copies the value into
the callee's slot and leaves the caller's environment and the heap as they are. -/
theorem bind_parameter_scalar_identifier (fuel : Nat) (param : Parameter) (x : String)
    (s : State) (w : RuntimeValue) (hw : ∀ a, w ≠ VAL_ARRAY a)
    (hx : caller_get s.env x = .ok w) :
    ∃ s', bind_parameter (evaluate (fuel + 1)) param (AST_IDENTIFIER x) s = .ok s' ∧
      slot_value s'.env param.name = some w ∧ s'.env.parent = s.env.parent ∧
      s'.heap = s.heap := by
  unfold caller_get at hx
  cases henv : s.env with
  | root entries => rw [henv] at hx; simp [Environment.parent] at hx
  | child entries parent =>
    rw [henv] at hx
    simp only [Environment.parent] at hx
    refine ⟨{ s with env := env_define s.env param.name w }, ?_, ?_, ?_, rfl⟩
    · have hreg : in_caller_env (evaluate (fuel + 1) (AST_IDENTIFIER x)) s = .ok (w, s) := by
        simp only [in_caller_env, henv, evaluate, hx, bind_ok, copy_runtime_value_eq]
        cases s
        simp only at henv
        subst henv
        rfl
      simp only [bind_parameter, caller_env, henv, Environment.parent, bind_ok, hx]
      cases w with
      | VAL_ARRAY a => exact absurd rfl (hw a)
      | _ =>
        rw [← henv, hreg]
        rfl
    · unfold slot_value
      rw [env_define_entries]
      simp
    · simp only [env_define_parent, henv]

/-- C10 (amended): a by-value parameter bound to a scalar variable `x` receives a copy of
its value; an assignment to the parameter in the callee changes the callee's slot only; and
after the call `x` has the value it had before, provided the evaluation of the arguments
and the body left `x` alone and no by-reference parameter of the same call is passed `x`. -/
theorem C10_value_parameter_is_a_copy (fuel : Nat) (name pname : String)
    (arguments : List ASTNode) (is_statement : Bool) (parameters : List Parameter)
    (local_decls : List LocalDecl) (body : List ASTNode) (st st1 st2 st3 : State)
    (i : Nat) (param : Parameter) (x : String) (w : RuntimeValue)
    (hsub : env_get_subroutine st.env name =
      .ok (AST_PROC_DECL pname parameters local_decls body))
    (hbind : bind_parameters (evaluate (fuel + 1)) parameters arguments
      { st with env := call_environment st.env local_decls } = .ok st1)
    (hbody : execute_statements (execute_statement (fuel + 1)) body st1 = .ok st2)
    (hcopy : copy_back_procedure (evaluate (fuel + 1)) parameters arguments st2 = .ok st3)
    (_hparam : parameters[i]? = some param) (_hvalue : param.is_reference = false)
    (_harg : arguments[i]? = some (AST_IDENTIFIER x))
    (_hbefore : env_get st.env x = .ok w) (hscalar : ∀ a, w ≠ VAL_ARRAY a)
    (hframe : caller_get st2.env x = .ok w)
    (hother : ∀ (j : Nat) (p : Parameter) (a : ASTNode), parameters[j]? = some p →
      arguments[j]? = some a → p.is_reference = true → copy_back_preserves x a) :
    (∀ s, caller_get s.env x = .ok w →
      ∃ s', bind_parameter (evaluate (fuel + 1)) param (AST_IDENTIFIER x) s = .ok s' ∧
        slot_value s'.env param.name = some w ∧ s'.env.parent = s.env.parent ∧
        s'.heap = s.heap) ∧
    (∀ s s1 e val, evaluate fuel e s = .ok (val, s1) → slot_value s1.env param.name ≠ none →
      ∃ s', execute_statement (fuel + 1) (AST_ASSIGN param.name [] e) s = .ok s' ∧
        slot_value s'.env param.name = some val ∧ s'.env.parent = s1.env.parent ∧
        s'.heap = s1.heap ∧
        ∀ y, str_upper y ≠ str_upper param.name → slot_value s'.env y = slot_value s1.env y) ∧
    (∃ st', execute_statement (fuel + 2) (AST_CALL name arguments is_statement) st = .ok st' ∧
      env_get st'.env x = .ok w) := by
  refine ⟨fun s hs => bind_parameter_scalar_identifier fuel param x s w hscalar hs,
    fun s s1 e val he hs => execute_assign_own_slot fuel param.name e s s1 val he hs, ?_⟩
  have hc : caller_get st3.env x = .ok w := by
    rw [copy_back_procedure_frame (evaluate (fuel + 1)) x
      (fun e he s v s' hs => evaluate_call_free (fuel + 1) e he s v s' hs)
      parameters arguments st2 st3 hother hcopy]
    exact hframe
  obtain ⟨st', hl, hx, -⟩ := leave_call_of_caller_get st3 x w hc
  refine ⟨st', ?_, hx⟩
  rw [execute_call_procedure (fuel + 1) name pname arguments is_statement parameters
    local_decls body st st1 st2 st3 hsub hbind hbody hcopy, hl]

theorem C10_witness :
    ∃ st', execute_statement 3 (AST_CALL "RESET" [AST_IDENTIFIER "x"] true) by_value_state =
        .ok st' ∧
      env_get st'.env "x" = .ok (VAL_INT 5) :=
  (C10_value_parameter_is_a_copy 1 "RESET" "RESET" [AST_IDENTIFIER "x"] true
    [⟨"n", "INTEGER", false⟩] [] [AST_ASSIGN "n" [] (int_literal 0)]
    by_value_state _ _ _ 0 ⟨"n", "INTEGER", false⟩ "x" (VAL_INT 5)
    rfl rfl rfl rfl rfl rfl rfl rfl (fun a h => by cases h) rfl
    (fun j p a hp ha hr => by
      match j with
      | 0 =>
        simp only [List.getElem?_cons_zero, Option.some.injEq] at hp
        subst hp
        cases hr
      | j + 1 => simp at hp)).2.2

/-- C10 as stated, without the proviso on by-reference parameters, fails: `Q(x, x)` with
by-value `a`, by-reference `b` and body `b := 7` leaves `x = 7`, not its value 1 from before
the call, although the body never assigns `x` by name. -/
theorem C10_counterexample :
    ¬ ∀ (fuel : Nat) (name pname : String) (arguments : List ASTNode) (is_statement : Bool)
        (parameters : List Parameter) (local_decls : List LocalDecl) (body : List ASTNode)
        (st st1 st2 st3 : State) (i : Nat) (param : Parameter) (x : String)
        (w : RuntimeValue),
        env_get_subroutine st.env name =
          .ok (AST_PROC_DECL pname parameters local_decls body) →
        bind_parameters (evaluate (fuel + 1)) parameters arguments
          { st with env := call_environment st.env local_decls } = .ok st1 →
        execute_statements (execute_statement (fuel + 1)) body st1 = .ok st2 →
        copy_back_procedure (evaluate (fuel + 1)) parameters arguments st2 = .ok st3 →
        parameters[i]? = some param → param.is_reference = false →
        arguments[i]? = some (AST_IDENTIFIER x) →
        env_get st.env x = .ok w → (∀ a, w ≠ VAL_ARRAY a) →
        caller_get st2.env x = .ok w →
        ∃ st', execute_statement (fuel + 2) (AST_CALL name arguments is_statement) st = .ok st' ∧
          env_get st'.env x = .ok w := by
  intro h
  obtain ⟨st', hexec, hx⟩ := h 1 "Q" "Q" [AST_IDENTIFIER "x", AST_IDENTIFIER "x"] true
    [⟨"a", "INTEGER", false⟩, ⟨"b", "INTEGER", true⟩] []
    [AST_ASSIGN "b" [] (int_literal 7)]
    value_alias_state _ _ _ 0 ⟨"a", "INTEGER", false⟩ "x" (VAL_INT 1)
    rfl rfl rfl rfl rfl rfl rfl rfl (fun a h => by cases h) rfl
  have hrun : (execute_statement 3 value_alias_call value_alias_state >>=
      fun s => env_get s.env "x") = .ok (VAL_INT 7) := by decide
  have hexec' : execute_statement 3 value_alias_call value_alias_state = .ok st' := hexec
  rw [hexec', bind_ok, hx] at hrun
  exact absurd hrun (by decide)

/-! ## Array arguments are shared -/

theorem evaluate_indices_literals (fuel : Nat) (t : List Int) :
    ∀ (i : Nat) (st : State), i + t.length ≤ MAX_ARRAY_DIMS →
      evaluate_indices (evaluate (fuel + 1)) i (t.map int_literal) st = .ok (t, st) := by
  induction t with
  | nil => intro i st _; rfl
  | cons n t ih =>
    intro i st h
    simp only [List.length_cons] at h
    have hi : ¬ i ≥ MAX_ARRAY_DIMS := by omega
    simp only [List.map_cons, evaluate_indices, int_literal, evaluate, bind_ok,
      copy_runtime_value_eq, if_neg hi]
    have := ih (i + 1) st (by omega)
    simp only [int_literal] at this
    rw [this]
    rfl

/-- Binding a parameter of either passing mode to an identifier that names an array puts the
caller's array handle into the callee's slot; nothing is evaluated and the heap is untouched. -/
theorem bind_parameter_array (ev : Eval) (param : Parameter) (x : String) (s : State)
    (a : Nat) (hx : caller_get s.env x = .ok (VAL_ARRAY a)) :
    bind_parameter ev param (AST_IDENTIFIER x) s =
      .ok { s with env := env_define s.env param.name (VAL_ARRAY a) } ∧
    slot_value (env_define s.env param.name (VAL_ARRAY a)) param.name = some (VAL_ARRAY a) := by
  constructor
  · unfold caller_get at hx
    cases hp : s.env.parent with
    | none => rw [hp] at hx; simp at hx
    | some p =>
      rw [hp] at hx
      simp only at hx
      simp only [bind_parameter, caller_env, hp, bind_ok, hx]
      rfl
  · unfold slot_value
    rw [env_define_entries]
    simp

theorem evaluate_indices_length (ev : Eval) (es : List ASTNode) :
    ∀ (i : Nat) (st : State) (idx : List Int) (st' : State),
      evaluate_indices ev i es st = .ok (idx, st') →
      idx.length = es.length ∧ (es ≠ [] → i + es.length ≤ MAX_ARRAY_DIMS) := by
  induction es with
  | nil =>
    intro i st idx st' h
    simp only [evaluate_indices, Except.ok.injEq, Prod.mk.injEq] at h
    rw [← h.1]
    simp
  | cons e es ih =>
    intro i st idx st' h
    simp only [evaluate_indices, bind_eq_ok] at h
    obtain ⟨⟨v, st1⟩, -, h⟩ := h
    by_cases hi : i ≥ MAX_ARRAY_DIMS
    · simp [hi] at h
    · simp only [if_neg hi, bind_eq_ok, pure_eq_ok, Prod.mk.injEq] at h
      obtain ⟨⟨rest, st2⟩, hr, h1, -⟩ := h
      obtain ⟨hl, hb⟩ := ih (i + 1) st1 rest st2 hr
      rw [← h1]
      refine ⟨by simp [hl], fun _ => ?_⟩
      cases es with
      | nil => simp only [List.length_cons, List.length_nil]; omega
      | cons e' es' =>
        have := hb (by simp)
        simp only [List.length_cons] at this ⊢
        omega

/-- A read `y[t]` with literal indices through any name bound to an array handle returns
what `array_get` finds in the heap object behind the handle. -/
theorem array_access_reads (fuel : Nat) (S : State) (y : String) (a : Nat)
    (obj : ArrayObject) (t : List Int) (v : RuntimeValue)
    (hy : env_get S.env y = .ok (VAL_ARRAY a)) (hheap : S.heap[a]? = some obj)
    (hread : array_get obj t = .ok v) (hdims : t.length ≤ MAX_ARRAY_DIMS) :
    evaluate (fuel + 2) (AST_ARRAY_ACCESS y (t.map int_literal)) S = .ok (v, S) := by
  simp only [evaluate, hy, bind_ok, evaluate_indices_literals fuel t 0 _ (by omega),
    heap_array, hheap, hread, copy_runtime_value_eq]
  rfl

/-- An indexed assignment through a name bound to an array handle stores into the heap object
behind the handle, whatever the index and value expressions are. -/
theorem execute_assign_indexed (fuel : Nat) (p : String) (idx : List ASTNode) (e : ASTNode)
    (s s1 s2 : State) (val : RuntimeValue) (ivals : List Int) (a0 a : Nat) (obj : ArrayObject)
    (hidx : idx ≠ []) (heval : evaluate fuel e s = .ok (val, s1))
    (hp0 : env_get s1.env p = .ok (VAL_ARRAY a0))
    (hind : evaluate_indices (evaluate fuel) 0 idx s1 = .ok (ivals, s2))
    (hp : env_get s2.env p = .ok (VAL_ARRAY a)) (hheap : s2.heap[a]? = some obj) :
    execute_statement (fuel + 1) (AST_ASSIGN p idx e) s =
      .ok { s2 with heap := s2.heap.set a (array_set obj ivals val) } := by
  have hpos : idx.length > 0 := by
    cases idx with
    | nil => exact absurd rfl hidx
    | cons x xs => simp
  simp only [execute_statement, heval, bind_ok, hpos, if_true, hp0, hind, hp, heap_array_set,
    hheap]

theorem heap_after_store (st : State) (x : String) (a : Nat) (arr : ArrayObject)
    (t : List Int) (v : RuntimeValue) (fuel : Nat)
    (hx : env_get st.env x = .ok (VAL_ARRAY a)) (hheap : st.heap[a]? = some arr)
    (hlen : t.length = arr.num_dims) (hin : indices_in_bounds arr.bounds t)
    (hdims : t.length ≤ MAX_ARRAY_DIMS) :
    evaluate (fuel + 2) (AST_ARRAY_ACCESS x (t.map int_literal))
        { st with heap := st.heap.set a (array_set arr t v) } =
      .ok (v, { st with heap := st.heap.set a (array_set arr t v) }) := by
  have hlt : a < st.heap.length := by
    rcases Nat.lt_or_ge a st.heap.length with h | h
    · exact h
    · rw [List.getElem?_eq_none h] at hheap
      cases hheap
  have hget : (st.heap.set a (array_set arr t v))[a]? = some (array_set arr t v) := by
    simp [List.getElem?_set, hlt]
  have hread : array_get (array_set arr t v) t = .ok v := by
    rw [array_get_array_set arr t t v hlen hin]
    simp
  exact array_access_reads fuel _ x a _ t v hx hget hread hdims

theorem store_procedure_call (fuel : Nat) (is_reference is_statement : Bool) (x : String)
    (a : Nat) (arr : ArrayObject) (t : List Int) (v : RuntimeValue) (st : State)
    (hsub : env_get_subroutine st.env "STORE" = .ok (store_procedure is_reference t v))
    (hx : env_get st.env x = .ok (VAL_ARRAY a)) (hheap : st.heap[a]? = some arr)
    (hpos : 0 < t.length) (hdims : t.length ≤ MAX_ARRAY_DIMS) :
    execute_statement (fuel + 3) (AST_CALL "STORE" [AST_IDENTIFIER x] is_statement) st =
      .ok { st with heap := st.heap.set a (array_set arr t v) } := by
  have hb := (bind_parameter_array (evaluate (fuel + 2)) ⟨"p", "ARRAY", is_reference⟩ x
    { st with env := call_environment st.env [] } a hx).1
  have hp : env_get (env_define (call_environment st.env []) "p" (VAL_ARRAY a)) "p" =
      .ok (VAL_ARRAY a) := by
    rw [env_get_env_define]
    simp
  have hpos' : (t.map int_literal).length > 0 := by simpa using hpos
  simp only [execute_statement, hsub, store_procedure, bind_ok, bind_parameters, hb,
    execute_statements, evaluate, copy_runtime_value_eq, hpos', if_true, hp,
    evaluate_indices_literals fuel t 0 _ (by omega), heap_array_set, hheap,
    copy_back_procedure, copy_back_procedure_step]
  have hpar : (env_define (call_environment st.env []) "p" (VAL_ARRAY a)).parent =
      some st.env := by
    rw [env_define_parent]
    rfl
  cases is_reference <;>
    simp [hp, hpar, bind_ok, pure, Except.pure, leave_call, caller_env, bind, Except.bind]

theorem store_function_call (fuel : Nat) (is_reference is_statement : Bool) (x : String)
    (a : Nat) (arr : ArrayObject) (t : List Int) (v : RuntimeValue) (st : State)
    (hsub : env_get_subroutine st.env "STOREF" = .ok (store_function is_reference t v))
    (hx : env_get st.env x = .ok (VAL_ARRAY a)) (hheap : st.heap[a]? = some arr)
    (hpos : 0 < t.length) (hdims : t.length ≤ MAX_ARRAY_DIMS) :
    evaluate (fuel + 3) (AST_CALL "STOREF" [AST_IDENTIFIER x] is_statement) st =
      .ok (VAL_REAL 0, { st with heap := st.heap.set a (array_set arr t v) }) := by
  have hb := (bind_parameter_array (evaluate (fuel + 2)) ⟨"p", "ARRAY", is_reference⟩ x
    { st with env := call_environment st.env [] } a hx).1
  have hne : ¬ str_upper "p" = str_upper "STOREF" := by decide
  have hp : env_get (env_define (env_define (call_environment st.env []) "p" (VAL_ARRAY a))
      "STOREF" (VAL_REAL 0)) "p" = .ok (VAL_ARRAY a) := by
    rw [env_get_env_define, if_neg hne, env_get_env_define]
    simp
  have hf : env_get (env_define (env_define (call_environment st.env []) "p" (VAL_ARRAY a))
      "STOREF" (VAL_REAL 0)) "STOREF" = .ok (VAL_REAL 0) := by
    rw [env_get_env_define]
    simp
  have hpar : (env_define (env_define (call_environment st.env []) "p" (VAL_ARRAY a))
      "STOREF" (VAL_REAL 0)).parent = some st.env := by
    rw [env_define_parent, env_define_parent]
    rfl
  have hpos' : (t.map int_literal).length > 0 := by simpa using hpos
  simp only [evaluate, hsub, store_function, bind_ok, bind_parameters, hb,
    execute_statements, execute_statement, copy_runtime_value_eq, hpos', if_true, hp,
    evaluate_indices_literals fuel t 0 _ (by omega), heap_array_set, hheap,
    copy_back_function, copy_back_function_step]
  cases is_reference <;>
    simp [hp, hf, hpar, bind_ok, pure, Except.pure, leave_call, caller_env, bind, Except.bind,
      copy_runtime_value_eq]

/-- C9: when the argument of a call is an identifier bound to an array object, the parameter
is bound to the same array object whatever its declared mode, in a call statement and in a
call expression alike.  An indexed assignment through a name that holds the handle stores
into that object, so that every name holding the handle, in particular the caller's
variable, reads the element back; an element written through the parameter in the body
(`p[t] := v`) is read back through the caller's variable after the call. -/
theorem C9_array_argument_is_shared (fuel : Nat) (is_reference is_statement : Bool)
    (x : String) (a : Nat) (arr : ArrayObject) (t : List Int) (v : RuntimeValue) (st : State)
    (hx : env_get st.env x = .ok (VAL_ARRAY a)) (hheap : st.heap[a]? = some arr)
    (hlen : t.length = arr.num_dims) (hin : indices_in_bounds arr.bounds t)
    (hpos : 0 < t.length) (hdims : t.length ≤ MAX_ARRAY_DIMS) :
    (∀ (ev : Eval) (param : Parameter) (s : State), caller_get s.env x = .ok (VAL_ARRAY a) →
      bind_parameter ev param (AST_IDENTIFIER x) s =
        .ok { s with env := env_define s.env param.name (VAL_ARRAY a) } ∧
      slot_value (env_define s.env param.name (VAL_ARRAY a)) param.name =
        some (VAL_ARRAY a)) ∧
    (∀ (p : String) (idx : List ASTNode) (e : ASTNode) (s s1 s2 : State) (val : RuntimeValue)
        (ivals : List Int) (a0 : Nat) (obj : ArrayObject),
      idx ≠ [] → evaluate fuel e s = .ok (val, s1) →
      env_get s1.env p = .ok (VAL_ARRAY a0) →
      evaluate_indices (evaluate fuel) 0 idx s1 = .ok (ivals, s2) →
      env_get s2.env p = .ok (VAL_ARRAY a) → s2.heap[a]? = some obj →
      ivals.length = obj.num_dims → indices_in_bounds obj.bounds ivals →
      ∃ s', execute_statement (fuel + 1) (AST_ASSIGN p idx e) s = .ok s' ∧
        s'.env = s2.env ∧
        ∀ (env : Environment) (y : String), env_get env y = .ok (VAL_ARRAY a) →
          evaluate (fuel + 2) (AST_ARRAY_ACCESS y (ivals.map int_literal))
              { s' with env := env } = .ok (val, { s' with env := env })) ∧
    (env_get_subroutine st.env "STORE" = .ok (store_procedure is_reference t v) →
      ∃ st', execute_statement (fuel + 3) (AST_CALL "STORE" [AST_IDENTIFIER x] is_statement) st =
          .ok st' ∧
        evaluate (fuel + 2) (AST_ARRAY_ACCESS x (t.map int_literal)) st' = .ok (v, st')) ∧
    (env_get_subroutine st.env "STOREF" = .ok (store_function is_reference t v) →
      ∃ r st', evaluate (fuel + 3) (AST_CALL "STOREF" [AST_IDENTIFIER x] is_statement) st =
          .ok (r, st') ∧
        evaluate (fuel + 2) (AST_ARRAY_ACCESS x (t.map int_literal)) st' = .ok (v, st')) := by
  refine ⟨fun ev param s hs => bind_parameter_array ev param x s a hs, ?_, ?_, ?_⟩
  · intro p idx e s s1 s2 val ivals a0 obj hidx heval hp0 hind hp hobj hl hb
    refine ⟨_, execute_assign_indexed fuel p idx e s s1 s2 val ivals a0 a obj hidx heval hp0
      hind hp hobj, rfl, ?_⟩
    intro env y hy
    have hlt : a < s2.heap.length := by
      rcases Nat.lt_or_ge a s2.heap.length with h | h
      · exact h
      · rw [List.getElem?_eq_none h] at hobj
        cases hobj
    have hget : (s2.heap.set a (array_set obj ivals val))[a]? =
        some (array_set obj ivals val) := by
      simp [List.getElem?_set, hlt]
    have hread : array_get (array_set obj ivals val) ivals = .ok val := by
      rw [array_get_array_set obj ivals ivals val hl hb]
      simp
    have hlen2 := evaluate_indices_length (evaluate fuel) idx 0 s1 ivals s2 hind
    have hd : ivals.length ≤ MAX_ARRAY_DIMS := by
      have := hlen2.2 hidx
      omega
    exact array_access_reads fuel _ y a _ ivals val hy hget hread hd
  · intro hsub
    exact ⟨_, store_procedure_call fuel is_reference is_statement x a arr t v st hsub hx hheap
      hpos hdims, heap_after_store st x a arr t v fuel hx hheap hlen hin hdims⟩
  · intro hsub
    exact ⟨_, _, store_function_call fuel is_reference is_statement x a arr t v st hsub hx hheap
      hpos hdims, heap_after_store st x a arr t v fuel hx hheap hlen hin hdims⟩

theorem C9_witness :
    ∃ st', execute_statement 3 (AST_CALL "STORE" [AST_IDENTIFIER "A"] true) store_state =
        .ok st' ∧
      evaluate 2 (AST_ARRAY_ACCESS "A" [int_literal 3]) st' = .ok (VAL_INT 9, st') :=
  (C9_array_argument_is_shared 0 false true "A" 0 (create_array [⟨2, 4⟩]) [3] (VAL_INT 9)
    store_state rfl rfl rfl
    (by
      intro k y b hy hb
      cases k with
      | zero =>
        simp [create_array] at hy hb
        subst hy hb
        decide
      | succ k => simp at hy)
    (by decide) (by decide)).2.2.1 rfl

/-! ## Scope chains -/

theorem scope_value_zero (env : Environment) (name : String) :
    scope_value env 0 name = slot_value env name := by
  cases env <;> simp [scope_value, scope_chain]

theorem scope_value_succ (entries : Nat → List EnvEntry) (parent : Environment) (j : Nat)
    (name : String) :
    scope_value (.child entries parent) (j + 1) name = scope_value parent j name := by
  simp [scope_value, scope_chain]

theorem scope_value_root_succ (entries : Nat → List EnvEntry) (j : Nat) (name : String) :
    scope_value (.root entries) (j + 1) name = none := by
  simp [scope_value, scope_chain]

/-- C13: `env_get` on a scope chain returns the value bound to the name in the innermost
scope of the chain that binds it, whatever the outer scopes bind, and it ends in the fatal
error "Undefined variable" exactly when no scope from the given one up to the root binds the
name; it has no other error. -/
theorem C13_env_get_innermost_binding (env : Environment) (name : String) :
    (∀ v, env_get env name = .ok v ↔
      ∃ k, scope_value env k name = some v ∧ ∀ j, j < k → scope_value env j name = none) ∧
    (env_get env name = .error (.runtime_error (.undefined_variable name)) ↔
      ∀ j, scope_value env j name = none) ∧
    (∀ e, env_get env name = .error e → e = .runtime_error (.undefined_variable name)) := by
  induction env with
  | root entries =>
    have h0 : scope_value (.root entries) 0 name =
        env_get_chain (str_upper name) (entries (hash_string (str_upper name))) := by
      rw [scope_value_zero]; rfl
    refine ⟨fun v => ?_, ?_, fun e => ?_⟩
    · constructor
      · intro h
        refine ⟨0, ?_, fun j hj => absurd hj (by omega)⟩
        rw [h0]
        simp only [env_get] at h
        split at h
        · next v' hv => rw [hv]; cases h; rfl
        · cases h
      · rintro ⟨k, hk, hlt⟩
        cases k with
        | zero =>
          rw [h0] at hk
          simp only [env_get, hk]
        | succ k => simp [scope_value_root_succ] at hk
    · constructor
      · intro h j
        cases j with
        | zero =>
          rw [h0]
          simp only [env_get] at h
          split at h
          · cases h
          · next hv => exact hv
        | succ j => exact scope_value_root_succ entries j name
      · intro h
        have := h 0
        rw [h0] at this
        simp only [env_get, this]
    · intro h
      simp only [env_get] at h
      split at h
      · cases h
      · cases h; rfl
  | child entries parent ih =>
    obtain ⟨ih1, ih2, ih3⟩ := ih
    have h0 : scope_value (.child entries parent) 0 name =
        env_get_chain (str_upper name) (entries (hash_string (str_upper name))) := by
      rw [scope_value_zero]; rfl
    cases hc : env_get_chain (str_upper name) (entries (hash_string (str_upper name))) with
    | some v0 =>
      have hg : env_get (.child entries parent) name = .ok v0 := by simp only [env_get, hc]
      rw [hc] at h0
      refine ⟨fun v => ?_, ?_, fun e => ?_⟩
      · rw [hg]
        constructor
        · intro h
          cases h
          exact ⟨0, h0, fun j hj => absurd hj (by omega)⟩
        · rintro ⟨k, hk, hlt⟩
          cases k with
          | zero => rw [h0] at hk; cases hk; rfl
          | succ k =>
            have := hlt 0 (by omega)
            rw [h0] at this
            cases this
      · rw [hg]
        constructor
        · intro h; cases h
        · intro h
          have := h 0
          rw [h0] at this
          cases this
      · rw [hg]
        intro h; cases h
    | none =>
      have hg : env_get (.child entries parent) name = env_get parent name := by
        simp only [env_get, hc]
      rw [hc] at h0
      refine ⟨fun v => ?_, ?_, fun e => ?_⟩
      · rw [hg, ih1 v]
        constructor
        · rintro ⟨k, hk, hlt⟩
          refine ⟨k + 1, by rw [scope_value_succ]; exact hk, fun j hj => ?_⟩
          cases j with
          | zero => exact h0
          | succ j => rw [scope_value_succ]; exact hlt j (by omega)
        · rintro ⟨k, hk, hlt⟩
          cases k with
          | zero => rw [h0] at hk; cases hk
          | succ k =>
            rw [scope_value_succ] at hk
            refine ⟨k, hk, fun j hj => ?_⟩
            have := hlt (j + 1) (by omega)
            rwa [scope_value_succ] at this
      · rw [hg, ih2]
        constructor
        · intro h j
          cases j with
          | zero => exact h0
          | succ j => rw [scope_value_succ]; exact h j
        · intro h j
          have := h (j + 1)
          rwa [scope_value_succ] at this
      · rw [hg]
        exact ih3 e

theorem scope_chain_length_pos (env : Environment) : 0 < (scope_chain env).length := by
  cases env <;> simp [scope_chain]

theorem scope_value_of_length_le (env : Environment) (j : Nat) (name : String)
    (h : (scope_chain env).length ≤ j) : scope_value env j name = none := by
  simp [scope_value, List.getElem?_eq_none h]

theorem env_get_chain_ne_none_of_set (upper : String) (value : RuntimeValue)
    (chain chain' : List EnvEntry) (h : env_set_chain upper value chain = some chain') :
    env_get_chain upper chain ≠ none := by
  induction chain generalizing chain' with
  | nil => simp [env_set_chain] at h
  | cons x xs ih =>
    unfold env_set_chain at h
    unfold env_get_chain
    by_cases hx : x.name = upper
    · simp [hx]
    · simp only [if_neg hx, Option.map_eq_some'] at h ⊢
      obtain ⟨r, hr, -⟩ := h
      exact ih r hr

/-- The scopes of a chain and their bindings after `env_assign`: one slot of one scope holds
the new value, everything else is as before. -/
theorem env_assign_scopes (env : Environment) (name : String) (v : RuntimeValue) :
    ∃ k, k < (scope_chain env).length ∧
      ((scope_value env k name ≠ none ∧ ∀ j, j < k → scope_value env j name = none) ∨
        (k + 1 = (scope_chain env).length ∧ ∀ j, scope_value env j name = none)) ∧
      (scope_chain (env_assign env name v)).length = (scope_chain env).length ∧
      ∀ (j : Nat) (name' : String),
        scope_value (env_assign env name v) j name' =
          if j = k ∧ str_upper name' = str_upper name then some v
          else scope_value env j name' := by
  induction env with
  | root entries =>
    refine ⟨0, by simp [scope_chain], ?_, ?_, ?_⟩
    · cases hc : scope_value (.root entries) 0 name with
      | some w => exact Or.inl ⟨by simp, fun j hj => absurd hj (by omega)⟩
      | none =>
        refine Or.inr ⟨by simp [scope_chain], fun j => ?_⟩
        cases j with
        | zero => exact hc
        | succ j => exact scope_value_root_succ entries j name
    · unfold env_assign
      cases env_set_chain (str_upper name) v (entries (hash_string (str_upper name))) with
      | some chain => simp [scope_chain]
      | none =>
        dsimp only [env_define]
        cases env_set_chain (str_upper name) v
          ((Environment.root entries).entries (hash_string (str_upper name))) <;>
          simp [scope_chain, Environment.set_entries]
    · intro j name'
      cases j with
      | zero =>
        rw [scope_value_zero, scope_value_zero]
        simp only [true_and]
        unfold env_assign
        cases hs : env_set_chain (str_upper name) v (entries (hash_string (str_upper name))) with
        | some chain =>
          exact env_get_chain_update entries (str_upper name) (str_upper name') v chain hs
        | none => exact env_define_entries (.root entries) name name' v
      | succ j =>
        have hne : ¬ (j + 1 = 0 ∧ str_upper name' = str_upper name) := by omega
        rw [if_neg hne, scope_value_root_succ]
        apply scope_value_of_length_le
        unfold env_assign
        cases env_set_chain (str_upper name) v (entries (hash_string (str_upper name))) with
        | some chain => simp [scope_chain]
        | none =>
          dsimp only [env_define]
          cases env_set_chain (str_upper name) v
            ((Environment.root entries).entries (hash_string (str_upper name))) <;>
            simp [scope_chain, Environment.set_entries]
  | child entries parent ih =>
    cases hs : env_set_chain (str_upper name) v (entries (hash_string (str_upper name))) with
    | some chain =>
      have ha : env_assign (.child entries parent) name v =
          .child (Function.update entries (hash_string (str_upper name)) chain) parent := by
        simp only [env_assign, hs]
      have hb : scope_value (.child entries parent) 0 name ≠ none := by
        rw [scope_value_zero]
        exact env_get_chain_ne_none_of_set (str_upper name) v _ chain hs
      refine ⟨0, by simp [scope_chain], Or.inl ⟨hb, fun j hj => absurd hj (by omega)⟩, ?_, ?_⟩
      · rw [ha]; simp [scope_chain]
      · intro j name'
        rw [ha]
        cases j with
        | zero =>
          rw [scope_value_zero, scope_value_zero]
          simp only [true_and]
          exact env_get_chain_update entries (str_upper name) (str_upper name') v chain hs
        | succ j =>
          have hne : ¬ (j + 1 = 0 ∧ str_upper name' = str_upper name) := by omega
          rw [if_neg hne, scope_value_succ, scope_value_succ]
    | none =>
      have ha : env_assign (.child entries parent) name v =
          .child entries (env_assign parent name v) := by
        simp only [env_assign, hs]
      have h0 : scope_value (.child entries parent) 0 name = none := by
        rw [scope_value_zero]
        exact env_get_chain_of_set_none (str_upper name) v _ hs
      obtain ⟨k, hk, hcase, hlen, hframe⟩ := ih
      refine ⟨k + 1, by simp [scope_chain]; omega, ?_, ?_, ?_⟩
      · rcases hcase with ⟨hb, hlt⟩ | ⟨hroot, hnone⟩
        · refine Or.inl ⟨by rw [scope_value_succ]; exact hb, fun j hj => ?_⟩
          cases j with
          | zero => exact h0
          | succ j => rw [scope_value_succ]; exact hlt j (by omega)
        · refine Or.inr ⟨by simp [scope_chain]; omega, fun j => ?_⟩
          cases j with
          | zero => exact h0
          | succ j => rw [scope_value_succ]; exact hnone j
      · rw [ha]; simp [scope_chain, hlen]
      · intro j name'
        rw [ha]
        cases j with
        | zero =>
          have hne : ¬ (0 = k + 1 ∧ str_upper name' = str_upper name) := by omega
          rw [if_neg hne, scope_value_zero, scope_value_zero]
          rfl
        | succ j =>
          rw [scope_value_succ, scope_value_succ, hframe j name']
          simp

/-- C14: `env_assign(env, name, v)` rebinds the name to `v` in the innermost scope of the
chain that already binds it, or, when no scope binds it, defines it in the root scope (the
last of the chain); the chain keeps its length, and every other name in every scope, and
the same name in every other scope, is bound as before. -/
theorem C14_env_assign_rebinds_innermost (env : Environment) (name : String) (v : RuntimeValue) :
    ∃ k, k < (scope_chain env).length ∧
      ((scope_value env k name ≠ none ∧ ∀ j, j < k → scope_value env j name = none) ∨
        (k + 1 = (scope_chain env).length ∧ ∀ j, scope_value env j name = none)) ∧
      (scope_chain (env_assign env name v)).length = (scope_chain env).length ∧
      ∀ (j : Nat) (name' : String),
        scope_value (env_assign env name v) j name' =
          if j = k ∧ str_upper name' = str_upper name then some v
          else scope_value env j name' :=
  env_assign_scopes env name v

/-! ## Case-insensitive names -/

theorem toupper_of_upper (a : Char) (h : a.toNat ≤ 90) : toupper a = a := by
  unfold toupper
  have : ¬ ('a' ≤ a ∧ a ≤ 'z') := by
    rintro ⟨h1, -⟩
    have h1' : 'a'.toNat ≤ a.toNat := h1
    have : 'a'.toNat = 97 := rfl
    omega
  rw [if_neg this]

theorem toupper_of_lower (a b : Char) (h1 : 65 ≤ a.toNat) (h2 : a.toNat ≤ 90)
    (hb : b.toNat = a.toNat + 32) : toupper b = a := by
  unfold toupper
  have hc : 'a' ≤ b ∧ b ≤ 'z' := by
    constructor
    · show 'a'.toNat ≤ b.toNat
      have : 'a'.toNat = 97 := rfl
      omega
    · show b.toNat ≤ 'z'.toNat
      have : 'z'.toNat = 122 := rfl
      omega
  rw [if_pos hc, hb, Nat.add_sub_cancel]
  exact Char.ofNat_toNat a

theorem toupper_ascii_case_variant (a b : Char) (h : ascii_case_variant_char a b) :
    toupper a = toupper b := by
  rcases h with h | ⟨h1, h2, h3⟩ | ⟨h1, h2, h3⟩
  · rw [h]
  · rw [toupper_of_upper a h2, toupper_of_lower a b h1 h2 h3]
  · rw [toupper_of_upper b h2, toupper_of_lower b a h1 h2 h3]

theorem map_toupper_ascii_case_variant (l l' : List Char)
    (h : List.Forall₂ ascii_case_variant_char l l') : l.map toupper = l'.map toupper := by
  induction h with
  | nil => rfl
  | cons hab _ ih => simp [toupper_ascii_case_variant _ _ hab, ih]

theorem str_upper_ascii_case_variant (n n' : String) (h : ascii_case_variant n n') :
    str_upper n = str_upper n' := by
  unfold str_upper
  rw [map_toupper_ascii_case_variant n.data n'.data h]

theorem env_set_chain_twice (upper : String) (v w : RuntimeValue) (chain chain' : List EnvEntry)
    (h : env_set_chain upper v chain = some chain') :
    env_set_chain upper w chain' = env_set_chain upper w chain := by
  induction chain generalizing chain' with
  | nil => simp [env_set_chain] at h
  | cons x xs ih =>
    unfold env_set_chain at h
    by_cases hx : x.name = upper
    · simp only [if_pos hx, Option.some.injEq] at h
      subst h
      simp [env_set_chain, hx]
    · simp only [if_neg hx, Option.map_eq_some'] at h
      obtain ⟨r, hr, hc⟩ := h
      subst hc
      simp only [env_set_chain, if_neg hx, ih r hr]

theorem env_set_chain_none_iff (upper : String) (v w : RuntimeValue) (chain : List EnvEntry) :
    env_set_chain upper v chain = none ↔ env_set_chain upper w chain = none := by
  induction chain with
  | nil => simp [env_set_chain]
  | cons x xs ih =>
    unfold env_set_chain
    by_cases hx : x.name = upper
    · simp [hx]
    · simp only [if_neg hx, Option.map_eq_none', ih]

theorem set_entries_entries (env : Environment) (e : Nat → List EnvEntry) :
    (env.set_entries e).entries = e := by
  cases env <;> rfl

theorem set_entries_set_entries (env : Environment) (e e' : Nat → List EnvEntry) :
    (env.set_entries e).set_entries e' = env.set_entries e' := by
  cases env <;> rfl

/-- Defining a name twice, in spellings with the same upper-case form, leaves the environment
that defining it once with the second value gives: no second entry is made. -/
theorem env_define_twice (env : Environment) (n n' : String) (v w : RuntimeValue)
    (h : str_upper n' = str_upper n) :
    env_define (env_define env n v) n' w = env_define env n w := by
  have hd : ∀ (e : Environment) (m : String) (x : RuntimeValue), env_define e m x =
      match env_set_chain (str_upper m) x (e.entries (hash_string (str_upper m))) with
      | some chain => e.set_entries (Function.update e.entries (hash_string (str_upper m)) chain)
      | none => e.set_entries (Function.update e.entries (hash_string (str_upper m))
          ({ name := str_upper m, value := copy_runtime_value x, subroutine := none }
            :: e.entries (hash_string (str_upper m)))) := fun _ _ _ => rfl
  rw [hd (env_define env n v) n' w, h]
  cases hs : env_set_chain (str_upper n) v (env.entries (hash_string (str_upper n))) with
  | some chain =>
    have h1 : env_define env n v =
        env.set_entries (Function.update env.entries (hash_string (str_upper n)) chain) := by
      rw [hd, hs]
    rw [h1, set_entries_entries, Function.update_same,
      env_set_chain_twice (str_upper n) v w _ chain hs, hd env n w]
    cases hw : env_set_chain (str_upper n) w (env.entries (hash_string (str_upper n))) with
    | some chain2 =>
      simp only [set_entries_set_entries, Function.update_idem]
    | none =>
      rw [(env_set_chain_none_iff (str_upper n) v w _).2 hw] at hs
      cases hs
  | none =>
    have h1 : env_define env n v =
        env.set_entries (Function.update env.entries (hash_string (str_upper n))
          ({ name := str_upper n, value := copy_runtime_value v, subroutine := none }
            :: env.entries (hash_string (str_upper n)))) := by
      rw [hd, hs]
    have hw := (env_set_chain_none_iff (str_upper n) v w _).1 hs
    rw [h1, set_entries_entries, Function.update_same, hd env n w, hw]
    simp only [env_set_chain, if_true, set_entries_set_entries, Function.update_idem,
      copy_runtime_value_eq]

/-- C15 (as amended): identifier lookup ignores the case of the letters `A` to `Z`: for
names `n`, `n'` that differ only in the case of such letters, `env_get(env, n')` after
`env_define(env, n, v)` returns `v`, and `env_define(env, n', w)` then overwrites that same
binding: the environment is the one that defining `n` once with `w` gives. -/
theorem C15_ascii_case_insensitive_lookup (env : Environment) (n n' : String)
    (v w : RuntimeValue) (h : ascii_case_variant n n') :
    env_get (env_define env n v) n' = .ok v ∧
    env_define (env_define env n v) n' w = env_define env n w ∧
    env_get (env_define (env_define env n v) n' w) n = .ok w := by
  have hu := str_upper_ascii_case_variant n n' h
  refine ⟨?_, env_define_twice env n n' v w hu.symm, ?_⟩
  · rw [env_get_env_define, if_pos hu.symm]
  · rw [env_define_twice env n n' v w hu.symm, env_get_env_define, if_pos rfl]

/-- C15, an instance: `TOTAL` finds the binding made for `Total`. -/
theorem C15_witness :
    env_get (env_define (create_environment none) "Total" (VAL_INT 1)) "TOTAL" =
      .ok (VAL_INT 1) :=
  (C15_ascii_case_insensitive_lookup (create_environment none) "Total" "TOTAL"
    (VAL_INT 1) (VAL_INT 2) (by unfold ascii_case_variant ascii_case_variant_char; decide)).1

/-- C15 fails as stated: the names `μ` and `Μ` differ only in the case of their letter, yet
after `μ` is defined a lookup of `Μ` is an undefined variable, and defining `Μ` makes a second
binding beside that of `μ`. -/
theorem C15_counterexample :
    env_get (env_define (create_environment none) "μ" (VAL_INT 1)) "Μ" =
        .error (.runtime_error (.undefined_variable "Μ")) ∧
      env_get (env_define (env_define (create_environment none) "μ" (VAL_INT 1)) "Μ" (VAL_INT 2))
        "μ" = .ok (VAL_INT 1) := by
  decide

/-! ## Copy-back into an array element -/

/-- C12: after the function call `F(A[2])` in expression position, with `F` setting its
by-reference parameter to 7 and returning 1, the element `A[2]` still reads 0 although the
call returned 1; the same call as a statement stores 7 into `A[2]`. -/
theorem C12_function_call_skips_array_element_copy_back :
    value_after (execute_program 4 (element_program element_call_expression) []) 2
        (AST_IDENTIFIER "y") = .ok (VAL_INT 1) ∧
      value_after (execute_program 4 (element_program element_call_expression) []) 2
        (AST_ARRAY_ACCESS "A" [int_literal 2]) = .ok (VAL_INT 0) ∧
      value_after (execute_program 4 (element_program element_call_statement) []) 2
        (AST_ARRAY_ACCESS "A" [int_literal 2]) = .ok (VAL_INT 7) := by
  decide

/-! ## Scopes are kept along a run -/

theorem extends_scopes_refl (env : Environment) : extends_scopes env env := by
  induction env with
  | root entries => exact fun _ h => h
  | child entries parent ih => exact ⟨fun _ h => h, ih⟩

theorem extends_scopes_trans (a b c : Environment) (h1 : extends_scopes a b)
    (h2 : extends_scopes b c) : extends_scopes a c := by
  induction a generalizing b c with
  | root e =>
    cases b with
    | child _ _ => exact absurd h1 (by simp [extends_scopes])
    | root e' =>
      cases c with
      | child _ _ => exact absurd h2 (by simp [extends_scopes])
      | root e'' => exact fun name h => h2 name (h1 name h)
  | child e p ih =>
    cases b with
    | root _ => exact absurd h1 (by simp [extends_scopes])
    | child e' p' =>
      cases c with
      | root _ => exact absurd h2 (by simp [extends_scopes])
      | child e'' p'' =>
        exact ⟨fun name h => h2.1 name (h1.1 name h), ih p' p'' h1.2 h2.2⟩

theorem extends_scopes_slot (env env' : Environment) (h : extends_scopes env env')
    (name : String) (hs : slot_value env name ≠ none) : slot_value env' name ≠ none := by
  cases env with
  | root e =>
    cases env' with
    | root e' => exact h name hs
    | child _ _ => exact absurd h (by simp [extends_scopes])
  | child e p =>
    cases env' with
    | root _ => exact absurd h (by simp [extends_scopes])
    | child e' p' => exact h.1 name hs

theorem extends_scopes_parent (env env' : Environment) (p : Environment)
    (h : extends_scopes env env') (hp : env.parent = some p) :
    ∃ p', env'.parent = some p' ∧ extends_scopes p p' := by
  cases env with
  | root e => cases hp
  | child e q =>
    cases env' with
    | root _ => exact absurd h (by simp [extends_scopes])
    | child e' p' =>
      simp only [Environment.parent, Option.some.injEq] at hp
      subst hp
      exact ⟨p', rfl, h.2⟩

theorem extends_scopes_child (entries : Nat → List EnvEntry) (p p' : Environment)
    (h : extends_scopes p p') : extends_scopes (.child entries p) (.child entries p') :=
  ⟨fun _ hs => hs, h⟩

theorem extends_scopes_env_define (env : Environment) (name : String) (v : RuntimeValue) :
    extends_scopes env (env_define env name v) := by
  have hslot : ∀ y, slot_value env y ≠ none → slot_value (env_define env name v) y ≠ none := by
    intro y hy
    unfold slot_value
    rw [env_define_entries]
    by_cases hk : str_upper y = str_upper name
    · simp [hk]
    · simpa [hk] using hy
  have hd : env_define env name v = env.set_entries (env_define env name v).entries := by
    dsimp only [env_define]
    cases env_set_chain (str_upper name) v (env.entries (hash_string (str_upper name))) <;>
      cases env <;> rfl
  cases env with
  | root e =>
    rw [hd] at hslot ⊢
    exact hslot
  | child e p =>
    rw [hd] at hslot ⊢
    exact ⟨hslot, extends_scopes_refl p⟩

theorem extends_scopes_env_assign (env : Environment) (name : String) (v : RuntimeValue) :
    extends_scopes env (env_assign env name v) := by
  induction env with
  | root entries =>
    unfold env_assign
    cases hs : env_set_chain (str_upper name) v (entries (hash_string (str_upper name))) with
    | some chain =>
      intro y hy
      unfold slot_value at hy ⊢
      simp only [Environment.entries] at hy ⊢
      rw [env_get_chain_update entries _ _ v chain hs]
      by_cases hk : str_upper y = str_upper name
      · simp [hk]
      · simpa [hk] using hy
    | none => exact extends_scopes_env_define _ _ _
  | child entries parent ih =>
    unfold env_assign
    cases hs : env_set_chain (str_upper name) v (entries (hash_string (str_upper name))) with
    | some chain =>
      refine ⟨?_, extends_scopes_refl parent⟩
      intro y hy
      unfold slot_value at hy ⊢
      simp only [Environment.entries] at hy ⊢
      rw [env_get_chain_update entries _ _ v chain hs]
      by_cases hk : str_upper y = str_upper name
      · simp [hk]
      · simpa [hk] using hy
    | none => exact ⟨fun _ h => h, ih⟩

theorem in_caller_env_extends {α : Type} (m : State → Except Fault (α × State)) (st : State)
    (a : α) (st' : State)
    (hm : ∀ s b s', m s = .ok (b, s') → extends_scopes s.env s'.env)
    (h : in_caller_env m st = .ok (a, st')) :
    extends_scopes st.env st'.env ∧ st'.env.entries = st.env.entries := by
  unfold in_caller_env at h
  cases henv : st.env with
  | root entries => rw [henv] at h; simp at h
  | child entries parent =>
    rw [henv] at h
    simp only [bind_eq_ok, pure_eq_ok, Prod.mk.injEq] at h
    obtain ⟨⟨b, s1⟩, h1, -, h2⟩ := h
    have := hm _ _ _ h1
    rw [← h2]
    exact ⟨extends_scopes_child entries _ _ this, rfl⟩

theorem evaluate_indices_extends (ev : Eval) (hev : keeps_scopes_eval ev) (es : List ASTNode) :
    ∀ (i : Nat) (st : State) (idx : List Int) (st' : State),
      evaluate_indices ev i es st = .ok (idx, st') → extends_scopes st.env st'.env := by
  induction es with
  | nil =>
    intro i st idx st' h
    simp only [evaluate_indices, Except.ok.injEq, Prod.mk.injEq] at h
    rw [← h.2]
    exact extends_scopes_refl _
  | cons e es ih =>
    intro i st idx st' h
    simp only [evaluate_indices, bind_eq_ok] at h
    obtain ⟨⟨v, st1⟩, he, h⟩ := h
    by_cases hi : i ≥ MAX_ARRAY_DIMS
    · simp [hi] at h
    · simp only [if_neg hi, bind_eq_ok, pure_eq_ok, Prod.mk.injEq] at h
      obtain ⟨⟨rest, st2⟩, hr, -, h2⟩ := h
      rw [← h2]
      exact extends_scopes_trans _ _ _ (hev _ _ _ _ he) (ih (i + 1) st1 rest st2 hr)

theorem execute_statements_extends (ex : Exec) (hex : keeps_scopes_exec ex)
    (stmts : List ASTNode) :
    ∀ (st st' : State), execute_statements ex stmts st = .ok st' →
      extends_scopes st.env st'.env := by
  induction stmts with
  | nil =>
    intro st st' h
    simp only [execute_statements, Except.ok.injEq] at h
    rw [← h]
    exact extends_scopes_refl _
  | cons s rest ih =>
    intro st st' h
    simp only [execute_statements, bind_eq_ok] at h
    obtain ⟨st1, h1, h2⟩ := h
    exact extends_scopes_trans _ _ _ (hex _ _ _ h1) (ih st1 st' h2)

theorem print_value_env (i : Nat) (val : RuntimeValue) (st : State) :
    (print_value i val st).env = st.env := by
  unfold print_value
  split
  · rfl
  · cases val <;> by_cases hi : i > 0 <;> simp [hi, State.printf]

theorem print_loop_extends (ev : Eval) (hev : keeps_scopes_eval ev) (es : List ASTNode) :
    ∀ (i : Nat) (st st' : State), print_loop ev i es st = .ok st' →
      extends_scopes st.env st'.env := by
  induction es with
  | nil =>
    intro i st st' h
    simp only [print_loop, Except.ok.injEq] at h
    rw [← h]
    exact extends_scopes_refl _
  | cons e es ih =>
    intro i st st' h
    simp only [print_loop, bind_eq_ok] at h
    obtain ⟨⟨v, st1⟩, he, h⟩ := h
    have h2 := ih (i + 1) _ st' h
    rw [print_value_env] at h2
    exact extends_scopes_trans _ _ _ (hev _ _ _ _ he) h2

theorem read_loop_extends (ev : Eval) (hev : keeps_scopes_eval ev) (vars : List ASTNode) :
    ∀ (st st' : State), read_loop ev vars st = .ok st' → extends_scopes st.env st'.env := by
  induction vars with
  | nil =>
    intro st st' h
    simp only [read_loop, Except.ok.injEq] at h
    rw [← h]
    exact extends_scopes_refl _
  | cons var vars ih =>
    intro st st' h
    unfold read_loop at h
    cases hf : fgets 256 st.stdin with
    | none =>
      rw [hf] at h
      simp only [Except.ok.injEq] at h
      rw [← h]
      exact extends_scopes_refl _
    | some p =>
      obtain ⟨line, rest⟩ := p
      rw [hf] at h
      simp only at h
      split at h
      · simp only [bind_eq_ok] at h
        obtain ⟨arr_val, -, h⟩ := h
        split at h
        · simp only [bind_eq_ok] at h
          obtain ⟨⟨idx, st2⟩, hi, arr_now, -, st3, h1, h⟩ := h
          have e1 := evaluate_indices_extends ev hev _ 0 _ idx st2 hi
          have e2 := ih _ _ h
          rw [heap_array_set_env _ _ _ _ _ h1] at e2
          exact extends_scopes_trans _ _ _ e1 e2
        · simp only [bind_eq_ok, pure_eq_ok] at h
          obtain ⟨st1, h1, h⟩ := h
          have e2 := ih _ _ h
          rw [← h1] at e2
          exact e2
      · simp only [bind_eq_ok, pure_eq_ok] at h
        obtain ⟨st1, h1, h⟩ := h
        have e2 := ih _ _ h
        rw [← h1] at e2
        exact extends_scopes_trans _ _ _ (extends_scopes_env_assign _ _ _) e2
      · simp only [bind_eq_ok, pure_eq_ok] at h
        obtain ⟨st1, h1, h⟩ := h
        have e2 := ih _ _ h
        rw [← h1] at e2
        exact e2

theorem for_loop_up_extends (ex : Exec) (hex : keeps_scopes_exec ex) (loop_variable : String)
    (body : List ASTNode) (end_ step : Int) :
    ∀ (n : Nat) (current : Int) (st st' : State),
      for_loop_up ex loop_variable body end_ step n current st = .ok st' →
      extends_scopes st.env st'.env := by
  intro n
  induction n with
  | zero => intro current st st' h; simp [for_loop_up] at h
  | succ n ih =>
    intro current st st' h
    unfold for_loop_up at h
    by_cases hc : current ≤ end_
    · simp only [if_pos hc, bind_eq_ok] at h
      obtain ⟨st2, h2, h3⟩ := h
      exact extends_scopes_trans _ _ _ (extends_scopes_env_assign st.env loop_variable _)
        (extends_scopes_trans _ _ _ (execute_statements_extends ex hex body _ _ h2)
          (ih _ _ _ h3))
    · simp only [if_neg hc, Except.ok.injEq] at h
      rw [← h]
      exact extends_scopes_refl _

theorem for_loop_down_extends (ex : Exec) (hex : keeps_scopes_exec ex) (loop_variable : String)
    (body : List ASTNode) (end_ step : Int) :
    ∀ (n : Nat) (current : Int) (st st' : State),
      for_loop_down ex loop_variable body end_ step n current st = .ok st' →
      extends_scopes st.env st'.env := by
  intro n
  induction n with
  | zero => intro current st st' h; simp [for_loop_down] at h
  | succ n ih =>
    intro current st st' h
    unfold for_loop_down at h
    by_cases hc : current ≥ end_
    · simp only [if_pos hc, bind_eq_ok] at h
      obtain ⟨st2, h2, h3⟩ := h
      exact extends_scopes_trans _ _ _ (extends_scopes_env_assign st.env loop_variable _)
        (extends_scopes_trans _ _ _ (execute_statements_extends ex hex body _ _ h2)
          (ih _ _ _ h3))
    · simp only [if_neg hc, Except.ok.injEq] at h
      rw [← h]
      exact extends_scopes_refl _

theorem while_loop_extends (ev : Eval) (ex : Exec) (hev : keeps_scopes_eval ev)
    (hex : keeps_scopes_exec ex) (condition : ASTNode) (body : List ASTNode) :
    ∀ (n : Nat) (st st' : State), while_loop ev ex condition body n st = .ok st' →
      extends_scopes st.env st'.env := by
  intro n
  induction n with
  | zero => intro st st' h; simp [while_loop] at h
  | succ n ih =>
    intro st st' h
    simp only [while_loop, bind_eq_ok] at h
    obtain ⟨⟨cond, st1⟩, h1, h⟩ := h
    have e1 := hev _ _ _ _ h1
    by_cases hc : to_bool cond
    · simp only [hc, Bool.not_true, Bool.false_eq_true, if_false, bind_eq_ok] at h
      obtain ⟨st2, h2, h3⟩ := h
      exact extends_scopes_trans _ _ _ e1
        (extends_scopes_trans _ _ _ (execute_statements_extends ex hex body _ _ h2)
          (ih _ _ h3))
    · simp only [hc, Bool.not_false, if_true, pure_eq_ok] at h
      rw [← h]
      exact e1

theorem repeat_until_loop_extends (ev : Eval) (ex : Exec) (hev : keeps_scopes_eval ev)
    (hex : keeps_scopes_exec ex) (condition : ASTNode) (body : List ASTNode) :
    ∀ (n : Nat) (st st' : State), repeat_until_loop ev ex condition body n st = .ok st' →
      extends_scopes st.env st'.env := by
  intro n
  induction n with
  | zero => intro st st' h; simp [repeat_until_loop] at h
  | succ n ih =>
    intro st st' h
    simp only [repeat_until_loop, bind_eq_ok] at h
    obtain ⟨st1, h1, ⟨cond, st2⟩, h2, h⟩ := h
    have e1 := execute_statements_extends ex hex body _ _ h1
    have e2 := hev _ _ _ _ h2
    by_cases hc : to_bool cond
    · simp only [hc, if_true, pure_eq_ok] at h
      rw [← h]
      exact extends_scopes_trans _ _ _ e1 e2
    · simp only [hc, Bool.false_eq_true, if_false] at h
      exact extends_scopes_trans _ _ _ e1 (extends_scopes_trans _ _ _ e2 (ih _ _ h))

theorem bind_parameter_extends (ev : Eval) (hev : keeps_scopes_eval ev) (param : Parameter)
    (arg : ASTNode) (st st' : State) (h : bind_parameter ev param arg st = .ok st') :
    extends_scopes st.env st'.env ∧ slot_value st'.env param.name ≠ none := by
  have hdef : ∀ (env : Environment) (v : RuntimeValue),
      slot_value (env_define env param.name v) param.name ≠ none := by
    intro env v
    unfold slot_value
    rw [env_define_entries]
    simp
  have hreg : ∀ s', (do
      let (arg_val, st1) ← in_caller_env (ev arg) st
      pure { st1 with env := env_define st1.env param.name arg_val } : Except Fault State) =
        .ok s' → extends_scopes st.env s'.env ∧ slot_value s'.env param.name ≠ none := by
    intro s' hr
    simp only [bind_eq_ok, pure_eq_ok] at hr
    obtain ⟨⟨arg_val, st1⟩, h1, h2⟩ := hr
    rw [← h2]
    exact ⟨extends_scopes_trans _ _ _
      (in_caller_env_extends (ev arg) st arg_val st1 (fun s b s' hm => hev _ _ _ _ hm) h1).1
      (extends_scopes_env_define _ _ _), hdef _ _⟩
  unfold bind_parameter at h
  simp only [] at h
  split at h
  · simp only [bind_eq_ok] at h
    obtain ⟨env, -, potential_array, -, h⟩ := h
    split at h
    · simp only [pure_eq_ok] at h
      rw [← h]
      exact ⟨extends_scopes_env_define _ _ _, hdef _ _⟩
    · exact hreg _ h
  · exact hreg _ h

theorem bind_parameters_extends (ev : Eval) (hev : keeps_scopes_eval ev) :
    ∀ (params : List Parameter) (args : List ASTNode) (st st' : State),
      bind_parameters ev params args st = .ok st' →
      extends_scopes st.env st'.env ∧
      ∀ (j : Nat) (p : Parameter) (a : ASTNode), params[j]? = some p → args[j]? = some a →
        slot_value st'.env p.name ≠ none := by
  intro params
  induction params with
  | nil =>
    intro args st st' h
    simp only [bind_parameters, Except.ok.injEq] at h
    rw [← h]
    exact ⟨extends_scopes_refl _, fun j p a hp => by simp at hp⟩
  | cons param params ih =>
    intro args st st' h
    cases args with
    | nil =>
      simp only [bind_parameters, Except.ok.injEq] at h
      rw [← h]
      exact ⟨extends_scopes_refl _, fun j p a _ ha => by simp at ha⟩
    | cons arg args =>
      simp only [bind_parameters, bind_eq_ok] at h
      obtain ⟨st1, h1, h2⟩ := h
      obtain ⟨e1, s1⟩ := bind_parameter_extends ev hev param arg st st1 h1
      obtain ⟨e2, s2⟩ := ih args st1 st' h2
      refine ⟨extends_scopes_trans _ _ _ e1 e2, fun j p a hp ha => ?_⟩
      cases j with
      | zero =>
        simp only [List.getElem?_cons_zero, Option.some.injEq] at hp
        subst hp
        exact extends_scopes_slot _ _ e2 _ s1
      | succ j =>
        simp only [List.getElem?_cons_succ] at hp ha
        exact s2 j p a hp ha

theorem assign_in_caller_extends (st st' : State) (x : String) (v : RuntimeValue)
    (h : assign_in_caller st x v = .ok st') : extends_scopes st.env st'.env := by
  unfold assign_in_caller at h
  cases henv : st.env with
  | root entries => rw [henv] at h; simp at h
  | child entries parent =>
    rw [henv] at h
    simp only [Except.ok.injEq] at h
    rw [← h]
    exact extends_scopes_child entries _ _ (extends_scopes_env_assign _ _ _)

theorem copy_back_function_extends :
    ∀ (params : List Parameter) (args : List ASTNode) (st st' : State),
      copy_back_function params args st = .ok st' →
      extends_scopes st.env st'.env ∧ st'.env.entries = st.env.entries := by
  intro params
  induction params with
  | nil =>
    intro args st st' h
    simp only [copy_back_function, Except.ok.injEq] at h
    rw [← h]
    exact ⟨extends_scopes_refl _, rfl⟩
  | cons param params ih =>
    intro args st st' h
    cases args with
    | nil =>
      simp only [copy_back_function, Except.ok.injEq] at h
      rw [← h]
      exact ⟨extends_scopes_refl _, rfl⟩
    | cons arg args =>
      simp only [copy_back_function, bind_eq_ok] at h
      obtain ⟨st1, h1, h2⟩ := h
      obtain ⟨e2, n2⟩ := ih args st1 st' h2
      have hstep : extends_scopes st.env st1.env ∧ st1.env.entries = st.env.entries := by
        unfold copy_back_function_step at h1
        by_cases hr : param.is_reference
        · simp only [hr, if_true, bind_eq_ok] at h1
          obtain ⟨func_val, -, h1⟩ := h1
          split at h1
          · simp only [pure_eq_ok] at h1
            rw [← h1]
            exact ⟨extends_scopes_refl _, rfl⟩
          · split at h1
            · exact ⟨assign_in_caller_extends _ _ _ _ h1, (assign_in_caller_ok _ _ _ _ h1).1⟩
            · simp only [pure_eq_ok] at h1
              rw [← h1]
              exact ⟨extends_scopes_refl _, rfl⟩
        · simp only [hr, Bool.false_eq_true, if_false, pure_eq_ok] at h1
          rw [← h1]
          exact ⟨extends_scopes_refl _, rfl⟩
      exact ⟨extends_scopes_trans _ _ _ hstep.1 e2, by rw [n2, hstep.2]⟩

theorem copy_back_procedure_extends (ev : Eval) (hev : keeps_scopes_eval ev) :
    ∀ (params : List Parameter) (args : List ASTNode) (st st' : State),
      copy_back_procedure ev params args st = .ok st' → extends_scopes st.env st'.env := by
  intro params
  induction params with
  | nil =>
    intro args st st' h
    simp only [copy_back_procedure, Except.ok.injEq] at h
    rw [← h]
    exact extends_scopes_refl _
  | cons param params ih =>
    intro args st st' h
    cases args with
    | nil =>
      simp only [copy_back_procedure, Except.ok.injEq] at h
      rw [← h]
      exact extends_scopes_refl _
    | cons arg args =>
      simp only [copy_back_procedure, bind_eq_ok] at h
      obtain ⟨st1, h1, h2⟩ := h
      refine extends_scopes_trans _ _ _ ?_ (ih args st1 st' h2)
      unfold copy_back_procedure_step at h1
      by_cases hr : param.is_reference
      · simp only [hr, if_true, bind_eq_ok] at h1
        obtain ⟨sub_val, -, h1⟩ := h1
        split at h1
        · simp only [pure_eq_ok] at h1
          rw [← h1]
          exact extends_scopes_refl _
        · split at h1
          · exact assign_in_caller_extends _ _ _ _ h1
          · unfold copy_back_element at h1
            simp only [bind_eq_ok] at h1
            obtain ⟨env, -, arr_val, -, h1⟩ := h1
            split at h1
            · simp only [bind_eq_ok] at h1
              obtain ⟨⟨idx, st2⟩, hi, env2, -, arr_now, -, sub_now, -, h1⟩ := h1
              rw [heap_array_set_env _ _ _ _ _ h1]
              exact (in_caller_env_extends _ st idx st2
                (fun s b s' hm => evaluate_indices_extends ev hev _ 0 s b s' hm) hi).1
            · simp only [pure_eq_ok] at h1
              rw [← h1]
              exact extends_scopes_refl _
          · simp only [pure_eq_ok] at h1
            rw [← h1]
            exact extends_scopes_refl _
      · simp only [hr, Bool.false_eq_true, if_false, pure_eq_ok] at h1
        rw [← h1]
        exact extends_scopes_refl _

theorem define_locals_parent (locals : List LocalDecl) :
    ∀ (env : Environment), (define_locals env locals).parent = env.parent := by
  induction locals with
  | nil => intro env; rfl
  | cons d rest ih =>
    intro env
    simp only [define_locals]
    rw [ih, env_define_parent]

theorem call_environment_parent (env : Environment) (locals : List LocalDecl) :
    (call_environment env locals).parent = some env := by
  unfold call_environment
  rw [define_locals_parent]
  rfl

/-- A call returns to an environment with the scopes of the caller's: the callee's
environment, a child of the caller's when the call starts, is left through its parent. -/
theorem leave_call_extends (env : Environment) (locals : List LocalDecl) (st st' : State)
    (h : extends_scopes (call_environment env locals) st.env)
    (hl : leave_call st = .ok st') : extends_scopes env st'.env := by
  obtain ⟨p', hp', he⟩ := extends_scopes_parent _ _ env h (call_environment_parent env locals)
  simp only [leave_call, caller_env, hp', bind_ok, pure_eq_ok] at hl
  rw [← hl]
  exact he

/-- Every evaluation and every statement ends in an environment with the scopes of the one it
started in: evaluation never leaves a scope and never removes a binding. -/
theorem evaluator_keeps_scopes (fuel : Nat) :
    keeps_scopes_eval (evaluate fuel) ∧ keeps_scopes_exec (execute_statement fuel) := by
  induction fuel with
  | zero =>
    constructor
    · intro e st v st' h
      simp [evaluate] at h
    · intro s st st' h
      simp [execute_statement] at h
  | succ fuel ih =>
    obtain ⟨hev, hex⟩ := ih
    constructor
    · intro e st v st' h
      cases e with
      | AST_LITERAL value =>
        simp only [evaluate, Except.ok.injEq, Prod.mk.injEq] at h
        rw [← h.2]
        exact extends_scopes_refl _
      | AST_IDENTIFIER name =>
        simp only [evaluate, bind_eq_ok, pure_eq_ok, Prod.mk.injEq] at h
        obtain ⟨val, -, -, h⟩ := h
        rw [← h]
        exact extends_scopes_refl _
      | AST_BINARY_OP operator left right =>
        simp only [evaluate, bind_eq_ok, pure_eq_ok, Prod.mk.injEq] at h
        obtain ⟨⟨l, st1⟩, h1, ⟨r, st2⟩, h2, res, -, -, h⟩ := h
        rw [← h]
        exact extends_scopes_trans _ _ _ (hev _ _ _ _ h1) (hev _ _ _ _ h2)
      | AST_UNARY_OP operator operand =>
        simp only [evaluate, bind_eq_ok, pure_eq_ok, Prod.mk.injEq] at h
        obtain ⟨⟨o, st1⟩, h1, res, -, -, h⟩ := h
        rw [← h]
        exact hev _ _ _ _ h1
      | AST_ARRAY_ACCESS name indices =>
        simp only [evaluate, bind_eq_ok, pure_eq_ok, Prod.mk.injEq] at h
        obtain ⟨val, -, ⟨idx, st1⟩, hi, val2, -, arr, -, x, -, -, h⟩ := h
        rw [← h]
        exact evaluate_indices_extends _ hev indices 0 st idx st1 hi
      | AST_CALL name arguments flag =>
        simp only [evaluate, bind_eq_ok] at h
        obtain ⟨function, -, h⟩ := h
        split at h
        · next fname rt parameters local_decls body =>
          simp only [bind_eq_ok, pure_eq_ok, Prod.mk.injEq] at h
          obtain ⟨st1, h1, st3, h3, st4, h4, return_val, -, st5, h5, -, h⟩ := h
          rw [← h]
          have e1 := (bind_parameters_extends _ hev parameters arguments _ st1 h1).1
          have e2 := extends_scopes_env_define st1.env fname (VAL_REAL 0)
          have e3 := execute_statements_extends _ hex body _ st3 h3
          have e4 := (copy_back_function_extends parameters arguments st3 st4 h4).1
          exact leave_call_extends st.env local_decls st4 st5
            (extends_scopes_trans _ _ _ e1
              (extends_scopes_trans _ _ _ e2 (extends_scopes_trans _ _ _ e3 e4))) h5
        · cases h
      | AST_PROGRAM _ _ _ | AST_CONST_DECL _ _ | AST_VAR_DECL _ _ _ | AST_FUNC_DECL _ _ _ _ _
      | AST_PROC_DECL _ _ _ _ | AST_ASSIGN _ _ _ | AST_PRINT _ | AST_READ _ | AST_IF _ _ _
      | AST_FOR _ _ _ _ _ | AST_WHILE _ _ _ =>
        simp only [evaluate, Except.ok.injEq, Prod.mk.injEq] at h
        rw [← h.2]
        exact extends_scopes_refl _
    · intro s st st' h
      cases s with
      | AST_ASSIGN identifier indices value =>
        simp only [execute_statement, bind_eq_ok] at h
        obtain ⟨⟨val, st1⟩, h1, h⟩ := h
        have e1 := hev _ _ _ _ h1
        by_cases hl : indices.length > 0
        · simp only [hl, if_true, bind_eq_ok] at h
          obtain ⟨arr_runtime, -, h⟩ := h
          split at h
          · simp only [bind_eq_ok] at h
            obtain ⟨⟨idx, st2⟩, hi, arr_now, -, h⟩ := h
            rw [heap_array_set_env _ _ _ _ _ h]
            exact extends_scopes_trans _ _ _ e1
              (evaluate_indices_extends _ hev indices 0 st1 idx st2 hi)
          · simp only [pure_eq_ok] at h
            rw [← h]
            exact e1
        · simp only [hl, if_false, pure_eq_ok] at h
          rw [← h]
          exact extends_scopes_trans _ _ _ e1 (extends_scopes_env_assign _ _ _)
      | AST_PRINT expressions =>
        simp only [execute_statement] at h
        exact print_loop_extends _ hev expressions 0 st st' h
      | AST_READ vars =>
        simp only [execute_statement] at h
        exact read_loop_extends _ hev vars st st' h
      | AST_IF condition then_branch else_branch =>
        simp only [execute_statement, bind_eq_ok] at h
        obtain ⟨⟨cond, st1⟩, h1, h⟩ := h
        have e1 := hev _ _ _ _ h1
        by_cases hc : to_bool cond
        · simp only [hc, if_true] at h
          exact extends_scopes_trans _ _ _ e1 (execute_statements_extends _ hex _ _ _ h)
        · simp only [hc, Bool.false_eq_true, if_false] at h
          cases else_branch with
          | some stmts =>
            simp only at h
            exact extends_scopes_trans _ _ _ e1 (execute_statements_extends _ hex _ _ _ h)
          | none =>
            simp only [pure_eq_ok] at h
            rw [← h]
            exact e1
      | AST_FOR loop_variable start end_ step body =>
        simp only [execute_statement, bind_eq_ok] at h
        obtain ⟨⟨start_val, st1⟩, h1, ⟨end_val, st2⟩, h2, ⟨step_val, st3⟩, h3, h⟩ := h
        have e123 := extends_scopes_trans _ _ _ (hev _ _ _ _ h1)
          (extends_scopes_trans _ _ _ (hev _ _ _ _ h2) (hev _ _ _ _ h3))
        by_cases hs : to_int step_val > 0
        · simp only [hs, if_true] at h
          exact extends_scopes_trans _ _ _ e123 (for_loop_up_extends _ hex _ _ _ _ _ _ _ _ h)
        · simp only [hs, if_false] at h
          exact extends_scopes_trans _ _ _ e123 (for_loop_down_extends _ hex _ _ _ _ _ _ _ _ h)
      | AST_WHILE condition body is_repeat_until =>
        simp only [execute_statement] at h
        by_cases hr : is_repeat_until
        · simp only [hr, if_true] at h
          exact repeat_until_loop_extends _ _ hev hex _ _ _ _ _ h
        · simp only [hr, Bool.false_eq_true, if_false] at h
          exact while_loop_extends _ _ hev hex _ _ _ _ _ h
      | AST_CALL name arguments flag =>
        simp only [execute_statement, bind_eq_ok] at h
        obtain ⟨subroutine, -, h⟩ := h
        have hrun : ∀ (parameters : List Parameter) (local_decls : List LocalDecl)
            (body : List ASTNode),
            (do
              let st1 ← bind_parameters (evaluate fuel) parameters arguments
                { st with env := call_environment st.env local_decls }
              let st2 ← execute_statements (execute_statement fuel) body st1
              let st3 ← copy_back_procedure (evaluate fuel) parameters arguments st2
              leave_call st3 : Except Fault State) = .ok st' →
            extends_scopes st.env st'.env := by
          intro parameters local_decls body hr
          simp only [bind_eq_ok] at hr
          obtain ⟨st1, h1, st2, h2, st3, h3, h4⟩ := hr
          have e1 := (bind_parameters_extends _ hev parameters arguments _ st1 h1).1
          have e2 := execute_statements_extends _ hex body _ st2 h2
          have e3 := copy_back_procedure_extends _ hev parameters arguments st2 st3 h3
          exact leave_call_extends st.env local_decls st3 st'
            (extends_scopes_trans _ _ _ e1 (extends_scopes_trans _ _ _ e2 e3)) h4
        split at h
        · exact hrun _ _ _ h
        · exact hrun _ _ _ h
        · cases h
      | AST_PROGRAM _ _ _ | AST_CONST_DECL _ _ | AST_VAR_DECL _ _ _ | AST_FUNC_DECL _ _ _ _ _
      | AST_PROC_DECL _ _ _ _ | AST_BINARY_OP _ _ _ | AST_UNARY_OP _ _ | AST_LITERAL _
      | AST_IDENTIFIER _ | AST_ARRAY_ACCESS _ _ =>
        simp [execute_statement] at h

/-! ## Statements that leave a variable alone -/

theorem env_assign_slot_other (env : Environment) (x y : String) (v : RuntimeValue)
    (h : str_upper y ≠ str_upper x) :
    slot_value (env_assign env y v) x = slot_value env x := by
  obtain ⟨k, -, -, -, hframe⟩ := env_assign_scopes env y v
  have := hframe 0 x
  rw [scope_value_zero, scope_value_zero] at this
  rw [this, if_neg]
  exact fun hh => h hh.2.symm

theorem execute_statements_slot (ex : Exec) (x : String) (stmts : List ASTNode)
    (hex : ∀ s, s ∈ stmts → ∀ st st', ex s st = .ok st' →
      slot_value st'.env x = slot_value st.env x) :
    ∀ (st st' : State), execute_statements ex stmts st = .ok st' →
      slot_value st'.env x = slot_value st.env x := by
  induction stmts with
  | nil =>
    intro st st' h
    simp only [execute_statements, Except.ok.injEq] at h
    rw [← h]
  | cons s rest ih =>
    intro st st' h
    simp only [execute_statements, bind_eq_ok] at h
    obtain ⟨st1, h1, h2⟩ := h
    rw [ih (fun s' hs' => hex s' (List.mem_cons_of_mem _ hs')) st1 st' h2,
      hex s (List.mem_cons_self _ _) st st1 h1]

theorem print_loop_slot (ev : Eval) (es : List ASTNode)
    (hev : ∀ e, e ∈ es → ∀ st v st', ev e st = .ok (v, st') → st' = st) :
    ∀ (i : Nat) (st st' : State), print_loop ev i es st = .ok st' → st'.env = st.env := by
  induction es with
  | nil =>
    intro i st st' h
    simp only [print_loop, Except.ok.injEq] at h
    rw [← h]
  | cons e es ih =>
    intro i st st' h
    simp only [print_loop, bind_eq_ok] at h
    obtain ⟨⟨v, st1⟩, he, h⟩ := h
    have h1 := hev e (List.mem_cons_self _ _) _ _ _ he
    subst h1
    rw [ih (fun e' he' => hev e' (List.mem_cons_of_mem _ he')) (i + 1) _ st' h, print_value_env]

theorem read_loop_slot (fuel : Nat) (x : String) (vars : List ASTNode)
    (hv : ∀ v, v ∈ vars → read_target_keeps x v) :
    ∀ (st st' : State), read_loop (evaluate fuel) vars st = .ok st' →
      slot_value st'.env x = slot_value st.env x := by
  induction vars with
  | nil =>
    intro st st' h
    simp only [read_loop, Except.ok.injEq] at h
    rw [← h]
  | cons var vars ih =>
    intro st st' h
    have ih' := ih (fun v hv' => hv v (List.mem_cons_of_mem _ hv'))
    have hvar := hv var (List.mem_cons_self _ _)
    unfold read_loop at h
    cases hf : fgets 256 st.stdin with
    | none =>
      rw [hf] at h
      simp only [Except.ok.injEq] at h
      rw [← h]
    | some p =>
      obtain ⟨line, rest⟩ := p
      rw [hf] at h
      simp only at h
      split at h
      · next name indices =>
        simp only [bind_eq_ok] at h
        obtain ⟨arr_val, -, h⟩ := h
        split at h
        · simp only [bind_eq_ok] at h
          obtain ⟨⟨idx, st2⟩, hi, arr_now, -, st3, h1, h⟩ := h
          have e1 := evaluate_indices_state (evaluate fuel) indices
            (fun e he => evaluate_call_free fuel e (hvar e he)) 0 _ idx st2 hi
          rw [ih' _ _ h, heap_array_set_env _ _ _ _ _ h1, e1]
        · simp only [bind_eq_ok, pure_eq_ok] at h
          obtain ⟨st1, h1, h⟩ := h
          rw [ih' _ _ h, ← h1]
      · next name =>
        simp only [bind_eq_ok, pure_eq_ok] at h
        obtain ⟨st1, h1, h⟩ := h
        rw [ih' _ _ h, ← h1]
        exact env_assign_slot_other _ _ _ _ hvar
      · simp only [bind_eq_ok, pure_eq_ok] at h
        obtain ⟨st1, h1, h⟩ := h
        rw [ih' _ _ h, ← h1]

theorem for_loop_up_slot (ex : Exec) (x loop_variable : String) (body : List ASTNode)
    (end_ step : Int) (hne : str_upper loop_variable ≠ str_upper x)
    (hex : ∀ s, s ∈ body → ∀ st st', ex s st = .ok st' →
      slot_value st'.env x = slot_value st.env x) :
    ∀ (n : Nat) (current : Int) (st st' : State),
      for_loop_up ex loop_variable body end_ step n current st = .ok st' →
      slot_value st'.env x = slot_value st.env x := by
  intro n
  induction n with
  | zero => intro current st st' h; simp [for_loop_up] at h
  | succ n ih =>
    intro current st st' h
    unfold for_loop_up at h
    by_cases hc : current ≤ end_
    · simp only [if_pos hc, bind_eq_ok] at h
      obtain ⟨st2, h2, h3⟩ := h
      rw [ih _ _ _ h3, execute_statements_slot ex x body hex _ _ h2]
      exact env_assign_slot_other _ _ _ _ hne
    · simp only [if_neg hc, Except.ok.injEq] at h
      rw [← h]

theorem for_loop_down_slot (ex : Exec) (x loop_variable : String) (body : List ASTNode)
    (end_ step : Int) (hne : str_upper loop_variable ≠ str_upper x)
    (hex : ∀ s, s ∈ body → ∀ st st', ex s st = .ok st' →
      slot_value st'.env x = slot_value st.env x) :
    ∀ (n : Nat) (current : Int) (st st' : State),
      for_loop_down ex loop_variable body end_ step n current st = .ok st' →
      slot_value st'.env x = slot_value st.env x := by
  intro n
  induction n with
  | zero => intro current st st' h; simp [for_loop_down] at h
  | succ n ih =>
    intro current st st' h
    unfold for_loop_down at h
    by_cases hc : current ≥ end_
    · simp only [if_pos hc, bind_eq_ok] at h
      obtain ⟨st2, h2, h3⟩ := h
      rw [ih _ _ _ h3, execute_statements_slot ex x body hex _ _ h2]
      exact env_assign_slot_other _ _ _ _ hne
    · simp only [if_neg hc, Except.ok.injEq] at h
      rw [← h]

theorem while_loop_slot (ev : Eval) (ex : Exec) (x : String) (condition : ASTNode)
    (body : List ASTNode) (hev : ∀ st v st', ev condition st = .ok (v, st') → st' = st)
    (hex : ∀ s, s ∈ body → ∀ st st', ex s st = .ok st' →
      slot_value st'.env x = slot_value st.env x) :
    ∀ (n : Nat) (st st' : State), while_loop ev ex condition body n st = .ok st' →
      slot_value st'.env x = slot_value st.env x := by
  intro n
  induction n with
  | zero => intro st st' h; simp [while_loop] at h
  | succ n ih =>
    intro st st' h
    simp only [while_loop, bind_eq_ok] at h
    obtain ⟨⟨cond, st1⟩, h1, h⟩ := h
    have e1 := hev _ _ _ h1
    subst e1
    by_cases hc : to_bool cond
    · simp only [hc, Bool.not_true, Bool.false_eq_true, if_false, bind_eq_ok] at h
      obtain ⟨st2, h2, h3⟩ := h
      rw [ih _ _ h3, execute_statements_slot ex x body hex _ _ h2]
    · simp only [hc, Bool.not_false, if_true, pure_eq_ok] at h
      rw [← h]

theorem repeat_until_loop_slot (ev : Eval) (ex : Exec) (x : String) (condition : ASTNode)
    (body : List ASTNode) (hev : ∀ st v st', ev condition st = .ok (v, st') → st' = st)
    (hex : ∀ s, s ∈ body → ∀ st st', ex s st = .ok st' →
      slot_value st'.env x = slot_value st.env x) :
    ∀ (n : Nat) (st st' : State), repeat_until_loop ev ex condition body n st = .ok st' →
      slot_value st'.env x = slot_value st.env x := by
  intro n
  induction n with
  | zero => intro st st' h; simp [repeat_until_loop] at h
  | succ n ih =>
    intro st st' h
    simp only [repeat_until_loop, bind_eq_ok] at h
    obtain ⟨st1, h1, ⟨cond, st2⟩, h2, h⟩ := h
    have e1 := execute_statements_slot ex x body hex _ _ h1
    have e2 := hev _ _ _ h2
    subst e2
    by_cases hc : to_bool cond
    · simp only [hc, if_true, pure_eq_ok] at h
      rw [← h, e1]
    · simp only [hc, Bool.false_eq_true, if_false] at h
      rw [ih _ _ h, e1]

/-- A statement that calls no subroutine and does not write `x` leaves the slot of `x` in the
current environment as it is. -/
theorem execute_statement_keeps (x : String) (fuel : Nat) :
    ∀ (s : ASTNode), Keeps x s → ∀ (st st' : State), execute_statement fuel s st = .ok st' →
      slot_value st'.env x = slot_value st.env x := by
  induction fuel with
  | zero =>
    intro s _ st st' h
    simp [execute_statement] at h
  | succ fuel ih =>
    intro s hs st st' h
    cases hs with
    | assign identifier indices value hw hidx hval =>
      simp only [execute_statement, bind_eq_ok] at h
      obtain ⟨⟨val, st1⟩, h1, h⟩ := h
      have e1 := evaluate_call_free fuel value hval _ _ _ h1
      subst e1
      by_cases hl : indices.length > 0
      · simp only [hl, if_true, bind_eq_ok] at h
        obtain ⟨arr_runtime, -, h⟩ := h
        split at h
        · simp only [bind_eq_ok] at h
          obtain ⟨⟨idx, st2⟩, hi, arr_now, -, h⟩ := h
          have e2 := evaluate_indices_state (evaluate fuel) indices
            (fun e he => evaluate_call_free fuel e (hidx e he)) 0 _ idx st2 hi
          rw [heap_array_set_env _ _ _ _ _ h, e2]
        · simp only [pure_eq_ok] at h
          rw [← h]
      · simp only [hl, if_false, pure_eq_ok] at h
        rw [← h]
        rcases hw with hw | hw
        · exact absurd hw hl
        · exact env_assign_slot_other _ _ _ _ hw
    | print expressions hes =>
      simp only [execute_statement] at h
      rw [print_loop_slot (evaluate fuel) expressions
        (fun e he => evaluate_call_free fuel e (hes e he)) 0 st st' h]
    | read vars hv =>
      simp only [execute_statement] at h
      exact read_loop_slot fuel x vars hv st st' h
    | if_then condition then_branch else_branch hc ht he =>
      simp only [execute_statement, bind_eq_ok] at h
      obtain ⟨⟨cond, st1⟩, h1, h⟩ := h
      have e1 := evaluate_call_free fuel condition hc _ _ _ h1
      subst e1
      by_cases hb : to_bool cond
      · simp only [hb, if_true] at h
        exact execute_statements_slot _ x then_branch (fun s hs => ih s (ht s hs)) _ _ h
      · simp only [hb, Bool.false_eq_true, if_false] at h
        cases else_branch with
        | some stmts =>
          simp only at h
          exact execute_statements_slot _ x stmts (fun s hs => ih s (he stmts rfl s hs)) _ _ h
        | none =>
          simp only [pure_eq_ok] at h
          rw [← h]
    | for_loop loop_variable start end_ step body hne h1' h2' h3' hb =>
      simp only [execute_statement, bind_eq_ok] at h
      obtain ⟨⟨start_val, st1⟩, h1, ⟨end_val, st2⟩, h2, ⟨step_val, st3⟩, h3, h⟩ := h
      have e1 := evaluate_call_free fuel start h1' _ _ _ h1
      subst e1
      have e2 := evaluate_call_free fuel end_ h2' _ _ _ h2
      subst e2
      have e3 := evaluate_call_free fuel step h3' _ _ _ h3
      subst e3
      by_cases hs : to_int step_val > 0
      · simp only [hs, if_true] at h
        exact for_loop_up_slot _ x loop_variable body _ _ hne (fun s hs => ih s (hb s hs))
          _ _ _ _ h
      · simp only [hs, if_false] at h
        exact for_loop_down_slot _ x loop_variable body _ _ hne (fun s hs => ih s (hb s hs))
          _ _ _ _ h
    | while_loop condition body is_repeat_until hc hb =>
      simp only [execute_statement] at h
      by_cases hr : is_repeat_until
      · simp only [hr, if_true] at h
        exact repeat_until_loop_slot _ _ x condition body
          (fun st v st' hh => evaluate_call_free fuel condition hc st v st' hh)
          (fun s hs => ih s (hb s hs)) _ _ _ h
      · simp only [hr, Bool.false_eq_true, if_false] at h
        exact while_loop_slot _ _ x condition body
          (fun st v st' hh => evaluate_call_free fuel condition hc st v st' hh)
          (fun s hs => ih s (hb s hs)) _ _ _ h

/-! ## Function calls -/

theorem execute_statements_append (ex : Exec) (l1 l2 : List ASTNode) :
    ∀ (st st' : State), execute_statements ex (l1 ++ l2) st = .ok st' ↔
      ∃ s1, execute_statements ex l1 st = .ok s1 ∧ execute_statements ex l2 s1 = .ok st' := by
  induction l1 with
  | nil =>
    intro st st'
    simp [execute_statements]
  | cons s rest ih =>
    intro st st'
    constructor
    · intro h
      simp only [List.cons_append, execute_statements, bind_eq_ok] at h
      obtain ⟨a, h1, h2⟩ := h
      obtain ⟨s1, h3, h4⟩ := (ih a st').1 h2
      refine ⟨s1, ?_, h4⟩
      simp only [execute_statements, h1, bind_ok, h3]
    · rintro ⟨s1, h1, h2⟩
      simp only [execute_statements, bind_eq_ok] at h1
      obtain ⟨a, h3, h4⟩ := h1
      simp only [List.cons_append, execute_statements, h3, bind_ok]
      exact (ih a st').2 ⟨s1, h4, h2⟩

/-- The copy-back loop of a function call succeeds from a callee environment whose own table
binds the parameters, and leaves that table as it is. -/
theorem copy_back_function_ok :
    ∀ (params : List Parameter) (args : List ASTNode) (st : State),
      st.env.parent ≠ none →
      (∀ (j : Nat) (p : Parameter) (a : ASTNode), params[j]? = some p → args[j]? = some a →
        slot_value st.env p.name ≠ none) →
      ∃ st', copy_back_function params args st = .ok st' ∧
        st'.env.entries = st.env.entries ∧ st'.env.parent ≠ none := by
  intro params
  induction params with
  | nil => intro args st hp _; exact ⟨st, rfl, rfl, hp⟩
  | cons param params ih =>
    intro args st hp hs
    cases args with
    | nil => exact ⟨st, rfl, rfl, hp⟩
    | cons arg args =>
      have hstep : ∃ st1, copy_back_function_step param arg st = .ok st1 ∧
          st1.env.entries = st.env.entries ∧ st1.env.parent ≠ none := by
        unfold copy_back_function_step
        by_cases hr : param.is_reference
        · simp only [hr, if_true]
          cases hv : slot_value st.env param.name with
          | none => exact absurd hv (hs 0 param arg (by simp) (by simp))
          | some func_val =>
            rw [env_get_of_slot_value _ _ _ hv, bind_ok]
            have hassign : ∀ name, ∃ st1, assign_in_caller st name func_val = .ok st1 ∧
                st1.env.entries = st.env.entries ∧ st1.env.parent ≠ none := by
              intro name
              unfold assign_in_caller
              cases henv : st.env with
              | root entries => rw [henv] at hp; exact absurd rfl hp
              | child entries parent => exact ⟨_, rfl, rfl, by simp [Environment.parent]⟩
            split
            · exact ⟨st, rfl, rfl, hp⟩
            · split
              · exact hassign _
              · exact ⟨st, rfl, rfl, hp⟩
        · simp only [hr, Bool.false_eq_true, if_false]
          exact ⟨st, rfl, rfl, hp⟩
      obtain ⟨st1, h1, n1, p1⟩ := hstep
      obtain ⟨st', h2, n2, p2⟩ := ih args st1 p1 (fun j p a hp' ha' => by
        rw [slot_value_of_entries st.env st1.env p.name n1]
        exact hs (j + 1) p a (by simpa using hp') (by simpa using ha'))
      refine ⟨st', ?_, by rw [n2, n1], p2⟩
      simp only [copy_back_function, h1, bind_ok, h2]

/-- A function call in three phases: once the arguments are bound and the body has run, the
call returns, and its value is the one held at that point by the slot that was bound to real
zero, under the function's name, before the body started. -/
theorem evaluate_function_call (fuel : Nat) (name fname return_type : String)
    (arguments : List ASTNode) (is_statement : Bool) (parameters : List Parameter)
    (local_decls : List LocalDecl) (body : List ASTNode) (st st1 st3 : State)
    (hsub : env_get_subroutine st.env name =
      .ok (AST_FUNC_DECL fname return_type parameters local_decls body))
    (hbind : bind_parameters (evaluate fuel) parameters arguments
      { st with env := call_environment st.env local_decls } = .ok st1)
    (hbody : execute_statements (execute_statement fuel) body
      { st1 with env := env_define st1.env fname (VAL_REAL 0) } = .ok st3) :
    slot_value (env_define st1.env fname (VAL_REAL 0)) fname = some (VAL_REAL 0) ∧
    (∃ p, (env_define st1.env fname (VAL_REAL 0)).parent = some p ∧ extends_scopes st.env p) ∧
    ∃ r st5, slot_value st3.env fname = some r ∧ extends_scopes st.env st5.env ∧
      evaluate (fuel + 1) (AST_CALL name arguments is_statement) st = .ok (r, st5) := by
  obtain ⟨hev, hex⟩ := evaluator_keeps_scopes fuel
  obtain ⟨e1, hparams⟩ := bind_parameters_extends _ hev parameters arguments _ st1 hbind
  have e2 := extends_scopes_env_define st1.env fname (VAL_REAL 0)
  have e3 := execute_statements_extends _ hex body _ st3 hbody
  have hslot2 : slot_value (env_define st1.env fname (VAL_REAL 0)) fname = some (VAL_REAL 0) := by
    unfold slot_value
    rw [env_define_entries]
    simp
  have e12 : extends_scopes (call_environment st.env local_decls)
      (env_define st1.env fname (VAL_REAL 0)) := extends_scopes_trans _ _ _ e1 e2
  have e13 : extends_scopes (call_environment st.env local_decls) st3.env :=
    extends_scopes_trans _ _ _ e12 e3
  refine ⟨hslot2, ?_, ?_⟩
  · obtain ⟨p, hp, he⟩ := extends_scopes_parent _ _ st.env e12
      (call_environment_parent st.env local_decls)
    exact ⟨p, hp, he⟩
  · have hslot3 : slot_value st3.env fname ≠ none :=
      extends_scopes_slot _ _ e3 fname (by simp only [hslot2]; simp)
    cases hr : slot_value st3.env fname with
    | none => exact absurd hr hslot3
    | some r =>
      obtain ⟨p3, hp3, -⟩ := extends_scopes_parent _ _ st.env e13
        (call_environment_parent st.env local_decls)
      obtain ⟨st4, h4, n4, p4⟩ := copy_back_function_ok parameters arguments st3
        (by rw [hp3]; simp)
        (fun j p a hp ha => extends_scopes_slot _ _ (extends_scopes_trans _ _ _ e2 e3) _
          (hparams j p a hp ha))
      have e4 := (copy_back_function_extends parameters arguments st3 st4 h4).1
      have hret : env_get st4.env fname = .ok r :=
        env_get_of_slot_value _ _ _ (by rw [slot_value_of_entries st3.env st4.env fname n4, hr])
      obtain ⟨q, hq, heq⟩ := extends_scopes_parent _ _ st.env
        (extends_scopes_trans _ _ _ e13 e4) (call_environment_parent st.env local_decls)
      refine ⟨r, { st4 with env := q }, rfl, heq, ?_⟩
      simp only [evaluate, hsub, bind_ok, hbind, hbody, h4, hret, leave_call, caller_env, hq,
        copy_runtime_value_eq]
      rfl

/-- C11: a function call in expression position binds, in the fresh callee environment (a
child of the caller's), a slot named after the function to real zero once the arguments are
bound, and when the body has run the call returns the value that slot then holds.  So a
function whose body calls nothing and never writes its own name returns real 0.0, and a
body whose last write to the name is the assignment `name := e` returns the value `e` had
there. -/
theorem C11_function_returns_its_slot (fuel : Nat) (name fname return_type : String)
    (arguments : List ASTNode) (is_statement : Bool) (parameters : List Parameter)
    (local_decls : List LocalDecl) (body : List ASTNode) (st st1 st3 : State)
    (hsub : env_get_subroutine st.env name =
      .ok (AST_FUNC_DECL fname return_type parameters local_decls body))
    (hbind : bind_parameters (evaluate (fuel + 1)) parameters arguments
      { st with env := call_environment st.env local_decls } = .ok st1)
    (hbody : execute_statements (execute_statement (fuel + 1)) body
      { st1 with env := env_define st1.env fname (VAL_REAL 0) } = .ok st3) :
    slot_value (env_define st1.env fname (VAL_REAL 0)) fname = some (VAL_REAL 0) ∧
    (∃ p, (env_define st1.env fname (VAL_REAL 0)).parent = some p ∧ extends_scopes st.env p) ∧
    ∃ r st5, evaluate (fuel + 2) (AST_CALL name arguments is_statement) st = .ok (r, st5) ∧
      slot_value st3.env fname = some r ∧
      ((∀ s, s ∈ body → Keeps fname s) → r = VAL_REAL 0) ∧
      (∀ (pre post : List ASTNode) (target : String) (e : ASTNode),
        body = pre ++ AST_ASSIGN target [] e :: post → str_upper target = str_upper fname →
        (∀ s, s ∈ post → Keeps fname s) →
        ∃ s1 s2, execute_statements (execute_statement (fuel + 1)) pre
            { st1 with env := env_define st1.env fname (VAL_REAL 0) } = .ok s1 ∧
          evaluate fuel e s1 = .ok (r, s2)) := by
  obtain ⟨hslot2, hparent, r, st5, hslot3, -, hcall⟩ :=
    evaluate_function_call (fuel + 1) name fname return_type arguments is_statement parameters
      local_decls body st st1 st3 hsub hbind hbody
  refine ⟨hslot2, hparent, r, st5, hcall, hslot3, ?_, ?_⟩
  · intro hkeeps
    have := execute_statements_slot (execute_statement (fuel + 1)) fname body
      (fun s hs => execute_statement_keeps fname (fuel + 1) s (hkeeps s hs)) _ _ hbody
    rw [hslot3, hslot2] at this
    simp only [Option.some.injEq] at this
    exact this
  · intro pre post target e hsplit htarget hkeeps
    rw [hsplit, execute_statements_append] at hbody
    obtain ⟨s1, hpre, hrest⟩ := hbody
    simp only [execute_statements, bind_eq_ok] at hrest
    obtain ⟨s3, hassign, hpost⟩ := hrest
    simp only [execute_statement, bind_eq_ok, List.length_nil, gt_iff_lt, lt_self_iff_false,
      if_false, pure_eq_ok] at hassign
    obtain ⟨⟨val, s2⟩, heval, hs3⟩ := hassign
    refine ⟨s1, s2, hpre, ?_⟩
    obtain ⟨hev1, hex1⟩ := evaluator_keeps_scopes (fuel + 1)
    obtain ⟨hev0, -⟩ := evaluator_keeps_scopes fuel
    have e1 := execute_statements_extends _ hex1 pre _ s1 hpre
    have e2 := hev0 _ _ _ _ heval
    have hb : slot_value s2.env target ≠ none := by
      have : slot_value s2.env fname ≠ none :=
        extends_scopes_slot _ _ (extends_scopes_trans _ _ _ e1 e2) fname
          (by simp only [hslot2]; simp)
      unfold slot_value at this ⊢
      rwa [htarget]
    have hown := (env_assign_own_slot s2.env target val hb).2 fname
    rw [if_pos htarget.symm] at hown
    have hkeep := execute_statements_slot (execute_statement (fuel + 1)) fname post
      (fun s hs => execute_statement_keeps fname (fuel + 1) s (hkeeps s hs)) _ _ hpost
    rw [← hs3] at hkeep
    simp only at hkeep
    rw [hown, hslot3] at hkeep
    simp only [Option.some.injEq] at hkeep
    rw [hkeep]
    exact heval

/-- C11, Scenario F: `SUM(10)` returns 55, the value its slot `SUM` holds when the body
has added 1 to 10 to the real zero it started from. -/
theorem C11_witness :
    ∃ st3 st5, execute_statements (execute_statement 11)
        [AST_FOR "i" (int_literal 1) (AST_IDENTIFIER "n") (int_literal 1)
          [AST_ASSIGN "SUM" []
            (AST_BINARY_OP "+" (AST_IDENTIFIER "SUM") (AST_IDENTIFIER "i"))]]
        { sum_bound_state with env := env_define sum_bound_state.env "SUM" (VAL_REAL 0) } =
          .ok st3 ∧
      slot_value st3.env "SUM" = some (VAL_REAL 55) ∧
      evaluate 12 sum_call sum_state = .ok (VAL_REAL 55, st5) := by
  have hb : ∃ st3, execute_statements (execute_statement 11)
      [AST_FOR "i" (int_literal 1) (AST_IDENTIFIER "n") (int_literal 1)
        [AST_ASSIGN "SUM" []
          (AST_BINARY_OP "+" (AST_IDENTIFIER "SUM") (AST_IDENTIFIER "i"))]]
      { sum_bound_state with env := env_define sum_bound_state.env "SUM" (VAL_REAL 0) } =
        .ok st3 := by
    cases h : execute_statements (execute_statement 11)
      [AST_FOR "i" (int_literal 1) (AST_IDENTIFIER "n") (int_literal 1)
        [AST_ASSIGN "SUM" []
          (AST_BINARY_OP "+" (AST_IDENTIFIER "SUM") (AST_IDENTIFIER "i"))]]
      { sum_bound_state with env := env_define sum_bound_state.env "SUM" (VAL_REAL 0) } with
    | ok s => exact ⟨s, rfl⟩
    | error e =>
      have ht : (execute_statements (execute_statement 11)
        [AST_FOR "i" (int_literal 1) (AST_IDENTIFIER "n") (int_literal 1)
          [AST_ASSIGN "SUM" []
            (AST_BINARY_OP "+" (AST_IDENTIFIER "SUM") (AST_IDENTIFIER "i"))]]
        { sum_bound_state with env := env_define sum_bound_state.env "SUM" (VAL_REAL 0) }).toBool
          = true := by decide!
      rw [h] at ht
      cases ht
  obtain ⟨st3, hbody⟩ := hb
  obtain ⟨-, -, r, st5, hcall, hslot, -, -⟩ :=
    C11_function_returns_its_slot 10 "SUM" "SUM" "INTEGER" [int_literal 10] false
      [⟨"n", "INTEGER", false⟩] [⟨"i", "INTEGER"⟩] _ sum_state sum_bound_state st3
      (by rfl) (by rfl) hbody
  have hv : (evaluate 12 sum_call sum_state).map Prod.fst = .ok (VAL_REAL 55) := by decide!
  have hcall' : evaluate 12 sum_call sum_state = .ok (r, st5) := hcall
  rw [hcall'] at hv
  simp only [Except.map, Except.ok.injEq] at hv
  subst hv
  exact ⟨st3, st5, hbody, hslot, hcall'⟩

/-! ## The lexer consumes its input -/

theorem skip_whitespace_length (code : List Nat) :
    ∀ (line col : Int), (skip_whitespace code line col).1.length ≤ code.length := by
  induction code with
  | nil => intro line col; simp [skip_whitespace]
  | cons c rest ih =>
    intro line col
    unfold skip_whitespace
    by_cases hs : Bytes.isspace c = true
    · simp only [hs, if_true]
      by_cases hn : c = '\n'.toNat
      · simp only [hn, if_true]
        have := ih (line + 1) 1
        simp only [List.length_cons]
        omega
      · simp only [hn, if_false]
        have := ih line (col + 1)
        simp only [List.length_cons]
        omega
    · simp [hs]

theorem skip_block_comment_length :
    ∀ (n : Nat) (code : List Nat) (line : Int), code.length ≤ n →
      (skip_block_comment code line).1.length ≤ code.length := by
  intro n
  induction n with
  | zero =>
    intro code line h
    cases code with
    | nil => simp [skip_block_comment]
    | cons c rest => simp at h
  | succ n ih =>
    intro code line h
    cases code with
    | nil => simp [skip_block_comment]
    | cons c rest =>
      cases rest with
      | nil => simp [skip_block_comment]
      | cons d rest =>
        unfold skip_block_comment
        by_cases hc : c = '*'.toNat ∧ d = '/'.toNat
        · simp only [hc, and_self, if_true, List.length_cons]
          omega
        · simp only [hc, if_false]
          have := ih (d :: rest) (if c = '\n'.toNat then line + 1 else line)
            (by simp only [List.length_cons] at h ⊢; omega)
          simp only [List.length_cons] at this ⊢
          omega

theorem scan_string_length (room : Nat) :
    ∀ (code : List Nat), (scan_string room code).2.length ≤ code.length := by
  induction room with
  | zero => intro code; simp [scan_string]
  | succ room ih =>
    intro code
    cases code with
    | nil => simp [scan_string]
    | cons c rest =>
      unfold scan_string
      by_cases hq : c = '"'.toNat
      · simp [hq]
      · simp only [hq, if_false, List.length_cons]
        have := ih rest
        omega

theorem scan_number_length (room : Nat) :
    ∀ (has_dot : Bool) (code : List Nat),
      (scan_number room has_dot code).2.length ≤ code.length := by
  induction room with
  | zero => intro has_dot code; simp [scan_number]
  | succ room ih =>
    intro has_dot code
    cases code with
    | nil => simp [scan_number]
    | cons c rest =>
      unfold scan_number
      have h1 := ih has_dot rest
      have h2 := ih true rest
      split_ifs <;> simp only [List.length_cons] <;> omega

theorem scan_number_consumes (room : Nat) (c : Nat) (rest : List Nat)
    (hd : Bytes.isdigit c = true) :
    (scan_number (room + 1) false (c :: rest)).2.length < (c :: rest).length := by
  unfold scan_number
  simp only [hd, if_true, List.length_cons]
  have := scan_number_length room false rest
  omega

theorem scan_identifier_length (room : Nat) :
    ∀ (code : List Nat), (scan_identifier room code).2.length ≤ code.length := by
  induction room with
  | zero => intro code; simp [scan_identifier]
  | succ room ih =>
    intro code
    cases code with
    | nil => simp [scan_identifier]
    | cons c rest =>
      unfold scan_identifier
      have h1 := ih rest
      split_ifs <;> simp only [List.length_cons] <;> omega

theorem scan_identifier_consumes (room : Nat) (c : Nat) (rest : List Nat)
    (hc : Bytes.isalpha c = true ∨ c ≥ 128) :
    (scan_identifier (room + 1) (c :: rest)).2.length < (c :: rest).length := by
  unfold scan_identifier
  have hcond : Bytes.isalnum c = true ∨ c = '_'.toNat ∨ c ≥ 128 := by
    rcases hc with h | h
    · exact Or.inl (by simp [Bytes.isalnum, h])
    · exact Or.inr (Or.inr h)
  simp only [hcond, if_true, List.length_cons]
  have := scan_identifier_length room rest
  omega

/-! ## Every token the lexer adds -/

theorem ends_well_add_token (P : Token → Prop) (tokens : List Token) (type : TokenType)
    (value : List Nat) (line col : Int) (k : List Token → Except LexError (List Token))
    (hP : P ⟨type, value.take (MAX_TOKEN_LEN - 1), line, col⟩)
    (htok : ∀ t, t ∈ tokens → P t)
    (hk : ∀ tokens1, (∀ t, t ∈ tokens1 → P t) → ends_well P (k tokens1)) :
    ends_well P (add_token tokens type value line col >>= k) := by
  unfold add_token
  by_cases hl : tokens.length ≥ MAX_TOKENS
  · simp only [hl, if_true]
    exact Or.inl ⟨.too_many_tokens, rfl, by simp⟩
  · simp only [hl, if_false]
    apply hk
    intro t ht
    rcases List.mem_append.1 ht with h | h
    · exact htok t h
    · simp only [List.mem_singleton] at h
      rw [h]
      exact hP

theorem dropWhile_length_le (p : Nat → Bool) (l : List Nat) :
    (l.dropWhile p).length ≤ l.length := by
  induction l with
  | nil => simp
  | cons a l ih =>
    simp only [List.dropWhile, List.length_cons]
    split
    · omega
    · simp

/-- Every run of the lexer with enough fuel ends well: whatever holds for each string,
number, operator and word token it can add holds for every token before the final
end-of-input token. -/
theorem tokenize_loop_spec (P : Token → Prop)
    (hstring : ∀ (code : List Nat) (line col : Int),
      P ⟨TOK_STRING, ((scan_string (MAX_TOKEN_LEN - 1) code).1).take (MAX_TOKEN_LEN - 1),
        line, col⟩)
    (hnumber : ∀ (c : Nat) (rest : List Nat) (line col : Int), Bytes.isdigit c = true →
      P ⟨TOK_NUMBER,
        ((scan_number (MAX_TOKEN_LEN - 1) false (c :: rest)).1).take (MAX_TOKEN_LEN - 1),
        line, col⟩)
    (htwo : ∀ (c d : Nat) (line col : Int), two_char_type c d ≠ TOK_ERROR →
      P ⟨two_char_type c d, [c, d], line, col⟩)
    (hsingle : ∀ (c : Nat) (line col : Int), single_char_type c ≠ TOK_ERROR →
      P ⟨single_char_type c, [c], line, col⟩)
    (hword : ∀ (c : Nat) (rest : List Nat) (line col : Int),
      Bytes.isalpha c = true ∨ c ≥ 128 →
      P ⟨get_keyword_type (scan_identifier (MAX_TOKEN_LEN - 1) (c :: rest)).1,
        ((scan_identifier (MAX_TOKEN_LEN - 1) (c :: rest)).1).take (MAX_TOKEN_LEN - 1),
        line, col⟩) :
    ∀ (fuel : Nat) (code : List Nat) (line col : Int) (tokens : List Token),
      code.length < fuel → (∀ t, t ∈ tokens → P t) →
      ends_well P (tokenize_loop fuel code line col tokens) := by
  intro fuel
  induction fuel with
  | zero => intro code line col tokens h; omega
  | succ fuel ih =>
    intro code line col tokens hfuel htok
    unfold tokenize_loop
    have hws := skip_whitespace_length code line col
    rcases hsw : skip_whitespace code line col with ⟨code1, line1, col1⟩
    rw [hsw] at hws
    simp only at hws
    cases code1 with
    | nil =>
      simp only
      unfold add_token
      by_cases hl : tokens.length ≥ MAX_TOKENS
      · simp only [hl, if_true]
        exact Or.inl ⟨.too_many_tokens, rfl, by simp⟩
      · simp only [hl, if_false]
        exact Or.inr ⟨tokens, line1, col1, rfl, htok⟩
    | cons c rest =>
      simp only [List.length_cons] at hws
      simp only
      by_cases h1 : c = '/'.toNat ∧ rest.head? = some '/'.toNat
      · rw [if_pos h1]
        apply ih _ _ _ _ _ htok
        have hd : ((c :: rest).dropWhile (fun b => b != '\n'.toNat)).length ≤ rest.length := by
          have hc : (c != '\n'.toNat) = true := by rw [h1.1]; decide
          simp only [List.dropWhile, hc]
          exact dropWhile_length_le _ rest
        omega
      · rw [if_neg h1]
        by_cases h2 : c = '/'.toNat ∧ rest.head? = some '*'.toNat
        · rw [if_pos h2]
          apply ih _ _ _ _ _ htok
          have := skip_block_comment_length (rest.drop 1).length (rest.drop 1) line1 (le_refl _)
          have hd : (rest.drop 1).length ≤ rest.length := by simp
          omega
        · rw [if_neg h2]
          by_cases h3 : c = '"'.toNat
          · rw [if_pos h3]
            have hl := scan_string_length (MAX_TOKEN_LEN - 1) rest
            by_cases hq : (scan_string (MAX_TOKEN_LEN - 1) rest).2.head? = some '"'.toNat
            · simp only [hq, if_true]
              apply ends_well_add_token P _ _ _ _ _ _ (hstring rest line1 col1) htok
              intro tokens1 ht1
              apply ih _ _ _ _ _ ht1
              have hd : ((scan_string (MAX_TOKEN_LEN - 1) rest).2.drop 1).length ≤
                  (scan_string (MAX_TOKEN_LEN - 1) rest).2.length := by simp
              omega
            · simp only [hq, if_false]
              apply ends_well_add_token P _ _ _ _ _ _ (hstring rest line1 col1) htok
              intro tokens1 ht1
              apply ih _ _ _ _ _ ht1
              omega
          · rw [if_neg h3]
            by_cases h4 : Bytes.isdigit c = true
            · rw [if_pos h4]
              apply ends_well_add_token P _ _ _ _ _ _ (hnumber c rest line1 col1 h4) htok
              intro tokens1 ht1
              apply ih _ _ _ _ _ ht1
              have := scan_number_consumes (MAX_TOKEN_LEN - 1 - 1) c rest h4
              have hr : MAX_TOKEN_LEN - 1 - 1 + 1 = MAX_TOKEN_LEN - 1 := by decide
              rw [hr] at this
              simp only [List.length_cons] at this
              omega
            · rw [if_neg h4]
              have hsingle_ok : ends_well P
                  (if single_char_type c ≠ TOK_ERROR then do
                    let tokens1 ← add_token tokens (single_char_type c) [c] line1 col1
                    tokenize_loop fuel rest line1 (col1 + 1) tokens1
                  else if Bytes.isalpha c = true ∨ c ≥ 128 then do
                    let tokens1 ← add_token tokens
                      (get_keyword_type (scan_identifier (MAX_TOKEN_LEN - 1) (c :: rest)).1)
                      (scan_identifier (MAX_TOKEN_LEN - 1) (c :: rest)).1 line1 col1
                    tokenize_loop fuel (scan_identifier (MAX_TOKEN_LEN - 1) (c :: rest)).2 line1
                      (col1 + ↑(scan_identifier (MAX_TOKEN_LEN - 1) (c :: rest)).1.length) tokens1
                  else .error (.unexpected_character c line1 col1)) := by
                by_cases h5 : single_char_type c ≠ TOK_ERROR
                · rw [if_pos h5]
                  apply ends_well_add_token P _ _ _ _ _ _ (hsingle c line1 col1 h5) htok
                  intro tokens1 ht1
                  apply ih _ _ _ _ _ ht1
                  omega
                · rw [if_neg h5]
                  by_cases h6 : Bytes.isalpha c = true ∨ c ≥ 128
                  · rw [if_pos h6]
                    apply ends_well_add_token P _ _ _ _ _ _ (hword c rest line1 col1 h6) htok
                    intro tokens1 ht1
                    apply ih _ _ _ _ _ ht1
                    have := scan_identifier_consumes (MAX_TOKEN_LEN - 1 - 1) c rest h6
                    have hr : MAX_TOKEN_LEN - 1 - 1 + 1 = MAX_TOKEN_LEN - 1 := by decide
                    rw [hr] at this
                    simp only [List.length_cons] at this
                    omega
                  · rw [if_neg h6]
                    exact Or.inl ⟨_, rfl, by simp⟩
              cases rest with
              | nil => exact hsingle_ok
              | cons d rest' =>
                simp only
                by_cases h7 : two_char_type c d ≠ TOK_ERROR
                · rw [if_pos h7]
                  apply ends_well_add_token P _ _ _ _ _ _ (htwo c d line1 col1 h7) htok
                  intro tokens1 ht1
                  apply ih _ _ _ _ _ ht1
                  simp only [List.length_cons] at hws
                  omega
                · rw [if_neg h7]
                  exact hsingle_ok

theorem ite_prop {α : Type} (P : α → Prop) (c : Prop) [Decidable c] (a b : α)
    (ha : P a) (hb : P b) : P (if c then a else b) := by
  by_cases h : c
  · rw [if_pos h]; exact ha
  · rw [if_neg h]; exact hb

theorem get_keyword_type_ne (str : List Nat) :
    get_keyword_type str ≠ TOK_EOF ∧ get_keyword_type str ≠ TOK_ERROR := by
  unfold get_keyword_type
  repeat' (first
    | exact ⟨by decide, by decide⟩
    | apply ite_prop (fun t => t ≠ TOK_EOF ∧ t ≠ TOK_ERROR))

theorem two_char_type_ne_eof (c d : Nat) : two_char_type c d ≠ TOK_EOF := by
  unfold two_char_type
  repeat' (first | exact (by decide) | apply ite_prop (fun t => t ≠ TOK_EOF))

theorem single_char_type_ne_eof (c : Nat) : single_char_type c ≠ TOK_EOF := by
  unfold single_char_type
  repeat' (first | exact (by decide) | apply ite_prop (fun t => t ≠ TOK_EOF))

/-- C16: for every input text `tokenize` either stops with a diagnostic (an unexpected
character, or too many tokens) or returns a token sequence that contains no token of kind
`TOK_ERROR` and exactly one of kind `TOK_EOF`, which is its last element; the bound on the
iterations of the model is never reached. -/
theorem C16_token_stream_ends_with_single_eof (code : List Nat) :
    (∃ e, tokenize code = .error e ∧ e ≠ .out_of_fuel) ∨
    ∃ tokens, tokenize code = .ok tokens ∧
      (∀ t, t ∈ tokens → t.type ≠ TOK_ERROR) ∧
      tokens.countP (fun t => t.type = TOK_EOF) = 1 ∧
      ∃ last, tokens.getLast? = some last ∧ last.type = TOK_EOF := by
  have h := tokenize_loop_spec (fun t => t.type ≠ TOK_EOF ∧ t.type ≠ TOK_ERROR)
    (fun _ _ _ => ⟨fun h => (by cases h), fun h => (by cases h)⟩)
    (fun _ _ _ _ _ => ⟨fun h => (by cases h), fun h => (by cases h)⟩)
    (fun c d _ _ h => ⟨two_char_type_ne_eof c d, h⟩)
    (fun c _ _ h => ⟨single_char_type_ne_eof c, h⟩)
    (fun _ _ _ _ _ => get_keyword_type_ne _)
    (code.length + 1) code 1 1 [] (by omega) (fun t ht => by simp at ht)
  rcases h with h | ⟨init, line, col, hr, hinit⟩
  · exact Or.inl h
  · refine Or.inr ⟨init ++ [eof_token line col], hr, ?_, ?_, eof_token line col, by simp, rfl⟩
    · intro t ht
      rcases List.mem_append.1 ht with h | h
      · exact (hinit t h).2
      · simp only [List.mem_singleton] at h
        rw [h]
        exact fun h' => by cases h'
    · rw [List.countP_append]
      have h0 : init.countP (fun t => t.type = TOK_EOF) = 0 := by
        rw [List.countP_eq_zero]
        intro t ht
        simpa using (hinit t ht).1
      rw [h0]
      simp [eof_token]

/-! ## Single steps of the lexer -/

theorem isdigit_iff (c : Nat) : Bytes.isdigit c = true ↔ 48 ≤ c ∧ c ≤ 57 := by
  simp [Bytes.isdigit]

theorem isspace_iff (c : Nat) : Bytes.isspace c = true ↔ c = 32 ∨ (9 ≤ c ∧ c ≤ 13) := by
  simp [Bytes.isspace]

theorem isalpha_iff (c : Nat) :
    Bytes.isalpha c = true ↔ (65 ≤ c ∧ c ≤ 90) ∨ (97 ≤ c ∧ c ≤ 122) := by
  simp [Bytes.isalpha]

theorem skip_whitespace_of_not_space (c : Nat) (rest : List Nat) (line col : Int)
    (h : Bytes.isspace c = false) :
    skip_whitespace (c :: rest) line col = (c :: rest, line, col) := by
  simp [skip_whitespace, h]

theorem add_token_ok (tokens : List Token) (type : TokenType) (value : List Nat)
    (line col : Int) (h : tokens.length < MAX_TOKENS) :
    add_token tokens type value line col =
      .ok (tokens ++ [⟨type, value.take (MAX_TOKEN_LEN - 1), line, col⟩]) := by
  unfold add_token
  rw [if_neg (by omega)]

/-- At the end of the text the lexer adds the end-of-input token and stops. -/
theorem tokenize_loop_end (fuel : Nat) (line col : Int) (tokens : List Token)
    (h : tokens.length < MAX_TOKENS) :
    tokenize_loop (fuel + 1) [] line col tokens = .ok (tokens ++ [eof_token line col]) := by
  simp only [tokenize_loop, skip_whitespace]
  rw [add_token_ok _ _ _ _ _ h]
  rfl

/-- At a digit the lexer adds the number token that `scan_number` collects. -/
theorem tokenize_loop_number (fuel : Nat) (c : Nat) (rest : List Nat) (line col : Int)
    (tokens : List Token) (hc : Bytes.isdigit c = true) (h : tokens.length < MAX_TOKENS) :
    tokenize_loop (fuel + 1) (c :: rest) line col tokens =
      tokenize_loop fuel (scan_number (MAX_TOKEN_LEN - 1) false (c :: rest)).2 line
        (col + (scan_number (MAX_TOKEN_LEN - 1) false (c :: rest)).1.length)
        (tokens ++ [⟨TOK_NUMBER,
          (scan_number (MAX_TOKEN_LEN - 1) false (c :: rest)).1.take (MAX_TOKEN_LEN - 1),
          line, col⟩]) := by
  have hd := (isdigit_iff c).1 hc
  have hs : Bytes.isspace c = false := by
    cases hsp : Bytes.isspace c with
    | false => rfl
    | true => have := (isspace_iff c).1 hsp; omega
  have h1 : ¬ (c = '/'.toNat ∧ rest.head? = some '/'.toNat) := by
    rintro ⟨h, -⟩
    have : '/'.toNat = 47 := rfl
    omega
  have h2 : ¬ (c = '/'.toNat ∧ rest.head? = some '*'.toNat) := by
    rintro ⟨h, -⟩
    have : '/'.toNat = 47 := rfl
    omega
  have h3 : ¬ c = '"'.toNat := by
    have : '"'.toNat = 34 := rfl
    omega
  rw [tokenize_loop]
  rw [skip_whitespace_of_not_space c rest line col hs]
  simp only [if_neg h1, if_neg h2, if_neg h3, hc, if_true]
  rw [add_token_ok _ _ _ _ _ h]
  rfl

/-- At a two-character operator the lexer adds its token. -/
theorem tokenize_loop_two_char (fuel : Nat) (c d : Nat) (rest : List Nat) (line col : Int)
    (tokens : List Token) (hs : Bytes.isspace c = false) (hc1 : c ≠ '/'.toNat)
    (hc2 : c ≠ '"'.toNat) (hc3 : Bytes.isdigit c = false)
    (ht : two_char_type c d ≠ TOK_ERROR) (h : tokens.length < MAX_TOKENS) :
    tokenize_loop (fuel + 1) (c :: d :: rest) line col tokens =
      tokenize_loop fuel rest line (col + 2)
        (tokens ++ [⟨two_char_type c d, [c, d], line, col⟩]) := by
  rw [tokenize_loop]
  rw [skip_whitespace_of_not_space c _ line col hs]
  simp only [hc1, false_and, if_false, hc2, hc3, Bool.false_eq_true, ht, ne_eq,
    not_false_eq_true, if_true]
  rw [add_token_ok _ _ _ _ _ h]
  rfl

/-- At a one-character operator that starts no two-character operator the lexer adds its
token. -/
theorem tokenize_loop_single_char (fuel : Nat) (c : Nat) (rest : List Nat) (line col : Int)
    (tokens : List Token) (hs : Bytes.isspace c = false) (hc1 : c ≠ '/'.toNat)
    (hc2 : c ≠ '"'.toNat) (hc3 : Bytes.isdigit c = false)
    (h2 : ∀ d, rest.head? = some d → two_char_type c d = TOK_ERROR)
    (ht : single_char_type c ≠ TOK_ERROR) (h : tokens.length < MAX_TOKENS) :
    tokenize_loop (fuel + 1) (c :: rest) line col tokens =
      tokenize_loop fuel rest line (col + 1)
        (tokens ++ [⟨single_char_type c, [c], line, col⟩]) := by
  rw [tokenize_loop]
  rw [skip_whitespace_of_not_space c _ line col hs]
  simp only [hc1, false_and, if_false, hc2, hc3, Bool.false_eq_true]
  cases rest with
  | nil =>
    simp only [ht, ne_eq, not_false_eq_true, if_true]
    rw [add_token_ok _ _ _ _ _ h]
    rfl
  | cons d rest' =>
    have := h2 d rfl
    simp only [this, ne_eq, not_true_eq_false, if_false, ht, not_false_eq_true, if_true]
    rw [add_token_ok _ _ _ _ _ h]
    rfl

/-- At a letter, or a byte of a multi-byte character, the lexer adds the word that
`scan_identifier` collects, with the kind `get_keyword_type` gives it. -/
theorem tokenize_loop_word (fuel : Nat) (c : Nat) (rest : List Nat) (line col : Int)
    (tokens : List Token) (hc : Bytes.isalpha c = true ∨ c ≥ 128)
    (h2 : ∀ d, rest.head? = some d → two_char_type c d = TOK_ERROR)
    (h : tokens.length < MAX_TOKENS) :
    tokenize_loop (fuel + 1) (c :: rest) line col tokens =
      tokenize_loop fuel (scan_identifier (MAX_TOKEN_LEN - 1) (c :: rest)).2 line
        (col + (scan_identifier (MAX_TOKEN_LEN - 1) (c :: rest)).1.length)
        (tokens ++ [⟨get_keyword_type (scan_identifier (MAX_TOKEN_LEN - 1) (c :: rest)).1,
          (scan_identifier (MAX_TOKEN_LEN - 1) (c :: rest)).1.take (MAX_TOKEN_LEN - 1),
          line, col⟩]) := by
  have hrange : (65 ≤ c ∧ c ≤ 90) ∨ (97 ≤ c ∧ c ≤ 122) ∨ c ≥ 128 := by
    rcases hc with h | h
    · rcases (isalpha_iff c).1 h with h | h
      · exact Or.inl h
      · exact Or.inr (Or.inl h)
    · exact Or.inr (Or.inr h)
  have hs : Bytes.isspace c = false := by
    cases hsp : Bytes.isspace c with
    | false => rfl
    | true => have := (isspace_iff c).1 hsp; omega
  have hd : Bytes.isdigit c = false := by
    cases hsp : Bytes.isdigit c with
    | false => rfl
    | true => have := (isdigit_iff c).1 hsp; omega
  have hc1 : c ≠ '/'.toNat := by
    have : '/'.toNat = 47 := rfl
    omega
  have hc2 : c ≠ '"'.toNat := by
    have : '"'.toNat = 34 := rfl
    omega
  have hsingle : single_char_type c = TOK_ERROR := by
    unfold single_char_type
    have e1 : '+'.toNat = 43 := rfl
    have e2 : '-'.toNat = 45 := rfl
    have e3 : '*'.toNat = 42 := rfl
    have e4 : '/'.toNat = 47 := rfl
    have e5 : '='.toNat = 61 := rfl
    have e6 : '<'.toNat = 60 := rfl
    have e7 : '>'.toNat = 62 := rfl
    have e8 : '('.toNat = 40 := rfl
    have e9 : ')'.toNat = 41 := rfl
    have e10 : '['.toNat = 91 := rfl
    have e11 : ']'.toNat = 93 := rfl
    have e12 : ','.toNat = 44 := rfl
    have e13 : ':'.toNat = 58 := rfl
    have e14 : ';'.toNat = 59 := rfl
    have e15 : '%'.toNat = 37 := rfl
    repeat rw [if_neg (by omega)]
  rw [tokenize_loop]
  rw [skip_whitespace_of_not_space c _ line col hs]
  simp only [hc1, false_and, if_false, hc2, hd, Bool.false_eq_true]
  cases rest with
  | nil =>
    simp only [hsingle, ne_eq, not_true_eq_false, if_false, hc, if_true]
    rw [add_token_ok _ _ _ _ _ h]
    rfl
  | cons d rest' =>
    have := h2 d rfl
    simp only [this, hsingle, ne_eq, not_true_eq_false, if_false, hc, if_true]
    rw [add_token_ok _ _ _ _ _ h]
    rfl

/-! ## Numeric literals -/

/-- Over a run of digits that fits the buffer `scan_number` collects them all. -/
theorem scan_number_digits (a : List Nat) (ha : ∀ c, c ∈ a → Bytes.isdigit c = true) :
    ∀ (room : Nat) (has_dot : Bool) (rest : List Nat), a.length ≤ room →
      scan_number room has_dot (a ++ rest) =
        (a ++ (scan_number (room - a.length) has_dot rest).1,
          (scan_number (room - a.length) has_dot rest).2) := by
  induction a with
  | nil => intro room has_dot rest _; simp
  | cons c a ih =>
    intro room has_dot rest hl
    cases room with
    | zero => simp at hl
    | succ room =>
      have hc := ha c (List.mem_cons_self _ _)
      have := ih (fun d hd => ha d (List.mem_cons_of_mem _ hd)) room has_dot rest
        (by simp only [List.length_cons] at hl; omega)
      rw [List.cons_append, scan_number]
      simp only [hc, if_true]
      rw [this]
      simp only [List.length_cons, Nat.add_sub_add_right, List.cons_append]

theorem scan_number_stop (room : Nat) (has_dot : Bool) (code : List Nat)
    (h : ∀ c, code.head? = some c → Bytes.isdigit c = false ∧
      (c = '.'.toNat → has_dot = true ∨ code.tail.head? = some '.'.toNat ∨
        code.tail.head?.any Bytes.isdigit = false)) :
    scan_number room has_dot code = ([], code) := by
  cases room with
  | zero => rfl
  | succ room =>
    cases code with
    | nil => rfl
    | cons c rest =>
      obtain ⟨hd, hdot⟩ := h c rfl
      simp only [scan_number, hd, Bool.false_eq_true, if_false]
      by_cases hc : c = '.'.toNat ∧ has_dot = false
      · rw [if_pos hc]
        rcases hdot hc.1 with h1 | h1 | h1
        · rw [hc.2] at h1; cases h1
        · simp only [List.tail_cons] at h1
          rw [if_pos h1]
        · simp only [List.tail_cons] at h1
          by_cases h2 : rest.head? = some '.'.toNat
          · rw [if_pos h2]
          · rw [if_neg h2, h1]
            simp
      · rw [if_neg hc]

/-- The bytes `scan_number` collects are a prefix of the text, hold at most one decimal point
(none when one was seen before), and each decimal point among them is followed in the text by
a digit. -/
theorem scan_number_spec (room : Nat) :
    ∀ (has_dot : Bool) (code : List Nat),
      (scan_number room has_dot code).1 ++ (scan_number room has_dot code).2 = code ∧
      (scan_number room has_dot code).1.count '.'.toNat ≤ (if has_dot then 0 else 1) ∧
      ∀ k, (scan_number room has_dot code).1[k]? = some '.'.toNat →
        ∃ d, code[k + 1]? = some d ∧ Bytes.isdigit d = true := by
  induction room with
  | zero =>
    intro has_dot code
    simp [scan_number]
  | succ room ih =>
    intro has_dot code
    cases code with
    | nil => simp [scan_number]
    | cons c rest =>
      obtain ⟨i1, i2, i3⟩ := ih has_dot rest
      obtain ⟨j1, j2, j3⟩ := ih true rest
      have hdot : '.'.toNat = 46 := rfl
      unfold scan_number
      by_cases hd : Bytes.isdigit c = true
      · have hne : c ≠ '.'.toNat := by
          have := (isdigit_iff c).1 hd
          omega
        simp only [hd, if_true]
        refine ⟨by simp [i1], ?_, ?_⟩
        · show List.count '.'.toNat (c :: (scan_number room has_dot rest).1) ≤ _
          rw [List.count_cons_of_ne (Ne.symm hne)]
          exact i2
        · intro k hk
          cases k with
          | zero =>
            simp only [List.getElem?_cons_zero, Option.some.injEq] at hk
            exact absurd hk hne
          | succ k =>
            simp only [List.getElem?_cons_succ] at hk ⊢
            exact i3 k hk
      · simp only [hd, Bool.false_eq_true, if_false]
        by_cases hc : c = '.'.toNat ∧ has_dot = false
        · rw [if_pos hc]
          by_cases h2 : rest.head? = some '.'.toNat
          · rw [if_pos h2]
            simp
          · rw [if_neg h2]
            by_cases h3 : rest.head?.any Bytes.isdigit = true
            · rw [if_pos h3]
              refine ⟨by simp [j1], ?_, ?_⟩
              · show List.count '.'.toNat (c :: (scan_number room true rest).1) ≤ _
                rw [hc.1, List.count_cons_self, hc.2]
                simp only [if_true] at j2
                simp only [Bool.false_eq_true, if_false]
                omega
              · intro k hk
                cases k with
                | zero =>
                  cases rest with
                  | nil => simp at h3
                  | cons d rest' =>
                    simp only [List.head?_cons, Option.any_some] at h3
                    exact ⟨d, by simp, h3⟩
                | succ k =>
                  simp only [List.getElem?_cons_succ] at hk ⊢
                  exact j3 k hk
            · rw [if_neg h3]
              simp
        · rw [if_neg hc]
          simp

theorem get_keyword_type_ne_number (str : List Nat) : get_keyword_type str ≠ TOK_NUMBER := by
  unfold get_keyword_type
  repeat' (first | exact (by decide) | apply ite_prop (fun t => t ≠ TOK_NUMBER))

theorem two_char_type_ne_number (c d : Nat) : two_char_type c d ≠ TOK_NUMBER := by
  unfold two_char_type
  repeat' (first | exact (by decide) | apply ite_prop (fun t => t ≠ TOK_NUMBER))

theorem single_char_type_ne_number (c : Nat) : single_char_type c ≠ TOK_NUMBER := by
  unfold single_char_type
  repeat' (first | exact (by decide) | apply ite_prop (fun t => t ≠ TOK_NUMBER))

theorem scan_number_nil (room : Nat) (has_dot : Bool) :
    scan_number room has_dot [] = ([], []) := by
  cases room <;> rfl

/-- The text `a..b`, from any position with any tokens before it. -/
theorem tokenize_loop_range (a b : List Nat) (ha : a ≠ []) (hb : b ≠ [])
    (hda : ∀ c, c ∈ a → Bytes.isdigit c = true) (hdb : ∀ c, c ∈ b → Bytes.isdigit c = true)
    (hla : a.length ≤ MAX_TOKEN_LEN - 1) (hlb : b.length ≤ MAX_TOKEN_LEN - 1)
    (fuel : Nat) (line col : Int) (tokens : List Token) (ht : tokens.length + 4 ≤ MAX_TOKENS) :
    tokenize_loop (fuel + 4) (a ++ c_bytes ".." ++ b) line col tokens =
      .ok (tokens ++ [⟨TOK_NUMBER, a, line, col⟩, ⟨TOK_DOT, c_bytes "..", line, col + a.length⟩,
        ⟨TOK_NUMBER, b, line, col + a.length + 2⟩,
        eof_token line (col + a.length + 2 + b.length)]) := by
  have hdots : c_bytes ".." = ['.'.toNat, '.'.toNat] := by decide
  rw [hdots]
  have hsa : scan_number (MAX_TOKEN_LEN - 1) false (a ++ ['.'.toNat, '.'.toNat] ++ b) =
      (a, ['.'.toNat, '.'.toNat] ++ b) := by
    rw [List.append_assoc, scan_number_digits a hda _ _ _ hla,
      scan_number_stop _ _ _ (by
        intro c hc
        simp only [List.cons_append, List.head?_cons, Option.some.injEq] at hc
        subst hc
        exact ⟨by decide, fun _ => Or.inr (Or.inl (by simp))⟩)]
    simp
  have hsb : scan_number (MAX_TOKEN_LEN - 1) false b = (b, []) := by
    have := scan_number_digits b hdb (MAX_TOKEN_LEN - 1) false [] hlb
    rw [List.append_nil, scan_number_nil] at this
    simpa using this
  obtain ⟨ca, a', rfl⟩ := List.exists_cons_of_ne_nil ha
  obtain ⟨cb, b', rfl⟩ := List.exists_cons_of_ne_nil hb
  have h1 := tokenize_loop_number (fuel + 3) ca (a' ++ ['.'.toNat, '.'.toNat] ++ (cb :: b'))
    line col tokens (hda ca (List.mem_cons_self _ _)) (by omega)
  simp only [List.cons_append] at hsa h1 ⊢
  rw [hsa] at h1
  rw [h1]
  simp only [List.cons_append, List.nil_append]
  rw [tokenize_loop_two_char (fuel + 2) '.'.toNat '.'.toNat (cb :: b') line _ _ (by decide)
    (by decide) (by decide) (by decide) (by decide) (by simp; omega)]
  have h3 := tokenize_loop_number (fuel + 1) cb b' line
    (col + ((ca :: a').length : Int) + 2)
    (tokens ++ [⟨TOK_NUMBER, (ca :: a').take (MAX_TOKEN_LEN - 1), line, col⟩] ++
      [⟨two_char_type '.'.toNat '.'.toNat, ['.'.toNat, '.'.toNat], line,
        col + ((ca :: a').length : Int)⟩])
    (hdb cb (List.mem_cons_self _ _)) (by simp; omega)
  rw [hsb] at h3
  rw [h3, tokenize_loop_end _ _ _ _ (by simp; omega)]
  rw [List.take_of_length_le hla, List.take_of_length_le hlb]
  have htwo : two_char_type '.'.toNat '.'.toNat = TOK_DOT := by decide
  rw [htwo]
  simp [List.append_assoc]

/-- The text `a.b`, from any position with any tokens before it. -/
theorem tokenize_loop_decimal (a b : List Nat) (ha : a ≠ []) (hb : b ≠ [])
    (hda : ∀ c, c ∈ a → Bytes.isdigit c = true) (hdb : ∀ c, c ∈ b → Bytes.isdigit c = true)
    (hl : a.length + 1 + b.length ≤ MAX_TOKEN_LEN - 1)
    (fuel : Nat) (line col : Int) (tokens : List Token) (ht : tokens.length + 2 ≤ MAX_TOKENS) :
    tokenize_loop (fuel + 2) (a ++ c_bytes "." ++ b) line col tokens =
      .ok (tokens ++ [⟨TOK_NUMBER, a ++ c_bytes "." ++ b, line, col⟩,
        eof_token line (col + a.length + 1 + b.length)]) := by
  have hdot : c_bytes "." = ['.'.toNat] := by decide
  rw [hdot]
  obtain ⟨cb, b', rfl⟩ := List.exists_cons_of_ne_nil hb
  have hcb := hdb cb (List.mem_cons_self _ _)
  have hroom : ∃ r, MAX_TOKEN_LEN - 1 - a.length = r + 1 ∧ (cb :: b').length ≤ r := by
    refine ⟨MAX_TOKEN_LEN - 1 - a.length - 1, ?_, ?_⟩ <;> omega
  obtain ⟨r, hr, hrb⟩ := hroom
  have hsb : scan_number r true (cb :: b') = (cb :: b', []) := by
    have := scan_number_digits (cb :: b') hdb r true [] hrb
    rw [List.append_nil, scan_number_nil] at this
    simpa using this
  have hsa : scan_number (MAX_TOKEN_LEN - 1) false (a ++ ['.'.toNat] ++ (cb :: b')) =
      (a ++ ['.'.toNat] ++ (cb :: b'), []) := by
    rw [List.append_assoc, scan_number_digits a hda _ _ _ (by omega), hr]
    have hne : ¬ (some cb = some '.'.toNat) := by
      have := (isdigit_iff cb).1 hcb
      have h46 : '.'.toNat = 46 := rfl
      simp only [Option.some.injEq]
      omega
    have hd46 : Bytes.isdigit '.'.toNat = false := by decide
    rw [List.singleton_append, scan_number]
    simp only [hd46, Bool.false_eq_true, if_false, true_and, and_self, if_true,
      List.head?_cons, hne, Option.any_some, hcb, hsb]
  obtain ⟨ca, a', rfl⟩ := List.exists_cons_of_ne_nil ha
  have h1 := tokenize_loop_number (fuel + 1) ca (a' ++ ['.'.toNat] ++ (cb :: b'))
    line col tokens (hda ca (List.mem_cons_self _ _)) (by omega)
  simp only [List.cons_append] at hsa h1 ⊢
  rw [hsa] at h1
  rw [h1, tokenize_loop_end _ _ _ _ (by simp; omega)]
  rw [List.take_of_length_le (by
    simp only [List.length_cons, List.length_append, List.length_nil] at hl ⊢
    omega)]
  simp only [List.length_cons, List.length_append, List.append_assoc, List.cons_append,
    List.nil_append, List.singleton_append, Except.ok.injEq, List.append_cancel_left_eq,
    List.cons.injEq, true_and, and_true]
  simp only [eof_token, Token.mk.injEq, true_and]
  push_cast
  ring

/-- C17 (as amended): numeric literals that fit the 255-byte token buffer.  For non-empty
digit strings `a` and `b` of at most 255 digits the text `a..b` lexes to the tokens
`NUMBER a`, range operator, `NUMBER b`, and when `a.b` has at most 255 bytes it lexes to
the single token `NUMBER a.b` (each followed by the end-of-input token).  At every digit
the lexer adds the number token `scan_number` collects there: a prefix of the text with at
most one decimal point, every decimal point in it followed in the text by a digit; and no
number token of any token sequence holds more than one decimal point. -/
theorem C17_numeric_literal_lexing (a b : List Nat) (ha : a ≠ []) (hb : b ≠ [])
    (hda : ∀ c, c ∈ a → Bytes.isdigit c = true) (hdb : ∀ c, c ∈ b → Bytes.isdigit c = true)
    (hla : a.length ≤ MAX_TOKEN_LEN - 1) (hlb : b.length ≤ MAX_TOKEN_LEN - 1) :
    tokenize (a ++ c_bytes ".." ++ b) =
      .ok [⟨TOK_NUMBER, a, 1, 1⟩, ⟨TOK_DOT, c_bytes "..", 1, 1 + a.length⟩,
        ⟨TOK_NUMBER, b, 1, 1 + a.length + 2⟩, eof_token 1 (1 + a.length + 2 + b.length)] ∧
    (a.length + 1 + b.length ≤ MAX_TOKEN_LEN - 1 →
      tokenize (a ++ c_bytes "." ++ b) =
        .ok [⟨TOK_NUMBER, a ++ c_bytes "." ++ b, 1, 1⟩,
          eof_token 1 (1 + a.length + 1 + b.length)]) ∧
    (∀ (fuel : Nat) (c : Nat) (rest : List Nat) (line col : Int) (tokens : List Token),
      Bytes.isdigit c = true → tokens.length < MAX_TOKENS →
      tokenize_loop (fuel + 1) (c :: rest) line col tokens =
        tokenize_loop fuel (scan_number (MAX_TOKEN_LEN - 1) false (c :: rest)).2 line
          (col + (scan_number (MAX_TOKEN_LEN - 1) false (c :: rest)).1.length)
          (tokens ++ [⟨TOK_NUMBER,
            (scan_number (MAX_TOKEN_LEN - 1) false (c :: rest)).1.take (MAX_TOKEN_LEN - 1),
            line, col⟩]) ∧
      (scan_number (MAX_TOKEN_LEN - 1) false (c :: rest)).1 ++
        (scan_number (MAX_TOKEN_LEN - 1) false (c :: rest)).2 = c :: rest ∧
      ∀ k, (scan_number (MAX_TOKEN_LEN - 1) false (c :: rest)).1[k]? = some '.'.toNat →
        ∃ d, (c :: rest)[k + 1]? = some d ∧ Bytes.isdigit d = true) ∧
    (∀ (code : List Nat) (tokens : List Token), tokenize code = .ok tokens →
      ∀ t, t ∈ tokens → t.type = TOK_NUMBER → t.value.count '.'.toNat ≤ 1) := by
  have hcd : (c_bytes "..").length = 2 := by decide
  have hc1 : (c_bytes ".").length = 1 := by decide
  refine ⟨?_, ?_, ?_, ?_⟩
  · have hfuel : (a ++ c_bytes ".." ++ b).length + 1 =
        ((a ++ c_bytes ".." ++ b).length - 3) + 4 := by
      have h1 : 0 < a.length := List.length_pos.2 ha
      have h2 : 0 < b.length := List.length_pos.2 hb
      simp only [List.length_append, hcd]
      omega
    unfold tokenize
    rw [hfuel, tokenize_loop_range a b ha hb hda hdb hla hlb _ 1 1 [] (by decide)]
    simp
  · intro hl
    have hfuel : (a ++ c_bytes "." ++ b).length + 1 =
        ((a ++ c_bytes "." ++ b).length - 1) + 2 := by
      have h1 : 0 < a.length := List.length_pos.2 ha
      simp only [List.length_append, hc1]
      omega
    unfold tokenize
    rw [hfuel, tokenize_loop_decimal a b ha hb hda hdb hl _ 1 1 [] (by decide)]
    simp
  · intro fuel c rest line col tokens hc ht
    obtain ⟨s1, -, s3⟩ := scan_number_spec (MAX_TOKEN_LEN - 1) false (c :: rest)
    exact ⟨tokenize_loop_number fuel c rest line col tokens hc ht, s1, s3⟩
  · intro code tokens htok t ht hnum
    have hcount : ∀ (l : List Nat), (l.take (MAX_TOKEN_LEN - 1)).count '.'.toNat ≤
        l.count '.'.toNat := fun l => (List.take_sublist _ l).count_le _
    have h := tokenize_loop_spec (fun t => t.type = TOK_NUMBER → t.value.count '.'.toNat ≤ 1)
      (fun _ _ _ h => (by cases h))
      (fun c rest _ _ _ _ => le_trans (hcount _)
        (by simpa using (scan_number_spec (MAX_TOKEN_LEN - 1) false (c :: rest)).2.1))
      (fun c d _ _ _ h => absurd h (two_char_type_ne_number c d))
      (fun c _ _ _ h => absurd h (single_char_type_ne_number c))
      (fun _ _ _ _ _ h => absurd h (get_keyword_type_ne_number _))
      (code.length + 1) code 1 1 [] (by omega) (fun t ht => by simp at ht)
    rcases h with ⟨e, he, -⟩ | ⟨init, line, col, hr, hinit⟩
    · unfold tokenize at htok
      rw [he] at htok
      cases htok
    · unfold tokenize at htok
      rw [hr] at htok
      simp only [Except.ok.injEq] at htok
      rw [← htok] at ht
      rcases List.mem_append.1 ht with h | h
      · exact hinit t h hnum
      · simp only [List.mem_singleton] at h
        rw [h] at hnum
        cases hnum

/-- C17, an instance: `1..10` is a number, the range operator and a number; `3.14` is one
number. -/
theorem C17_witness :
    tokenize (c_bytes "1..10") =
      .ok [⟨TOK_NUMBER, c_bytes "1", 1, 1⟩, ⟨TOK_DOT, c_bytes "..", 1, 2⟩,
        ⟨TOK_NUMBER, c_bytes "10", 1, 4⟩, eof_token 1 6] ∧
    tokenize (c_bytes "3.14") = .ok [⟨TOK_NUMBER, c_bytes "3.14", 1, 1⟩, eof_token 1 5] := by
  have h := C17_numeric_literal_lexing (c_bytes "1") (c_bytes "10") (by decide) (by decide)
    (by decide) (by decide) (by decide) (by decide)
  have h' := C17_numeric_literal_lexing (c_bytes "3") (c_bytes "14") (by decide) (by decide)
    (by decide) (by decide) (by decide) (by decide)
  exact ⟨h.1, h'.2.1 (by decide)⟩

/-- C17 fails as stated: with `a` a string of 256 digits the text `a..2` lexes to four
tokens before the end of input, the number being cut after 255 digits. -/
theorem C17_counterexample :
    (tokenize (List.replicate 256 '1'.toNat ++ c_bytes ".." ++ c_bytes "2")).map
        (fun ts => ts.map (fun t => (t.type, t.value))) =
      .ok [(TOK_NUMBER, List.replicate 255 '1'.toNat), (TOK_NUMBER, c_bytes "1"),
        (TOK_DOT, c_bytes ".."), (TOK_NUMBER, c_bytes "2"), (TOK_EOF, c_bytes "EOF")] := by
  decide!

/-! ## Identifiers and hyphens -/

theorem scan_identifier_nil (room : Nat) : scan_identifier room [] = ([], []) := by
  cases room <;> rfl

/-- Over a run of word bytes that fits the buffer `scan_identifier` collects them all. -/
theorem scan_identifier_word (u : List Nat) (hu : ∀ c, c ∈ u → is_word_byte c) :
    ∀ (room : Nat) (rest : List Nat), u.length ≤ room →
      scan_identifier room (u ++ rest) =
        (u ++ (scan_identifier (room - u.length) rest).1,
          (scan_identifier (room - u.length) rest).2) := by
  induction u with
  | nil => intro room rest _; simp
  | cons c u ih =>
    intro room rest hl
    cases room with
    | zero => simp at hl
    | succ room =>
      have hc : Bytes.isalnum c = true ∨ c = '_'.toNat ∨ c ≥ 128 := hu c (List.mem_cons_self _ _)
      have := ih (fun d hd => hu d (List.mem_cons_of_mem _ hd)) room rest
        (by simp only [List.length_cons] at hl; omega)
      rw [List.cons_append, scan_identifier]
      simp only [hc, if_true]
      rw [this]
      simp only [List.length_cons, Nat.add_sub_add_right, List.cons_append]

/-- The hyphen in the identifier loop: it is taken into the identifier exactly when another
byte follows it and that byte is not a digit. -/
theorem scan_identifier_hyphen (room : Nat) (rest : List Nat) :
    ((∃ d, rest.head? = some d ∧ Bytes.isdigit d = false) →
      scan_identifier (room + 1) ('-'.toNat :: rest) =
        ('-'.toNat :: (scan_identifier room rest).1, (scan_identifier room rest).2)) ∧
    ((¬ ∃ d, rest.head? = some d ∧ Bytes.isdigit d = false) →
      scan_identifier (room + 1) ('-'.toNat :: rest) = ([], '-'.toNat :: rest)) := by
  have h1 : ¬ (Bytes.isalnum '-'.toNat = true ∨ '-'.toNat = '_'.toNat ∨ '-'.toNat ≥ 128) := by
    decide
  constructor
  · rintro ⟨d, hd, hnd⟩
    rw [scan_identifier, if_neg h1, hd]
    simp [hnd]
  · intro hno
    rw [scan_identifier, if_neg h1]
    have : ¬ ('-'.toNat = '-'.toNat ∧
        Option.any (fun d => !Bytes.isdigit d) rest.head? = true) := by
      rintro ⟨-, h⟩
      cases hr : rest.head? with
      | none => rw [hr] at h; simp at h
      | some d =>
        rw [hr] at h
        simp only [Option.any_some, Bool.not_eq_eq_eq_not, Bool.not_true] at h
        exact hno ⟨d, hr, h⟩
    rw [if_neg this]

theorem two_char_type_of_word_start (c d : Nat) (hc : Bytes.isalpha c = true ∨ c ≥ 128) :
    two_char_type c d = TOK_ERROR := by
  have hrange : (65 ≤ c ∧ c ≤ 90) ∨ (97 ≤ c ∧ c ≤ 122) ∨ c ≥ 128 := by
    rcases hc with h | h
    · rcases (isalpha_iff c).1 h with h | h
      · exact Or.inl h
      · exact Or.inr (Or.inl h)
    · exact Or.inr (Or.inr h)
  have e1 : ':'.toNat = 58 := rfl
  have e2 : '<'.toNat = 60 := rfl
  have e3 : '>'.toNat = 62 := rfl
  have e4 : '.'.toNat = 46 := rfl
  unfold two_char_type
  repeat rw [if_neg (by omega)]

theorem two_char_type_of_hyphen (d : Nat) : two_char_type '-'.toNat d = TOK_ERROR := by
  have e0 : '-'.toNat = 45 := rfl
  have e1 : ':'.toNat = 58 := rfl
  have e2 : '<'.toNat = 60 := rfl
  have e3 : '>'.toNat = 62 := rfl
  have e4 : '.'.toNat = 46 := rfl
  unfold two_char_type
  repeat rw [if_neg (by omega)]

/-- C18: while an identifier is collected, a hyphen is taken into it if and only if another
byte follows the hyphen and that byte is not a digit.  So a word, a hyphen and digits lex as
three tokens (`j-1`: identifier `j`, minus, number `1`), and two words joined by a hyphen,
the second not starting with a digit, lex as a single token (`END-IF`). -/
theorem C18_hyphen_in_identifier (u : List Nat) (hu : ∀ c, c ∈ u → is_word_byte c)
    (hstart : ∃ c, u.head? = some c ∧ (Bytes.isalpha c = true ∨ c ≥ 128)) :
    (∀ (room : Nat) (rest : List Nat),
      ((∃ d, rest.head? = some d ∧ Bytes.isdigit d = false) →
        scan_identifier (room + 1) ('-'.toNat :: rest) =
          ('-'.toNat :: (scan_identifier room rest).1, (scan_identifier room rest).2)) ∧
      ((¬ ∃ d, rest.head? = some d ∧ Bytes.isdigit d = false) →
        scan_identifier (room + 1) ('-'.toNat :: rest) = ([], '-'.toNat :: rest))) ∧
    (∀ (n : List Nat), n ≠ [] → (∀ c, c ∈ n → Bytes.isdigit c = true) →
      u.length ≤ MAX_TOKEN_LEN - 1 → n.length ≤ MAX_TOKEN_LEN - 1 →
      tokenize (u ++ c_bytes "-" ++ n) =
        .ok [⟨get_keyword_type u, u, 1, 1⟩, ⟨TOK_MINUS, c_bytes "-", 1, 1 + u.length⟩,
          ⟨TOK_NUMBER, n, 1, 1 + u.length + 1⟩, eof_token 1 (1 + u.length + 1 + n.length)]) ∧
    (∀ (w : List Nat), (∀ c, c ∈ w → is_word_byte c) →
      (∃ c, w.head? = some c ∧ Bytes.isdigit c = false) →
      u.length + 1 + w.length ≤ MAX_TOKEN_LEN - 1 →
      tokenize (u ++ c_bytes "-" ++ w) =
        .ok [⟨get_keyword_type (u ++ c_bytes "-" ++ w), u ++ c_bytes "-" ++ w, 1, 1⟩,
          eof_token 1 (1 + (u.length + 1 + w.length))]) := by
  have hhy : c_bytes "-" = ['-'.toNat] := by decide
  obtain ⟨cu, hcu, hcu'⟩ := hstart
  obtain ⟨u', rfl⟩ : ∃ u', u = cu :: u' := by
    cases u with
    | nil => simp at hcu
    | cons x u' =>
      simp only [List.head?_cons, Option.some.injEq] at hcu
      exact ⟨u', by rw [hcu]⟩
  refine ⟨fun room rest => scan_identifier_hyphen room rest, ?_, ?_⟩
  · intro n hn hdn hlu hln
    obtain ⟨cn, n', rfl⟩ := List.exists_cons_of_ne_nil hn
    have hcn := hdn cn (List.mem_cons_self _ _)
    rw [hhy]
    have hsu : scan_identifier (MAX_TOKEN_LEN - 1) (cu :: u' ++ ['-'.toNat] ++ (cn :: n')) =
        (cu :: u', ['-'.toNat] ++ (cn :: n')) := by
      rw [List.append_assoc, scan_identifier_word (cu :: u') hu _ _ hlu]
      have hstop : ∀ r, scan_identifier r (['-'.toNat] ++ (cn :: n')) =
          ([], ['-'.toNat] ++ (cn :: n')) := by
        intro r
        cases r with
        | zero => rfl
        | succ r =>
          exact (scan_identifier_hyphen r (cn :: n')).2 (by
            rintro ⟨d, hd, hnd⟩
            simp only [List.head?_cons, Option.some.injEq] at hd
            rw [← hd, hcn] at hnd
            cases hnd)
      rw [hstop]
      simp
    have hsn : scan_number (MAX_TOKEN_LEN - 1) false (cn :: n') = (cn :: n', []) := by
      have := scan_number_digits (cn :: n') hdn (MAX_TOKEN_LEN - 1) false [] hln
      rw [List.append_nil, scan_number_nil] at this
      simpa using this
    have hfuel : (cu :: u' ++ ['-'.toNat] ++ (cn :: n')).length + 1 =
        ((cu :: u' ++ ['-'.toNat] ++ (cn :: n')).length - 3) + 1 + 1 + 1 + 1 := by
      simp only [List.length_append, List.length_cons, List.length_nil]
      omega
    unfold tokenize
    rw [hfuel]
    have h1 := tokenize_loop_word ((cu :: u' ++ ['-'.toNat] ++ (cn :: n')).length - 3 + 1 + 1 + 1)
      cu (u' ++ ['-'.toNat] ++ (cn :: n')) 1 1 [] hcu'
      (fun d _ => two_char_type_of_word_start cu d hcu') (by decide)
    simp only [List.cons_append] at hsu h1 ⊢
    rw [hsu] at h1
    rw [h1]
    simp only [List.nil_append, List.cons_append]
    rw [tokenize_loop_single_char _ '-'.toNat (cn :: n') 1 _ _ (by decide) (by decide)
      (by decide) (by decide) (fun d _ => two_char_type_of_hyphen d) (by decide)
      (by simp; decide)]
    have h3 := tokenize_loop_number ((cu :: u' ++ ['-'.toNat] ++ (cn :: n')).length - 3 + 1)
      cn n' 1 (1 + ((cu :: u').length : Int) + 1)
      ([⟨get_keyword_type (cu :: u'), (cu :: u').take (MAX_TOKEN_LEN - 1), 1, 1⟩] ++
        [⟨single_char_type '-'.toNat, ['-'.toNat], 1, 1 + ((cu :: u').length : Int)⟩])
      hcn (by simp; decide)
    rw [hsn] at h3
    simp only [List.cons_append, List.nil_append] at h3 ⊢
    rw [h3, tokenize_loop_end _ _ _ _ (by simp; decide)]
    rw [List.take_of_length_le hlu, List.take_of_length_le hln]
    have hm : single_char_type '-'.toNat = TOK_MINUS := by decide
    rw [hm]
    simp
  · intro w hw hwstart hl
    obtain ⟨cw, hcw, hcw'⟩ := hwstart
    rw [hhy]
    have hroom : ∃ r, MAX_TOKEN_LEN - 1 - (cu :: u').length = r + 1 ∧ w.length ≤ r := by
      refine ⟨MAX_TOKEN_LEN - 1 - (cu :: u').length - 1, ?_, ?_⟩ <;> omega
    obtain ⟨r, hr, hrw⟩ := hroom
    have hsw : scan_identifier r w = (w, []) := by
      have := scan_identifier_word w hw r [] hrw
      rw [List.append_nil, scan_identifier_nil] at this
      simpa using this
    have hsu : scan_identifier (MAX_TOKEN_LEN - 1) (cu :: u' ++ ['-'.toNat] ++ w) =
        (cu :: u' ++ ['-'.toNat] ++ w, []) := by
      rw [List.append_assoc, scan_identifier_word (cu :: u') hu _ _ (by omega), hr]
      rw [List.singleton_append, (scan_identifier_hyphen r w).1 ⟨cw, hcw, hcw'⟩, hsw]
    have hfuel : (cu :: u' ++ ['-'.toNat] ++ w).length + 1 =
        ((cu :: u' ++ ['-'.toNat] ++ w).length - 1) + 1 + 1 := by
      simp only [List.length_append, List.length_cons, List.length_nil]
      omega
    unfold tokenize
    rw [hfuel]
    have h1 := tokenize_loop_word ((cu :: u' ++ ['-'.toNat] ++ w).length - 1 + 1)
      cu (u' ++ ['-'.toNat] ++ w) 1 1 [] hcu'
      (fun d _ => two_char_type_of_word_start cu d hcu') (by decide)
    simp only [List.cons_append] at hsu h1 ⊢
    rw [hsu] at h1
    rw [h1, tokenize_loop_end _ _ _ _ (by simp; decide)]
    rw [List.take_of_length_le (by
      simp only [List.length_cons, List.length_append, List.length_nil] at hl ⊢
      omega)]
    simp only [List.nil_append, List.length_cons, List.length_append, List.length_nil,
      List.singleton_append, List.cons_append, Except.ok.injEq, List.cons.injEq, true_and,
      and_true]
    simp only [eof_token, Token.mk.injEq, true_and]
    push_cast
    ring

/-- C18, the two examples: `j-1` is the identifier `j`, a minus and the number `1`;
`END-IF` is a single token. -/
theorem C18_witness :
    tokenize (c_bytes "j-1") =
      .ok [⟨TOK_IDENTIFIER, c_bytes "j", 1, 1⟩, ⟨TOK_MINUS, c_bytes "-", 1, 2⟩,
        ⟨TOK_NUMBER, c_bytes "1", 1, 3⟩, eof_token 1 4] ∧
    tokenize (c_bytes "END-IF") = .ok [⟨TOK_IDENTIFIER, c_bytes "END-IF", 1, 1⟩, eof_token 1 7] :=
  ⟨(C18_hyphen_in_identifier (c_bytes "j") (by unfold is_word_byte; decide) (by decide)).2.1
      (c_bytes "1") (by decide) (by decide) (by decide) (by decide),
    (C18_hyphen_in_identifier (c_bytes "END") (by unfold is_word_byte; decide)
      (by decide)).2.2 (c_bytes "IF") (by unfold is_word_byte; decide) (by decide) (by decide)⟩

/-! ## Keywords -/

theorem bytes_toupper_ascii_case_variant (a b : Nat) (h : ascii_case_variant_byte a b) :
    Bytes.toupper a = Bytes.toupper b := by
  have e1 : 'a'.toNat = 97 := rfl
  have e2 : 'z'.toNat = 122 := rfl
  unfold Bytes.toupper
  rcases h with h | ⟨h1, h2, h3⟩ | ⟨h1, h2, h3⟩
  · rw [h]
  · rw [if_neg (by omega), if_pos (by omega)]
    omega
  · rw [if_pos (by omega), if_neg (by omega)]
    omega

theorem str_equals_ignore_case_congr (k k' : List Nat) (h : ascii_case_variant_bytes k k') :
    ∀ (b : List Nat), Bytes.str_equals_ignore_case k' b = Bytes.str_equals_ignore_case k b := by
  unfold ascii_case_variant_bytes at h
  induction h with
  | nil => intro b; rfl
  | cons hab _ ih =>
    intro b
    cases b with
    | nil => rfl
    | cons x b =>
      simp only [Bytes.str_equals_ignore_case, bytes_toupper_ascii_case_variant _ _ hab, ih b]

theorem get_keyword_type_congr (k k' : List Nat) (h : ascii_case_variant_bytes k k') :
    get_keyword_type k' = get_keyword_type k := by
  have hk : ∀ kw, is_keyword k' kw = is_keyword k kw :=
    fun kw => str_equals_ignore_case_congr k k' h (c_bytes kw)
  unfold get_keyword_type
  simp only [hk]

theorem keyword_table_kinds :
    ∀ p, p ∈ keyword_table → get_keyword_type (c_bytes p.1) = p.2 := by
  decide

theorem keyword_table_not_identifier :
    ∀ p, p ∈ keyword_table → p.2 ≠ TOK_IDENTIFIER := by
  decide

/-- C19 (as amended): keyword recognition ignores the case of the letters `A` to `Z`: for
every spelling `k` of the keyword table, Greek or English, with its kind, and every
spelling `k'` that differs from `k` only in the case of such letters,
`get_keyword_type(k')` is `get_keyword_type(k)`, the kind of the table, and not the
identifier kind. -/
theorem C19_keywords_ignore_ascii_case (k : String) (kind : TokenType) (k' : List Nat)
    (hk : (k, kind) ∈ keyword_table) (h : ascii_case_variant_bytes (c_bytes k) k') :
    get_keyword_type k' = get_keyword_type (c_bytes k) ∧ get_keyword_type k' = kind ∧
      get_keyword_type k' ≠ TOK_IDENTIFIER := by
  have h1 := get_keyword_type_congr (c_bytes k) k' h
  have h2 := keyword_table_kinds (k, kind) hk
  have h3 := keyword_table_not_identifier (k, kind) hk
  simp only at h2 h3
  exact ⟨h1, by rw [h1, h2], by rw [h1, h2]; exact h3⟩

/-- C19, instances: `begin` and `End_If` are the keywords `BEGIN` and `END_IF`. -/
theorem C19_witness :
    get_keyword_type (c_bytes "begin") = TOK_BEGIN ∧
      get_keyword_type (c_bytes "End_If") = TOK_END_IF :=
  ⟨(C19_keywords_ignore_ascii_case "BEGIN" TOK_BEGIN (c_bytes "begin") (by decide)
      (by unfold ascii_case_variant_bytes ascii_case_variant_byte; decide)).2.1,
    (C19_keywords_ignore_ascii_case "END_IF" TOK_END_IF (c_bytes "End_If") (by decide)
      (by unfold ascii_case_variant_bytes ascii_case_variant_byte; decide)).2.1⟩

/-- C19 fails as stated: the lower-case Greek spellings `εαν` and `αρχη` of the keywords
`ΕΑΝ` and `ΑΡΧΗ` are identifiers. -/
theorem C19_counterexample :
    get_keyword_type (c_bytes "ΕΑΝ") = TOK_IF ∧
      get_keyword_type (c_bytes "εαν") = TOK_IDENTIFIER ∧
      get_keyword_type (c_bytes "ΑΡΧΗ") = TOK_BEGIN ∧
      get_keyword_type (c_bytes "αρχη") = TOK_IDENTIFIER := by
  decide

/-! ## The interface keywords -/

/-- C20: the English words `INPUT` and `OUTPUT` are identifiers to `get_keyword_type`, so
the interface `INTERFACE INPUT n: INTEGER; OUTPUT r: INTEGER;` lexes them to the identifier
kind and `parse_interface` returns no parameter, stopping at `INPUT`; with the Greek words
in their place the same interface gives `n` by value and `r` by reference. -/
theorem C20_english_input_output_are_identifiers :
    get_keyword_type (c_bytes "INPUT") = TOK_IDENTIFIER ∧
    get_keyword_type (c_bytes "OUTPUT") = TOK_IDENTIFIER ∧
    (tokenize english_interface).map (fun tokens => tokens.map (fun t => t.type)) =
      .ok [TOK_INTERFACE, TOK_IDENTIFIER, TOK_IDENTIFIER, TOK_COLON, TOK_INTEGER_TYPE,
        TOK_SEMICOLON, TOK_IDENTIFIER, TOK_IDENTIFIER, TOK_COLON, TOK_INTEGER_TYPE,
        TOK_SEMICOLON, TOK_EOF] ∧
    interface_of english_interface = some (.ok ([], 1)) ∧
    (tokenize greek_interface).map (fun tokens => tokens.map (fun t => t.type)) =
      .ok [TOK_INTERFACE, TOK_INPUT_PARAM, TOK_IDENTIFIER, TOK_COLON, TOK_INTEGER_TYPE,
        TOK_SEMICOLON, TOK_OUTPUT_PARAM, TOK_IDENTIFIER, TOK_COLON, TOK_INTEGER_TYPE,
        TOK_SEMICOLON, TOK_EOF] ∧
    interface_of greek_interface =
      some (.ok ([⟨"n", "INTEGER", false⟩, ⟨"r", "INTEGER", true⟩], 11)) := by
  decide

/-! ## Logical operators: both operands are evaluated -/

theorem binary_op_and (operator : String) (l r : RuntimeValue)
    (h : (str_equals_ignore_case operator "AND" || str_equals_ignore_case operator "ΚΑΙ") = true) :
    binary_op operator l r = .ok (VAL_BOOL (to_bool l && to_bool r)) := by
  have hne : ∀ s : String, (str_equals_ignore_case s "AND" || str_equals_ignore_case s "ΚΑΙ") = false →
      operator ≠ s := by
    intro s hs he
    rw [he, hs] at h
    cases h
  unfold binary_op
  rw [if_neg (hne "+" (by decide)), if_neg (hne "-" (by decide)), if_neg (hne "*" (by decide)),
    if_neg (hne "/" (by decide)), if_neg (hne "DIV" (by decide)), if_neg (hne "MOD" (by decide)),
    if_neg (hne "=" (by decide)), if_neg (hne "<>" (by decide)), if_neg (hne "<" (by decide)),
    if_neg (hne ">" (by decide)), if_neg (hne "<=" (by decide)), if_neg (hne ">=" (by decide)),
    if_pos h]
  rfl

theorem binary_op_or (operator : String) (l r : RuntimeValue)
    (h : (str_equals_ignore_case operator "OR" || str_equals_ignore_case operator "Ή") = true) :
    binary_op operator l r = .ok (VAL_BOOL (to_bool l || to_bool r)) := by
  have hne : ∀ s : String, (str_equals_ignore_case s "OR" || str_equals_ignore_case s "Ή") = false →
      operator ≠ s := by
    intro s hs he
    rw [he, hs] at h
    cases h
  have hand : ¬ (str_equals_ignore_case operator "AND" || str_equals_ignore_case operator "ΚΑΙ") = true := by
    intro ha
    simp only [str_equals_ignore_case, Bool.or_eq_true, beq_iff_eq] at h ha
    rcases h with h | h <;> rcases ha with ha | ha <;> rw [h] at ha <;> revert ha <;> decide
  unfold binary_op
  rw [if_neg (hne "+" (by decide)), if_neg (hne "-" (by decide)), if_neg (hne "*" (by decide)),
    if_neg (hne "/" (by decide)), if_neg (hne "DIV" (by decide)), if_neg (hne "MOD" (by decide)),
    if_neg (hne "=" (by decide)), if_neg (hne "<>" (by decide)), if_neg (hne "<" (by decide)),
    if_neg (hne ">" (by decide)), if_neg (hne "<=" (by decide)), if_neg (hne ">=" (by decide)),
    if_neg hand, if_pos h]
  rfl

theorem evaluate_binary_op_right_error (fuel : Nat) (op : String) (left right : ASTNode)
    (st st1 : State) (l : RuntimeValue) (f : Fault)
    (hl : evaluate fuel left st = .ok (l, st1)) (hr : evaluate fuel right st1 = .error f) :
    evaluate (fuel + 1) (AST_BINARY_OP op left right) st = .error f := by
  simp only [evaluate, hl, hr, bind, Except.bind]

/-- C27: `AND` and `OR` (in any spelling the lexer accepts) evaluate the left and then the
right operand in full before combining them.  When both operands have a value the result
is the boolean conjunction, respectively disjunction, of their truth values, where a
boolean counts as it is, an integer or real as non-zero, a string as non-empty; and a fatal
error of the right operand is the outcome of the whole expression whatever the value of the
left operand, as in `FALSE AND (1 DIV 0 = 0)`. -/
theorem C27_and_or_evaluate_both_operands (fuel : Nat) (operator : String) (left right : ASTNode)
    (st st1 : State) (l : RuntimeValue)
    (hleft : evaluate fuel left st = .ok (l, st1)) :
    ((str_equals_ignore_case operator "AND" || str_equals_ignore_case operator "ΚΑΙ") = true →
      ∀ (r : RuntimeValue) (st2 : State), evaluate fuel right st1 = .ok (r, st2) →
        evaluate (fuel + 1) (AST_BINARY_OP operator left right) st =
          .ok (VAL_BOOL (to_bool l && to_bool r), st2)) ∧
    ((str_equals_ignore_case operator "OR" || str_equals_ignore_case operator "Ή") = true →
      ∀ (r : RuntimeValue) (st2 : State), evaluate fuel right st1 = .ok (r, st2) →
        evaluate (fuel + 1) (AST_BINARY_OP operator left right) st =
          .ok (VAL_BOOL (to_bool l || to_bool r), st2)) ∧
    (∀ (f : Fault), evaluate fuel right st1 = .error f →
      evaluate (fuel + 1) (AST_BINARY_OP operator left right) st = .error f) ∧
    (∀ b : Bool, to_bool (VAL_BOOL b) = b) ∧
    (∀ n : Int, to_bool (VAL_INT n) = true ↔ n ≠ 0) ∧
    (∀ x : Double, to_bool (VAL_REAL x) = true ↔ x ≠ 0) ∧
    (∀ s : String, to_bool (VAL_STRING s) = true ↔ s ≠ "") := by
  refine ⟨fun h r st2 hr => ?_, fun h r st2 hr => ?_, fun f hr => ?_, fun b => rfl,
    fun n => ?_, fun x => ?_, fun s => ?_⟩
  · rw [evaluate_binary_op fuel operator left right st st1 st2 l r hleft hr, binary_op_and _ _ _ h]
    rfl
  · rw [evaluate_binary_op fuel operator left right st st1 st2 l r hleft hr, binary_op_or _ _ _ h]
    rfl
  · exact evaluate_binary_op_right_error fuel operator left right st st1 l f hleft hr
  · simp [to_bool]
  · simp [to_bool]
  · simp only [to_bool, decide_eq_true_eq]
    constructor
    · intro h he
      rw [he] at h
      exact absurd h (by decide)
    · intro h
      cases s with
      | mk data =>
        cases data with
        | nil => exact absurd rfl h
        | cons c cs => simp [String.length]

theorem C27_witness :
    evaluate 3 (AST_LITERAL (VAL_BOOL false)) scenario_a_state =
        .ok (VAL_BOOL false, scenario_a_state) ∧
      to_bool (VAL_BOOL false) = false ∧
      evaluate 4 false_and_division_by_zero scenario_a_state =
        .error (.runtime_error .division_by_zero) :=
  ⟨rfl, rfl,
    (C27_and_or_evaluate_both_operands 3 "AND" (AST_LITERAL (VAL_BOOL false))
      (AST_BINARY_OP "=" (AST_BINARY_OP "DIV" (int_literal 1) (int_literal 0)) (int_literal 0))
      scenario_a_state scenario_a_state (VAL_BOOL false) rfl).2.2.1 _ rfl⟩

/-! ## The value READ builds from a line -/

theorem fgets_loop_line (line tail : List Nat) (hnl : 10 ∉ line)
    (htail : tail = [] ∨ ∃ rest, tail = 10 :: rest) :
    ∀ n, line.length < n →
      fgets_loop n (line ++ tail) = (line ++ tail.take 1, tail.drop 1) := by
  induction line with
  | nil =>
    intro n hn
    obtain ⟨m, rfl⟩ : ∃ m, n = m + 1 := ⟨n - 1, by simp at hn; omega⟩
    rcases htail with rfl | ⟨rest, rfl⟩
    · rfl
    · simp [fgets_loop]
  | cons c cs ih =>
    intro n hn
    obtain ⟨m, rfl⟩ : ∃ m, n = m + 1 := ⟨n - 1, by simp at hn; omega⟩
    have hc : c ≠ 10 := fun h => hnl (by rw [h]; exact List.mem_cons_self _ _)
    have hcs : 10 ∉ cs := fun h => hnl (List.mem_cons_of_mem _ h)
    have hlen : cs.length < m := by simp at hn; omega
    rw [List.cons_append, fgets_loop, if_neg hc, ih hcs m hlen]
    rfl

/-- A line that fills the room is stored whole, and its newline stays in the stream. -/
theorem fgets_loop_full (line tail : List Nat) (hnl : 10 ∉ line) :
    fgets_loop line.length (line ++ tail) = (line, tail) := by
  induction line with
  | nil => simp [fgets_loop]
  | cons c cs ih =>
    have hc : c ≠ 10 := fun h => hnl (by rw [h]; exact List.mem_cons_self _ _)
    have hcs : 10 ∉ cs := fun h => hnl (List.mem_cons_of_mem _ h)
    rw [List.cons_append, List.length_cons, fgets_loop, if_neg hc, ih hcs]

theorem cut_at_newline_line (line tail : List Nat) (hnl : 10 ∉ line) (hnul : 0 ∉ line)
    (htail : tail = [] ∨ ∃ rest, tail = 10 :: rest) :
    cut_at_newline (line ++ tail.take 1) = line := by
  unfold cut_at_newline
  induction line with
  | nil =>
    rcases htail with rfl | ⟨rest, rfl⟩
    · rfl
    · simp [List.takeWhile]
  | cons c cs ih =>
    have hc : c ≠ 10 := fun h => hnl (by rw [h]; exact List.mem_cons_self _ _)
    have hc0 : c ≠ 0 := fun h => hnul (by rw [h]; exact List.mem_cons_self _ _)
    have hcs : 10 ∉ cs := fun h => hnl (List.mem_cons_of_mem _ h)
    have hcs0 : 0 ∉ cs := fun h => hnul (List.mem_cons_of_mem _ h)
    have hk : (c != 10 && c != 0) = true := by simp [hc, hc0]
    rw [List.cons_append, List.takeWhile_cons, hk, if_pos rfl, ih hcs hcs0]

theorem read_loop_line (ev : Eval) (x : String) (line tail : List Nat) (st : State)
    (hline : is_input_line line) (htail : ends_line line tail)
    (hin : st.stdin = line ++ tail) :
    read_loop ev [AST_IDENTIFIER x] st =
      .ok { st with stdin := input_left line tail,
                    env := env_assign st.env x (read_value line) } := by
  obtain ⟨hnl, hnul, hlen⟩ := hline
  have htail' : tail = [] ∨ ∃ rest, tail = 10 :: rest := by
    rcases htail with ⟨h, -⟩ | h
    · exact Or.inl h
    · exact Or.inr h
  have hne : (line ++ tail).isEmpty = false := by
    rcases htail with ⟨rfl, h⟩ | ⟨rest, rfl⟩
    · cases line with
      | nil => exact absurd rfl h
      | cons c cs => rfl
    · cases line <;> rfl
  have hf : ∃ stored, fgets 256 st.stdin = some (stored, input_left line tail) ∧
      cut_at_newline stored = line := by
    unfold fgets input_left
    rw [hin, hne]
    by_cases hlt : line.length < 255
    · refine ⟨line ++ tail.take 1, ?_, cut_at_newline_line line tail hnl hnul htail'⟩
      rw [fgets_loop_line line tail hnl htail' (256 - 1) (by omega), if_pos hlt]
      rfl
    · have h255 : 256 - 1 = line.length := by omega
      refine ⟨line, ?_, ?_⟩
      · rw [h255, fgets_loop_full line tail hnl, if_neg hlt]
        rfl
      · have := cut_at_newline_line line [] hnl hnul (Or.inl rfl)
        simpa using this
  obtain ⟨stored, hf1, hf2⟩ := hf
  rw [read_loop, hf1]
  simp only [hf2]
  rfl

theorem c_text_ascii (line : List Nat) (h : ∀ c, c ∈ line → c < 128) :
    (c_text line).data = line.map Char.ofNat := by
  unfold c_text
  induction line with
  | nil => rfl
  | cons c cs ih =>
    have hc : c < 128 := h c (List.mem_cons_self _ _)
    have ih' := ih (fun d hd => h d (List.mem_cons_of_mem _ hd))
    simp only at ih' ⊢
    rw [utf8_decode]
    simp only [lt_self_iff_false, false_and, if_false, List.nil_append, utf8_start, if_pos hc,
      Option.toList, List.map_cons, List.singleton_append]
    rw [ih']

/-- C24: READ of a variable takes one line from the input (the bytes up to its newline, or up
to the end of the input), and for a line of at most 255 bytes that holds no NUL it gives the
variable: integer -1 if the line is empty; otherwise a real if the line contains a decimal
point; otherwise an integer, the one `atoi` reads, if its first character is a digit or a
minus sign; otherwise a string equal to the line. -/
theorem C24_read_value_of_a_line (fuel : Nat) (x : String) (line tail : List Nat) (st : State)
    (hline : is_input_line line) (htail : ends_line line tail)
    (hin : st.stdin = line ++ tail) :
    ∃ v, execute_statement (fuel + 1) (AST_READ [AST_IDENTIFIER x]) st =
        .ok { st with stdin := input_left line tail, env := env_assign st.env x v } ∧
      (line = [] → v = VAL_INT (-1)) ∧
      (line ≠ [] → '.'.toNat ∈ line → ∃ d, v = VAL_REAL d) ∧
      (line ≠ [] → '.'.toNat ∉ line →
        (∃ c, line.head? = some c ∧ (('0'.toNat ≤ c ∧ c ≤ '9'.toNat) ∨ c = '-'.toNat)) →
        v = VAL_INT (atoi (byte_chars line))) ∧
      (line ≠ [] → '.'.toNat ∉ line →
        (¬ ∃ c, line.head? = some c ∧ (('0'.toNat ≤ c ∧ c ≤ '9'.toNat) ∨ c = '-'.toNat)) →
        v = VAL_STRING (c_text line) ∧
          ((∀ c, c ∈ line → c < 128) → (c_text line).data = line.map Char.ofNat)) := by
  refine ⟨read_value line, ?_, ?_, ?_, ?_, ?_⟩
  · rw [execute_statement]
    exact read_loop_line (evaluate fuel) x line tail st hline htail hin
  · rintro rfl
    rfl
  · intro hne hdot
    have h0 : ¬ line.length = 0 := by
      cases line with
      | nil => exact absurd rfl hne
      | cons c cs => simp
    have h1 : line.contains '.'.toNat = true := by simpa using hdot
    unfold read_value
    rw [if_neg h0, if_pos h1]
    exact ⟨_, rfl⟩
  · intro hne hdot ⟨c, hc, hd⟩
    have h0 : ¬ line.length = 0 := by
      cases line with
      | nil => exact absurd rfl hne
      | cons c cs => simp
    have h1 : ¬ line.contains '.'.toNat = true := by simpa using hdot
    unfold read_value
    rw [if_neg h0, if_neg h1]
    cases line with
    | nil => exact absurd rfl hne
    | cons c' cs =>
      simp only [List.head?_cons, Option.some.injEq] at hc
      subst hc
      have : (decide ('0'.toNat ≤ c' ∧ c' ≤ '9'.toNat) || decide (c' = '-'.toNat)) = true := by
        rcases hd with hd | hd
        · rw [decide_eq_true hd, Bool.true_or]
        · rw [decide_eq_true hd, Bool.or_true]
      simp only [this, if_true]
  · intro hne hdot hno
    have h0 : ¬ line.length = 0 := by
      cases line with
      | nil => exact absurd rfl hne
      | cons c cs => simp
    have h1 : ¬ line.contains '.'.toNat = true := by simpa using hdot
    refine ⟨?_, c_text_ascii line⟩
    unfold read_value
    rw [if_neg h0, if_neg h1]
    cases line with
    | nil => exact absurd rfl hne
    | cons c' cs =>
      have : ¬ (decide ('0'.toNat ≤ c' ∧ c' ≤ '9'.toNat) || decide (c' = '-'.toNat)) = true := by
        intro h
        apply hno
        refine ⟨c', rfl, ?_⟩
        simpa using h
      simp only [this, if_false]
      simp

theorem C24_witness :
    is_input_line (c_bytes "-12") ∧ ends_line (c_bytes "-12") (c_bytes "\nabc") ∧
      ∃ v, execute_statement 1 (AST_READ [AST_IDENTIFIER "x"])
          { scenario_a_state with stdin := c_bytes "-12\nabc" } =
          .ok { scenario_a_state with
            stdin := c_bytes "abc", env := env_assign scenario_a_state.env "x" v } ∧
        v = VAL_INT (-12) ∧
        value_read (c_bytes "99999999999999999999\n") = .ok (VAL_INT (-1), []) ∧
        value_read (c_bytes "2.5\nabc") = .ok (VAL_REAL (5 / 2), c_bytes "abc") ∧
        value_read (c_bytes "abc") = .ok (VAL_STRING "abc", []) ∧
        value_read [10, 49] = .ok (VAL_INT (-1), [49]) :=
  have hline : is_input_line (c_bytes "-12") := ⟨by decide, by decide, by decide⟩
  have htail : ends_line (c_bytes "-12") (c_bytes "\nabc") := Or.inr ⟨c_bytes "abc", by decide⟩
  ⟨hline, htail,
    (C24_read_value_of_a_line 0 "x" (c_bytes "-12") (c_bytes "\nabc")
      { scenario_a_state with stdin := c_bytes "-12\nabc" } hline htail (by decide)).imp
      (fun _ h => ⟨h.1, (h.2.2.2.1 (by decide) (by decide) ⟨45, by decide, Or.inr (by decide)⟩).trans
        (by decide), by decide!, by decide!, by decide!, by decide!⟩)⟩

/-- A line of 256 letters `a`: READ gives the variable the first 255 of them and leaves the
last one, with the newline, for the next READ.  And a line that holds a NUL, `a`, NUL, `b`:
READ gives the variable the string `a`. -/
theorem C24_counterexample :
    value_read (List.replicate 256 97 ++ [10]) =
        .ok (VAL_STRING ⟨List.replicate 255 'a'⟩, [97, 10]) ∧
      value_read [97, 0, 98, 10] = .ok (VAL_STRING "a", []) := by
  refine ⟨by decide!, by decide!⟩

/-! ## What PRINT writes -/

theorem print_value_eq (i : Nat) (v : RuntimeValue) (st : State) :
    print_value i v st = { st with stdout := st.stdout ++ print_piece i v } := by
  unfold print_value print_piece end_of_line_sentinel
  by_cases h : v = VAL_STRING "__EOLN__"
  · rw [if_pos h, if_pos h]
    rfl
  · rw [if_neg h, if_neg h]
    by_cases hi : i > 0
    · simp only [if_pos hi]
      cases v <;> simp [print_rendering, State.printf]
    · simp only [if_neg hi]
      cases v <;> simp [print_rendering, State.printf]

theorem print_loop_has_value (fuel : Nat) (st : State) (es : List ASTNode)
    (vs : List RuntimeValue) (h : List.Forall₂ (has_value fuel st) es vs) :
    ∀ (i : Nat) (out : List OutputItem),
      print_loop (evaluate fuel) i es { st with stdout := out } =
        .ok { st with stdout := out ++ print_output i vs } := by
  induction h with
  | nil =>
    intro i out
    simp [print_loop, print_output]
  | cons hv _ ih =>
    intro i out
    rw [print_loop, hv out]
    simp only [bind, Except.bind]
    rw [print_value_eq]
    simp only [print_output]
    rw [ih (i + 1) (out ++ print_piece i _), List.append_assoc]

theorem evaluate_indices_stdout (ev : Eval) (es : List ASTNode) (out : List OutputItem)
    (hpure : ∀ e, e ∈ es → ∀ st v st', ev e st = .ok (v, st') →
      st' = st ∧ ev e { st with stdout := out } = .ok (v, { st with stdout := out })) :
    ∀ (i : Nat) (st : State) (idx : List Int) (st' : State),
      evaluate_indices ev i es st = .ok (idx, st') →
        evaluate_indices ev i es { st with stdout := out } =
          .ok (idx, { st with stdout := out }) := by
  induction es with
  | nil =>
    intro i st idx st' h
    simp only [evaluate_indices, Except.ok.injEq, Prod.mk.injEq] at h
    simp [evaluate_indices, h.1]
  | cons e es ih =>
    intro i st idx st' h
    simp only [evaluate_indices, bind_eq_ok] at h
    obtain ⟨⟨v, st1⟩, he, h⟩ := h
    obtain ⟨h1, h1'⟩ := hpure e (List.mem_cons_self _ _) st v st1 he
    subst h1
    by_cases hi : i ≥ MAX_ARRAY_DIMS
    · simp [hi] at h
    · simp only [if_neg hi, bind_eq_ok, pure_eq_ok, Prod.mk.injEq] at h
      obtain ⟨⟨rest, st2⟩, hr, h2, -⟩ := h
      have h3 := ih (fun e' he' => hpure e' (List.mem_cons_of_mem _ he')) (i + 1) st1 rest st2 hr
      simp only [evaluate_indices, h1', bind_ok, if_neg hi, h3]
      rw [← h2]
      rfl

theorem has_value_of_call_free (fuel : Nat) :
    ∀ (e : ASTNode), CallFree e → ∀ (st : State) (v : RuntimeValue) (st' : State),
      evaluate fuel e st = .ok (v, st') → has_value fuel st e v := by
  induction fuel with
  | zero =>
    intro e _ st v st' h
    simp [evaluate] at h
  | succ fuel ih =>
    intro e he st v st' h out
    cases he with
    | literal value =>
      simp only [evaluate, Except.ok.injEq, Prod.mk.injEq] at h
      simp [evaluate, h.1]
    | identifier name =>
      simp only [evaluate, bind_eq_ok, pure_eq_ok, Prod.mk.injEq] at h
      obtain ⟨val, hval, hv, -⟩ := h
      simp only [evaluate, hval, bind_ok, hv]
      rfl
    | binary operator left right hl hr =>
      simp only [evaluate, bind_eq_ok, pure_eq_ok, Prod.mk.injEq] at h
      obtain ⟨⟨l, st1⟩, h1, ⟨r, st2⟩, h2, res, hres, hv, -⟩ := h
      have e1 := evaluate_call_free fuel left hl st l st1 h1
      subst e1
      have e2 := evaluate_call_free fuel right hr st1 r st2 h2
      subst e2
      simp only [evaluate, ih left hl _ l _ h1 out, ih right hr _ r _ h2 out, bind_ok, hres, hv]
      rfl
    | unary operator operand ho =>
      simp only [evaluate, bind_eq_ok, pure_eq_ok, Prod.mk.injEq] at h
      obtain ⟨⟨o, st1⟩, h1, res, hres, hv, -⟩ := h
      have e1 := evaluate_call_free fuel operand ho st o st1 h1
      subst e1
      simp only [evaluate, ih operand ho _ o _ h1 out, bind_ok, hres, hv]
      rfl
    | array_access name indices hidx =>
      simp only [evaluate, bind_eq_ok, pure_eq_ok, Prod.mk.injEq] at h
      obtain ⟨val, hval, ⟨idx, st1⟩, hi, val2, hval2, arr, harr, x, hx, hv, -⟩ := h
      have e1 := evaluate_indices_state (evaluate fuel) indices
        (fun e he' => evaluate_call_free fuel e (hidx e he')) 0 st idx st1 hi
      subst e1
      have hi' := evaluate_indices_stdout (evaluate fuel) indices out
        (fun e he' s w s' hs =>
          ⟨evaluate_call_free fuel e (hidx e he') s w s' hs, ih e (hidx e he') s w s' hs out⟩)
        0 st1 idx st1 hi
      have hsame : val2 = val := by
        have h2 : env_get st1.env name = .ok val2 := hval2
        rw [hval] at h2
        cases h2
        rfl
      subst hsame
      have harr' : heap_array { st1 with stdout := out } val2 = .ok arr := harr
      have hx' : array_get arr idx = .ok x := hx
      simp only [evaluate, hval, bind_ok, hi', harr', hx', hv]
      rfl

theorem sprintf_d_decimal (n : Int) :
    ∃ ds, (sprintf_d n).data = (if n < 0 then ['-'] else []) ++ ds ∧ ds ≠ [] ∧
      (∀ c, c ∈ ds → isdigit c = true) ∧ digits_value ds = n.natAbs := by
  refine ⟨decimal_digits (n.natAbs + 1) n.natAbs, ?_, decimal_digits_ne_nil _ _, ?_,
    digits_value_decimal_digits _ _ (by omega)⟩
  · unfold sprintf_d
    by_cases hn : n < 0
    · simp [if_pos hn]
    · simp [if_neg hn]
  · intro c hc
    have h := decimal_digits_are_digits _ _ c hc
    have h0 : '0'.toNat = 48 := rfl
    have h9 : '9'.toNat = 57 := rfl
    simp only [isdigit, decide_eq_true_eq]
    exact ⟨by show '0'.toNat ≤ c.toNat; omega, by show c.toNat ≤ '9'.toNat; omega⟩

/-- C25: PRINT writes, for its arguments in order, a newline for an argument whose value is
the end-of-line sentinel and otherwise a single space (except before the first argument)
followed by the rendering of the value: an integer in decimal, a boolean as `TRUE` or
`FALSE`.  The arguments are expressions whose evaluation has a value and no effect. -/
theorem C25_print_writes_arguments_in_order (fuel : Nat) (st : State) (es : List ASTNode)
    (vs : List RuntimeValue) (h : List.Forall₂ (has_value fuel st) es vs) :
    execute_statement (fuel + 1) (AST_PRINT es) st =
        .ok { st with stdout := st.stdout ++ print_output 0 vs } ∧
      (∀ (i : Nat) (v : RuntimeValue) (rest : List RuntimeValue),
        print_output i (v :: rest) =
          (if v = end_of_line_sentinel then [.text "\n"]
            else (if i = 0 then [] else [.text " "]) ++ print_rendering v) ++
          print_output (i + 1) rest) ∧
      (∀ n : Int, print_rendering (VAL_INT n) = [.text (sprintf_d n)] ∧
        ∃ ds, (sprintf_d n).data = (if n < 0 then ['-'] else []) ++ ds ∧ ds ≠ [] ∧
          (∀ c, c ∈ ds → isdigit c = true) ∧ digits_value ds = n.natAbs) ∧
      print_rendering (VAL_BOOL true) = [.text "TRUE"] ∧
      print_rendering (VAL_BOOL false) = [.text "FALSE"] := by
  refine ⟨?_, fun i v rest => ?_, fun n => ⟨rfl, sprintf_d_decimal n⟩, rfl, rfl⟩
  · rw [execute_statement]
    exact print_loop_has_value fuel st es vs h 0 st.stdout
  · simp only [print_output, print_piece]
    by_cases hi : i = 0
    · subst hi
      simp
    · have : i > 0 := by omega
      simp [hi, this]

theorem C25_witness :
    List.Forall₂ (has_value 2 scenario_c_state) scenario_c_arguments
        [VAL_INT 4, VAL_INT 9, VAL_INT 16] ∧
      execute_statement 3 (AST_PRINT scenario_c_arguments) scenario_c_state =
        .ok { scenario_c_state with
          stdout := [.text "4", .text " ", .text "9", .text " ", .text "16"] } :=
  have h : List.Forall₂ (has_value 2 scenario_c_state) scenario_c_arguments
      [VAL_INT 4, VAL_INT 9, VAL_INT 16] :=
    .cons (fun _ => rfl) (.cons (fun _ => rfl) (.cons (fun _ => rfl) .nil))
  ⟨h, (C25_print_writes_arguments_in_order 2 scenario_c_state scenario_c_arguments
    [VAL_INT 4, VAL_INT 9, VAL_INT 16] h).1⟩

/-! ## Evaluation without calls is pure -/

theorem evaluate_indices_fuel (ev : Eval) (es : List ASTNode)
    (h : ∀ e, e ∈ es → ∀ st, ev e st ≠ .error .out_of_fuel) :
    ∀ (i : Nat) (st : State), evaluate_indices ev i es st ≠ .error .out_of_fuel := by
  induction es with
  | nil =>
    intro i st hc
    simp [evaluate_indices] at hc
  | cons e es ih =>
    intro i st hc
    rw [evaluate_indices] at hc
    cases he : ev e st with
    | error f =>
      rw [he] at hc
      simp only [bind, Except.bind] at hc
      cases hc
      exact h e (List.mem_cons_self _ _) st he
    | ok r =>
      obtain ⟨v, st1⟩ := r
      rw [he] at hc
      simp only [bind, Except.bind] at hc
      by_cases hi : i ≥ MAX_ARRAY_DIMS
      · simp [hi] at hc
      · simp only [if_neg hi] at hc
        cases hr : evaluate_indices ev (i + 1) es st1 with
        | error f =>
          rw [hr] at hc
          simp only at hc
          cases hc
          exact ih (fun e' he' => h e' (List.mem_cons_of_mem _ he')) (i + 1) st1 hr
        | ok r2 =>
          rw [hr] at hc
          simp [pure, Except.pure] at hc

theorem bind_ne_out_of_fuel {α β : Type} (x : Except Fault α) (f : α → Except Fault β)
    (hx : x ≠ .error .out_of_fuel) (hf : ∀ a, x = .ok a → f a ≠ .error .out_of_fuel) :
    (x >>= f) ≠ .error .out_of_fuel := by
  cases x with
  | error e =>
    intro h
    simp only [bind, Except.bind] at h
    cases h
    exact hx rfl
  | ok a => exact hf a rfl

theorem ite_ne_out_of_fuel {α : Type} (c : Prop) [Decidable c] (a b : Except Fault α)
    (ha : a ≠ .error .out_of_fuel) (hb : b ≠ .error .out_of_fuel) :
    (if c then a else b) ≠ .error .out_of_fuel := by
  by_cases h : c
  · rw [if_pos h]; exact ha
  · rw [if_neg h]; exact hb

theorem env_get_fuel (env : Environment) (name : String) :
    env_get env name ≠ .error .out_of_fuel := by
  induction env with
  | root entries =>
    rw [env_get]
    split <;> simp
  | child entries parent ih =>
    rw [env_get]
    split
    · simp
    · exact ih

theorem heap_array_fuel (st : State) (v : RuntimeValue) :
    heap_array st v ≠ .error .out_of_fuel := by
  unfold heap_array
  split
  · split <;> simp
  · simp

theorem validate_array_indices_loop_fuel (indices : List Int) :
    ∀ (i : Nat) (bounds : List ArrayBound),
      validate_array_indices_loop i indices bounds ≠ .error .out_of_fuel := by
  induction indices with
  | nil =>
    intro i bounds
    simp [validate_array_indices_loop]
  | cons index indices ih =>
    intro i bounds
    cases bounds with
    | nil => simp [validate_array_indices_loop]
    | cons b bounds =>
      rw [validate_array_indices_loop]
      exact ite_ne_out_of_fuel _ _ _ (by simp) (ih _ _)

theorem array_get_fuel (arr : ArrayObject) (indices : List Int) :
    array_get arr indices ≠ .error .out_of_fuel := by
  unfold array_get
  refine bind_ne_out_of_fuel _ _ ?_ (fun _ _ => ?_)
  · unfold validate_array_indices
    exact ite_ne_out_of_fuel _ _ _ (by simp)
      (validate_array_indices_loop_fuel _ _ _)
  · split <;> simp [pure, Except.pure]

theorem real_or_int_val_fuel (v : RuntimeValue) : real_or_int_val v ≠ .error .out_of_fuel := by
  cases v <;> simp [real_or_int_val]

theorem int_val_fuel (v : RuntimeValue) : int_val v ≠ .error .out_of_fuel := by
  cases v <;> simp [int_val]

theorem arith_fuel (fr : Double → Double → Double) (fi : Int → Int → Int) (l r : RuntimeValue) :
    arith fr fi l r ≠ .error .out_of_fuel := by
  unfold arith
  refine ite_ne_out_of_fuel _ _ _ ?_ ?_
  · exact bind_ne_out_of_fuel _ _ (real_or_int_val_fuel _) (fun _ _ =>
      bind_ne_out_of_fuel _ _ (real_or_int_val_fuel _) (fun _ _ => by simp [pure, Except.pure]))
  · exact bind_ne_out_of_fuel _ _ (int_val_fuel _) (fun _ _ =>
      bind_ne_out_of_fuel _ _ (int_val_fuel _) (fun _ _ => by simp [pure, Except.pure]))

theorem compare_fuel (p : Double → Double → Bool) (l r : RuntimeValue) :
    compare p l r ≠ .error .out_of_fuel := by
  unfold compare
  exact bind_ne_out_of_fuel _ _ (real_or_int_val_fuel _) (fun _ _ =>
    bind_ne_out_of_fuel _ _ (real_or_int_val_fuel _) (fun _ _ => by simp [pure, Except.pure]))

theorem division_fuel (l r : RuntimeValue) :
    (do
      let l ← real_or_int_val l
      let r ← real_or_int_val r
      if r = 0 then .error (.runtime_error .division_by_zero)
      else pure (VAL_REAL (l / r)) : Except Fault RuntimeValue) ≠ .error .out_of_fuel :=
  bind_ne_out_of_fuel _ _ (real_or_int_val_fuel _) (fun _ _ =>
    bind_ne_out_of_fuel _ _ (real_or_int_val_fuel _) (fun _ _ =>
      ite_ne_out_of_fuel _ _ _ (by simp) (by simp [pure, Except.pure])))

theorem binary_op_fuel (operator : String) (l r : RuntimeValue) :
    binary_op operator l r ≠ .error .out_of_fuel := by
  unfold binary_op
  repeat' (first
    | exact arith_fuel _ _ _ _
    | exact compare_fuel _ _ _
    | exact division_fuel _ _
    | apply ite_ne_out_of_fuel
    | simp [pure, Except.pure])

theorem unary_op_fuel (operator : String) (v : RuntimeValue) :
    unary_op operator v ≠ .error .out_of_fuel := by
  unfold unary_op
  refine ite_ne_out_of_fuel _ _ _ ?_
    (ite_ne_out_of_fuel _ _ _ (by simp [pure, Except.pure])
      (by simp [pure, Except.pure]))
  cases v <;> simp [int_val, pure, Except.pure, bind, Except.bind]

theorem evaluate_call_free_fuel (e : ASTNode) (he : CallFree e) :
    ∃ fuel0, ∀ fuel, fuel0 ≤ fuel → ∀ st, evaluate fuel e st ≠ .error .out_of_fuel := by
  induction he with
  | literal value =>
    refine ⟨1, fun fuel hf st => ?_⟩
    obtain ⟨n, rfl⟩ : ∃ n, fuel = n + 1 := ⟨fuel - 1, by omega⟩
    simp [evaluate]
  | identifier name =>
    refine ⟨1, fun fuel hf st => ?_⟩
    obtain ⟨n, rfl⟩ : ∃ n, fuel = n + 1 := ⟨fuel - 1, by omega⟩
    rw [evaluate]
    exact bind_ne_out_of_fuel _ _ (env_get_fuel _ _) (fun _ _ => by simp [pure, Except.pure])
  | binary operator left right _ _ ihl ihr =>
    obtain ⟨fl, hl⟩ := ihl
    obtain ⟨fr, hr⟩ := ihr
    refine ⟨max fl fr + 1, fun fuel hf st => ?_⟩
    obtain ⟨n, rfl⟩ : ∃ n, fuel = n + 1 := ⟨fuel - 1, by omega⟩
    have h1 : fl ≤ n := by omega
    have h2 : fr ≤ n := by omega
    rw [evaluate]
    refine bind_ne_out_of_fuel _ _ (hl n h1 st) (fun a _ => ?_)
    refine bind_ne_out_of_fuel _ _ (hr n h2 _) (fun b _ => ?_)
    exact bind_ne_out_of_fuel _ _ (binary_op_fuel _ _ _) (fun _ _ => by simp [pure, Except.pure])
  | unary operator operand _ ih =>
    obtain ⟨fo, ho⟩ := ih
    refine ⟨fo + 1, fun fuel hf st => ?_⟩
    obtain ⟨n, rfl⟩ : ∃ n, fuel = n + 1 := ⟨fuel - 1, by omega⟩
    rw [evaluate]
    refine bind_ne_out_of_fuel _ _ (ho n (by omega) st) (fun a _ => ?_)
    exact bind_ne_out_of_fuel _ _ (unary_op_fuel _ _) (fun _ _ => by simp [pure, Except.pure])
  | array_access name indices hcf ih =>
    have hall : ∃ fuel0, ∀ e, e ∈ indices → ∀ fuel, fuel0 ≤ fuel → ∀ st,
        evaluate fuel e st ≠ .error .out_of_fuel := by
      clear name hcf
      induction indices with
      | nil => exact ⟨0, fun e he => absurd he (List.not_mem_nil e)⟩
      | cons x xs ihx =>
        obtain ⟨f1, h1⟩ := ih x (List.mem_cons_self _ _)
        obtain ⟨f2, h2⟩ := ihx (fun e he => ih e (List.mem_cons_of_mem _ he))
        refine ⟨max f1 f2, fun e he fuel hf st => ?_⟩
        rcases List.mem_cons.1 he with rfl | he'
        · exact h1 fuel (by omega) st
        · exact h2 e he' fuel (by omega) st
    obtain ⟨f0, h0⟩ := hall
    refine ⟨f0 + 1, fun fuel hf st => ?_⟩
    obtain ⟨n, rfl⟩ : ∃ n, fuel = n + 1 := ⟨fuel - 1, by omega⟩
    rw [evaluate]
    refine bind_ne_out_of_fuel _ _ (env_get_fuel _ _) (fun _ _ => ?_)
    refine bind_ne_out_of_fuel _ _
      (evaluate_indices_fuel _ _ (fun e he st' => h0 e he n (by omega) st') _ _) (fun _ _ => ?_)
    refine bind_ne_out_of_fuel _ _ (env_get_fuel _ _) (fun _ _ => ?_)
    refine bind_ne_out_of_fuel _ _ (heap_array_fuel _ _) (fun _ _ => ?_)
    exact bind_ne_out_of_fuel _ _ (array_get_fuel _ _) (fun _ _ => by simp [pure, Except.pure])

/-- C26: for an expression that calls no function, evaluation is pure: with enough fuel it
ends (in a value or in a fatal error of the program), and when it has a value it leaves the
state (every binding of every scope, every array cell, the streams) as it was, so that a
second evaluation gives the same value. -/
theorem C26_call_free_evaluation_is_pure (e : ASTNode) (he : CallFree e) :
    (∃ fuel0, ∀ fuel, fuel0 ≤ fuel → ∀ st, evaluate fuel e st ≠ .error .out_of_fuel) ∧
    ∀ (fuel : Nat) (st : State) (v : RuntimeValue) (st1 : State),
      evaluate fuel e st = .ok (v, st1) →
        st1 = st ∧ evaluate fuel e st1 = .ok (v, st1) := by
  refine ⟨evaluate_call_free_fuel e he, fun fuel st v st1 h => ?_⟩
  have h1 := evaluate_call_free fuel e he st v st1 h
  subst h1
  exact ⟨rfl, h⟩

theorem C26_witness :
    CallFree scenario_a_expression ∧
      evaluate 3 scenario_a_expression scenario_a_state = .ok (VAL_INT 10, scenario_a_state) ∧
      evaluate 3 scenario_a_expression scenario_a_state = .ok (VAL_INT 10, scenario_a_state) :=
  have he : CallFree scenario_a_expression :=
    .binary _ _ _ (.binary _ _ _ (.identifier _) (.identifier _)) (.literal _)
  have h : evaluate 3 scenario_a_expression scenario_a_state =
      .ok (VAL_INT 10, scenario_a_state) := rfl
  ⟨he, h, ((C26_call_free_evaluation_is_pure scenario_a_expression he).2 3 scenario_a_state
    (VAL_INT 10) scenario_a_state h).2⟩

/-- The integer expression `NEXT() + 1`, which involves neither a division nor a READ, has the
value 2 when `k` is 0 and leaves `k` at 1; its second evaluation has the value 3. -/
theorem C26_counterexample :
    env_get next_state.env "k" = .ok (VAL_INT 0) ∧
      evaluate_twice 5 next_expression "k" next_state =
        .ok (VAL_INT 2, VAL_INT 3, .ok (VAL_INT 1)) := by
  decide

/-! ## Sanitized identifiers -/

theorem sanitize_identifier_loop_length (name : List Nat) :
    ∀ room, (sanitize_identifier_loop room name).length = min name.length room := by
  induction name with
  | nil =>
    intro room
    cases room <;> simp [sanitize_identifier_loop]
  | cons c rest ih =>
    intro room
    cases room with
    | zero => simp [sanitize_identifier_loop]
    | succ room =>
      simp only [sanitize_identifier_loop, List.length_cons, ih room]
      omega

theorem sanitize_identifier_loop_get (name : List Nat) :
    ∀ (room i : Nat) (c : Nat), name[i]? = some c → i < room →
      (sanitize_identifier_loop room name)[i]? =
        some (if Bytes.isalnum c ∨ c = '_'.toNat then c else '_'.toNat) := by
  induction name with
  | nil =>
    intro room i c h
    simp at h
  | cons d rest ih =>
    intro room i c h hi
    obtain ⟨room, rfl⟩ : ∃ r, room = r + 1 := ⟨room - 1, by omega⟩
    cases i with
    | zero =>
      simp only [List.getElem?_cons_zero, Option.some.injEq] at h
      subst h
      simp [sanitize_identifier_loop]
    | succ i =>
      simp only [List.getElem?_cons_succ] at h
      simp only [sanitize_identifier_loop, List.getElem?_cons_succ]
      exact ih room i c h (by omega)

theorem sanitize_identifier_loop_bytes (name : List Nat) :
    ∀ room c, c ∈ sanitize_identifier_loop room name → is_identifier_byte c := by
  induction name with
  | nil =>
    intro room c h
    cases room <;> simp [sanitize_identifier_loop] at h
  | cons d rest ih =>
    intro room c h
    cases room with
    | zero => simp [sanitize_identifier_loop] at h
    | succ room =>
      simp only [sanitize_identifier_loop, List.mem_cons] at h
      rcases h with h | h
      · subst h
        by_cases hd : Bytes.isalnum d ∨ d = '_'.toNat
        · rw [if_pos hd]
          exact hd
        · rw [if_neg hd]
          exact Or.inr rfl
      · exact ih room c h

theorem sanitize_identifier_loop_fixed (name : List Nat)
    (h : ∀ c, c ∈ name → is_identifier_byte c) :
    ∀ room, name.length ≤ room → sanitize_identifier_loop room name = name := by
  induction name with
  | nil =>
    intro room _
    cases room <;> rfl
  | cons d rest ih =>
    intro room hr
    obtain ⟨room, rfl⟩ : ∃ r, room = r + 1 := ⟨room - 1, by simp at hr; omega⟩
    have hd : Bytes.isalnum d ∨ d = '_'.toNat := h d (List.mem_cons_self _ _)
    rw [sanitize_identifier_loop, if_pos hd,
      ih (fun c hc => h c (List.mem_cons_of_mem _ hc)) room (by simp at hr; omega)]

/-- C28: `sanitize_identifier` keeps every byte that is a letter, a digit or an underscore
and replaces every other byte by an underscore, up to the capacity of its buffer; so for a
name shorter than `MAX_TOKEN_LEN` the result has the length of the name, it consists of
letters, digits and underscores only, and sanitizing it again changes nothing. -/
theorem C28_sanitize_identifier (name : List Nat) :
    (∀ (i c : Nat), name[i]? = some c → i < MAX_TOKEN_LEN - 1 →
      (sanitize_identifier name)[i]? =
        some (if Bytes.isalnum c ∨ c = '_'.toNat then c else '_'.toNat)) ∧
    (sanitize_identifier name).length = min name.length (MAX_TOKEN_LEN - 1) ∧
    (name.length < MAX_TOKEN_LEN → (sanitize_identifier name).length = name.length) ∧
    (∀ c, c ∈ sanitize_identifier name → is_identifier_byte c) ∧
    sanitize_identifier (sanitize_identifier name) = sanitize_identifier name := by
  have hlen := sanitize_identifier_loop_length name (MAX_TOKEN_LEN - 1)
  refine ⟨fun i c h hi => sanitize_identifier_loop_get name _ i c h hi, hlen, fun h => ?_,
    sanitize_identifier_loop_bytes name _, ?_⟩
  · unfold sanitize_identifier
    rw [hlen]
    omega
  · exact sanitize_identifier_loop_fixed _ (sanitize_identifier_loop_bytes name _) _
      (by rw [hlen]; omega)

/-! ## The target type of a source type -/

theorem map_type_ne_pointer (eap_type : Option String) : map_type eap_type ≠ "char*" := by
  unfold map_type
  cases eap_type with
  | none => decide
  | some t =>
    simp only
    repeat' (first | exact (by decide) | apply ite_prop (fun s => s ≠ "char*"))

/-- C29: `map_type` has no case for the string type: `STRING` and `ΣΥΜΒΟΛΟΣΕΙΡΑ` map to
`int`, and no type name at all maps to `char*`, the type name for which
`codegen_infer_printf_format` chooses `%s`; with the type `map_type` gives, a string
variable is printed with `%d`.  A Greek type keyword is recognised in upper case only.  The
other type keywords map to `int`, `double`, `bool` and `char`, and a missing or unknown
type name maps to `int`. -/
theorem C29_map_type_has_no_string_case :
    map_type (some "STRING") = "int" ∧ map_type (some "ΣΥΜΒΟΛΟΣΕΙΡΑ") = "int" ∧
    (∀ eap_type, map_type eap_type ≠ "char*") ∧
    codegen_infer_printf_format (codegen_register_var_type codegen_init "s" "char*")
      (AST_IDENTIFIER "s") = "%s" ∧
    codegen_infer_printf_format
      (codegen_register_var_type codegen_init "s" (map_type (some "STRING")))
      (AST_IDENTIFIER "s") = "%d" ∧
    map_type (some "πραγματικος") = "int" ∧ map_type (some "ΠΡΑΓΜΑΤΙΚΟΣ") = "double" ∧
    map_type (some "Integer") = "int" ∧ map_type (some "ΑΚΕΡΑΙΟΣ") = "int" ∧
    map_type (some "real") = "double" ∧
    map_type (some "Boolean") = "bool" ∧ map_type (some "ΛΟΓΙΚΟΣ") = "bool" ∧
    map_type (some "CHAR") = "char" ∧ map_type (some "ΧΑΡΑΚΤΗΡΑΣ") = "char" ∧
    map_type (some "MATRIX") = "int" ∧ map_type none = "int" :=
  ⟨by decide, by decide, map_type_ne_pointer, by decide, by decide, by decide, by decide,
    by decide, by decide, by decide, by decide, by decide, by decide, by decide, by decide,
    by decide⟩

/-! ## Array elements in the emitted code -/

/-- C30: for an array declared `[2..4]` the transpiler emits the index minus 2 where the
element stands in an expression or is the target of an assignment, but the index minus 1
where it is the target of READ; for an array declared `[0..9]` it emits the index itself in
the first two places and the index minus 1 in READ. -/
theorem C30_read_of_array_element_subtracts_one :
    emitted (codegen_expression (array_generator "A" 2 4) (element_i "A")) =
      .ok (some "A[(i - 2)]") ∧
    emitted (codegen_statement (array_generator "A" 2 4)
      (AST_ASSIGN "A" [AST_IDENTIFIER "i"] (int_literal 0))) = .ok (some "A[(i - 2)] = 0;\n") ∧
    emitted (codegen_statement (array_generator "A" 2 4) (AST_READ [element_i "A"])) =
      .ok (some "scanf(\"%d\", &A[i - 1]);\n") ∧
    emitted (codegen_expression (array_generator "B" 0 9) (element_i "B")) =
      .ok (some "B[i]") ∧
    emitted (codegen_statement (array_generator "B" 0 9)
      (AST_ASSIGN "B" [AST_IDENTIFIER "i"] (int_literal 0))) = .ok (some "B[i] = 0;\n") ∧
    emitted (codegen_statement (array_generator "B" 0 9) (AST_READ [element_i "B"])) =
      .ok (some "scanf(\"%d\", &B[i - 1]);\n") := by
  decide

/-! ## More fuel parses the same -/

theorem parse_binary_loop_mono (types : List TokenType) (operand operand' : Parser ASTNode)
    (h : parser_le operand operand') :
    ∀ (n n' : Nat), n ≤ n' → ∀ left,
      parser_le (parse_binary_loop types operand n left)
        (parse_binary_loop types operand' n' left) := by
  intro n
  induction n with
  | zero =>
    intro n' _ left ps r hr
    simp [parse_binary_loop] at hr
  | succ n ih =>
    intro n' hn left ps r hr
    obtain ⟨m, rfl⟩ : ∃ m, n' = m + 1 := ⟨n' - 1, by omega⟩
    rw [parse_binary_loop] at hr ⊢
    by_cases hm : match_any types ps = true
    · rw [if_pos hm] at hr ⊢
      simp only [bind_eq_ok] at hr
      obtain ⟨⟨right, ps1⟩, h1, h2⟩ := hr
      rw [h _ _ h1]
      exact ih m (by omega) _ _ _ h2
    · rw [if_neg hm] at hr ⊢
      exact hr

theorem parse_list_mono (item item' : Parser ASTNode) (h : parser_le item item') :
    ∀ (n n' : Nat), n ≤ n' → parser_le (parse_list item n) (parse_list item' n') := by
  intro n
  induction n with
  | zero =>
    intro n' _ ps r hr
    simp [parse_list] at hr
  | succ n ih =>
    intro n' hn ps r hr
    obtain ⟨m, rfl⟩ : ∃ m, n' = m + 1 := ⟨n' - 1, by omega⟩
    rw [parse_list] at hr ⊢
    simp only [bind_eq_ok] at hr
    obtain ⟨⟨x, ps1⟩, h1, h2⟩ := hr
    rw [h _ _ h1]
    simp only [bind_ok]
    by_cases hc : match_token TOK_COMMA ps1 = true
    · rw [if_pos hc] at h2 ⊢
      simp only [bind_eq_ok] at h2
      obtain ⟨⟨xs, ps2⟩, h3, h4⟩ := h2
      rw [ih m (by omega) _ _ h3]
      exact h4
    · rw [if_neg hc] at h2 ⊢
      exact h2

theorem level_mono (types : List TokenType) (operand operand' : Parser ASTNode) (f : Nat)
    (h : parser_le operand operand') :
    parser_le
      (fun ps => operand ps >>= fun r => parse_binary_loop types operand f r.1 r.2)
      (fun ps => operand' ps >>= fun r => parse_binary_loop types operand' (f + 1) r.1 r.2) := by
  intro ps r hr
  simp only [bind_eq_ok] at hr ⊢
  obtain ⟨⟨left, ps1⟩, h1, h2⟩ := hr
  exact ⟨(left, ps1), h _ _ h1, parse_binary_loop_mono types operand operand' h f (f + 1)
    (by omega) left ps1 r h2⟩

theorem expression_le_succ (f : Nat) : expression_le f (f + 1) := by
  induction f with
  | zero =>
    refine ⟨?_, ?_, ?_, ?_, ?_, ?_, ?_⟩ <;> intro ps r hr
    · simp [parse_primary] at hr
    · simp [parse_unary] at hr
    · simp [parse_multiplicative] at hr
    · simp [parse_additive] at hr
    · simp [parse_comparison] at hr
    · simp [parse_and] at hr
    · simp [parse_expression] at hr
  | succ f ih =>
    obtain ⟨hp, hu, hm, ha, hc, hn, he⟩ := ih
    refine ⟨?_, ?_, ?_, ?_, ?_, ?_, ?_⟩
    · intro ps r hr
      rw [parse_primary] at hr ⊢
      by_cases h1 : match_token TOK_NUMBER ps = true
      · rw [if_pos h1] at hr ⊢
        exact hr
      rw [if_neg h1] at hr ⊢
      by_cases h2 : match_token TOK_BOOLEAN_LITERAL ps = true
      · rw [if_pos h2] at hr ⊢
        exact hr
      rw [if_neg h2] at hr ⊢
      by_cases h3 : match_token TOK_STRING ps = true
      · rw [if_pos h3] at hr ⊢
        exact hr
      rw [if_neg h3] at hr ⊢
      by_cases h4 : match_token TOK_IDENTIFIER ps = true
      · rw [if_pos h4] at hr ⊢
        simp only at hr ⊢
        by_cases h5 : match_token TOK_LEFT_PAREN (advance_token ps) = true
        · rw [if_pos h5] at hr ⊢
          by_cases h8 : match_token TOK_RIGHT_PAREN (advance_token (advance_token ps)) = false
          · rw [if_pos h8] at hr ⊢
            simp only [bind_eq_ok] at hr ⊢
            obtain ⟨⟨arguments, ps3⟩, h6, h7⟩ := hr
            exact ⟨(arguments, ps3), parse_list_mono _ _ he f (f + 1) (by omega) _ _ h6, h7⟩
          · rw [if_neg h8] at hr ⊢
            exact hr
        rw [if_neg h5] at hr ⊢
        by_cases h9 : match_token TOK_LEFT_BRACKET (advance_token ps) = true
        · rw [if_pos h9] at hr ⊢
          simp only [bind_eq_ok] at hr ⊢
          obtain ⟨⟨indices, ps3⟩, h6, h7⟩ := hr
          exact ⟨(indices, ps3), parse_list_mono _ _ he f (f + 1) (by omega) _ _ h6, h7⟩
        rw [if_neg h9] at hr ⊢
        exact hr
      rw [if_neg h4] at hr ⊢
      by_cases h10 : match_token TOK_LEFT_PAREN ps = true
      · rw [if_pos h10] at hr ⊢
        simp only [bind_eq_ok] at hr ⊢
        obtain ⟨⟨expr, ps2⟩, h6, h7⟩ := hr
        exact ⟨(expr, ps2), he _ _ h6, h7⟩
      rw [if_neg h10] at hr ⊢
      exact hr
    · intro ps r hr
      rw [parse_unary] at hr ⊢
      by_cases h1 : (match_token TOK_NOT ps || match_token TOK_MINUS ps) = true
      · rw [if_pos h1] at hr ⊢
        simp only [bind_eq_ok] at hr ⊢
        obtain ⟨⟨operand, ps1⟩, h6, h7⟩ := hr
        exact ⟨(operand, ps1), hu _ _ h6, h7⟩
      · rw [if_neg h1] at hr ⊢
        exact hp _ _ hr
    · intro ps r hr
      rw [parse_multiplicative] at hr ⊢
      exact level_mono multiplicative_types _ _ f hu ps r hr
    · intro ps r hr
      rw [parse_additive] at hr ⊢
      exact level_mono additive_types _ _ f hm ps r hr
    · intro ps r hr
      rw [parse_comparison] at hr ⊢
      exact level_mono comparison_types _ _ f ha ps r hr
    · intro ps r hr
      rw [parse_and] at hr ⊢
      exact level_mono [TOK_AND] _ _ f hc ps r hr
    · intro ps r hr
      rw [parse_expression] at hr ⊢
      exact level_mono [TOK_OR] _ _ f hn ps r hr

theorem expression_le_of_le (f f' : Nat) (h : f ≤ f') : expression_le f f' := by
  induction h with
  | refl => exact ⟨fun _ _ h => h, fun _ _ h => h, fun _ _ h => h, fun _ _ h => h,
      fun _ _ h => h, fun _ _ h => h, fun _ _ h => h⟩
  | step _ ih =>
    obtain ⟨a1, a2, a3, a4, a5, a6, a7⟩ := ih
    obtain ⟨b1, b2, b3, b4, b5, b6, b7⟩ := expression_le_succ _
    exact ⟨fun _ _ h => b1 _ _ (a1 _ _ h), fun _ _ h => b2 _ _ (a2 _ _ h),
      fun _ _ h => b3 _ _ (a3 _ _ h), fun _ _ h => b4 _ _ (a4 _ _ h),
      fun _ _ h => b5 _ _ (a5 _ _ h), fun _ _ h => b6 _ _ (a6 _ _ h),
      fun _ _ h => b7 _ _ (a7 _ _ h)⟩

/-! ## Precedence and associativity -/

theorem parse_level_one (fuel : Nat) : parse_level fuel 1 = parse_multiplicative (fuel + 2) := by
  funext ps
  rw [parse_multiplicative]
  rfl

theorem parse_level_two (fuel : Nat) : parse_level fuel 2 = parse_additive (fuel + 3) := by
  funext ps
  rw [parse_additive, ← parse_level_one]
  rfl

theorem parse_level_three (fuel : Nat) : parse_level fuel 3 = parse_comparison (fuel + 4) := by
  funext ps
  rw [parse_comparison, ← parse_level_two]
  rfl

theorem parse_level_four (fuel : Nat) : parse_level fuel 4 = parse_and (fuel + 5) := by
  funext ps
  rw [parse_and, ← parse_level_three]
  rfl

theorem parse_level_five (fuel : Nat) : parse_level fuel 5 = parse_expression (fuel + 6) := by
  funext ps
  rw [parse_expression, ← parse_level_four]
  rfl

theorem match_any_level (ps : ParserState) (k : Nat) (hk1 : 1 ≤ k) (hk5 : k ≤ 5) :
    match_any (level_types k) ps = decide (precedence (current_token ps).type = some (6 - k)) := by
  obtain rfl | rfl | rfl | rfl | rfl : k = 1 ∨ k = 2 ∨ k = 3 ∨ k = 4 ∨ k = 5 := by omega
  all_goals
    unfold match_any
    cases (current_token ps).type <;> rfl

theorem parse_binary_loop_stop (types : List TokenType) (operand : Parser ASTNode) (n : Nat)
    (left : ASTNode) (ps : ParserState) (h : match_any types ps = false) :
    parse_binary_loop types operand (n + 1) left ps = .ok (left, ps) := by
  rw [parse_binary_loop, h]
  rfl

theorem parse_binary_loop_step (types : List TokenType) (operand : Parser ASTNode) (n : Nat)
    (left right : ASTNode) (ps ps1 : ParserState) (h : match_any types ps = true)
    (hr : operand (advance_token ps) = .ok (right, ps1)) :
    parse_binary_loop types operand (n + 1) left ps =
      parse_binary_loop types operand n (AST_BINARY_OP (operator_text ps) left right) ps1 := by
  rw [parse_binary_loop, if_pos h, hr]
  rfl

theorem parse_level_succ (fuel k : Nat) (ps : ParserState) :
    parse_level fuel (k + 1) ps =
      (parse_level fuel k ps >>= fun r =>
        parse_binary_loop (level_types (k + 1)) (parse_level fuel k) (fuel + 1 + k) r.1 r.2) :=
  rfl

theorem parse_level_lift (fuel : Nat) (x : ASTNode) (ps ps' : ParserState) (j : Nat)
    (h : parse_level fuel j ps = .ok (x, ps')) :
    ∀ k, j ≤ k → (∀ i, j < i → i ≤ k → match_any (level_types i) ps' = false) →
      parse_level fuel k ps = .ok (x, ps') := by
  intro k hjk
  induction hjk with
  | refl => intro _; exact h
  | step hle ih =>
    rename_i m
    have hle' : j ≤ m := hle
    intro hno
    rw [parse_level_succ, ih (fun i h1 h2 => hno i h1 (by omega))]
    simp only [bind_ok]
    have hn : fuel + 1 + m = (fuel + m) + 1 := by omega
    rw [hn]
    exact parse_binary_loop_stop _ _ _ _ _ (hno (m + 1) (by omega) (by omega))

theorem parse_level_pair (fuel : Nat) (hf : 1 ≤ fuel) (m : Nat) (x y : ASTNode)
    (ps ps1 ps2 : ParserState)
    (hx : parse_level fuel m ps = .ok (x, ps1))
    (h1 : match_any (level_types (m + 1)) ps1 = true)
    (hy : parse_level fuel m (advance_token ps1) = .ok (y, ps2))
    (h2 : match_any (level_types (m + 1)) ps2 = false) :
    parse_level fuel (m + 1) ps = .ok (AST_BINARY_OP (operator_text ps1) x y, ps2) := by
  obtain ⟨n, hn⟩ : ∃ n, fuel + 1 + m = n + 2 := ⟨fuel + m - 1, by omega⟩
  rw [parse_level_succ, hx]
  simp only [bind_ok]
  rw [hn, parse_binary_loop_step _ _ _ _ _ _ _ h1 hy, parse_binary_loop_stop _ _ _ _ _ h2]

theorem parse_level_triple (fuel : Nat) (hf : 2 ≤ fuel) (m : Nat) (x y z : ASTNode)
    (ps ps1 ps2 ps3 : ParserState)
    (hx : parse_level fuel m ps = .ok (x, ps1))
    (h1 : match_any (level_types (m + 1)) ps1 = true)
    (hy : parse_level fuel m (advance_token ps1) = .ok (y, ps2))
    (h2 : match_any (level_types (m + 1)) ps2 = true)
    (hz : parse_level fuel m (advance_token ps2) = .ok (z, ps3))
    (h3 : match_any (level_types (m + 1)) ps3 = false) :
    parse_level fuel (m + 1) ps =
      .ok (AST_BINARY_OP (operator_text ps2) (AST_BINARY_OP (operator_text ps1) x y) z, ps3) := by
  obtain ⟨n, hn⟩ : ∃ n, fuel + 1 + m = n + 3 := ⟨fuel + m - 2, by omega⟩
  rw [parse_level_succ, hx]
  simp only [bind_ok]
  rw [hn, parse_binary_loop_step _ _ _ _ _ _ _ h1 hy, parse_binary_loop_step _ _ _ _ _ _ _ h2 hz,
    parse_binary_loop_stop _ _ _ _ _ h3]

/-- Two binary operators between three operands of the unary level group by precedence,
and to the left when the precedences are equal. -/
theorem parse_level_two_operators (fuel : Nat) (hf : 2 ≤ fuel) (a b c : ASTNode)
    (ps ps1 ps2 ps3 : ParserState) (p1 p2 : Nat)
    (ha : parse_level fuel 0 ps = .ok (a, ps1))
    (h1 : precedence (current_token ps1).type = some p1)
    (hb : parse_level fuel 0 (advance_token ps1) = .ok (b, ps2))
    (h2 : precedence (current_token ps2).type = some p2)
    (hc : parse_level fuel 0 (advance_token ps2) = .ok (c, ps3))
    (h3 : precedence (current_token ps3).type = none) :
    parse_level fuel 5 ps =
      .ok (if p1 < p2 then
          AST_BINARY_OP (operator_text ps1) a (AST_BINARY_OP (operator_text ps2) b c)
        else AST_BINARY_OP (operator_text ps2) (AST_BINARY_OP (operator_text ps1) a b) c,
        ps3) := by
  have hp1 : 1 ≤ p1 ∧ p1 ≤ 5 := by
    revert h1
    cases (current_token ps1).type <;> simp [precedence] <;> omega
  have hp2 : 1 ≤ p2 ∧ p2 ≤ 5 := by
    revert h2
    cases (current_token ps2).type <;> simp [precedence] <;> omega
  have m1 : ∀ k, 1 ≤ k → k ≤ 5 → match_any (level_types k) ps1 = decide (p1 = 6 - k) := by
    intro k hk1 hk5
    rw [match_any_level ps1 k hk1 hk5, h1]
    simp
  have m2 : ∀ k, 1 ≤ k → k ≤ 5 → match_any (level_types k) ps2 = decide (p2 = 6 - k) := by
    intro k hk1 hk5
    rw [match_any_level ps2 k hk1 hk5, h2]
    simp
  have m3 : ∀ k, 1 ≤ k → k ≤ 5 → match_any (level_types k) ps3 = false := by
    intro k hk1 hk5
    rw [match_any_level ps3 k hk1 hk5, h3]
    simp
  obtain ⟨k1, hk1⟩ : ∃ k1, 6 - p1 = k1 + 1 := ⟨5 - p1, by omega⟩
  obtain ⟨k2, hk2⟩ : ∃ k2, 6 - p2 = k2 + 1 := ⟨5 - p2, by omega⟩
  have hf1 : 1 ≤ fuel := by omega
  have lift_a := parse_level_lift fuel a ps ps1 0 ha k1 (by omega)
    (fun i hi1 hi2 => by rw [m1 i (by omega) (by omega)]; simp; omega)
  have lift_c2 := parse_level_lift fuel c (advance_token ps2) ps3 0 hc k2 (by omega)
    (fun i hi1 hi2 => m3 i (by omega) (by omega))
  have on1 : match_any (level_types (k1 + 1)) ps1 = true := by
    rw [m1 _ (by omega) (by omega)]; simp; omega
  have on2 : match_any (level_types (k2 + 1)) ps2 = true := by
    rw [m2 _ (by omega) (by omega)]; simp; omega
  rcases Nat.lt_trichotomy p1 p2 with hlt | heq | hgt
  · rw [if_pos hlt]
    have lift_b := parse_level_lift fuel b (advance_token ps1) ps2 0 hb k2 (by omega)
      (fun i hi1 hi2 => by rw [m2 i (by omega) (by omega)]; simp; omega)
    have hbc := parse_level_pair fuel hf1 k2 b c _ ps2 ps3 lift_b on2 lift_c2
      (m3 _ (by omega) (by omega))
    have hbc' := parse_level_lift fuel _ _ ps3 (k2 + 1) hbc k1 (by omega)
      (fun i hi1 hi2 => m3 i (by omega) (by omega))
    have habc := parse_level_pair fuel hf1 k1 a _ ps ps1 ps3 lift_a on1 hbc'
      (m3 _ (by omega) (by omega))
    exact parse_level_lift fuel _ ps ps3 (k1 + 1) habc 5 (by omega)
      (fun i hi1 hi2 => m3 i (by omega) (by omega))
  · rw [if_neg (by omega)]
    have hk : k2 = k1 := by omega
    subst hk
    have lift_b := parse_level_lift fuel b (advance_token ps1) ps2 0 hb k2 (by omega)
      (fun i hi1 hi2 => by rw [m2 i (by omega) (by omega)]; simp; omega)
    have habc := parse_level_triple fuel hf k2 a b c ps ps1 ps2 ps3 lift_a on1 lift_b on2 lift_c2
      (m3 _ (by omega) (by omega))
    exact parse_level_lift fuel _ ps ps3 (k2 + 1) habc 5 (by omega)
      (fun i hi1 hi2 => m3 i (by omega) (by omega))
  · rw [if_neg (by omega)]
    have lift_b := parse_level_lift fuel b (advance_token ps1) ps2 0 hb k1 (by omega)
      (fun i hi1 hi2 => by rw [m2 i (by omega) (by omega)]; simp; omega)
    have hab := parse_level_pair fuel hf1 k1 a b ps ps1 ps2 lift_a on1 lift_b
      (by rw [m2 _ (by omega) (by omega)]; simp; omega)
    have hab' := parse_level_lift fuel _ ps ps2 (k1 + 1) hab k2 (by omega)
      (fun i hi1 hi2 => by rw [m2 i (by omega) (by omega)]; simp; omega)
    have habc := parse_level_pair fuel hf1 k2 _ c ps ps2 ps3 hab' on2 lift_c2
      (m3 _ (by omega) (by omega))
    exact parse_level_lift fuel _ ps ps3 (k2 + 1) habc 5 (by omega)
      (fun i hi1 hi2 => m3 i (by omega) (by omega))

theorem parse_unary_of_primary (fuel : Nat) (ps ps1 : ParserState) (a : ASTNode)
    (h : parse_primary fuel ps = .ok (a, ps1)) : parse_unary (fuel + 1) ps = .ok (a, ps1) := by
  rw [parse_unary]
  by_cases hu : (match_token TOK_NOT ps || match_token TOK_MINUS ps) = true
  · exfalso
    cases fuel with
    | zero => simp [parse_primary] at h
    | succ g =>
      rw [parse_primary] at h
      simp only [match_token, Bool.or_eq_true, decide_eq_true_eq] at hu h
      rcases hu with hu | hu <;> simp [hu] at h
  · rw [if_neg hu]
    exact h

theorem parse_unary_of_operator (fuel : Nat) (ps ps1 : ParserState) (a : ASTNode)
    (hu : (match_token TOK_NOT ps || match_token TOK_MINUS ps) = true)
    (h : parse_unary fuel (advance_token ps) = .ok (a, ps1)) :
    parse_unary (fuel + 1) ps = .ok (AST_UNARY_OP (operator_text ps) a, ps1) := by
  rw [parse_unary, if_pos hu, h]
  rfl

/-- One binary operator between two operands of the unary level. -/
theorem parse_level_one_operator (fuel : Nat) (hf : 1 ≤ fuel) (a b : ASTNode)
    (ps ps1 ps2 : ParserState) (p1 : Nat)
    (ha : parse_level fuel 0 ps = .ok (a, ps1))
    (h1 : precedence (current_token ps1).type = some p1)
    (hb : parse_level fuel 0 (advance_token ps1) = .ok (b, ps2))
    (h2 : precedence (current_token ps2).type = none) :
    parse_level fuel 5 ps = .ok (AST_BINARY_OP (operator_text ps1) a b, ps2) := by
  have hp1 : 1 ≤ p1 ∧ p1 ≤ 5 := by
    revert h1
    cases (current_token ps1).type <;> simp [precedence] <;> omega
  have m1 : ∀ k, 1 ≤ k → k ≤ 5 → match_any (level_types k) ps1 = decide (p1 = 6 - k) := by
    intro k hk1 hk5
    rw [match_any_level ps1 k hk1 hk5, h1]
    simp
  have m2 : ∀ k, 1 ≤ k → k ≤ 5 → match_any (level_types k) ps2 = false := by
    intro k hk1 hk5
    rw [match_any_level ps2 k hk1 hk5, h2]
    simp
  obtain ⟨k1, hk1⟩ : ∃ k1, 6 - p1 = k1 + 1 := ⟨5 - p1, by omega⟩
  have lift_a := parse_level_lift fuel a ps ps1 0 ha k1 (by omega)
    (fun i hi1 hi2 => by rw [m1 i (by omega) (by omega)]; simp; omega)
  have lift_b := parse_level_lift fuel b (advance_token ps1) ps2 0 hb k1 (by omega)
    (fun i hi1 hi2 => m2 i (by omega) (by omega))
  have on1 : match_any (level_types (k1 + 1)) ps1 = true := by
    rw [m1 _ (by omega) (by omega)]; simp; omega
  have hab := parse_level_pair fuel hf k1 a b ps ps1 ps2 lift_a on1 lift_b
    (m2 _ (by omega) (by omega))
  exact parse_level_lift fuel _ ps ps2 (k1 + 1) hab 5 (by omega)
    (fun i hi1 hi2 => m2 i (by omega) (by omega))

theorem expression_at_of_level (fuel : Nat) (ps ps' : ParserState) (e : ASTNode)
    (h : parse_level fuel 5 ps = .ok (e, ps')) : expression_at ps e ps' := by
  rw [parse_level_five] at h
  exact ⟨fuel + 6, fun f hf => (expression_le_of_le _ f hf).2.2.2.2.2.2 _ _ h⟩

theorem primary_fuel_pos (fuel : Nat) (ps : ParserState) (r : ASTNode × ParserState)
    (h : parse_primary fuel ps = .ok r) : 1 ≤ fuel := by
  cases fuel with
  | zero => simp [parse_primary] at h
  | succ g => omega

/-- C21: `parse_expression` groups by the precedence levels logical-or, logical-and,
comparison, additive, multiplicative, from the loosest to the tightest, and to the left
within a level: for all primaries `a`, `b`, `c` and binary operators with the precedences
`p1` and `p2`, the text `a op1 b op2 c`, followed by a token that is no binary operator,
parses to `a op1 (b op2 c)` when `p1 < p2` and to `(a op1 b) op2 c` otherwise.  So
`a - b - c` is `(a - b) - c`, `a + b * c` is `a + (b * c)`, `a OR b AND c` is
`a OR (b AND c)`, `a + b < c` is `(a + b) < c`.  A unary operator binds tighter than every
binary one: `NOT a op b` and `- a op b` parse to `(NOT a) op b` and `(- a) op b`. -/
theorem C21_precedence_and_left_associativity (a b c : ASTNode) (ps ps1 ps2 ps3 : ParserState)
    (p1 p2 : Nat)
    (ha : primary_at ps a ps1)
    (h1 : precedence (current_token ps1).type = some p1)
    (hb : primary_at (advance_token ps1) b ps2)
    (h2 : precedence (current_token ps2).type = some p2)
    (hc : primary_at (advance_token ps2) c ps3)
    (h3 : precedence (current_token ps3).type = none) :
    expression_at ps
      (if p1 < p2 then
        AST_BINARY_OP (operator_text ps1) a (AST_BINARY_OP (operator_text ps2) b c)
      else AST_BINARY_OP (operator_text ps2) (AST_BINARY_OP (operator_text ps1) a b) c) ps3 ∧
    (precedence TOK_OR = some 1 ∧ precedence TOK_AND = some 2 ∧
      (∀ t, t ∈ comparison_types → precedence t = some 3) ∧
      (∀ t, t ∈ additive_types → precedence t = some 4) ∧
      (∀ t, t ∈ multiplicative_types → precedence t = some 5)) ∧
    ∀ (q q1 q2 : ParserState) (x y : ASTNode) (p : Nat),
      (match_token TOK_NOT q || match_token TOK_MINUS q) = true →
      primary_at (advance_token q) x q1 → precedence (current_token q1).type = some p →
      primary_at (advance_token q1) y q2 → precedence (current_token q2).type = none →
      expression_at q
        (AST_BINARY_OP (operator_text q1) (AST_UNARY_OP (operator_text q) x) y) q2 := by
  refine ⟨?_, ⟨rfl, rfl, by decide, by decide, by decide⟩, ?_⟩
  · obtain ⟨fa, ha⟩ := ha
    obtain ⟨fb, hb⟩ := hb
    obtain ⟨fc, hc⟩ := hc
    have hpos := primary_fuel_pos _ _ _ ha
    have ha' := (expression_le_of_le fa (fa + fb + fc) (by omega)).1 _ _ ha
    have hb' := (expression_le_of_le fb (fa + fb + fc) (by omega)).1 _ _ hb
    have hc' := (expression_le_of_le fc (fa + fb + fc) (by omega)).1 _ _ hc
    have hb1 := primary_fuel_pos _ _ _ hb
    exact expression_at_of_level (fa + fb + fc) _ _ _
      (parse_level_two_operators (fa + fb + fc) (by omega) a b c ps ps1 ps2 ps3 p1 p2
        (parse_unary_of_primary _ _ _ _ ha') h1 (parse_unary_of_primary _ _ _ _ hb') h2
        (parse_unary_of_primary _ _ _ _ hc') h3)
  · intro q q1 q2 x y p hu hx hp hy hq2
    obtain ⟨fx, hx⟩ := hx
    obtain ⟨fy, hy⟩ := hy
    have hpos := primary_fuel_pos _ _ _ hx
    have hx' := (expression_le_of_le fx (fx + fy) (by omega)).1 _ _ hx
    have hy' := (expression_le_of_le fy (fx + fy + 1) (by omega)).1 _ _ hy
    have hux : parse_level (fx + fy + 1) 0 q =
        .ok (AST_UNARY_OP (operator_text q) x, q1) :=
      parse_unary_of_operator _ _ _ _ hu (parse_unary_of_primary _ _ _ _ hx')
    exact expression_at_of_level (fx + fy + 1) _ _ _
      (parse_level_one_operator (fx + fy + 1) (by omega) _ y q q1 q2 p hux hp
        (parse_unary_of_primary _ _ _ _ hy') hq2)

theorem C21_witness :
    primary_at (cursor "a - b - c" 0) (AST_IDENTIFIER "a") (cursor "a - b - c" 1) ∧
    primary_at (cursor "a - b - c" 2) (AST_IDENTIFIER "b") (cursor "a - b - c" 3) ∧
    primary_at (cursor "a - b - c" 4) (AST_IDENTIFIER "c") (cursor "a - b - c" 5) ∧
    expression_at (cursor "a - b - c" 0)
      (AST_BINARY_OP "-" (AST_BINARY_OP "-" (AST_IDENTIFIER "a") (AST_IDENTIFIER "b"))
        (AST_IDENTIFIER "c")) (cursor "a - b - c" 5) ∧
    expression_at (cursor "a + b * c" 0)
      (AST_BINARY_OP "+" (AST_IDENTIFIER "a")
        (AST_BINARY_OP "*" (AST_IDENTIFIER "b") (AST_IDENTIFIER "c"))) (cursor "a + b * c" 5) ∧
    expression_at (cursor "a OR b AND c" 0)
      (AST_BINARY_OP "OR" (AST_IDENTIFIER "a")
        (AST_BINARY_OP "AND" (AST_IDENTIFIER "b") (AST_IDENTIFIER "c")))
      (cursor "a OR b AND c" 5) ∧
    expression_at (cursor "a + b < c" 0)
      (AST_BINARY_OP "<" (AST_BINARY_OP "+" (AST_IDENTIFIER "a") (AST_IDENTIFIER "b"))
        (AST_IDENTIFIER "c")) (cursor "a + b < c" 5) :=
  ⟨⟨1, rfl⟩, ⟨1, rfl⟩, ⟨1, rfl⟩,
    (C21_precedence_and_left_associativity _ _ _ (cursor "a - b - c" 0) (cursor "a - b - c" 1)
      (cursor "a - b - c" 3) (cursor "a - b - c" 5) 4 4 ⟨1, rfl⟩ rfl ⟨1, rfl⟩ rfl ⟨1, rfl⟩ rfl).1,
    (C21_precedence_and_left_associativity _ _ _ (cursor "a + b * c" 0) (cursor "a + b * c" 1)
      (cursor "a + b * c" 3) (cursor "a + b * c" 5) 4 5 ⟨1, rfl⟩ rfl ⟨1, rfl⟩ rfl ⟨1, rfl⟩ rfl).1,
    (C21_precedence_and_left_associativity _ _ _ (cursor "a OR b AND c" 0)
      (cursor "a OR b AND c" 1) (cursor "a OR b AND c" 3) (cursor "a OR b AND c" 5) 1 2
      ⟨1, rfl⟩ rfl ⟨1, rfl⟩ rfl ⟨1, rfl⟩ rfl).1,
    (C21_precedence_and_left_associativity _ _ _ (cursor "a + b < c" 0) (cursor "a + b < c" 1)
      (cursor "a + b < c" 3) (cursor "a + b < c" 5) 4 3 ⟨1, rfl⟩ rfl ⟨1, rfl⟩ rfl ⟨1, rfl⟩ rfl).1⟩

/-! ## The parameters of an interface -/

theorem parse_input_params_groups :
    ∀ (fuel : Nat) (params : List Parameter) (ps : ParserState),
      parse_input_params fuel params ps =
        (parse_groups fuel ps).map (fun r =>
          (params ++ r.1.flatMap (fun g => make_parameters g.1 g.2 false), r.2)) := by
  intro fuel
  induction fuel with
  | zero => intro params ps; rfl
  | succ fuel ih =>
    intro params ps
    rw [parse_input_params, parse_groups]
    by_cases h : match_token TOK_IDENTIFIER ps = true
    · rw [if_pos h, if_pos h]
      cases h1 : parse_names (fuel + 1) ps with
      | error e => rfl
      | ok r1 =>
        obtain ⟨names, ps1⟩ := r1
        simp only [bind_ok]
        cases h2 : expect_token TOK_COLON ps1 with
        | error e => rfl
        | ok ps2 =>
          simp only [bind_ok]
          cases h3 : parse_interface_type (fuel + 1) ps2 with
          | error e => rfl
          | ok r3 =>
            obtain ⟨type_str, ps3⟩ := r3
            simp only [bind_ok]
            cases h4 : expect_token TOK_SEMICOLON ps3 with
            | error e => rfl
            | ok ps4 =>
              simp only [bind_ok]
              rw [ih]
              cases h5 : parse_groups fuel ps4 with
              | error e => rfl
              | ok r5 =>
                simp [Except.map, bind, Except.bind, pure, Except.pure, List.append_assoc]
    · rw [if_neg h, if_neg h]
      simp [Except.map]

theorem add_output_names_foldl (func_name : Option String) (type_str : Option String) :
    ∀ (names : List String) (params : List Parameter),
      add_output_names func_name type_str names params =
        (names.map (fun name => (name, type_str))).foldl (add_output_name func_name) params := by
  intro names
  induction names with
  | nil => intro params; rfl
  | cons name names ih =>
    intro params
    rw [List.map_cons, List.foldl_cons, ← ih]
    unfold add_output_name is_return_slot
    conv => lhs; unfold add_output_names
    cases func_name with
    | none =>
      simp only [Bool.false_eq_true, if_false]
      cases mark_reference name params <;> rfl
    | some f =>
      simp only
      by_cases hf : str_equals_ignore_case name f = true
      · rw [if_pos hf, if_pos hf]
      · rw [if_neg hf, if_neg hf]
        cases mark_reference name params <;> rfl

theorem parse_output_params_groups (func_name : Option String) :
    ∀ (fuel : Nat) (params : List Parameter) (ps : ParserState),
      parse_output_params func_name fuel params ps =
        (parse_groups fuel ps).map (fun r =>
          ((typed_names r.1).foldl (add_output_name func_name) params, r.2)) := by
  intro fuel
  induction fuel with
  | zero => intro params ps; rfl
  | succ fuel ih =>
    intro params ps
    rw [parse_output_params, parse_groups]
    by_cases h : match_token TOK_IDENTIFIER ps = true
    · rw [if_pos h, if_pos h]
      cases h1 : parse_names (fuel + 1) ps with
      | error e => rfl
      | ok r1 =>
        obtain ⟨names, ps1⟩ := r1
        simp only [bind_ok]
        cases h2 : expect_token TOK_COLON ps1 with
        | error e => rfl
        | ok ps2 =>
          simp only [bind_ok]
          cases h3 : parse_interface_type (fuel + 1) ps2 with
          | error e => rfl
          | ok r3 =>
            obtain ⟨type_str, ps3⟩ := r3
            simp only [bind_ok]
            cases h4 : expect_token TOK_SEMICOLON ps3 with
            | error e => rfl
            | ok ps4 =>
              simp only [bind_ok]
              rw [ih, add_output_names_foldl]
              cases h5 : parse_groups fuel ps4 with
              | error e => rfl
              | ok r5 =>
                simp [Except.map, bind, Except.bind, pure, Except.pure, typed_names,
                  List.foldl_append]
    · rw [if_neg h, if_neg h]
      simp [Except.map, typed_names]

/-- The parameters `parse_interface` builds from what the interface lists. -/
theorem parse_interface_listing (fuel : Nat) (func_name : Option String) (ps : ParserState) :
    parse_interface fuel func_name ps =
      (interface_listing fuel ps).map (fun r =>
        ((typed_names r.2.1).foldl (add_output_name func_name)
          (r.1.flatMap (fun g => make_parameters g.1 g.2 false)), r.2.2)) := by
  unfold parse_interface interface_listing
  cases h1 : expect_token TOK_INTERFACE ps with
  | error e => rfl
  | ok ps1 =>
    simp only [bind_ok]
    by_cases hin : match_token TOK_INPUT_PARAM ps1 = true
    · simp only [if_pos hin]
      rw [parse_input_params_groups]
      cases h2 : parse_groups fuel (advance_token ps1) with
      | error e => rfl
      | ok r2 =>
        obtain ⟨inputs, ps2⟩ := r2
        simp only [Except.map, bind_ok, List.nil_append]
        by_cases hout : match_token TOK_OUTPUT_PARAM ps2 = true
        · simp only [if_pos hout]
          rw [parse_output_params_groups]
          cases h3 : parse_groups fuel (advance_token ps2) with
          | error e => rfl
          | ok r3 => rfl
        · simp only [if_neg hout]
          rfl
    · simp only [if_neg hin]
      simp only [pure, Except.pure, bind_ok]
      by_cases hout : match_token TOK_OUTPUT_PARAM ps1 = true
      · simp only [if_pos hout]
        rw [parse_output_params_groups]
        cases h3 : parse_groups fuel (advance_token ps1) with
        | error e => rfl
        | ok r3 => rfl
      · simp only [if_neg hout]
        rfl
theorem str_equals_ignore_case_iff (a b : String) :
    str_equals_ignore_case a b = true ↔ a.data.map toupper = b.data.map toupper := by
  simp [str_equals_ignore_case]

theorem str_equals_ignore_case_symm (a b : String) :
    str_equals_ignore_case a b = str_equals_ignore_case b a := by
  rw [Bool.eq_iff_iff, str_equals_ignore_case_iff, str_equals_ignore_case_iff]
  exact eq_comm

theorem str_equals_ignore_case_trans (a b c : String)
    (h1 : str_equals_ignore_case a b = true) (h2 : str_equals_ignore_case b c = true) :
    str_equals_ignore_case a c = true := by
  rw [str_equals_ignore_case_iff] at *
  exact h1.trans h2

theorem mark_reference_append (name : String) (xs ys : List Parameter) :
    mark_reference name (xs ++ ys) =
      match mark_reference name xs with
      | some xs' => some (xs' ++ ys)
      | none => (mark_reference name ys).map (fun r => xs ++ r) := by
  induction xs with
  | nil =>
    simp only [List.nil_append, mark_reference]
    cases mark_reference name ys <;> rfl
  | cons x xs ih =>
    rw [List.cons_append, mark_reference, mark_reference]
    by_cases h : str_equals_ignore_case x.name name = true
    · rw [if_pos h, if_pos h]
      rfl
    · rw [if_neg h, if_neg h, ih]
      cases mark_reference name xs with
      | some xs' => rfl
      | none =>
        cases mark_reference name ys <;> rfl

theorem mark_reference_none (name : String) (xs : List Parameter) :
    mark_reference name xs = none ↔ ∀ r, r ∈ xs → str_equals_ignore_case r.name name = false := by
  induction xs with
  | nil => simp [mark_reference]
  | cons x xs ih =>
    rw [mark_reference]
    by_cases h : str_equals_ignore_case x.name name = true
    · rw [if_pos h]
      simp only [List.mem_cons, false_iff, reduceCtorEq]
      intro hall
      rw [hall x (Or.inl rfl)] at h
      cases h
    · rw [if_neg h]
      simp only [Option.map_eq_none', ih, List.mem_cons, forall_eq_or_imp]
      constructor
      · intro hall
        exact ⟨by simpa using h, hall⟩
      · intro hall
        exact hall.2

theorem mark_reference_by_reference (name : String) (xs xs' : List Parameter)
    (hall : ∀ r, r ∈ xs → r.is_reference = true) (h : mark_reference name xs = some xs') :
    xs' = xs := by
  induction xs generalizing xs' with
  | nil => simp [mark_reference] at h
  | cons x xs ih =>
    rw [mark_reference] at h
    by_cases hx : str_equals_ignore_case x.name name = true
    · rw [if_pos hx] at h
      cases h
      have := hall x (List.mem_cons_self _ _)
      cases x
      simp only at this
      simp [this]
    · rw [if_neg hx] at h
      cases hm : mark_reference name xs with
      | none => rw [hm] at h; cases h
      | some ys =>
        rw [hm] at h
        cases h
        rw [ih ys (fun r hr => hall r (List.mem_cons_of_mem _ hr)) hm]

theorem marked_inputs_same (outputs : List String) (o : String) (params : List Parameter) :
    ∀ seen : List String,
      ((∃ s, s ∈ seen ∧ str_equals_ignore_case s o = true) ∨
        ∀ p, p ∈ params → str_equals_ignore_case p.name o = false) →
      marked_inputs (outputs ++ [o]) seen params = marked_inputs outputs seen params := by
  induction params with
  | nil => intro seen _; rfl
  | cons p rest ih =>
    intro seen h
    rw [marked_inputs, marked_inputs]
    have htail : marked_inputs (outputs ++ [o]) (seen ++ [p.name]) rest =
        marked_inputs outputs (seen ++ [p.name]) rest := by
      apply ih
      rcases h with ⟨s, hs, hso⟩ | h
      · exact Or.inl ⟨s, List.mem_append_left _ hs, hso⟩
      · exact Or.inr (fun q hq => h q (List.mem_cons_of_mem _ hq))
    rw [htail]
    congr 1
    by_cases hp : str_equals_ignore_case p.name o = true
    · have hseen : seen.any (fun s => str_equals_ignore_case s p.name) = true := by
        rcases h with ⟨s, hs, hso⟩ | h
        · rw [List.any_eq_true]
          refine ⟨s, hs, ?_⟩
          rw [str_equals_ignore_case_symm p.name o] at hp
          exact str_equals_ignore_case_trans s o p.name hso hp
        · rw [h p (List.mem_cons_self _ _)] at hp
          cases hp
      simp [hseen]
    · have hp' : str_equals_ignore_case p.name o = false := by simpa using hp
      simp [List.any_append, hp']

theorem mark_reference_marked_inputs (outputs : List String) (o : String)
    (params : List Parameter) :
    ∀ seen : List String, (∀ s, s ∈ seen → str_equals_ignore_case s o = false) →
      mark_reference o (marked_inputs outputs seen params) =
        if params.any (fun p => str_equals_ignore_case p.name o) then
          some (marked_inputs (outputs ++ [o]) seen params)
        else none := by
  induction params with
  | nil => intro seen _; rfl
  | cons p rest ih =>
    intro seen hseen
    rw [marked_inputs, mark_reference]
    by_cases hp : str_equals_ignore_case p.name o = true
    · have hany : (p :: rest).any (fun q => str_equals_ignore_case q.name o) = true := by
        simp [hp]
      rw [if_pos hp, if_pos hany, marked_inputs]
      have hs : seen.any (fun s => str_equals_ignore_case s p.name) = false := by
        rw [List.any_eq_false]
        intro s hs hsp
        have := str_equals_ignore_case_trans s p.name o hsp hp
        rw [hseen s hs] at this
        cases this
      have htail := marked_inputs_same outputs o rest (seen ++ [p.name])
        (Or.inl ⟨p.name, by simp, hp⟩)
      rw [htail]
      simp [List.any_append, hp, hs]
    · have hp' : str_equals_ignore_case p.name o = false := by simpa using hp
      have hseen' : ∀ s, s ∈ seen ++ [p.name] → str_equals_ignore_case s o = false := by
        intro s hs
        rcases List.mem_append.1 hs with hs | hs
        · exact hseen s hs
        · simp only [List.mem_singleton] at hs
          rw [hs]
          exact hp'
      simp only [hp', Bool.false_eq_true, if_false]
      rw [ih (seen ++ [p.name]) hseen', marked_inputs]
      simp only [List.any_cons, hp', Bool.false_or, List.any_append, List.any_nil, Bool.or_false]
      by_cases hr : rest.any (fun q => str_equals_ignore_case q.name o) = true
      · simp [hr]
      · simp [hr]

theorem marked_inputs_nil (params : List Parameter) :
    ∀ seen : List String, marked_inputs [] seen params = params := by
  induction params with
  | nil => intro seen; rfl
  | cons p rest ih =>
    intro seen
    rw [marked_inputs, ih]
    simp

theorem marked_inputs_names (outputs : List String) (params : List Parameter) :
    ∀ seen : List String,
      (marked_inputs outputs seen params).map (fun p => p.name) = params.map (fun p => p.name) := by
  induction params with
  | nil => intro seen; rfl
  | cons p rest ih =>
    intro seen
    rw [marked_inputs, List.map_cons, List.map_cons, ih]
theorem output_invariant_step (func_name : Option String) (params : List Parameter)
    (os : List (String × Option String)) (result : List Parameter) (o : String × Option String)
    (h : output_invariant func_name params os result) :
    output_invariant func_name params (os ++ [o]) (add_output_name func_name result o) := by
  obtain ⟨added, hres, h2, h3, h4⟩ := h
  unfold add_output_name
  by_cases hslot : is_return_slot func_name o.1 = true
  · rw [if_pos hslot]
    have heff : ((os ++ [o]).map (fun o => o.1)).filter (fun o => !is_return_slot func_name o) =
        (os.map (fun o => o.1)).filter (fun o => !is_return_slot func_name o) := by
      simp [List.filter_append, hslot]
    unfold output_invariant
    rw [heff]
    exact ⟨added, hres, h2, h3, h4⟩
  · rw [if_neg hslot]
    have hslot' : is_return_slot func_name o.1 = false := by simpa using hslot
    have heff : ((os ++ [o]).map (fun o => o.1)).filter (fun o => !is_return_slot func_name o) =
        (os.map (fun o => o.1)).filter (fun o => !is_return_slot func_name o) ++ [o.1] := by
      simp [List.filter_append, hslot']
    unfold output_invariant
    rw [heff]
    generalize hE : (os.map (fun o => o.1)).filter (fun o => !is_return_slot func_name o) = E
      at hres h2 h3
    have hmark := mark_reference_marked_inputs E o.1 params [] (fun s hs => by simp at hs)
    rw [hres, mark_reference_append, hmark]
    by_cases hany : params.any (fun p => str_equals_ignore_case p.name o.1) = true
    · rw [if_pos hany]
      simp only
      refine ⟨added, rfl, fun r hr => ?_, fun o' ho' hno => ?_, h4⟩
      · obtain ⟨r1, r2, r3⟩ := h2 r hr
        exact ⟨r1, List.mem_append_left _ r2, r3⟩
      · rcases List.mem_append.1 ho' with ho' | ho'
        · exact h3 o' ho' hno
        · simp only [List.mem_singleton] at ho'
          subst ho'
          rw [List.any_eq_true] at hany
          obtain ⟨p, hp, hpo⟩ := hany
          rw [hno p hp] at hpo
          cases hpo
    · rw [if_neg hany]
      simp only
      have hnone : ∀ p, p ∈ params → str_equals_ignore_case p.name o.1 = false := by
        intro p hp
        by_contra hc
        exact hany (List.any_eq_true.2 ⟨p, hp, by simpa using hc⟩)
      have hsame := marked_inputs_same E o.1 params [] (Or.inr hnone)
      cases hm : mark_reference o.1 added with
      | some added' =>
        have hadded := mark_reference_by_reference o.1 added added' (fun r hr => (h2 r hr).1) hm
        subst hadded
        simp only [Option.map_some']
        refine ⟨added', by rw [hsame], fun r hr => ?_, fun o' ho' hno => ?_, h4⟩
        · obtain ⟨r1, r2, r3⟩ := h2 r hr
          exact ⟨r1, List.mem_append_left _ r2, r3⟩
        · rcases List.mem_append.1 ho' with ho' | ho'
          · exact h3 o' ho' hno
          · simp only [List.mem_singleton] at ho'
            subst ho'
            by_contra hc
            have hall : ∀ r, r ∈ added' → str_equals_ignore_case r.name o.1 = false := by
              intro r hr
              by_contra hc2
              exact hc ⟨r, hr, by simpa using hc2⟩
            rw [(mark_reference_none o.1 added').2 hall] at hm
            cases hm
      | none =>
        have hall := (mark_reference_none o.1 added).1 hm
        simp only [Option.map_none']
        refine ⟨added ++ [⟨o.1, o.2.getD "INTEGER", true⟩], ?_, fun r hr => ?_,
          fun o' ho' hno => ?_, ?_⟩
        · rw [hsame, List.append_assoc]
        · rcases List.mem_append.1 hr with hr | hr
          · obtain ⟨r1, r2, r3⟩ := h2 r hr
            exact ⟨r1, List.mem_append_left _ r2, r3⟩
          · simp only [List.mem_singleton] at hr
            subst hr
            exact ⟨rfl, by simp, hnone⟩
        · rcases List.mem_append.1 ho' with ho' | ho'
          · obtain ⟨r, hr, hro⟩ := h3 o' ho' hno
            exact ⟨r, List.mem_append_left _ hr, hro⟩
          · simp only [List.mem_singleton] at ho'
            subst ho'
            refine ⟨⟨o.1, o.2.getD "INTEGER", true⟩, by simp, ?_⟩
            rw [str_equals_ignore_case_iff]
        · rw [List.pairwise_append]
          refine ⟨h4, List.pairwise_singleton _ _, fun r hr s hs => ?_⟩
          simp only [List.mem_singleton] at hs
          subst hs
          exact hall r hr

theorem output_invariant_foldl (func_name : Option String) (params : List Parameter) :
    ∀ (os2 os1 : List (String × Option String)) (result : List Parameter),
      output_invariant func_name params os1 result →
      output_invariant func_name params (os1 ++ os2)
        (os2.foldl (add_output_name func_name) result) := by
  intro os2
  induction os2 with
  | nil =>
    intro os1 result h
    simpa using h
  | cons o os2 ih =>
    intro os1 result h
    have := ih (os1 ++ [o]) _ (output_invariant_step func_name params os1 result o h)
    simpa using this

theorem output_invariant_start (func_name : Option String) (params : List Parameter) :
    output_invariant func_name params [] params :=
  ⟨[], by simp [marked_inputs_nil], fun r hr => by simp at hr, fun o ho => by simp at ho,
    List.Pairwise.nil⟩
theorem typed_names_names (groups : List (List String × Option String)) :
    (typed_names groups).map (fun o => o.1) = listed_names groups := by
  induction groups with
  | nil => rfl
  | cons g groups ih =>
    simp only [typed_names, listed_names, List.flatMap_cons, List.map_append, List.map_map] at ih ⊢
    rw [ih]
    congr 1
    simp [Function.comp_def]

theorem by_value_parameters_names (inputs : List (List String × Option String)) :
    (by_value_parameters inputs).map (fun p => p.name) = listed_names inputs := by
  induction inputs with
  | nil => rfl
  | cons g groups ih =>
    simp only [by_value_parameters, listed_names, List.flatMap_cons, List.map_append] at ih ⊢
    rw [ih]
    congr 1
    simp [make_parameters, Function.comp_def]

theorem by_value_parameters_modes (inputs : List (List String × Option String)) :
    ∀ p, p ∈ by_value_parameters inputs → p.is_reference = false := by
  intro p hp
  simp only [by_value_parameters, List.mem_flatMap, make_parameters, List.mem_map] at hp
  obtain ⟨g, -, n, -, rfl⟩ := hp
  rfl

theorem marked_inputs_distinct (outputs : List String) (params : List Parameter) :
    ∀ seen : List String,
      (∀ s p, s ∈ seen → p ∈ params → str_equals_ignore_case s p.name = false) →
      (params.map (fun p => p.name)).Pairwise (fun a b => str_equals_ignore_case a b = false) →
      marked_inputs outputs seen params =
        params.map (fun p =>
          { p with
            is_reference := p.is_reference ||
              outputs.any (fun o => str_equals_ignore_case p.name o) }) := by
  induction params with
  | nil => intro seen _ _; rfl
  | cons p rest ih =>
    intro seen hseen hpair
    rw [List.map_cons, List.pairwise_cons] at hpair
    have hs : seen.any (fun s => str_equals_ignore_case s p.name) = false := by
      rw [List.any_eq_false]
      intro s hs
      rw [hseen s p hs (List.mem_cons_self _ _)]
      simp
    rw [marked_inputs, List.map_cons, ih (seen ++ [p.name]) ?_ hpair.2, hs]
    · simp
    · intro s q hs hq
      rcases List.mem_append.1 hs with hs | hs
      · exact hseen s q hs (List.mem_cons_of_mem _ hq)
      · simp only [List.mem_singleton] at hs
        subst hs
        exact hpair.1 q.name (List.mem_map_of_mem _ hq)

/-- C22: the parameters `parse_interface` returns are the names of the input subsection, in
the order written, followed by new parameters for names of the output subsection.  An
input name is by-reference when it is also an output name (ignoring case; of several input
parameters of one name the first), and by-value otherwise.  The added parameters are
by-reference, one for each output name that is no input name.  An output name that, in a
function, equals the function's own name (ignoring case) is left out of the output names:
it marks no parameter and adds none. -/
theorem C22_interface_passing_modes (fuel : Nat) (func_name : Option String)
    (ps ps' : ParserState) (inputs outputs : List (List String × Option String))
    (h : interface_listing fuel ps = .ok (inputs, outputs, ps')) :
    ∃ added,
      parse_interface fuel func_name ps =
        .ok (marked_inputs (output_names func_name outputs) [] (by_value_parameters inputs)
          ++ added, ps') ∧
      (marked_inputs (output_names func_name outputs) [] (by_value_parameters inputs)).map
        (fun p => p.name) = listed_names inputs ∧
      ((listed_names inputs).Pairwise (fun a b => str_equals_ignore_case a b = false) →
        marked_inputs (output_names func_name outputs) [] (by_value_parameters inputs) =
          (by_value_parameters inputs).map (fun p =>
            { p with
              is_reference :=
                (output_names func_name outputs).any
                  (fun o => str_equals_ignore_case p.name o) })) ∧
      (∀ r, r ∈ added → r.is_reference = true ∧ r.name ∈ output_names func_name outputs ∧
        ∀ i, i ∈ listed_names inputs → str_equals_ignore_case i r.name = false) ∧
      (∀ o, o ∈ output_names func_name outputs →
        (∀ i, i ∈ listed_names inputs → str_equals_ignore_case i o = false) →
        ∃ r, r ∈ added ∧ str_equals_ignore_case r.name o = true) ∧
      added.Pairwise (fun r s => str_equals_ignore_case r.name s.name = false) ∧
      (∀ o, o ∈ output_names func_name outputs ↔
        o ∈ listed_names outputs ∧ is_return_slot func_name o = false) := by
  have hinv := output_invariant_foldl func_name (by_value_parameters inputs)
    (typed_names outputs) [] _ (output_invariant_start func_name (by_value_parameters inputs))
  rw [List.nil_append] at hinv
  unfold output_invariant at hinv
  rw [typed_names_names] at hinv
  obtain ⟨added, hres, h2, h3, h4⟩ := hinv
  have hmem : ∀ i, i ∈ listed_names inputs → ∃ p, p ∈ by_value_parameters inputs ∧ p.name = i := by
    intro i hi
    rw [← by_value_parameters_names, List.mem_map] at hi
    exact hi
  refine ⟨added, ?_, ?_, fun hpair => ?_, fun r hr => ?_, fun o ho hno => ?_, h4, fun o => ?_⟩
  · rw [parse_interface_listing, h]
    simp only [Except.map]
    exact congrArg (fun l => Except.ok (l, ps')) hres
  · rw [marked_inputs_names, by_value_parameters_names]
  · rw [marked_inputs_distinct _ _ [] (fun s p hs _ => by simp at hs)
      (by rw [by_value_parameters_names]; exact hpair)]
    apply List.map_congr_left
    intro p hp
    rw [by_value_parameters_modes inputs p hp]
    simp
  · obtain ⟨r1, r2, r3⟩ := h2 r hr
    refine ⟨r1, r2, fun i hi => ?_⟩
    obtain ⟨p, hp, rfl⟩ := hmem i hi
    exact r3 p hp
  · refine h3 o ho (fun p hp => hno p.name ?_)
    rw [← by_value_parameters_names]
    exact List.mem_map_of_mem _ hp
  · simp [output_names]

theorem C22_witness :
    interface_listing 40 (cursor mixed_interface 0) =
        .ok ([(["a", "b"], some "INTEGER")], [(["b", "c", "F"], some "INTEGER")],
          cursor mixed_interface 17) ∧
      ∃ added,
        parse_interface 40 (some "F") (cursor mixed_interface 0) =
          .ok ([⟨"a", "INTEGER", false⟩, ⟨"b", "INTEGER", true⟩] ++ added,
            cursor mixed_interface 17) ∧
        ∀ r, r ∈ added → r.is_reference = true ∧ r.name ∈ ["b", "c"] :=
  have h : interface_listing 40 (cursor mixed_interface 0) =
      .ok ([(["a", "b"], some "INTEGER")], [(["b", "c", "F"], some "INTEGER")],
        cursor mixed_interface 17) := by decide!
  ⟨h, (C22_interface_passing_modes 40 (some "F") _ _ _ _ h).imp
    (fun _ hc => ⟨hc.1, fun r hr => ⟨(hc.2.2.2.1 r hr).1, (hc.2.2.2.1 r hr).2.1⟩⟩)⟩

/-! ## The parser always returns or stops -/

theorem moves_ok (tokens : List Token) (lo pos : Nat) (h1 : lo ≤ pos)
    (h2 : pos < tokens.length) : moves tokens lo (.ok ⟨tokens, pos⟩) :=
  ⟨rfl, h1, h2⟩

theorem proceeds_ok {α : Type} (tokens : List Token) (lo pos : Nat) (a : α) (h1 : lo ≤ pos)
    (h2 : pos < tokens.length) : proceeds tokens lo (.ok (a, ⟨tokens, pos⟩)) :=
  ⟨rfl, h1, h2⟩

theorem proceeds_pure {α : Type} (tokens : List Token) (lo pos : Nat) (a : α) (h1 : lo ≤ pos)
    (h2 : pos < tokens.length) : proceeds tokens lo (pure (a, ⟨tokens, pos⟩)) :=
  ⟨rfl, h1, h2⟩

theorem moves_mono (tokens : List Token) (lo lo' : Nat) (r : Except ParseError ParserState)
    (h : lo ≤ lo') (hr : moves tokens lo' r) : moves tokens lo r := by
  cases r with
  | error e => exact hr
  | ok ps => exact ⟨hr.1, Nat.le_trans h hr.2.1, hr.2.2⟩

theorem proceeds_mono {α : Type} (tokens : List Token) (lo lo' : Nat)
    (r : Except ParseError (α × ParserState)) (h : lo ≤ lo') (hr : proceeds tokens lo' r) :
    proceeds tokens lo r := by
  cases r with
  | error e => exact hr
  | ok ps => exact ⟨hr.1, Nat.le_trans h hr.2.1, hr.2.2⟩

theorem moves_error (tokens : List Token) (lo : Nat) (e : ParseError)
    (h1 : e ≠ .out_of_fuel) (h2 : e ≠ .read_past_end) : moves tokens lo (.error e) :=
  ⟨h1, h2⟩

theorem proceeds_error {α : Type} (tokens : List Token) (lo : Nat) (e : ParseError)
    (h1 : e ≠ .out_of_fuel) (h2 : e ≠ .read_past_end) :
    proceeds tokens lo (.error e : Except ParseError (α × ParserState)) :=
  ⟨h1, h2⟩

/-- Sequencing after a step that returns a cursor, into a step that returns a cursor. -/
theorem moves_bind_moves (tokens : List Token) (lo1 lo : Nat)
    (x : Except ParseError ParserState) (f : ParserState → Except ParseError ParserState)
    (hx : moves tokens lo1 x)
    (hf : ∀ pos, lo1 ≤ pos → pos < tokens.length → moves tokens lo (f ⟨tokens, pos⟩)) :
    moves tokens lo (x >>= f) := by
  cases x with
  | error e => exact hx
  | ok ps =>
    obtain ⟨toks, pos⟩ := ps
    obtain ⟨h1, h2, h3⟩ := hx
    simp only at h1 h2 h3
    subst h1
    exact hf pos h2 h3

/-- Sequencing after a step that returns a cursor, into a step that returns a value. -/
theorem moves_bind {α : Type} (tokens : List Token) (lo1 lo : Nat)
    (x : Except ParseError ParserState) (f : ParserState → Except ParseError (α × ParserState))
    (hx : moves tokens lo1 x)
    (hf : ∀ pos, lo1 ≤ pos → pos < tokens.length → proceeds tokens lo (f ⟨tokens, pos⟩)) :
    proceeds tokens lo (x >>= f) := by
  cases x with
  | error e => exact hx
  | ok ps =>
    obtain ⟨toks, pos⟩ := ps
    obtain ⟨h1, h2, h3⟩ := hx
    simp only at h1 h2 h3
    subst h1
    exact hf pos h2 h3

/-- Sequencing after a step that returns a value, into a step that returns a value. -/
theorem proceeds_bind {α β : Type} (tokens : List Token) (lo1 lo : Nat)
    (x : Except ParseError (α × ParserState))
    (f : α × ParserState → Except ParseError (β × ParserState))
    (hx : proceeds tokens lo1 x)
    (hf : ∀ a pos, lo1 ≤ pos → pos < tokens.length → proceeds tokens lo (f (a, ⟨tokens, pos⟩))) :
    proceeds tokens lo (x >>= f) := by
  cases x with
  | error e => exact hx
  | ok r =>
    obtain ⟨a, toks, pos⟩ := r
    obtain ⟨h1, h2, h3⟩ := hx
    simp only at h1 h2 h3
    subst h1
    exact hf a pos h2 h3

/-- Sequencing after a step that returns a value, into a step that returns a cursor. -/
theorem proceeds_bind_moves {α : Type} (tokens : List Token) (lo1 lo : Nat)
    (x : Except ParseError (α × ParserState))
    (f : α × ParserState → Except ParseError ParserState)
    (hx : proceeds tokens lo1 x)
    (hf : ∀ a pos, lo1 ≤ pos → pos < tokens.length → moves tokens lo (f (a, ⟨tokens, pos⟩))) :
    moves tokens lo (x >>= f) := by
  cases x with
  | error e => exact hx
  | ok r =>
    obtain ⟨a, toks, pos⟩ := r
    obtain ⟨h1, h2, h3⟩ := hx
    simp only at h1 h2 h3
    subst h1
    exact hf a pos h2 h3

theorem current_token_last (init : List Token) (t : Token) :
    current_token ⟨init ++ [t], init.length⟩ = t := by
  simp [current_token]

/-- A token that is not the end-of-input token is not the last of the array. -/
theorem not_last_of_ne_eof (tokens : List Token) (hT : ends_in_eof tokens) (pos : Nat)
    (hpos : pos < tokens.length) (h : (current_token ⟨tokens, pos⟩).type ≠ TOK_EOF) :
    pos + 1 < tokens.length := by
  obtain ⟨init, line, col, rfl⟩ := hT
  by_contra hlt
  have hp : pos = init.length := by
    simp only [List.length_append, List.length_singleton] at hpos hlt
    omega
  subst hp
  rw [current_token_last] at h
  exact h rfl

theorem advance_token_next (tokens : List Token) (pos : Nat) (h : pos + 1 < tokens.length) :
    advance_token ⟨tokens, pos⟩ = ⟨tokens, pos + 1⟩ := by
  simp [advance_token, h]

/-- The cursor after `advance_token` is at the same token or the next, inside the array. -/
theorem advance_token_any (tokens : List Token) (pos : Nat) (hpos : pos < tokens.length) :
    ∃ pos', advance_token ⟨tokens, pos⟩ = ⟨tokens, pos'⟩ ∧ pos ≤ pos' ∧ pos' < tokens.length := by
  by_cases h : pos + 1 < tokens.length
  · exact ⟨pos + 1, advance_token_next tokens pos h, by omega, h⟩
  · exact ⟨pos, by simp [advance_token, h], by omega, hpos⟩

theorem match_token_type (type : TokenType) (ps : ParserState)
    (h : match_token type ps = true) : (current_token ps).type = type := by
  simpa [match_token] using h

theorem match_any_type (types : List TokenType) (ps : ParserState)
    (h : match_any types ps = true) : (current_token ps).type ∈ types := by
  simp only [match_any, List.any_eq_true, decide_eq_true_eq] at h
  obtain ⟨t, ht, he⟩ := h
  rw [he]
  exact ht

/-- After a token of a type that is not the end of input, `advance_token` moves the cursor
to the next token. -/
theorem advance_token_match (tokens : List Token) (hT : ends_in_eof tokens) (type : TokenType)
    (hne : type ≠ TOK_EOF) (pos : Nat) (hpos : pos < tokens.length)
    (h : match_token type ⟨tokens, pos⟩ = true) :
    advance_token ⟨tokens, pos⟩ = ⟨tokens, pos + 1⟩ ∧ pos + 1 < tokens.length := by
  have hlt := not_last_of_ne_eof tokens hT pos hpos (by rw [match_token_type _ _ h]; exact hne)
  exact ⟨advance_token_next tokens pos hlt, hlt⟩

theorem advance_token_match_any (tokens : List Token) (hT : ends_in_eof tokens)
    (types : List TokenType) (hne : TOK_EOF ∉ types) (pos : Nat) (hpos : pos < tokens.length)
    (h : match_any types ⟨tokens, pos⟩ = true) :
    advance_token ⟨tokens, pos⟩ = ⟨tokens, pos + 1⟩ ∧ pos + 1 < tokens.length := by
  have hlt := not_last_of_ne_eof tokens hT pos hpos
    (fun he => hne (he ▸ match_any_type _ _ h))
  exact ⟨advance_token_next tokens pos hlt, hlt⟩

theorem expect_token_moves (tokens : List Token) (hT : ends_in_eof tokens) (type : TokenType)
    (hne : type ≠ TOK_EOF) (pos : Nat) (hpos : pos < tokens.length) :
    moves tokens (pos + 1) (expect_token type ⟨tokens, pos⟩) := by
  unfold expect_token
  by_cases h : (current_token ⟨tokens, pos⟩).type = type
  · rw [if_neg (not_not.2 h)]
    have hm : match_token type ⟨tokens, pos⟩ = true := by simp [match_token, h]
    obtain ⟨he, hlt⟩ := advance_token_match tokens hT type hne pos hpos hm
    rw [he]
    exact moves_ok tokens _ _ (Nat.le_refl _) hlt
  · rw [if_pos h]
    exact moves_error tokens _ _ (fun h => by cases h) (fun h => by cases h)

theorem parse_names_proceeds (tokens : List Token) (hT : ends_in_eof tokens) :
    ∀ (fuel pos : Nat), pos < tokens.length → tokens.length - pos ≤ fuel →
      proceeds tokens (pos + 1) (parse_names fuel ⟨tokens, pos⟩) := by
  intro fuel
  induction fuel with
  | zero => intro pos h1 h2; omega
  | succ fuel ih =>
    intro pos hpos hfuel
    rw [parse_names]
    refine moves_bind tokens _ _ _ _
      (expect_token_moves tokens hT TOK_IDENTIFIER (by decide) pos hpos) (fun pos1 h1 h2 => ?_)
    by_cases hc : match_token TOK_COMMA ⟨tokens, pos1⟩ = true
    · rw [if_pos hc]
      obtain ⟨he, hlt⟩ := advance_token_match tokens hT TOK_COMMA (by decide) pos1 h2 hc
      rw [he]
      refine proceeds_bind tokens _ _ _ _ (ih (pos1 + 1) hlt (by omega)) (fun a pos2 h3 h4 => ?_)
      exact proceeds_pure tokens _ _ _ (by omega) h4
    · rw [if_neg hc]
      exact proceeds_pure tokens _ _ _ (by omega) h2
theorem parse_list_proceeds (tokens : List Token) (hT : ends_in_eof tokens)
    (item : Parser ASTNode) (p0 : Nat)
    (hitem : ∀ pos, p0 ≤ pos → pos < tokens.length →
      proceeds tokens (pos + 1) (item ⟨tokens, pos⟩)) :
    ∀ (n pos : Nat), p0 ≤ pos → pos < tokens.length → tokens.length - pos ≤ n →
      proceeds tokens (pos + 1) (parse_list item n ⟨tokens, pos⟩) := by
  intro n
  induction n with
  | zero => intro pos _ h1 h2; omega
  | succ n ih =>
    intro pos hp0 hpos hn
    rw [parse_list]
    refine proceeds_bind tokens _ _ _ _ (hitem pos hp0 hpos) (fun x pos1 h1 h2 => ?_)
    by_cases hc : match_token TOK_COMMA ⟨tokens, pos1⟩ = true
    · simp only [hc, if_true]
      obtain ⟨he, hlt⟩ := advance_token_match tokens hT TOK_COMMA (by decide) pos1 h2 hc
      rw [he]
      refine proceeds_bind tokens _ _ _ _ (ih (pos1 + 1) (by omega) hlt (by omega))
        (fun xs pos2 h3 h4 => ?_)
      exact proceeds_pure tokens _ _ _ (by omega) h4
    · simp only [hc]
      exact proceeds_pure tokens _ _ _ (by omega) h2

theorem parse_binary_loop_proceeds (tokens : List Token) (hT : ends_in_eof tokens)
    (types : List TokenType) (hne : TOK_EOF ∉ types) (operand : Parser ASTNode) (p0 : Nat)
    (hop : ∀ pos, p0 ≤ pos → pos < tokens.length →
      proceeds tokens (pos + 1) (operand ⟨tokens, pos⟩)) :
    ∀ (n : Nat) (left : ASTNode) (pos : Nat), p0 ≤ pos → pos < tokens.length →
      tokens.length - pos ≤ n →
      proceeds tokens pos (parse_binary_loop types operand n left ⟨tokens, pos⟩) := by
  intro n
  induction n with
  | zero => intro _ pos _ h1 h2; omega
  | succ n ih =>
    intro left pos hp0 hpos hn
    rw [parse_binary_loop]
    by_cases hc : match_any types ⟨tokens, pos⟩ = true
    · rw [if_pos hc]
      obtain ⟨he, hlt⟩ := advance_token_match_any tokens hT types hne pos hpos hc
      rw [he]
      refine proceeds_bind tokens _ _ _ _ (hop (pos + 1) (by omega) hlt) (fun x pos1 h1 h2 => ?_)
      exact proceeds_mono tokens _ _ _ (by omega) (ih _ pos1 (by omega) h2 (by omega))
    · rw [if_neg hc]
      exact proceeds_ok tokens _ _ _ (Nat.le_refl _) hpos

/-- A binary level of the expression grammar: an operand, then the loop over the operators. -/
theorem level_proceeds (tokens : List Token) (hT : ends_in_eof tokens)
    (types : List TokenType) (hne : TOK_EOF ∉ types) (operand : Parser ASTNode) (fuel p0 : Nat)
    (hop : ∀ pos, p0 ≤ pos → pos < tokens.length →
      proceeds tokens (pos + 1) (operand ⟨tokens, pos⟩))
    (pos : Nat) (hp0 : p0 ≤ pos) (hpos : pos < tokens.length)
    (hfuel : tokens.length - pos ≤ fuel) :
    proceeds tokens (pos + 1)
      (operand ⟨tokens, pos⟩ >>= fun r => parse_binary_loop types operand fuel r.1 r.2) := by
  refine proceeds_bind tokens _ _ _ _ (hop pos hp0 hpos) (fun left pos1 h1 h2 => ?_)
  exact proceeds_mono tokens _ _ _ h1
    (parse_binary_loop_proceeds tokens hT types hne operand p0 hop fuel left pos1 (by omega) h2
      (by omega))

/-- The expression parsers return or stop when the fuel is ten times the number of tokens
left plus the depth of the function in the grammar. -/
theorem expressions_proceed (tokens : List Token) (hT : ends_in_eof tokens) :
    ∀ (fuel pos : Nat), pos < tokens.length →
      (10 * (tokens.length - pos) + 1 ≤ fuel →
        proceeds tokens (pos + 1) (parse_primary fuel ⟨tokens, pos⟩)) ∧
      (10 * (tokens.length - pos) + 2 ≤ fuel →
        proceeds tokens (pos + 1) (parse_unary fuel ⟨tokens, pos⟩)) ∧
      (10 * (tokens.length - pos) + 3 ≤ fuel →
        proceeds tokens (pos + 1) (parse_multiplicative fuel ⟨tokens, pos⟩)) ∧
      (10 * (tokens.length - pos) + 4 ≤ fuel →
        proceeds tokens (pos + 1) (parse_additive fuel ⟨tokens, pos⟩)) ∧
      (10 * (tokens.length - pos) + 5 ≤ fuel →
        proceeds tokens (pos + 1) (parse_comparison fuel ⟨tokens, pos⟩)) ∧
      (10 * (tokens.length - pos) + 6 ≤ fuel →
        proceeds tokens (pos + 1) (parse_and fuel ⟨tokens, pos⟩)) ∧
      (10 * (tokens.length - pos) + 7 ≤ fuel →
        proceeds tokens (pos + 1) (parse_expression fuel ⟨tokens, pos⟩)) := by
  intro fuel
  induction fuel with
  | zero =>
    intro pos hpos
    refine ⟨?_, ?_, ?_, ?_, ?_, ?_, ?_⟩ <;> intro h <;> omega
  | succ fuel ih =>
    intro pos hpos
    refine ⟨fun hf => ?_, fun hf => ?_, fun hf => ?_, fun hf => ?_, fun hf => ?_, fun hf => ?_,
      fun hf => ?_⟩
    · -- parse_primary
      have hexpr : ∀ q, pos + 1 ≤ q → q < tokens.length →
          proceeds tokens (q + 1) (parse_expression fuel ⟨tokens, q⟩) :=
        fun q h1 h2 => (ih q h2).2.2.2.2.2.2 (by omega)
      rw [parse_primary]
      by_cases h1 : match_token TOK_NUMBER ⟨tokens, pos⟩ = true
      · obtain ⟨he, hlt⟩ := advance_token_match tokens hT _ (by decide) pos hpos h1
        rw [if_pos h1, he]
        split <;> exact proceeds_ok tokens _ _ _ (Nat.le_refl _) hlt
      rw [if_neg h1]
      by_cases h2 : match_token TOK_BOOLEAN_LITERAL ⟨tokens, pos⟩ = true
      · obtain ⟨he, hlt⟩ := advance_token_match tokens hT _ (by decide) pos hpos h2
        rw [if_pos h2, he]
        exact proceeds_ok tokens _ _ _ (Nat.le_refl _) hlt
      rw [if_neg h2]
      by_cases h3 : match_token TOK_STRING ⟨tokens, pos⟩ = true
      · obtain ⟨he, hlt⟩ := advance_token_match tokens hT _ (by decide) pos hpos h3
        rw [if_pos h3, he]
        exact proceeds_ok tokens _ _ _ (Nat.le_refl _) hlt
      rw [if_neg h3]
      by_cases h4 : match_token TOK_IDENTIFIER ⟨tokens, pos⟩ = true
      · obtain ⟨he, hlt⟩ := advance_token_match tokens hT _ (by decide) pos hpos h4
        rw [if_pos h4]
        simp only [he]
        by_cases h5 : match_token TOK_LEFT_PAREN ⟨tokens, pos + 1⟩ = true
        · obtain ⟨he5, hlt5⟩ := advance_token_match tokens hT _ (by decide) (pos + 1) hlt h5
          rw [if_pos h5]
          simp only [he5]
          by_cases h6 : match_token TOK_RIGHT_PAREN ⟨tokens, pos + 1 + 1⟩ = false
          · simp only [h6, if_true]
            refine proceeds_bind tokens _ _ _ _
              (parse_list_proceeds tokens hT _ (pos + 1) hexpr fuel (pos + 1 + 1) (by omega) hlt5
                (by omega)) (fun args pos3 h7 h8 => ?_)
            refine moves_bind tokens _ _ _ _
              (expect_token_moves tokens hT TOK_RIGHT_PAREN (by decide) pos3 h8)
              (fun pos4 h9 h10 => ?_)
            exact proceeds_pure tokens _ _ _ (by omega) h10
          · simp only [h6]
            refine proceeds_bind tokens _ _ _ _
              (proceeds_pure tokens (pos + 1 + 1) _ _ (Nat.le_refl _) hlt5)
              (fun args pos3 h7 h8 => ?_)
            refine moves_bind tokens _ _ _ _
              (expect_token_moves tokens hT TOK_RIGHT_PAREN (by decide) pos3 h8)
              (fun pos4 h9 h10 => ?_)
            exact proceeds_pure tokens _ _ _ (by omega) h10
        rw [if_neg h5]
        by_cases h6 : match_token TOK_LEFT_BRACKET ⟨tokens, pos + 1⟩ = true
        · obtain ⟨he6, hlt6⟩ := advance_token_match tokens hT _ (by decide) (pos + 1) hlt h6
          rw [if_pos h6, he6]
          refine proceeds_bind tokens _ _ _ _
            (parse_list_proceeds tokens hT _ (pos + 1) hexpr fuel (pos + 1 + 1) (by omega) hlt6
              (by omega)) (fun args pos3 h7 h8 => ?_)
          refine moves_bind tokens _ _ _ _
            (expect_token_moves tokens hT TOK_RIGHT_BRACKET (by decide) pos3 h8)
            (fun pos4 h9 h10 => ?_)
          exact proceeds_pure tokens _ _ _ (by omega) h10
        rw [if_neg h6]
        exact proceeds_ok tokens _ _ _ (Nat.le_refl _) hlt
      rw [if_neg h4]
      by_cases h5 : match_token TOK_LEFT_PAREN ⟨tokens, pos⟩ = true
      · obtain ⟨he, hlt⟩ := advance_token_match tokens hT _ (by decide) pos hpos h5
        rw [if_pos h5, he]
        refine proceeds_bind tokens _ _ _ _ (hexpr (pos + 1) (Nat.le_refl _) hlt)
          (fun e pos2 h6 h7 => ?_)
        refine moves_bind tokens _ _ _ _
          (expect_token_moves tokens hT TOK_RIGHT_PAREN (by decide) pos2 h7)
          (fun pos3 h8 h9 => ?_)
        exact proceeds_pure tokens _ _ _ (by omega) h9
      rw [if_neg h5]
      exact proceeds_error tokens _ _ (fun h => by cases h) (fun h => by cases h)
    · -- parse_unary
      rw [parse_unary]
      by_cases h1 : (match_token TOK_NOT ⟨tokens, pos⟩ || match_token TOK_MINUS ⟨tokens, pos⟩) = true
      · rw [if_pos h1]
        have hlt : pos + 1 < tokens.length := by
          rcases Bool.or_eq_true _ _ ▸ h1 with h | h
          · exact (advance_token_match tokens hT _ (by decide) pos hpos h).2
          · exact (advance_token_match tokens hT _ (by decide) pos hpos h).2
        simp only [advance_token_next tokens pos hlt]
        refine proceeds_bind tokens _ _ _ _ ((ih (pos + 1) hlt).2.1 (by omega))
          (fun e pos2 h6 h7 => ?_)
        exact proceeds_pure tokens _ _ _ (by omega) h7
      · rw [if_neg h1]
        exact (ih pos hpos).1 (by omega)
    · rw [parse_multiplicative]
      exact level_proceeds tokens hT _ (by decide) _ fuel pos
        (fun q h1 h2 => (ih q h2).2.1 (by omega)) pos (Nat.le_refl _) hpos (by omega)
    · rw [parse_additive]
      exact level_proceeds tokens hT _ (by decide) _ fuel pos
        (fun q h1 h2 => (ih q h2).2.2.1 (by omega)) pos (Nat.le_refl _) hpos (by omega)
    · rw [parse_comparison]
      exact level_proceeds tokens hT _ (by decide) _ fuel pos
        (fun q h1 h2 => (ih q h2).2.2.2.1 (by omega)) pos (Nat.le_refl _) hpos (by omega)
    · rw [parse_and]
      exact level_proceeds tokens hT _ (by decide) _ fuel pos
        (fun q h1 h2 => (ih q h2).2.2.2.2.1 (by omega)) pos (Nat.le_refl _) hpos (by omega)
    · rw [parse_expression]
      exact level_proceeds tokens hT _ (by decide) _ fuel pos
        (fun q h1 h2 => (ih q h2).2.2.2.2.2.1 (by omega)) pos (Nat.le_refl _) hpos (by omega)

theorem parse_expression_proceeds (tokens : List Token) (hT : ends_in_eof tokens)
    (fuel pos : Nat) (hpos : pos < tokens.length)
    (hfuel : 10 * (tokens.length - pos) + 7 ≤ fuel) :
    proceeds tokens (pos + 1) (parse_expression fuel ⟨tokens, pos⟩) :=
  (expressions_proceed tokens hT fuel pos hpos).2.2.2.2.2.2 hfuel

theorem parse_primary_proceeds (tokens : List Token) (hT : ends_in_eof tokens)
    (fuel pos : Nat) (hpos : pos < tokens.length)
    (hfuel : 10 * (tokens.length - pos) + 7 ≤ fuel) :
    proceeds tokens (pos + 1) (parse_primary fuel ⟨tokens, pos⟩) :=
  (expressions_proceed tokens hT fuel pos hpos).1 (by omega)
theorem skip_semicolon_any (tokens : List Token) (pos : Nat) (hpos : pos < tokens.length) :
    ∃ pos', skip_semicolon ⟨tokens, pos⟩ = ⟨tokens, pos'⟩ ∧ pos ≤ pos' ∧
      pos' < tokens.length := by
  unfold skip_semicolon
  split
  · exact advance_token_any tokens pos hpos
  · exact ⟨pos, rfl, Nat.le_refl _, hpos⟩

theorem parse_parenthesized_proceeds (tokens : List Token) (hT : ends_in_eof tokens)
    (item : Parser ASTNode) (fuel p0 : Nat)
    (hitem : ∀ pos, p0 ≤ pos → pos < tokens.length →
      proceeds tokens (pos + 1) (item ⟨tokens, pos⟩))
    (pos : Nat) (hp0 : p0 ≤ pos) (hpos : pos < tokens.length)
    (hfuel : tokens.length - pos ≤ fuel) :
    proceeds tokens (pos + 1) (parse_parenthesized item fuel ⟨tokens, pos⟩) := by
  unfold parse_parenthesized
  refine moves_bind tokens _ _ _ _
    (expect_token_moves tokens hT TOK_LEFT_PAREN (by decide) pos hpos) (fun pos1 h1 h2 => ?_)
  lift_lets
  intro jp
  have hjp : ∀ (items : List ASTNode) (pos2 : Nat), pos1 ≤ pos2 → pos2 < tokens.length →
      proceeds tokens (pos + 1) (jp (items, ⟨tokens, pos2⟩)) := by
    intro items pos2 h3 h4
    refine moves_bind tokens _ _ _ _
      (expect_token_moves tokens hT TOK_RIGHT_PAREN (by decide) pos2 h4) (fun pos3 h5 h6 => ?_)
    obtain ⟨pos4, he, h7, h8⟩ := skip_semicolon_any tokens pos3 h6
    rw [he]
    exact proceeds_pure tokens _ _ _ (by omega) h8
  split
  · exact proceeds_bind tokens _ _ _ _
      (parse_list_proceeds tokens hT item p0 hitem fuel pos1 (by omega) h2 (by omega))
      (fun items pos2 h3 h4 => hjp items pos2 (by omega) h4)
  · exact hjp [] pos1 (Nat.le_refl _) h2

theorem parse_print_proceeds (tokens : List Token) (hT : ends_in_eof tokens)
    (fuel pos : Nat) (hpos : pos < tokens.length)
    (hfuel : 10 * (tokens.length - pos) + 7 ≤ fuel) :
    proceeds tokens (pos + 1) (parse_print fuel ⟨tokens, pos⟩) := by
  unfold parse_print
  refine moves_bind tokens _ _ _ _
    (expect_token_moves tokens hT TOK_PRINT (by decide) pos hpos) (fun pos1 h1 h2 => ?_)
  refine proceeds_bind tokens _ _ _ _
    (parse_parenthesized_proceeds tokens hT _ fuel pos
      (fun q h3 h4 => parse_expression_proceeds tokens hT fuel q h4 (by omega))
      pos1 (by omega) h2 (by omega)) (fun x pos2 h3 h4 => ?_)
  exact proceeds_pure tokens _ _ _ (by omega) h4

theorem parse_read_proceeds (tokens : List Token) (hT : ends_in_eof tokens)
    (fuel pos : Nat) (hpos : pos < tokens.length)
    (hfuel : 10 * (tokens.length - pos) + 7 ≤ fuel) :
    proceeds tokens (pos + 1) (parse_read fuel ⟨tokens, pos⟩) := by
  unfold parse_read
  refine moves_bind tokens _ _ _ _
    (expect_token_moves tokens hT TOK_READ (by decide) pos hpos) (fun pos1 h1 h2 => ?_)
  refine proceeds_bind tokens _ _ _ _
    (parse_parenthesized_proceeds tokens hT _ fuel pos
      (fun q h3 h4 => parse_primary_proceeds tokens hT fuel q h4 (by omega))
      pos1 (by omega) h2 (by omega)) (fun x pos2 h3 h4 => ?_)
  exact proceeds_pure tokens _ _ _ (by omega) h4

theorem parse_assignment_proceeds (tokens : List Token) (hT : ends_in_eof tokens)
    (fuel pos : Nat) (hpos : pos < tokens.length)
    (hfuel : 10 * (tokens.length - pos) + 7 ≤ fuel) :
    proceeds tokens (pos + 1) (parse_assignment fuel ⟨tokens, pos⟩) := by
  unfold parse_assignment
  refine moves_bind tokens _ _ _ _
    (expect_token_moves tokens hT TOK_IDENTIFIER (by decide) pos hpos) (fun pos1 h1 h2 => ?_)
  lift_lets
  intro jp
  have hjp : ∀ (indices : List ASTNode) (pos2 : Nat), pos1 ≤ pos2 → pos2 < tokens.length →
      proceeds tokens (pos + 1) (jp (indices, ⟨tokens, pos2⟩)) := by
    intro indices pos2 h3 h4
    refine moves_bind tokens _ _ _ _
      (expect_token_moves tokens hT TOK_ASSIGN (by decide) pos2 h4) (fun pos3 h5 h6 => ?_)
    refine proceeds_bind tokens _ _ _ _
      (parse_expression_proceeds tokens hT fuel pos3 h6 (by omega)) (fun value pos4 h7 h8 => ?_)
    obtain ⟨pos5, he, h9, h10⟩ := skip_semicolon_any tokens pos4 h8
    simp only [he]
    exact proceeds_pure tokens _ _ _ (by omega) h10
  by_cases hc : match_token TOK_LEFT_BRACKET ⟨tokens, pos1⟩ = true
  · obtain ⟨he, hlt⟩ := advance_token_match tokens hT _ (by decide) pos1 h2 hc
    rw [if_pos hc, he]
    refine proceeds_bind tokens _ _ _ _
      (parse_list_proceeds tokens hT _ pos
        (fun q h3 h4 => parse_expression_proceeds tokens hT fuel q h4 (by omega))
        fuel (pos1 + 1) (by omega) hlt (by omega)) (fun x pos2 h3 h4 => ?_)
    refine moves_bind tokens _ _ _ _
      (expect_token_moves tokens hT TOK_RIGHT_BRACKET (by decide) pos2 h4)
      (fun pos3 h5 h6 => ?_)
    exact hjp x pos3 (by omega) h6
  · rw [if_neg hc]
    exact hjp [] pos1 (Nat.le_refl _) h2

theorem parse_call_argument_proceeds (tokens : List Token) (hT : ends_in_eof tokens)
    (fuel pos : Nat) (hpos : pos < tokens.length)
    (hfuel : 10 * (tokens.length - pos) + 7 ≤ fuel) :
    proceeds tokens (pos + 1) (parse_call_argument fuel ⟨tokens, pos⟩) := by
  unfold parse_call_argument
  split
  · obtain ⟨pos1, he, h1, h2⟩ := advance_token_any tokens pos hpos
    rw [he]
    exact proceeds_mono tokens _ _ _ (by omega)
      (parse_expression_proceeds tokens hT fuel pos1 h2 (by omega))
  · exact parse_expression_proceeds tokens hT fuel pos hpos hfuel

theorem parse_call_statement_proceeds (tokens : List Token) (hT : ends_in_eof tokens)
    (fuel pos : Nat) (hpos : pos < tokens.length)
    (hfuel : 10 * (tokens.length - pos) + 7 ≤ fuel) :
    proceeds tokens (pos + 1) (parse_call_statement fuel ⟨tokens, pos⟩) := by
  unfold parse_call_statement
  refine moves_bind tokens _ _ _ _
    (expect_token_moves tokens hT TOK_IDENTIFIER (by decide) pos hpos) (fun pos1 h1 h2 => ?_)
  refine proceeds_bind tokens _ _ _ _
    (parse_parenthesized_proceeds tokens hT _ fuel pos
      (fun q h3 h4 => parse_call_argument_proceeds tokens hT fuel q h4 (by omega))
      pos1 (by omega) h2 (by omega)) (fun x pos2 h3 h4 => ?_)
  exact proceeds_pure tokens _ _ _ (by omega) h4
/-- The statement parsers return or stop with fuel ten times the number of tokens left plus
the depth of the function; the token after an identifier that starts a statement is always
inside the array. -/
theorem statements_proceed (tokens : List Token) (hT : ends_in_eof tokens) :
    ∀ (fuel pos : Nat), pos < tokens.length →
      (10 * (tokens.length - pos) + 8 ≤ fuel →
        proceeds tokens (pos + 1) (parse_if fuel ⟨tokens, pos⟩)) ∧
      (10 * (tokens.length - pos) + 8 ≤ fuel →
        proceeds tokens (pos + 1) (parse_for fuel ⟨tokens, pos⟩)) ∧
      (10 * (tokens.length - pos) + 8 ≤ fuel →
        proceeds tokens (pos + 1) (parse_while fuel ⟨tokens, pos⟩)) ∧
      (10 * (tokens.length - pos) + 8 ≤ fuel →
        proceeds tokens (pos + 1) (parse_repeat fuel ⟨tokens, pos⟩)) ∧
      (10 * (tokens.length - pos) + 9 ≤ fuel →
        proceeds tokens (pos + 1) (parse_statement fuel ⟨tokens, pos⟩)) ∧
      (10 * (tokens.length - pos) + 10 ≤ fuel →
        proceeds tokens pos (parse_block fuel ⟨tokens, pos⟩)) := by
  intro fuel
  induction fuel with
  | zero =>
    intro pos hpos
    refine ⟨?_, ?_, ?_, ?_, ?_, ?_⟩ <;> intro h <;> omega
  | succ fuel ih =>
    intro pos hpos
    have hexpr : ∀ q, pos ≤ q → q < tokens.length → 10 * (tokens.length - pos) + 7 ≤ fuel →
        proceeds tokens (q + 1) (parse_expression fuel ⟨tokens, q⟩) :=
      fun q h1 h2 h3 => parse_expression_proceeds tokens hT fuel q h2 (by omega)
    have hblock : ∀ q, pos + 1 ≤ q → q < tokens.length → 10 * (tokens.length - pos) ≤ fuel →
        proceeds tokens q (parse_block fuel ⟨tokens, q⟩) :=
      fun q h1 h2 h3 => (ih q h2).2.2.2.2.2 (by omega)
    have hskip : ∀ {α : Type} (a : α) (q : Nat), pos + 1 ≤ q → q < tokens.length →
        proceeds tokens (pos + 1) (pure (a, skip_semicolon ⟨tokens, q⟩)) := by
      intro α a q h1 h2
      obtain ⟨q', he, h3, h4⟩ := skip_semicolon_any tokens q h2
      rw [he]
      exact proceeds_pure tokens _ _ _ (by omega) h4
    refine ⟨fun hf => ?_, fun hf => ?_, fun hf => ?_, fun hf => ?_, fun hf => ?_, fun hf => ?_⟩
    · -- parse_if
      rw [parse_if]
      refine moves_bind tokens _ _ _ _
        (expect_token_moves tokens hT TOK_IF (by decide) pos hpos) (fun pos1 h1 h2 => ?_)
      refine proceeds_bind tokens _ _ _ _ (hexpr pos1 (by omega) h2 (by omega))
        (fun condition pos2 h3 h4 => ?_)
      refine moves_bind tokens _ _ _ _
        (expect_token_moves tokens hT TOK_THEN (by decide) pos2 h4) (fun pos3 h5 h6 => ?_)
      refine proceeds_bind tokens _ _ _ _ (hblock pos3 (by omega) h6 (by omega))
        (fun then_branch pos4 h7 h8 => ?_)
      dsimp -zeta only
      lift_lets
      intro jp
      have hjp : ∀ (else_branch : Option (List ASTNode)) (pos5 : Nat), pos4 ≤ pos5 →
          pos5 < tokens.length → proceeds tokens (pos + 1) (jp (else_branch, ⟨tokens, pos5⟩)) := by
        intro else_branch pos5 h9 h10
        refine moves_bind tokens _ _ _ _
          (expect_token_moves tokens hT TOK_END_IF (by decide) pos5 h10) (fun pos6 h11 h12 => ?_)
        exact hskip _ pos6 (by omega) h12
      by_cases hc : match_token TOK_ELSE ⟨tokens, pos4⟩ = true
      · obtain ⟨he, hlt⟩ := advance_token_match tokens hT _ (by decide) pos4 h8 hc
        rw [if_pos hc, he]
        refine proceeds_bind tokens _ _ _ _ (hblock (pos4 + 1) (by omega) hlt (by omega))
          (fun stmts pos5 h9 h10 => ?_)
        exact hjp (some stmts) pos5 (by omega) h10
      · rw [if_neg hc]
        exact hjp none pos4 (Nat.le_refl _) h8
    · -- parse_for
      rw [parse_for]
      refine moves_bind tokens _ _ _ _
        (expect_token_moves tokens hT TOK_FOR (by decide) pos hpos) (fun pos1 h1 h2 => ?_)
      refine moves_bind tokens _ _ _ _
        (expect_token_moves tokens hT TOK_IDENTIFIER (by decide) pos1 h2) (fun pos2 h3 h4 => ?_)
      refine moves_bind tokens _ _ _ _
        (expect_token_moves tokens hT TOK_ASSIGN (by decide) pos2 h4) (fun pos3 h5 h6 => ?_)
      refine proceeds_bind tokens _ _ _ _ (hexpr pos3 (by omega) h6 (by omega))
        (fun start pos4 h7 h8 => ?_)
      refine moves_bind tokens _ _ _ _
        (expect_token_moves tokens hT TOK_TO (by decide) pos4 h8) (fun pos5 h9 h10 => ?_)
      refine proceeds_bind tokens _ _ _ _ (hexpr pos5 (by omega) h10 (by omega))
        (fun end_ pos6 h11 h12 => ?_)
      dsimp -zeta only
      lift_lets
      intro jp
      have hjp : ∀ (step : ASTNode) (pos7 : Nat), pos6 ≤ pos7 →
          pos7 < tokens.length → proceeds tokens (pos + 1) (jp (step, ⟨tokens, pos7⟩)) := by
        intro step pos7 h13 h14
        refine moves_bind tokens _ _ _ _
          (expect_token_moves tokens hT TOK_REPEAT (by decide) pos7 h14) (fun pos8 h15 h16 => ?_)
        refine proceeds_bind tokens _ _ _ _ (hblock pos8 (by omega) h16 (by omega))
          (fun body pos9 h17 h18 => ?_)
        refine moves_bind tokens _ _ _ _
          (expect_token_moves tokens hT TOK_END_FOR (by decide) pos9 h18)
          (fun pos10 h19 h20 => ?_)
        exact hskip _ pos10 (by omega) h20
      by_cases hc : match_token TOK_STEP ⟨tokens, pos6⟩ = true
      · obtain ⟨he, hlt⟩ := advance_token_match tokens hT _ (by decide) pos6 h12 hc
        rw [if_pos hc, he]
        refine proceeds_bind tokens _ _ _ _ (hexpr (pos6 + 1) (by omega) hlt (by omega))
          (fun step pos7 h13 h14 => ?_)
        exact hjp step pos7 (by omega) h14
      · rw [if_neg hc]
        exact hjp _ pos6 (Nat.le_refl _) h12
    · -- parse_while
      rw [parse_while]
      refine moves_bind tokens _ _ _ _
        (expect_token_moves tokens hT TOK_WHILE (by decide) pos hpos) (fun pos1 h1 h2 => ?_)
      refine proceeds_bind tokens _ _ _ _ (hexpr pos1 (by omega) h2 (by omega))
        (fun condition pos2 h3 h4 => ?_)
      refine moves_bind tokens _ _ _ _
        (expect_token_moves tokens hT TOK_REPEAT (by decide) pos2 h4) (fun pos3 h5 h6 => ?_)
      refine proceeds_bind tokens _ _ _ _ (hblock pos3 (by omega) h6 (by omega))
        (fun body pos4 h7 h8 => ?_)
      refine moves_bind tokens _ _ _ _
        (expect_token_moves tokens hT TOK_END_WHILE (by decide) pos4 h8) (fun pos5 h9 h10 => ?_)
      exact hskip _ pos5 (by omega) h10
    · -- parse_repeat
      rw [parse_repeat]
      refine moves_bind tokens _ _ _ _
        (expect_token_moves tokens hT TOK_REPEAT (by decide) pos hpos) (fun pos1 h1 h2 => ?_)
      refine proceeds_bind tokens _ _ _ _ (hblock pos1 (by omega) h2 (by omega))
        (fun body pos2 h3 h4 => ?_)
      refine moves_bind tokens _ _ _ _
        (expect_token_moves tokens hT TOK_UNTIL (by decide) pos2 h4) (fun pos3 h5 h6 => ?_)
      refine proceeds_bind tokens _ _ _ _ (hexpr pos3 (by omega) h6 (by omega))
        (fun condition pos4 h7 h8 => ?_)
      exact hskip _ pos4 (by omega) h8
    · -- parse_statement
      rw [parse_statement]
      split
      · exact parse_print_proceeds tokens hT fuel pos hpos (by omega)
      split
      · exact parse_read_proceeds tokens hT fuel pos hpos (by omega)
      split
      · rename_i h1 h2 hc
        obtain ⟨he, hlt⟩ := advance_token_match tokens hT _ (by decide) pos hpos hc
        rw [he]
        exact proceeds_mono tokens _ _ _ (by omega)
          (parse_call_statement_proceeds tokens hT fuel (pos + 1) hlt (by omega))
      split
      · exact (ih pos hpos).1 (by omega)
      split
      · exact (ih pos hpos).2.1 (by omega)
      split
      · exact (ih pos hpos).2.2.1 (by omega)
      split
      · exact (ih pos hpos).2.2.2.1 (by omega)
      split
      · rename_i h1 h2 h3 h4 h5 h6 h7 hc
        obtain ⟨he, hlt⟩ := advance_token_match tokens hT _ (by decide) pos hpos hc
        simp only [List.getElem?_eq_getElem hlt]
        split
        · exact parse_call_statement_proceeds tokens hT fuel pos hpos (by omega)
        · exact parse_assignment_proceeds tokens hT fuel pos hpos (by omega)
      · exact proceeds_error tokens _ _ (fun h => by cases h) (fun h => by cases h)
    · -- parse_block
      rw [parse_block]
      split
      · exact proceeds_ok tokens _ _ _ (Nat.le_refl _) hpos
      · refine proceeds_bind tokens _ _ _ _ ((ih pos hpos).2.2.2.2.1 (by omega))
          (fun stmt pos1 h1 h2 => ?_)
        refine proceeds_bind tokens _ _ _ _ ((ih pos1 h2).2.2.2.2.2 (by omega))
          (fun stmts pos2 h3 h4 => ?_)
        exact proceeds_pure tokens _ _ _ (by omega) h4

theorem parse_block_proceeds (tokens : List Token) (hT : ends_in_eof tokens)
    (fuel pos : Nat) (hpos : pos < tokens.length)
    (hfuel : 10 * (tokens.length - pos) + 10 ≤ fuel) :
    proceeds tokens pos (parse_block fuel ⟨tokens, pos⟩) :=
  (statements_proceed tokens hT fuel pos hpos).2.2.2.2.2 hfuel
/-- The last token of the array is the end-of-input token, whose text is not empty. -/
theorem current_token_at_end (tokens : List Token) (hT : ends_in_eof tokens) (pos : Nat)
    (hpos : pos < tokens.length) (hlast : ¬ pos + 1 < tokens.length) :
    (current_token ⟨tokens, pos⟩).value.length = 3 := by
  obtain ⟨init, line, col, rfl⟩ := hT
  have hp : pos = init.length := by
    simp only [List.length_append, List.length_singleton] at hpos hlast
    omega
  subst hp
  rw [current_token_last]
  rfl

theorem capture_array_type_proceeds (tokens : List Token) (hT : ends_in_eof tokens) :
    ∀ (n : Nat) (type_buf : List Nat) (pos : Nat), pos < tokens.length →
      type_buf.length ≤ 255 → (tokens.length - pos) + (255 - type_buf.length) < n →
      proceeds tokens pos (capture_array_type n type_buf ⟨tokens, pos⟩) := by
  intro n
  induction n with
  | zero => intro _ pos _ _ h; omega
  | succ n ih =>
    intro type_buf pos hpos hbuf hn
    rw [capture_array_type]
    split
    · rename_i hc
      have hspaced : ∀ spaced : List Nat, spaced.length ≤ 255 →
          (spaced ++ (current_token ⟨tokens, pos⟩).value.take (255 - spaced.length)).length =
            spaced.length + min (255 - spaced.length) (current_token ⟨tokens, pos⟩).value.length := by
        intro spaced _
        rw [List.length_append, List.length_take]
      by_cases hlt : pos + 1 < tokens.length
      · rw [advance_token_next tokens pos hlt]
        refine proceeds_mono tokens _ _ _ (Nat.le_succ pos) (ih _ (pos + 1) hlt ?_ ?_)
        · split
          · rw [hspaced _ (by simp; omega)]
            simp only [List.length_append, List.length_singleton]
            omega
          · rw [hspaced _ (by omega)]
            omega
        · split
          · rw [hspaced _ (by simp; omega)]
            simp only [List.length_append, List.length_singleton]
            omega
          · rw [hspaced _ (by omega)]
            omega
      · have hv := current_token_at_end tokens hT pos hpos hlt
        have hstay : advance_token ⟨tokens, pos⟩ = ⟨tokens, pos⟩ := by simp [advance_token, hlt]
        rw [hstay]
        refine ih _ pos hpos ?_ ?_
        · split
          · rw [hspaced _ (by simp; omega)]
            simp only [List.length_append, List.length_singleton]
            omega
          · rw [hspaced _ (by omega)]
            omega
        · split
          · rw [hspaced _ (by simp; omega)]
            simp only [List.length_append, List.length_singleton]
            omega
          · rename_i h0
            rw [hspaced _ (by omega)]
            omega
    · exact proceeds_ok tokens _ _ _ (Nat.le_refl _) hpos

theorem parse_interface_type_proceeds (tokens : List Token) (hT : ends_in_eof tokens)
    (fuel pos : Nat) (hpos : pos < tokens.length)
    (hfuel : (tokens.length - pos) + 256 ≤ fuel) :
    proceeds tokens pos (parse_interface_type fuel ⟨tokens, pos⟩) := by
  unfold parse_interface_type
  split
  · refine proceeds_bind tokens _ _ _ _
      (capture_array_type_proceeds tokens hT fuel [] pos hpos (by simp) (by simp; omega))
      (fun type_buf pos1 h1 h2 => ?_)
    exact proceeds_pure tokens _ _ _ h1 h2
  split
  · obtain ⟨pos1, he, h1, h2⟩ := advance_token_any tokens pos hpos
    rw [he]
    exact proceeds_pure tokens _ _ _ h1 h2
  split
  · obtain ⟨pos1, he, h1, h2⟩ := advance_token_any tokens pos hpos
    rw [he]
    exact proceeds_pure tokens _ _ _ h1 h2
  · exact proceeds_pure tokens _ _ _ (Nat.le_refl _) hpos

theorem parse_input_params_proceeds (tokens : List Token) (hT : ends_in_eof tokens) :
    ∀ (fuel : Nat) (params : List Parameter) (pos : Nat), pos < tokens.length →
      (tokens.length - pos) + 256 ≤ fuel →
      proceeds tokens pos (parse_input_params fuel params ⟨tokens, pos⟩) := by
  intro fuel
  induction fuel with
  | zero => intro _ pos _ h; omega
  | succ fuel ih =>
    intro params pos hpos hfuel
    rw [parse_input_params]
    split
    · refine proceeds_bind tokens _ _ _ _
        (parse_names_proceeds tokens hT (fuel + 1) pos hpos (by omega))
        (fun names pos1 h1 h2 => ?_)
      refine moves_bind tokens _ _ _ _
        (expect_token_moves tokens hT TOK_COLON (by decide) pos1 h2) (fun pos2 h3 h4 => ?_)
      refine proceeds_bind tokens _ _ _ _
        (parse_interface_type_proceeds tokens hT (fuel + 1) pos2 h4 (by omega))
        (fun type_str pos3 h5 h6 => ?_)
      refine moves_bind tokens _ _ _ _
        (expect_token_moves tokens hT TOK_SEMICOLON (by decide) pos3 h6) (fun pos4 h7 h8 => ?_)
      exact proceeds_mono tokens _ _ _ (by omega) (ih _ pos4 h8 (by omega))
    · exact proceeds_ok tokens _ _ _ (Nat.le_refl _) hpos

theorem parse_output_params_proceeds (tokens : List Token) (hT : ends_in_eof tokens)
    (func_name : Option String) :
    ∀ (fuel : Nat) (params : List Parameter) (pos : Nat), pos < tokens.length →
      (tokens.length - pos) + 256 ≤ fuel →
      proceeds tokens pos (parse_output_params func_name fuel params ⟨tokens, pos⟩) := by
  intro fuel
  induction fuel with
  | zero => intro _ pos _ h; omega
  | succ fuel ih =>
    intro params pos hpos hfuel
    rw [parse_output_params]
    split
    · refine proceeds_bind tokens _ _ _ _
        (parse_names_proceeds tokens hT (fuel + 1) pos hpos (by omega))
        (fun names pos1 h1 h2 => ?_)
      refine moves_bind tokens _ _ _ _
        (expect_token_moves tokens hT TOK_COLON (by decide) pos1 h2) (fun pos2 h3 h4 => ?_)
      refine proceeds_bind tokens _ _ _ _
        (parse_interface_type_proceeds tokens hT (fuel + 1) pos2 h4 (by omega))
        (fun type_str pos3 h5 h6 => ?_)
      refine moves_bind tokens _ _ _ _
        (expect_token_moves tokens hT TOK_SEMICOLON (by decide) pos3 h6) (fun pos4 h7 h8 => ?_)
      exact proceeds_mono tokens _ _ _ (by omega) (ih _ pos4 h8 (by omega))
    · exact proceeds_ok tokens _ _ _ (Nat.le_refl _) hpos

theorem parse_interface_proceeds (tokens : List Token) (hT : ends_in_eof tokens)
    (func_name : Option String) (fuel pos : Nat) (hpos : pos < tokens.length)
    (hfuel : (tokens.length - pos) + 256 ≤ fuel) :
    proceeds tokens (pos + 1) (parse_interface fuel func_name ⟨tokens, pos⟩) := by
  unfold parse_interface
  refine moves_bind tokens _ _ _ _
    (expect_token_moves tokens hT TOK_INTERFACE (by decide) pos hpos) (fun pos1 h1 h2 => ?_)
  dsimp -zeta only
  lift_lets
  intro jp
  have hjp : ∀ (params : List Parameter) (pos2 : Nat), pos1 ≤ pos2 → pos2 < tokens.length →
      proceeds tokens (pos + 1) (jp (params, ⟨tokens, pos2⟩)) := by
    intro params pos2 h3 h4
    dsimp only [jp]
    split
    · obtain ⟨pos3, he, h5, h6⟩ := advance_token_any tokens pos2 h4
      rw [he]
      exact proceeds_mono tokens _ _ _ (by omega)
        (parse_output_params_proceeds tokens hT func_name fuel params pos3 h6 (by omega))
    · exact proceeds_pure tokens _ _ _ (by omega) h4
  split
  · obtain ⟨pos3, he, h5, h6⟩ := advance_token_any tokens pos1 h2
    rw [he]
    exact proceeds_bind tokens _ _ _ _
      (parse_input_params_proceeds tokens hT fuel [] pos3 h6 (by omega))
      (fun params pos2 h3 h4 => hjp params pos2 (by omega) h4)
  · exact hjp [] pos1 (Nat.le_refl _) h2
theorem skip_header_parameters_moves (tokens : List Token) (hT : ends_in_eof tokens)
    (types : List TokenType) (hne : TOK_EOF ∉ types) (message : String) :
    ∀ (n pos : Nat), pos < tokens.length → tokens.length - pos ≤ n →
      moves tokens pos (skip_header_parameters types message n ⟨tokens, pos⟩) := by
  intro n
  induction n with
  | zero => intro pos h1 h2; omega
  | succ n ih =>
    intro pos hpos hn
    rw [skip_header_parameters]
    split
    · exact moves_ok tokens _ _ (Nat.le_refl _) hpos
    split
    · exact moves_error tokens _ _ (fun h => by cases h) (fun h => by cases h)
    · rename_i h1 h2
      have hc : match_any types ⟨tokens, pos⟩ = true := by simpa using h2
      obtain ⟨he, hlt⟩ := advance_token_match_any tokens hT types hne pos hpos hc
      rw [he]
      exact moves_mono tokens _ _ _ (Nat.le_succ pos) (ih (pos + 1) hlt (by omega))

theorem parse_header_parameters_moves (tokens : List Token) (hT : ends_in_eof tokens)
    (types : List TokenType) (hne : TOK_EOF ∉ types) (message : String) (fuel pos : Nat)
    (hpos : pos < tokens.length) (hfuel : tokens.length - pos ≤ fuel) :
    moves tokens pos (parse_header_parameters types message fuel ⟨tokens, pos⟩) := by
  unfold parse_header_parameters
  split
  · obtain ⟨pos1, he, h1, h2⟩ := advance_token_any tokens pos hpos
    rw [he]
    refine moves_bind_moves tokens _ _ _ _
      (skip_header_parameters_moves tokens hT types hne message fuel pos1 h2 (by omega))
      (fun pos2 h3 h4 => ?_)
    exact moves_mono tokens _ _ _ (by omega)
      (expect_token_moves tokens hT TOK_RIGHT_PAREN (by decide) pos2 h4)
  · exact moves_ok tokens _ _ (Nat.le_refl _) hpos

theorem parse_type_name_proceeds (tokens : List Token) (hT : ends_in_eof tokens)
    (message : String) (pos : Nat) (hpos : pos < tokens.length) :
    proceeds tokens (pos + 1) (parse_type_name message ⟨tokens, pos⟩) := by
  unfold parse_type_name
  split
  · rename_i hc
    obtain ⟨he, hlt⟩ := advance_token_match_any tokens hT _ (by decide) pos hpos hc
    rw [he]
    exact proceeds_ok tokens _ _ _ (Nat.le_refl _) hlt
  split
  · rename_i h1 hc
    obtain ⟨he, hlt⟩ := advance_token_match tokens hT _ (by decide) pos hpos hc
    rw [he]
    exact proceeds_ok tokens _ _ _ (Nat.le_refl _) hlt
  · exact proceeds_error tokens _ _ (fun h => by cases h) (fun h => by cases h)

theorem parse_local_decls_proceeds (tokens : List Token) (hT : ends_in_eof tokens)
    (fuel : Nat) :
    ∀ (n : Nat) (decls : List LocalDecl) (pos : Nat), pos < tokens.length →
      tokens.length - pos ≤ fuel → tokens.length - pos ≤ n →
      proceeds tokens pos (parse_local_decls fuel n decls ⟨tokens, pos⟩) := by
  intro n
  induction n with
  | zero => intro _ pos _ _ h; omega
  | succ n ih =>
    intro decls pos hpos hfuel hn
    rw [parse_local_decls]
    split
    · refine proceeds_bind tokens _ _ _ _
        (parse_names_proceeds tokens hT fuel pos hpos hfuel) (fun names pos1 h1 h2 => ?_)
      refine moves_bind tokens _ _ _ _
        (expect_token_moves tokens hT TOK_COLON (by decide) pos1 h2) (fun pos2 h3 h4 => ?_)
      refine proceeds_bind tokens _ _ _ _
        (parse_type_name_proceeds tokens hT _ pos2 h4) (fun type_str pos3 h5 h6 => ?_)
      refine moves_bind tokens _ _ _ _
        (expect_token_moves tokens hT TOK_SEMICOLON (by decide) pos3 h6) (fun pos4 h7 h8 => ?_)
      exact proceeds_mono tokens _ _ _ (by omega) (ih _ pos4 h8 (by omega) (by omega))
    · exact proceeds_ok tokens _ _ _ (Nat.le_refl _) hpos

theorem parse_subroutine_rest_proceeds (tokens : List Token) (hT : ends_in_eof tokens)
    (closing : TokenType) (hne : closing ≠ TOK_EOF) (fuel pos : Nat)
    (hpos : pos < tokens.length) (hfuel : 10 * (tokens.length - pos) + 10 ≤ fuel) :
    proceeds tokens (pos + 1) (parse_subroutine_rest closing fuel ⟨tokens, pos⟩) := by
  unfold parse_subroutine_rest
  dsimp -zeta only
  lift_lets
  intro jp
  have hjp : ∀ (local_decls : List LocalDecl) (pos1 : Nat), pos ≤ pos1 →
      pos1 < tokens.length → proceeds tokens (pos + 1) (jp (local_decls, ⟨tokens, pos1⟩)) := by
    intro local_decls pos1 h1 h2
    refine moves_bind tokens _ _ _ _
      (expect_token_moves tokens hT TOK_BEGIN (by decide) pos1 h2) (fun pos2 h3 h4 => ?_)
    refine proceeds_bind tokens _ _ _ _
      (parse_block_proceeds tokens hT fuel pos2 h4 (by omega)) (fun body pos3 h5 h6 => ?_)
    refine moves_bind tokens _ _ _ _
      (expect_token_moves tokens hT closing hne pos3 h6) (fun pos4 h7 h8 => ?_)
    exact proceeds_pure tokens _ _ _ (by omega) h8
  split
  · obtain ⟨pos1, he, h1, h2⟩ := advance_token_any tokens pos hpos
    rw [he]
    exact proceeds_bind tokens _ _ _ _
      (parse_local_decls_proceeds tokens hT fuel fuel [] pos1 h2 (by omega) (by omega))
      (fun decls pos2 h3 h4 => hjp decls pos2 (by omega) h4)
  · exact hjp [] pos (Nat.le_refl _) hpos

theorem parse_function_proceeds (tokens : List Token) (hT : ends_in_eof tokens)
    (fuel pos : Nat) (hpos : pos < tokens.length)
    (hfuel : 10 * (tokens.length - pos) + 300 ≤ fuel) :
    proceeds tokens (pos + 1) (parse_function fuel ⟨tokens, pos⟩) := by
  unfold parse_function
  refine moves_bind tokens _ _ _ _
    (expect_token_moves tokens hT TOK_FUNCTION (by decide) pos hpos) (fun pos1 h1 h2 => ?_)
  refine moves_bind tokens _ _ _ _
    (expect_token_moves tokens hT TOK_IDENTIFIER (by decide) pos1 h2) (fun pos2 h3 h4 => ?_)
  refine moves_bind tokens _ _ _ _
    (parse_header_parameters_moves tokens hT _ (by decide) _ fuel pos2 h4 (by omega))
    (fun pos3 h5 h6 => ?_)
  refine moves_bind tokens _ _ _ _
    (expect_token_moves tokens hT TOK_COLON (by decide) pos3 h6) (fun pos4 h7 h8 => ?_)
  obtain ⟨pos5, he, h9, h10⟩ := advance_token_any tokens pos4 h8
  simp only [he]
  refine proceeds_bind tokens _ _ _ _
    (parse_interface_proceeds tokens hT _ fuel pos5 h10 (by omega))
    (fun parameters pos6 h11 h12 => ?_)
  refine proceeds_bind tokens _ _ _ _
    (parse_subroutine_rest_proceeds tokens hT TOK_END_FUNCTION (by decide) fuel pos6 h12
      (by omega)) (fun rest pos7 h13 h14 => ?_)
  exact proceeds_pure tokens _ _ _ (by omega) h14

theorem parse_procedure_proceeds (tokens : List Token) (hT : ends_in_eof tokens)
    (fuel pos : Nat) (hpos : pos < tokens.length)
    (hfuel : 10 * (tokens.length - pos) + 300 ≤ fuel) :
    proceeds tokens (pos + 1) (parse_procedure fuel ⟨tokens, pos⟩) := by
  unfold parse_procedure
  refine moves_bind tokens _ _ _ _
    (expect_token_moves tokens hT TOK_PROCEDURE (by decide) pos hpos) (fun pos1 h1 h2 => ?_)
  refine moves_bind tokens _ _ _ _
    (expect_token_moves tokens hT TOK_IDENTIFIER (by decide) pos1 h2) (fun pos2 h3 h4 => ?_)
  refine moves_bind tokens _ _ _ _
    (parse_header_parameters_moves tokens hT _ (by decide) _ fuel pos2 h4 (by omega))
    (fun pos3 h5 h6 => ?_)
  refine proceeds_bind tokens _ _ _ _
    (parse_interface_proceeds tokens hT _ fuel pos3 h6 (by omega))
    (fun parameters pos4 h7 h8 => ?_)
  refine proceeds_bind tokens _ _ _ _
    (parse_subroutine_rest_proceeds tokens hT TOK_END_PROCEDURE (by decide) fuel pos4 h8
      (by omega)) (fun rest pos5 h9 h10 => ?_)
  exact proceeds_pure tokens _ _ _ (by omega) h10

theorem parse_constants_proceeds (tokens : List Token) (hT : ends_in_eof tokens)
    (fuel : Nat) :
    ∀ (n : Nat) (decls : List ASTNode) (pos : Nat), pos < tokens.length →
      10 * (tokens.length - pos) + 7 ≤ fuel → tokens.length - pos ≤ n →
      proceeds tokens pos (parse_constants fuel n decls ⟨tokens, pos⟩) := by
  intro n
  induction n with
  | zero => intro _ pos _ _ h; omega
  | succ n ih =>
    intro decls pos hpos hfuel hn
    rw [parse_constants]
    split
    · refine moves_bind tokens _ _ _ _
        (expect_token_moves tokens hT TOK_IDENTIFIER (by decide) pos hpos)
        (fun pos1 h1 h2 => ?_)
      refine moves_bind tokens _ _ _ _
        (expect_token_moves tokens hT TOK_EQUALS (by decide) pos1 h2) (fun pos2 h3 h4 => ?_)
      refine proceeds_bind tokens _ _ _ _
        (parse_expression_proceeds tokens hT fuel pos2 h4 (by omega))
        (fun value pos3 h5 h6 => ?_)
      dsimp only
      split
      · exact proceeds_error tokens _ _ (fun h => by cases h) (fun h => by cases h)
      · refine moves_bind tokens _ _ _ _
          (expect_token_moves tokens hT TOK_SEMICOLON (by decide) pos3 h6)
          (fun pos4 h7 h8 => ?_)
        exact proceeds_mono tokens _ _ _ (by omega) (ih _ pos4 h8 (by omega) (by omega))
    · exact proceeds_ok tokens _ _ _ (Nat.le_refl _) hpos

theorem parse_bounds_proceeds (tokens : List Token) (hT : ends_in_eof tokens) (fuel : Nat) :
    ∀ (n num_dims pos : Nat), pos < tokens.length →
      10 * (tokens.length - pos) + 7 ≤ fuel → tokens.length - pos ≤ n →
      proceeds tokens (pos + 1) (parse_bounds fuel n num_dims ⟨tokens, pos⟩) := by
  intro n
  induction n with
  | zero => intro _ pos _ _ h; omega
  | succ n ih =>
    intro num_dims pos hpos hfuel hn
    rw [parse_bounds]
    refine proceeds_bind tokens _ _ _ _
      (parse_expression_proceeds tokens hT fuel pos hpos hfuel) (fun start_expr pos1 h1 h2 => ?_)
    dsimp only
    split
    · exact proceeds_error tokens _ _ (fun h => by cases h) (fun h => by cases h)
    · refine moves_bind tokens _ _ _ _
        (expect_token_moves tokens hT TOK_DOT (by decide) pos1 h2) (fun pos2 h3 h4 => ?_)
      refine proceeds_bind tokens _ _ _ _
        (parse_expression_proceeds tokens hT fuel pos2 h4 (by omega))
        (fun end_expr pos3 h5 h6 => ?_)
      dsimp only
      by_cases hc : match_token TOK_COMMA ⟨tokens, pos3⟩ = true
      · obtain ⟨he, hlt⟩ := advance_token_match tokens hT _ (by decide) pos3 h6 hc
        rw [if_pos hc, he]
        refine proceeds_bind tokens _ _ _ _ (ih _ (pos3 + 1) hlt (by omega) (by omega))
          (fun rest pos4 h7 h8 => ?_)
        exact proceeds_pure tokens _ _ _ (by omega) h8
      · rw [if_neg hc]
        exact proceeds_pure tokens _ _ _ (by omega) h6

theorem parse_variable_type_proceeds (tokens : List Token) (hT : ends_in_eof tokens)
    (fuel pos : Nat) (hpos : pos < tokens.length)
    (hfuel : 10 * (tokens.length - pos) + 7 ≤ fuel) :
    proceeds tokens (pos + 1) (parse_variable_type fuel ⟨tokens, pos⟩) := by
  unfold parse_variable_type
  split
  · obtain ⟨pos0, he, h01, h02⟩ := advance_token_any tokens pos hpos
    rw [he]
    refine moves_bind tokens _ _ _ _
      (expect_token_moves tokens hT TOK_LEFT_BRACKET (by decide) pos0 h02)
      (fun pos1 h1 h2 => ?_)
    refine proceeds_bind tokens _ _ _ _
      (parse_bounds_proceeds tokens hT fuel fuel 0 pos1 h2 (by omega) (by omega))
      (fun bounds pos2 h3 h4 => ?_)
    refine moves_bind tokens _ _ _ _
      (expect_token_moves tokens hT TOK_RIGHT_BRACKET (by decide) pos2 h4)
      (fun pos3 h5 h6 => ?_)
    refine moves_bind tokens _ _ _ _
      (expect_token_moves tokens hT TOK_OF (by decide) pos3 h6) (fun pos4 h7 h8 => ?_)
    refine proceeds_bind tokens _ _ _ _
      (parse_type_name_proceeds tokens hT _ pos4 h8) (fun base_type pos5 h9 h10 => ?_)
    exact proceeds_pure tokens _ _ _ (by omega) h10
  · refine proceeds_bind tokens _ _ _ _
      (parse_type_name_proceeds tokens hT _ pos hpos) (fun base_type pos1 h1 h2 => ?_)
    exact proceeds_pure tokens _ _ _ (by omega) h2

theorem parse_data_proceeds (tokens : List Token) (hT : ends_in_eof tokens) (fuel : Nat) :
    ∀ (n : Nat) (decls : List ASTNode) (pos : Nat), pos < tokens.length →
      10 * (tokens.length - pos) + 7 ≤ fuel → tokens.length - pos ≤ n →
      proceeds tokens pos (parse_data fuel n decls ⟨tokens, pos⟩) := by
  intro n
  induction n with
  | zero => intro _ pos _ _ h; omega
  | succ n ih =>
    intro decls pos hpos hfuel hn
    rw [parse_data]
    split
    · refine proceeds_bind tokens _ _ _ _
        (parse_names_proceeds tokens hT fuel pos hpos (by omega)) (fun names pos1 h1 h2 => ?_)
      refine moves_bind tokens _ _ _ _
        (expect_token_moves tokens hT TOK_COLON (by decide) pos1 h2) (fun pos2 h3 h4 => ?_)
      refine proceeds_bind tokens _ _ _ _
        (parse_variable_type_proceeds tokens hT fuel pos2 h4 (by omega))
        (fun type pos3 h5 h6 => ?_)
      refine moves_bind tokens _ _ _ _
        (expect_token_moves tokens hT TOK_SEMICOLON (by decide) pos3 h6) (fun pos4 h7 h8 => ?_)
      exact proceeds_mono tokens _ _ _ (by omega) (ih _ pos4 h8 (by omega) (by omega))
    · exact proceeds_ok tokens _ _ _ (Nat.le_refl _) hpos

theorem parse_subroutines_proceeds (tokens : List Token) (hT : ends_in_eof tokens)
    (fuel : Nat) :
    ∀ (n : Nat) (decls : List ASTNode) (pos : Nat), pos < tokens.length →
      10 * (tokens.length - pos) + 300 ≤ fuel → tokens.length - pos ≤ n →
      proceeds tokens pos (parse_subroutines fuel n decls ⟨tokens, pos⟩) := by
  intro n
  induction n with
  | zero => intro _ pos _ _ h; omega
  | succ n ih =>
    intro decls pos hpos hfuel hn
    rw [parse_subroutines]
    split
    · refine proceeds_bind tokens _ _ _ _
        (parse_function_proceeds tokens hT fuel pos hpos hfuel) (fun decl pos1 h1 h2 => ?_)
      exact proceeds_mono tokens _ _ _ (by omega) (ih _ pos1 h2 (by omega) (by omega))
    split
    · refine proceeds_bind tokens _ _ _ _
        (parse_procedure_proceeds tokens hT fuel pos hpos hfuel) (fun decl pos1 h1 h2 => ?_)
      exact proceeds_mono tokens _ _ _ (by omega) (ih _ pos1 h2 (by omega) (by omega))
    · exact proceeds_ok tokens _ _ _ (Nat.le_refl _) hpos

theorem parse_program_proceeds (tokens : List Token) (hT : ends_in_eof tokens)
    (fuel pos : Nat) (hpos : pos < tokens.length)
    (hfuel : 10 * (tokens.length - pos) + 300 ≤ fuel) :
    proceeds tokens (pos + 1) (parse_program fuel ⟨tokens, pos⟩) := by
  unfold parse_program
  refine moves_bind tokens _ _ _ _
    (expect_token_moves tokens hT TOK_ALGORITHM (by decide) pos hpos) (fun pos1 h1 h2 => ?_)
  refine moves_bind tokens _ _ _ _
    (expect_token_moves tokens hT TOK_IDENTIFIER (by decide) pos1 h2) (fun pos2 h3 h4 => ?_)
  dsimp -zeta only
  lift_lets
  intro jp1 jp2
  have hjp1 : ∀ (vars : List ASTNode) (pos4 : Nat), pos2 ≤ pos4 → pos4 < tokens.length →
      proceeds tokens (pos + 1) (jp1 (vars, ⟨tokens, pos4⟩)) := by
    intro vars pos4 h5 h6
    refine proceeds_bind tokens _ _ _ _
      (parse_subroutines_proceeds tokens hT fuel fuel vars pos4 h6 (by omega) (by omega))
      (fun declarations pos5 h7 h8 => ?_)
    refine moves_bind tokens _ _ _ _
      (expect_token_moves tokens hT TOK_BEGIN (by decide) pos5 h8) (fun pos6 h9 h10 => ?_)
    refine proceeds_bind tokens _ _ _ _
      (parse_block_proceeds tokens hT fuel pos6 h10 (by omega)) (fun body pos7 h11 h12 => ?_)
    refine moves_bind tokens _ _ _ _
      (expect_token_moves tokens hT TOK_END (by decide) pos7 h12) (fun pos8 h13 h14 => ?_)
    exact proceeds_pure tokens _ _ _ (by omega) h14
  have hjp2 : ∀ (constants : List ASTNode) (pos3 : Nat), pos2 ≤ pos3 → pos3 < tokens.length →
      proceeds tokens (pos + 1) (jp2 (constants, ⟨tokens, pos3⟩)) := by
    intro constants pos3 h5 h6
    dsimp only [jp2]
    split
    · obtain ⟨pos4, he, h7, h8⟩ := advance_token_any tokens pos3 h6
      rw [he]
      exact proceeds_bind tokens _ _ _ _
        (parse_data_proceeds tokens hT fuel fuel constants pos4 h8 (by omega) (by omega))
        (fun vars pos5 h9 h10 => hjp1 vars pos5 (by omega) h10)
    · exact hjp1 constants pos3 h5 h6
  split
  · obtain ⟨pos3, he, h5, h6⟩ := advance_token_any tokens pos2 h4
    rw [he]
    exact proceeds_bind tokens _ _ _ _
      (parse_constants_proceeds tokens hT fuel fuel [] pos3 h6 (by omega) (by omega))
      (fun constants pos4 h7 h8 => hjp2 constants pos4 (by omega) h8)
  · exact hjp2 [] pos2 (Nat.le_refl _) h4
theorem tokenize_ends_in_eof (code : List Nat) (tokens : List Token)
    (h : tokenize code = .ok tokens) : ends_in_eof tokens := by
  have hs := tokenize_loop_spec (fun _ => True) (fun _ _ _ => trivial)
    (fun _ _ _ _ _ => trivial) (fun _ _ _ _ _ => trivial) (fun _ _ _ _ => trivial)
    (fun _ _ _ _ _ => trivial) (code.length + 1) code 1 1 [] (by omega)
    (fun t ht => by simp at ht)
  rcases hs with ⟨e, he, _⟩ | ⟨init, line, col, hr, _⟩
  · rw [tokenize, he] at h
    cases h
  · rw [tokenize, hr] at h
    cases h
    exact ⟨init, line, col, rfl⟩

/-- On the tokens of a text `parse_program` returns or stops. -/
theorem parse_program_of_tokenize (code : List Nat) (tokens : List Token)
    (h : tokenize code = .ok tokens) :
    proceeds tokens 1 (parse_program (parse_fuel tokens) ⟨tokens, 0⟩) := by
  have hT := tokenize_ends_in_eof code tokens h
  have hlen : 0 < tokens.length := by
    obtain ⟨init, line, col, rfl⟩ := hT
    simp
  exact parse_program_proceeds tokens hT (parse_fuel tokens) 0 hlen
    (by unfold parse_fuel; omega)

theorem parse_source_error (code : List Nat) (e : ParseError)
    (h : parse_source code = some (.error e)) : e ≠ .out_of_fuel ∧ e ≠ .read_past_end := by
  unfold parse_source at h
  cases ht : tokenize code with
  | error x => rw [ht] at h; cases h
  | ok tokens =>
    have hp := parse_program_of_tokenize code tokens ht
    rw [ht] at h
    have h2 : (parse_program (parse_fuel tokens) ⟨tokens, 0⟩).map Prod.fst = .error e :=
      Option.some.inj h
    cases hr : parse_program (parse_fuel tokens) ⟨tokens, 0⟩ with
    | error x =>
      rw [hr] at h2 hp
      cases h2
      exact hp
    | ok r =>
      rw [hr] at h2
      cases h2

theorem stopped_eq (r : Option (Except ParseError ASTNode)) (e : ParseError)
    (h : stopped r = some e) : r = some (.error e) := by
  unfold stopped at h
  split at h
  · cases h
    rfl
  · cases h

/-- C23: on the tokens of any text `parse_program` returns a tree or stops: the bound on
the iterations of its loops is never reached, so every loop consumes a token or stops, and
the token that `parse_statement` looks at after an identifier is always one the lexer
wrote.  It does not always stop with a syntax error: in a declaration of an array of eleven
dimensions it stores the bounds of the eleventh past the end of `array_bound_exprs`, while
ten dimensions parse to a tree. -/
theorem C23_parse_program_returns_or_overruns_array_bounds :
    (∀ code : List Nat,
      parse_source code ≠ some (.error .out_of_fuel) ∧
      parse_source code ≠ some (.error .read_past_end)) ∧
    parse_source eleven_dimensions = some (.error .bounds_overrun) ∧
    (parse_source ten_dimensions).bind declared_dimensions = some 10 := by
  refine ⟨fun code => ⟨fun h => (parse_source_error code _ h).1 rfl,
    fun h => (parse_source_error code _ h).2 rfl⟩, ?_, ?_⟩
  · exact stopped_eq _ _ (by decide!)
  · decide!

/-! ## Equality of operands that are not numbers -/

theorem to_real_of_not_numeric (v : RuntimeValue) (h : ¬ is_numeric v) : to_real v = 0 := by
  cases v with
  | VAL_INT n => exact absurd (Or.inl ⟨n, rfl⟩) h
  | VAL_REAL r => exact absurd (Or.inr ⟨r, rfl⟩) h
  | _ => rfl

theorem binary_op_equals (l r : RuntimeValue) :
    binary_op "=" l r = .ok (VAL_BOOL (to_real l == to_real r)) := by
  simp [binary_op]
  rfl

theorem binary_op_not_equals (l r : RuntimeValue) :
    binary_op "<>" l r = .ok (VAL_BOOL (to_real l != to_real r)) := by
  simp [binary_op]
  rfl

/-- C37: when both operands evaluate to values that are neither integers nor reals
(booleans, strings), `=` evaluates to TRUE and `<>` to FALSE, whatever the two values are:
each such operand is compared as the number zero. -/
theorem C37_equality_of_non_numeric_operands (fuel : Nat) (left right : ASTNode)
    (st st1 st2 : State) (l r : RuntimeValue)
    (hl : evaluate fuel left st = .ok (l, st1)) (hr : evaluate fuel right st1 = .ok (r, st2))
    (hnl : ¬ is_numeric l) (hnr : ¬ is_numeric r) :
    evaluate (fuel + 1) (AST_BINARY_OP "=" left right) st = .ok (VAL_BOOL true, st2) ∧
    evaluate (fuel + 1) (AST_BINARY_OP "<>" left right) st = .ok (VAL_BOOL false, st2) := by
  rw [evaluate_binary_op fuel "=" left right st st1 st2 l r hl hr,
    evaluate_binary_op fuel "<>" left right st st1 st2 l r hl hr, binary_op_equals,
    binary_op_not_equals, to_real_of_not_numeric l hnl, to_real_of_not_numeric r hnr]
  exact ⟨rfl, rfl⟩

theorem C37_witness :
    evaluate 2 (AST_BINARY_OP "=" (AST_LITERAL (VAL_BOOL true)) (AST_LITERAL (VAL_BOOL false)))
        scenario_a_state = .ok (VAL_BOOL true, scenario_a_state) ∧
      evaluate 2 (AST_BINARY_OP "<>" (AST_LITERAL (VAL_STRING "a")) (AST_LITERAL (VAL_STRING "b")))
        scenario_a_state = .ok (VAL_BOOL false, scenario_a_state) :=
  ⟨(C37_equality_of_non_numeric_operands 1 (AST_LITERAL (VAL_BOOL true))
      (AST_LITERAL (VAL_BOOL false)) scenario_a_state scenario_a_state
      scenario_a_state (VAL_BOOL true) (VAL_BOOL false) rfl rfl
      (fun h => by rcases h with ⟨n, h⟩ | ⟨n, h⟩ <;> cases h)
      (fun h => by rcases h with ⟨n, h⟩ | ⟨n, h⟩ <;> cases h)).1,
    (C37_equality_of_non_numeric_operands 1 (AST_LITERAL (VAL_STRING "a"))
      (AST_LITERAL (VAL_STRING "b")) scenario_a_state scenario_a_state
      scenario_a_state (VAL_STRING "a") (VAL_STRING "b") rfl rfl
      (fun h => by rcases h with ⟨n, h⟩ | ⟨n, h⟩ <;> cases h)
      (fun h => by rcases h with ⟨n, h⟩ | ⟨n, h⟩ <;> cases h)).2⟩

/-! ## Integer division and remainder -/

theorem foldlM_last (f : State → Int → Except Fault State) (vs : List Int) (v : Int)
    (st st' : State) (h : (vs ++ [v]).foldlM f st = .ok st') :
    ∃ s, vs.foldlM f st = .ok s ∧ f s v = .ok st' := by
  rw [List.foldlM_append] at h
  simp only [bind_eq_ok] at h
  obtain ⟨s, h1, h2⟩ := h
  refine ⟨s, h1, ?_⟩
  simp only [List.foldlM_cons, List.foldlM_nil, bind_eq_ok] at h2
  obtain ⟨s2, h3, h4⟩ := h2
  cases h4
  exact h3

/-- C38: the counter of a for loop is a variable of its own.  Whatever the body does, also
to the loop variable, the loop runs the body once for each of the `n` values of the counter
that pass the test, and each iteration starts by assigning the counter to the loop
variable.  A loop of zero iterations returns the state in which the step was evaluated, so
the loop variable is untouched.  After at least one iteration with a body that leaves the
value of the loop variable as it is, the variable holds the last value of the counter for
which the body ran, not that value plus the step. -/
theorem C38_for_loop_counter_is_independent (fuel : Nat) (loop_variable : String)
    (start end_ step : ASTNode) (body : List ASTNode) (st st1 st2 st3 : State)
    (start_val end_val step_val : RuntimeValue)
    (hs : evaluate fuel start st = .ok (start_val, st1))
    (he : evaluate fuel end_ st1 = .ok (end_val, st2))
    (ht : evaluate fuel step st2 = .ok (step_val, st3))
    (n : Nat) (hn : n ≤ fuel)
    (hpass : ∀ k, k < n → for_loop_test (to_int end_val) (to_int step_val)
      (for_loop_counter (to_int start_val) (to_int step_val) k))
    (hfail : ¬ for_loop_test (to_int end_val) (to_int step_val)
      (for_loop_counter (to_int start_val) (to_int step_val) n)) :
    execute_statement (fuel + 1) (AST_FOR loop_variable start end_ step body) st =
      ((List.range n).map (for_loop_counter (to_int start_val) (to_int step_val))).foldlM
        (fun s v => execute_statements (execute_statement fuel) body
          { s with env := env_assign s.env loop_variable (VAL_INT v) }) st3 ∧
    (n = 0 →
      execute_statement (fuel + 1) (AST_FOR loop_variable start end_ step body) st = .ok st3) ∧
    (0 < n →
      (∀ s s', execute_statements (execute_statement fuel) body s = .ok s' →
        env_get s'.env loop_variable = env_get s.env loop_variable) →
      ∀ st', execute_statement (fuel + 1) (AST_FOR loop_variable start end_ step body) st =
          .ok st' →
        env_get st'.env loop_variable =
          .ok (VAL_INT (for_loop_counter (to_int start_val) (to_int step_val) (n - 1)))) := by
  have htrace : execute_statement (fuel + 1) (AST_FOR loop_variable start end_ step body) st =
      ((List.range n).map (for_loop_counter (to_int start_val) (to_int step_val))).foldlM
        (for_loop_iteration (execute_statement fuel) loop_variable body) st3 := by
    simp only [execute_statement, hs, he, ht, bind, Except.bind]
    unfold for_loop_test at hpass hfail
    by_cases hp : to_int step_val > 0
    · simp only [if_pos hp] at hpass hfail ⊢
      exact for_loop_up_trace _ _ _ _ _ n _ _ _ (by omega) hpass hfail
    · simp only [if_neg hp] at hpass hfail ⊢
      exact for_loop_down_trace _ _ _ _ _ n _ _ _ (by omega) hpass hfail
  refine ⟨htrace, fun h0 => ?_, fun hpos hkeep st' hrun => ?_⟩
  · rw [htrace, h0]
    rfl
  · obtain ⟨m, rfl⟩ : ∃ m, n = m + 1 := ⟨n - 1, by omega⟩
    rw [htrace, List.range_succ, List.map_append, List.map_singleton] at hrun
    obtain ⟨s, -, hlast⟩ := foldlM_last _ _ _ _ _ hrun
    rw [hkeep _ _ hlast, env_get_env_assign]
    simp

theorem C38_witness :
    output_and_value (execute_statement 4 printing_loop scenario_b_state) "i" =
        .ok ([.text "1", .text "\n", .text "2", .text "\n", .text "3", .text "\n"],
          .ok (VAL_INT 3)) ∧
      output_and_value (execute_statement 4 assigning_loop scenario_b_state) "i" =
        .ok ([.text "1", .text "\n", .text "2", .text "\n", .text "3", .text "\n"],
          .ok (VAL_INT 10)) ∧
      ∀ st', execute_statement 4 printing_loop scenario_b_state = .ok st' →
        env_get st'.env "i" = .ok (VAL_INT 3) :=
  ⟨by decide, by decide,
    (C38_for_loop_counter_is_independent 3 "i" (int_literal 1) (int_literal 3) (int_literal 1)
      [AST_PRINT [AST_IDENTIFIER "i", AST_IDENTIFIER "EOLN"]]
      scenario_b_state scenario_b_state scenario_b_state scenario_b_state
      (VAL_INT 1) (VAL_INT 3) (VAL_INT 1) rfl rfl rfl 3 (by decide) (by decide) (by decide)).2.2
      (by decide) (fun s s' h => by
        simp only [execute_statements, execute_statement, print_loop, evaluate, bind_eq_ok,
          pure_eq_ok, Prod.mk.injEq, Except.ok.injEq] at h
        obtain ⟨s1, ⟨⟨v1, s2⟩, ⟨w1, -, -, rfl⟩, ⟨v2, s3⟩, ⟨w2, -, -, rfl⟩, rfl⟩, rfl⟩ := h
        rw [print_value_env, print_value_env])⟩

/-! ## More fuel changes no run that ended -/

theorem bind_settled {α β : Type} (x x' : Except Fault α) (f f' : α → Except Fault β)
    (hx : settled x → x' = x) (hf : ∀ a, x = .ok a → settled (f a) → f' a = f a) :
    settled (x >>= f) → (x' >>= f') = (x >>= f) := by
  intro h
  cases hxv : x with
  | error e =>
    rw [hxv] at h hx
    have he : settled (Except.error e : Except Fault α) := by
      intro hc
      cases hc
      exact h rfl
    rw [hx he]
    rfl
  | ok a =>
    rw [hxv] at h hx
    rw [hx (fun hc => by cases hc)]
    exact hf a hxv h

theorem ite_settled {α : Type} (c : Prop) [Decidable c] (a a' b b' : Except Fault α)
    (ha : c → settled a → a' = a) (hb : ¬ c → settled b → b' = b) :
    settled (if c then a else b) → (if c then a' else b') = if c then a else b := by
  by_cases hc : c
  · rw [if_pos hc, if_pos hc]
    exact ha hc
  · rw [if_neg hc, if_neg hc]
    exact hb hc

theorem evaluate_indices_le (ev ev' : Eval) (h : eval_le ev ev') (es : List ASTNode) :
    ∀ (i : Nat) (st : State), settled (evaluate_indices ev i es st) →
      evaluate_indices ev' i es st = evaluate_indices ev i es st := by
  induction es with
  | nil => intro i st _; rfl
  | cons e es ih =>
    intro i st
    simp only [evaluate_indices]
    refine bind_settled _ _ _ _ (h e st) (fun ⟨idx, st1⟩ _ => ?_)
    dsimp only
    refine ite_settled _ _ _ _ _ (fun _ _ => rfl) (fun _ => ?_)
    exact bind_settled _ _ _ _ (ih (i + 1) st1) (fun _ _ _ => rfl)

theorem execute_statements_le (ex ex' : Exec) (h : exec_le ex ex') (stmts : List ASTNode) :
    ∀ (st : State), settled (execute_statements ex stmts st) →
      execute_statements ex' stmts st = execute_statements ex stmts st := by
  induction stmts with
  | nil => intro st _; rfl
  | cons s rest ih =>
    intro st
    simp only [execute_statements]
    exact bind_settled _ _ _ _ (h s st) (fun st1 _ => ih st1)

theorem in_caller_env_le {α : Type} (m m' : State → Except Fault (α × State))
    (h : ∀ st, settled (m st) → m' st = m st) (st : State) :
    settled (in_caller_env m st) → in_caller_env m' st = in_caller_env m st := by
  unfold in_caller_env
  cases st.env with
  | root entries => intro _; rfl
  | child entries parent =>
    dsimp only
    exact bind_settled _ _ _ _ (h _) (fun _ _ _ => rfl)

theorem bind_parameter_le (ev ev' : Eval) (h : eval_le ev ev') (param : Parameter)
    (arg : ASTNode) (st : State) :
    settled (bind_parameter ev param arg st) →
      bind_parameter ev' param arg st = bind_parameter ev param arg st := by
  have hregular : settled (in_caller_env (ev arg) st >>= fun r =>
        (pure { r.2 with env := env_define r.2.env param.name r.1 } : Except Fault State)) →
      (in_caller_env (ev' arg) st >>= fun r =>
        (pure { r.2 with env := env_define r.2.env param.name r.1 } : Except Fault State)) =
      (in_caller_env (ev arg) st >>= fun r =>
        (pure { r.2 with env := env_define r.2.env param.name r.1 } : Except Fault State)) :=
    bind_settled _ _ _ _ (in_caller_env_le _ _ (h arg) st) (fun _ _ _ => rfl)
  unfold bind_parameter
  cases arg with
  | AST_IDENTIFIER name =>
    dsimp only
    refine bind_settled _ _ _ _ (fun _ => rfl) (fun env _ => ?_)
    refine bind_settled _ _ _ _ (fun _ => rfl) (fun potential_array _ => ?_)
    cases potential_array <;> first | exact fun _ => rfl | exact hregular
  | _ => exact hregular

theorem bind_parameters_le (ev ev' : Eval) (h : eval_le ev ev') (params : List Parameter) :
    ∀ (args : List ASTNode) (st : State), settled (bind_parameters ev params args st) →
      bind_parameters ev' params args st = bind_parameters ev params args st := by
  induction params with
  | nil => intro args st _; rfl
  | cons param params ih =>
    intro args st
    cases args with
    | nil => intro _; rfl
    | cons arg args =>
      simp only [bind_parameters]
      exact bind_settled _ _ _ _ (bind_parameter_le ev ev' h param arg st) (fun st1 _ => ih args st1)

theorem copy_back_element_le (ev ev' : Eval) (h : eval_le ev ev') (param : Parameter)
    (name : String) (indices : List ASTNode) (st : State) :
    settled (copy_back_element ev param name indices st) →
      copy_back_element ev' param name indices st =
        copy_back_element ev param name indices st := by
  unfold copy_back_element
  refine bind_settled _ _ _ _ (fun _ => rfl) (fun env _ => ?_)
  refine bind_settled _ _ _ _ (fun _ => rfl) (fun arr_val _ => ?_)
  cases arr_val <;> first
    | exact fun _ => rfl
    | exact bind_settled _ _ _ _
        (in_caller_env_le _ _ (fun s => evaluate_indices_le ev ev' h indices 0 s) st)
        (fun _ _ _ => rfl)

theorem copy_back_procedure_step_le (ev ev' : Eval) (h : eval_le ev ev') (param : Parameter)
    (arg : ASTNode) (st : State) :
    settled (copy_back_procedure_step ev param arg st) →
      copy_back_procedure_step ev' param arg st = copy_back_procedure_step ev param arg st := by
  unfold copy_back_procedure_step
  refine ite_settled _ _ _ _ _ (fun _ => ?_) (fun _ _ => rfl)
  refine bind_settled _ _ _ _ (fun _ => rfl) (fun sub_val _ => ?_)
  cases sub_val <;> first
    | exact fun _ => rfl
    | (cases arg <;> first
        | exact fun _ => rfl
        | exact copy_back_element_le ev ev' h param _ _ st)

theorem copy_back_procedure_le (ev ev' : Eval) (h : eval_le ev ev') (params : List Parameter) :
    ∀ (args : List ASTNode) (st : State), settled (copy_back_procedure ev params args st) →
      copy_back_procedure ev' params args st = copy_back_procedure ev params args st := by
  induction params with
  | nil => intro args st _; rfl
  | cons param params ih =>
    intro args st
    cases args with
    | nil => intro _; rfl
    | cons arg args =>
      simp only [copy_back_procedure]
      exact bind_settled _ _ _ _ (copy_back_procedure_step_le ev ev' h param arg st)
        (fun st1 _ => ih args st1)

theorem print_loop_le (ev ev' : Eval) (h : eval_le ev ev') (es : List ASTNode) :
    ∀ (i : Nat) (st : State), settled (print_loop ev i es st) →
      print_loop ev' i es st = print_loop ev i es st := by
  induction es with
  | nil => intro i st _; rfl
  | cons e es ih =>
    intro i st
    simp only [print_loop]
    exact bind_settled _ _ _ _ (h e st) (fun r _ => ih (i + 1) _)

theorem read_loop_le (ev ev' : Eval) (h : eval_le ev ev') (vars : List ASTNode) :
    ∀ (st : State), settled (read_loop ev vars st) →
      read_loop ev' vars st = read_loop ev vars st := by
  induction vars with
  | nil => intro st _; rfl
  | cons var vars ih =>
    intro st
    simp only [read_loop]
    cases fgets 256 st.stdin with
    | none => intro _; rfl
    | some r =>
      dsimp only
      cases var with
      | AST_ARRAY_ACCESS name indices =>
        dsimp only
        refine bind_settled _ _ _ _ (fun _ => rfl) (fun arr_val _ => ?_)
        cases arr_val with
        | VAL_ARRAY a =>
          dsimp only
          refine bind_settled _ _ _ _ (evaluate_indices_le ev ev' h _ 0 _) (fun _ _ => ?_)
          refine bind_settled _ _ _ _ (fun _ => rfl) (fun _ _ => ?_)
          exact bind_settled _ _ _ _ (fun _ => rfl) (fun st1 _ => ih st1)
        | _ => exact ih _
      | _ => exact ih _

theorem for_loop_up_le (ex ex' : Exec) (h : exec_le ex ex') (loop_variable : String)
    (body : List ASTNode) (end_ step : Int) :
    ∀ (n n' : Nat), n ≤ n' → ∀ (current : Int) (st : State),
      settled (for_loop_up ex loop_variable body end_ step n current st) →
      for_loop_up ex' loop_variable body end_ step n' current st =
        for_loop_up ex loop_variable body end_ step n current st := by
  intro n
  induction n with
  | zero => intro n' _ current st hs; exact absurd rfl hs
  | succ n ih =>
    intro n' hn current st
    obtain ⟨m, rfl⟩ : ∃ m, n' = m + 1 := ⟨n' - 1, by omega⟩
    simp only [for_loop_up]
    refine ite_settled _ _ _ _ _ (fun _ => ?_) (fun _ _ => rfl)
    exact bind_settled _ _ _ _ (execute_statements_le ex ex' h body _)
      (fun st2 _ => ih m (by omega) _ st2)

theorem for_loop_down_le (ex ex' : Exec) (h : exec_le ex ex') (loop_variable : String)
    (body : List ASTNode) (end_ step : Int) :
    ∀ (n n' : Nat), n ≤ n' → ∀ (current : Int) (st : State),
      settled (for_loop_down ex loop_variable body end_ step n current st) →
      for_loop_down ex' loop_variable body end_ step n' current st =
        for_loop_down ex loop_variable body end_ step n current st := by
  intro n
  induction n with
  | zero => intro n' _ current st hs; exact absurd rfl hs
  | succ n ih =>
    intro n' hn current st
    obtain ⟨m, rfl⟩ : ∃ m, n' = m + 1 := ⟨n' - 1, by omega⟩
    simp only [for_loop_down]
    refine ite_settled _ _ _ _ _ (fun _ => ?_) (fun _ _ => rfl)
    exact bind_settled _ _ _ _ (execute_statements_le ex ex' h body _)
      (fun st2 _ => ih m (by omega) _ st2)

theorem while_loop_le (ev ev' : Eval) (ex ex' : Exec) (hev : eval_le ev ev')
    (hex : exec_le ex ex') (condition : ASTNode) (body : List ASTNode) :
    ∀ (n n' : Nat), n ≤ n' → ∀ (st : State),
      settled (while_loop ev ex condition body n st) →
      while_loop ev' ex' condition body n' st = while_loop ev ex condition body n st := by
  intro n
  induction n with
  | zero => intro n' _ st hs; exact absurd rfl hs
  | succ n ih =>
    intro n' hn st
    obtain ⟨m, rfl⟩ : ∃ m, n' = m + 1 := ⟨n' - 1, by omega⟩
    simp only [while_loop]
    refine bind_settled _ _ _ _ (hev condition st) (fun ⟨cond, st1⟩ _ => ?_)
    dsimp only
    refine ite_settled _ _ _ _ _ (fun _ _ => rfl) (fun _ => ?_)
    exact bind_settled _ _ _ _ (execute_statements_le ex ex' hex body _)
      (fun st2 _ => ih m (by omega) st2)

theorem repeat_until_loop_le (ev ev' : Eval) (ex ex' : Exec) (hev : eval_le ev ev')
    (hex : exec_le ex ex') (condition : ASTNode) (body : List ASTNode) :
    ∀ (n n' : Nat), n ≤ n' → ∀ (st : State),
      settled (repeat_until_loop ev ex condition body n st) →
      repeat_until_loop ev' ex' condition body n' st =
        repeat_until_loop ev ex condition body n st := by
  intro n
  induction n with
  | zero => intro n' _ st hs; exact absurd rfl hs
  | succ n ih =>
    intro n' hn st
    obtain ⟨m, rfl⟩ : ∃ m, n' = m + 1 := ⟨n' - 1, by omega⟩
    simp only [repeat_until_loop]
    refine bind_settled _ _ _ _ (execute_statements_le ex ex' hex body _) (fun st1 _ => ?_)
    refine bind_settled _ _ _ _ (hev condition st1) (fun ⟨cond, st2⟩ _ => ?_)
    dsimp only
    exact ite_settled _ _ _ _ _ (fun _ _ => rfl) (fun _ => ih m (by omega) st2)

/-- One more unit of fuel changes no run of the evaluator that ended. -/
theorem evaluator_le_succ (fuel : Nat) :
    eval_le (evaluate fuel) (evaluate (fuel + 1)) ∧
      exec_le (execute_statement fuel) (execute_statement (fuel + 1)) := by
  induction fuel with
  | zero =>
    exact ⟨fun e st hs => absurd (by simp [evaluate]) hs,
      fun s st hs => absurd (by simp [execute_statement]) hs⟩
  | succ fuel ih =>
    obtain ⟨hev, hex⟩ := ih
    constructor
    · intro e st
      cases e with
      | AST_BINARY_OP operator left right =>
        simp only [evaluate]
        refine bind_settled _ _ _ _ (hev left st) (fun ⟨l, st1⟩ _ => ?_)
        dsimp only
        exact bind_settled _ _ _ _ (hev right st1) (fun _ _ _ => rfl)
      | AST_UNARY_OP operator operand =>
        simp only [evaluate]
        exact bind_settled _ _ _ _ (hev operand st) (fun _ _ _ => rfl)
      | AST_ARRAY_ACCESS name indices =>
        simp only [evaluate]
        refine bind_settled _ _ _ _ (fun _ => rfl) (fun _ _ => ?_)
        exact bind_settled _ _ _ _ (evaluate_indices_le _ _ hev indices 0 st) (fun _ _ _ => rfl)
      | AST_CALL name arguments flag =>
        simp only [evaluate]
        refine bind_settled _ _ _ _ (fun _ => rfl) (fun function _ => ?_)
        cases function with
        | AST_FUNC_DECL fname rt parameters local_decls body =>
          dsimp only
          refine bind_settled _ _ _ _ (bind_parameters_le _ _ hev parameters arguments _)
            (fun st1 _ => ?_)
          exact bind_settled _ _ _ _ (execute_statements_le _ _ hex body _) (fun _ _ _ => rfl)
        | _ => exact fun _ => rfl
      | _ => exact fun _ => rfl
    · intro s st
      cases s with
      | AST_ASSIGN identifier indices value =>
        simp only [execute_statement]
        refine bind_settled _ _ _ _ (hev value st) (fun ⟨val, st1⟩ _ => ?_)
        dsimp only
        refine ite_settled _ _ _ _ _ (fun _ => ?_) (fun _ _ => rfl)
        refine bind_settled _ _ _ _ (fun _ => rfl) (fun arr_runtime _ => ?_)
        cases arr_runtime with
        | VAL_ARRAY a =>
          dsimp only
          exact bind_settled _ _ _ _ (evaluate_indices_le _ _ hev indices 0 st1)
            (fun _ _ _ => rfl)
        | _ => exact fun _ => rfl
      | AST_PRINT expressions =>
        simp only [execute_statement]
        exact print_loop_le _ _ hev expressions 0 st
      | AST_READ vars =>
        simp only [execute_statement]
        exact read_loop_le _ _ hev vars st
      | AST_IF condition then_branch else_branch =>
        simp only [execute_statement]
        refine bind_settled _ _ _ _ (hev condition st) (fun ⟨cond, st1⟩ _ => ?_)
        dsimp only
        refine ite_settled _ _ _ _ _ (fun _ => execute_statements_le _ _ hex then_branch st1)
          (fun _ => ?_)
        cases else_branch with
        | some stmts => exact execute_statements_le _ _ hex stmts st1
        | none => exact fun _ => rfl
      | AST_FOR loop_variable start end_ step body =>
        simp only [execute_statement]
        refine bind_settled _ _ _ _ (hev start st) (fun ⟨start_val, st1⟩ _ => ?_)
        dsimp only
        refine bind_settled _ _ _ _ (hev end_ st1) (fun ⟨end_val, st2⟩ _ => ?_)
        dsimp only
        refine bind_settled _ _ _ _ (hev step st2) (fun ⟨step_val, st3⟩ _ => ?_)
        dsimp only
        exact ite_settled _ _ _ _ _
          (fun _ => for_loop_up_le _ _ hex loop_variable body _ _ (fuel + 1) (fuel + 1 + 1)
            (by omega) _ st3)
          (fun _ => for_loop_down_le _ _ hex loop_variable body _ _ (fuel + 1) (fuel + 1 + 1)
            (by omega) _ st3)
      | AST_WHILE condition body is_repeat_until =>
        simp only [execute_statement]
        cases is_repeat_until with
        | true =>
          exact repeat_until_loop_le _ _ _ _ hev hex condition body (fuel + 1) (fuel + 1 + 1)
            (by omega) st
        | false =>
          exact while_loop_le _ _ _ _ hev hex condition body (fuel + 1) (fuel + 1 + 1)
            (by omega) st
      | AST_CALL name arguments flag =>
        simp only [execute_statement]
        refine bind_settled _ _ _ _ (fun _ => rfl) (fun subroutine _ => ?_)
        have hrun : ∀ (parameters : List Parameter) (local_decls : List LocalDecl)
            (body : List ASTNode),
            settled (bind_parameters (evaluate fuel) parameters arguments
                { st with env := call_environment st.env local_decls } >>= fun st1 =>
              execute_statements (execute_statement fuel) body st1 >>= fun st2 =>
                copy_back_procedure (evaluate fuel) parameters arguments st2 >>= fun st3 =>
                  leave_call st3) →
            (bind_parameters (evaluate (fuel + 1)) parameters arguments
                { st with env := call_environment st.env local_decls } >>= fun st1 =>
              execute_statements (execute_statement (fuel + 1)) body st1 >>= fun st2 =>
                copy_back_procedure (evaluate (fuel + 1)) parameters arguments st2 >>= fun st3 =>
                  leave_call st3) =
            (bind_parameters (evaluate fuel) parameters arguments
                { st with env := call_environment st.env local_decls } >>= fun st1 =>
              execute_statements (execute_statement fuel) body st1 >>= fun st2 =>
                copy_back_procedure (evaluate fuel) parameters arguments st2 >>= fun st3 =>
                  leave_call st3) := by
          intro parameters local_decls body
          refine bind_settled _ _ _ _ (bind_parameters_le _ _ hev parameters arguments _)
            (fun st1 _ => ?_)
          refine bind_settled _ _ _ _ (execute_statements_le _ _ hex body st1) (fun st2 _ => ?_)
          exact bind_settled _ _ _ _ (copy_back_procedure_le _ _ hev parameters arguments st2)
            (fun _ _ _ => rfl)
        cases subroutine with
        | AST_FUNC_DECL fname rt parameters local_decls body =>
          exact hrun parameters local_decls body
        | AST_PROC_DECL pname parameters local_decls body =>
          exact hrun parameters local_decls body
        | _ => exact fun _ => rfl
      | _ => exact fun _ => rfl

theorem evaluator_le (fuel fuel' : Nat) (h : fuel ≤ fuel') :
    eval_le (evaluate fuel) (evaluate fuel') ∧
      exec_le (execute_statement fuel) (execute_statement fuel') := by
  induction fuel' with
  | zero =>
    have h0 : fuel = 0 := by omega
    subst h0
    exact ⟨fun _ _ _ => rfl, fun _ _ _ => rfl⟩
  | succ m ih =>
    by_cases hm : fuel ≤ m
    · obtain ⟨h1, h2⟩ := ih hm
      obtain ⟨h3, h4⟩ := evaluator_le_succ m
      refine ⟨fun e st hs => ?_, fun s st hs => ?_⟩
      · have e1 := h1 e st hs
        rw [h3 e st (by rw [e1]; exact hs), e1]
      · have e1 := h2 s st hs
        rw [h4 s st (by rw [e1]; exact hs), e1]
    · have h0 : fuel = m + 1 := by omega
      subst h0
      exact ⟨fun _ _ _ => rfl, fun _ _ _ => rfl⟩

/-! ## Termination of for loops -/

theorem wrap32_le_int_max (n : Int) : wrap32 n ≤ 2147483647 := by
  unfold wrap32
  omega

/-- With the end at the largest `int` the test `current <= end` never fails. -/
theorem for_loop_up_to_int_max (ex : Exec) (loop_variable : String) (step : Int) :
    ∀ (n : Nat) (current : Int) (st : State), current ≤ 2147483647 →
      for_loop_up ex loop_variable [] 2147483647 step n current st = .error .out_of_fuel := by
  intro n
  induction n with
  | zero => intro current st _; rfl
  | succ n ih =>
    intro current st hc
    rw [for_loop_up, if_pos hc]
    exact ih _ _ (wrap32_le_int_max _)

/-- The iterations of a for loop over given values end, in the same way for all large
enough fuel, when the body ends in every state. -/
theorem for_loop_iterations_settle (loop_variable : String) (body : List ASTNode)
    (hbody : ∀ (s : State) (v : Int), ∃ f, settled (execute_statements (execute_statement f) body
      { s with env := env_assign s.env loop_variable (VAL_INT v) })) (vs : List Int) :
    ∀ st : State, ∃ (f1 : Nat) (r : Except Fault State), settled r ∧ ∀ f, f1 ≤ f →
      vs.foldlM (for_loop_iteration (execute_statement f) loop_variable body) st = r := by
  induction vs with
  | nil => exact fun st => ⟨0, .ok st, (fun h => by cases h), fun _ _ => rfl⟩
  | cons v vs ih =>
    intro st
    obtain ⟨fv, hv⟩ := hbody st v
    have hstable : ∀ f, fv ≤ f →
        for_loop_iteration (execute_statement f) loop_variable body st v =
          for_loop_iteration (execute_statement fv) loop_variable body st v :=
      fun f hf => execute_statements_le _ _ (evaluator_le fv f hf).2 body _ hv
    cases hr : for_loop_iteration (execute_statement fv) loop_variable body st v with
    | error e =>
      refine ⟨fv, .error e, ?_, fun f hf => ?_⟩
      · intro hc
        cases hc
        exact hv hr
      · rw [List.foldlM_cons, hstable f hf, hr]
        rfl
    | ok s' =>
      obtain ⟨f1, r, hr1, hr2⟩ := ih s'
      refine ⟨max fv f1, r, hr1, fun f hf => ?_⟩
      rw [List.foldlM_cons, hstable f (by omega), hr]
      exact hr2 f (by omega)

/-- C39: a for loop whose step evaluates to a non-zero integer, whose start is a
representable integer and whose end plus step is representable, and whose body ends in
every state, ends: with enough fuel it returns a state or stops with a fatal error of the
program, and more fuel does not change the result. -/
theorem C39_for_loop_terminates (fuel0 : Nat) (loop_variable : String)
    (start end_ step : ASTNode) (body : List ASTNode) (st st1 st2 st3 : State)
    (start_val end_val step_val : RuntimeValue)
    (hs : evaluate fuel0 start st = .ok (start_val, st1))
    (he : evaluate fuel0 end_ st1 = .ok (end_val, st2))
    (ht : evaluate fuel0 step st2 = .ok (step_val, st3))
    (hstep : to_int step_val ≠ 0) (hstart : in_int_range (to_int start_val))
    (hrepr : in_int_range (to_int end_val + to_int step_val))
    (hbody : ∀ (s : State) (v : Int), ∃ f, settled (execute_statements (execute_statement f) body
      { s with env := env_assign s.env loop_variable (VAL_INT v) })) :
    ∃ (fuel1 : Nat) (r : Except Fault State), r ≠ .error .out_of_fuel ∧
      ∀ fuel, fuel1 ≤ fuel →
        execute_statement fuel (AST_FOR loop_variable start end_ step body) st = r := by
  obtain ⟨f1, r, hr1, hr2⟩ := for_loop_iterations_settle loop_variable body hbody
    (for_loop_values (to_int start_val) (to_int end_val) (to_int step_val)) st3
  refine ⟨max (max fuel0 f1) (for_loop_count (to_int start_val) (to_int end_val)
    (to_int step_val)) + 1, r, hr1, fun fuel hf => ?_⟩
  obtain ⟨g, rfl⟩ : ∃ g, fuel = g + 1 := ⟨fuel - 1, by omega⟩
  have hle := (evaluator_le fuel0 g (by omega)).1
  have hs' : evaluate g start st = .ok (start_val, st1) := by
    rw [hle start st (by rw [hs]; exact fun h => by cases h), hs]
  have he' : evaluate g end_ st1 = .ok (end_val, st2) := by
    rw [hle end_ st1 (by rw [he]; exact fun h => by cases h), he]
  have ht' : evaluate g step st2 = .ok (step_val, st3) := by
    rw [hle step st2 (by rw [ht]; exact fun h => by cases h), ht]
  rw [← hr2 g (by omega)]
  simp only [execute_statement, hs', he', ht', bind, Except.bind]
  by_cases hp : to_int step_val > 0
  · simp only [if_pos hp]
    exact for_loop_up_eq _ _ _ _ _ hp hrepr.2 _ _ _ hstart.1 (by omega)
  · simp only [if_neg hp]
    exact for_loop_down_eq _ _ _ _ _ (by omega) hrepr.1 _ _ _ hstart.2 (by omega)

theorem C39_witness :
    ∃ (fuel1 : Nat) (r : Except Fault State), r ≠ .error .out_of_fuel ∧
      ∀ fuel, fuel1 ≤ fuel → execute_statement fuel printing_loop scenario_b_state = r :=
  C39_for_loop_terminates 1 "i" (int_literal 1) (int_literal 3) (int_literal 1)
    [AST_PRINT [AST_IDENTIFIER "i", AST_IDENTIFIER "EOLN"]]
    scenario_b_state scenario_b_state scenario_b_state scenario_b_state
    (VAL_INT 1) (VAL_INT 3) (VAL_INT 1) rfl rfl rfl (by decide) ⟨by decide, by decide⟩
    ⟨by decide, by decide⟩
    (fun s v => ⟨3, by
      simp only [settled, execute_statements, execute_statement, print_loop, evaluate]
      refine bind_ne_out_of_fuel _ _ ?_ (fun _ _ => fun h => by cases h)
      refine bind_ne_out_of_fuel _ _ ?_ (fun _ _ => ?_)
      · exact bind_ne_out_of_fuel _ _ (env_get_fuel _ _) (fun _ _ => fun h => by cases h)
      · refine bind_ne_out_of_fuel _ _ ?_ (fun _ _ => fun h => by cases h)
        exact bind_ne_out_of_fuel _ _ (env_get_fuel _ _) (fun _ _ => fun h => by cases h)⟩)

/-- A loop from the largest `int` to the largest `int` with step 1 and an empty body never
ends: whatever the fuel, the bound on the iterations is reached. -/
theorem C39_counterexample : never_ends loop_to_int_max scenario_b_state := by
  intro fuel
  cases fuel with
  | zero => rfl
  | succ g =>
    cases g with
    | zero => rfl
    | succ h =>
      simp only [loop_to_int_max, execute_statement, int_literal, evaluate, bind, Except.bind,
        copy_runtime_value, to_int]
      rw [if_pos (by decide)]
      exact for_loop_up_to_int_max _ _ _ _ _ _ (by decide)

/-! ## Conversion from the Greek code page -/

theorem greek_map_find_mem (c : Nat) (utf8 : String) :
    ∀ table : List (Nat × String), greek_map_find c table = some utf8 → (c, utf8) ∈ table := by
  intro table
  induction table with
  | nil => intro h; cases h
  | cons entry rest ih =>
    intro h
    unfold greek_map_find at h
    by_cases he : entry.1 = c
    · rw [if_pos he] at h
      cases h
      rw [← he]
      exact List.mem_cons_self _ _
    · rw [if_neg he] at h
      exact List.mem_cons_of_mem _ (ih h)

/-- Every text of the table is a sequence of two bytes: a lead byte and a continuation. -/
theorem greek_map_texts (c : Nat) (utf8 : String) (h : (c, utf8) ∈ greek_map) :
    ∃ b0 b1, c_bytes utf8 = [b0, b1] ∧ 0xC2 ≤ b0 ∧ b0 ≤ 0xDF ∧ 0x80 ≤ b1 ∧ b1 ≤ 0xBF := by
  have hall : greek_map.all (fun entry =>
      match c_bytes entry.2 with
      | [b0, b1] => 0xC2 ≤ b0 && b0 ≤ 0xDF && 0x80 ≤ b1 && b1 ≤ 0xBF
      | _ => false) = true := by decide
  have hentry := List.all_eq_true.1 hall (c, utf8) h
  dsimp only at hentry
  split at hentry
  · next b0 b1 heq =>
    simp only [Bool.and_eq_true, decide_eq_true_eq] at hentry
    exact ⟨b0, b1, heq, hentry.1.1.1, hentry.1.1.2, hentry.1.2, hentry.2⟩
  · cases hentry

theorem convert_byte_ascii (c : Nat) (h : c < 0x80) : convert_byte c = [c] := by
  unfold convert_byte
  rw [if_neg (by omega)]

theorem convert_byte_mapped (c : Nat) (utf8 : String) (h : c ≥ 0x80)
    (hfind : greek_map_find c greek_map = some utf8) : convert_byte c = c_bytes utf8 := by
  unfold convert_byte
  rw [if_pos h, hfind]

theorem convert_byte_unmapped (c : Nat) (hfind : greek_map_find c greek_map = none) :
    convert_byte c = [c] := by
  unfold convert_byte
  rw [hfind]
  split <;> rfl

theorem convert_cons (c : Nat) (content : List Nat) :
    convert_windows1253_to_utf8_new (c :: content) =
      convert_byte c ++ convert_windows1253_to_utf8_new content := by
  simp [convert_windows1253_to_utf8_new]

theorem is_valid_utf8_loop_convert :
    ∀ (content : List Nat), all_mapped content → ∀ fuel,
      (convert_windows1253_to_utf8_new content).length < fuel →
      is_valid_utf8_loop fuel (convert_windows1253_to_utf8_new content) = true := by
  intro content
  induction content with
  | nil =>
    intro _ fuel hf
    obtain ⟨f, rfl⟩ : ∃ f, fuel = f + 1 := ⟨fuel - 1, by omega⟩
    rfl
  | cons c content ih =>
    intro hall fuel hf
    have hrest : all_mapped content := fun d hd => hall d (List.mem_cons_of_mem _ hd)
    rw [convert_cons] at hf ⊢
    by_cases hc : c < 0x80
    · rw [convert_byte_ascii c hc] at hf ⊢
      obtain ⟨f, rfl⟩ : ∃ f, fuel = f + 1 := ⟨fuel - 1, by omega⟩
      simp only [List.singleton_append, List.length_cons] at hf ⊢
      rw [is_valid_utf8_loop, if_pos (by omega)]
      exact ih hrest f (by omega)
    · have hsome := hall c (List.mem_cons_self _ _) (by omega)
      obtain ⟨utf8, hfind⟩ := Option.isSome_iff_exists.1 hsome
      obtain ⟨b0, b1, hb, h1, h2, h3, h4⟩ :=
        greek_map_texts c utf8 (greek_map_find_mem c utf8 _ hfind)
      rw [convert_byte_mapped c utf8 (by omega) hfind, hb] at hf ⊢
      obtain ⟨f, rfl⟩ : ∃ f, fuel = f + 1 := ⟨fuel - 1, by omega⟩
      simp only [List.cons_append, List.nil_append, List.length_cons] at hf ⊢
      rw [is_valid_utf8_loop, if_neg (by omega), if_pos ⟨h1, h2, by simp [head_in_range, h3, h4]⟩]
      exact ih hrest f (by omega)

theorem convert_byte_filter (c : Nat) :
    (convert_byte c).filter (fun b => b < 0x80) = [c].filter (fun b => b < 0x80) := by
  by_cases hc : c < 0x80
  · rw [convert_byte_ascii c hc]
  · cases hfind : greek_map_find c greek_map with
    | none => rw [convert_byte_unmapped c hfind]
    | some utf8 =>
      obtain ⟨b0, b1, hb, h1, h2, h3, h4⟩ :=
        greek_map_texts c utf8 (greek_map_find_mem c utf8 _ hfind)
      rw [convert_byte_mapped c utf8 (by omega) hfind, hb]
      simp only [List.filter_cons, List.filter_nil]
      rw [if_neg (by simp; omega), if_neg (by simp; omega), if_neg (by simp; omega)]

/-- C35: `convert_windows1253_to_utf8_new` copies every byte below 0x80 unchanged and in
order and replaces every byte of `greek_map` by the text of its entry, two bytes of
UTF-8.  A byte from 0x80 on without an entry is kept as it is, so the buffer returned is
not always accepted by `is_valid_utf8`: the byte 0xB9 (the letter Ή of the code page) is
returned as it is and rejected, while the byte 0xA3 is the one replaced by the bytes of Ή.  The buffer is accepted whenever every byte from 0x80 on has
an entry. -/
theorem C35_bytes_without_entry_are_kept :
    (convert_windows1253_to_utf8_new [0xB9] = [0xB9] ∧ is_valid_utf8 [0xB9] = false) ∧
    convert_windows1253_to_utf8_new [0xA3] = c_bytes "Ή" ∧
    (∀ content, (∀ c, c ∈ content → c ≥ 0x80 → (greek_map_find c greek_map).isSome = true) →
      is_valid_utf8 (convert_windows1253_to_utf8_new content) = true) ∧
    (∀ content, (convert_windows1253_to_utf8_new content).filter (fun b => b < 0x80) =
      content.filter (fun b => b < 0x80)) ∧
    (∀ c utf8, c ≥ 0x80 → greek_map_find c greek_map = some utf8 →
      convert_windows1253_to_utf8_new [c] = c_bytes utf8) ∧
    (convert_windows1253_to_utf8_new win1253_algo = utf8_algo ∧
      utf8_algo = c_bytes "ΑΛΓΟΡΙΘΜΟΣ") := by
  refine ⟨⟨by decide, by decide⟩, by decide, fun content hall => ?_, fun content => ?_,
    fun c utf8 hc hfind => ?_, by decide, by decide⟩
  · exact is_valid_utf8_loop_convert content hall _ (Nat.lt_succ_self _)
  · induction content with
    | nil => rfl
    | cons c content ih =>
      rw [convert_cons, List.filter_append, convert_byte_filter, ih, ← List.filter_append]
      rfl
  · rw [convert_cons, convert_byte_mapped c utf8 hc hfind]
    simp [convert_windows1253_to_utf8_new]

/-! ## The reader on converted text -/

/-- C31: the transpiler takes a bound of an array from an integer literal or from a named
integer constant only; for every other expression, among them a negated literal and a
difference, it keeps its default, 1 for the start and 100 for the end.  For `A` declared
from -5 to 5 it records the origin 1 and the size 5 where the evaluator computes the origin
-5 and the size 11, and for `B` declared from 1 to `N-1` with `N = 3` it records the size 100
where the evaluator computes 2; for `C` declared from 0 to `N` both have the origin 0 and
the size 4. -/
theorem C31_bounds_that_are_no_literal_or_name_get_defaults :
    recorded_dimension 10 array_origins_program "A" 0 = some (.ok (1, 5)) ∧
    evaluated_dimension 10 array_origins_program 0 0 = some (.ok (some (-5, 11))) ∧
    recorded_dimension 10 array_origins_program "B" 0 = some (.ok (1, 100)) ∧
    evaluated_dimension 10 array_origins_program 1 0 = some (.ok (some (1, 2))) ∧
    recorded_dimension 10 array_origins_program "C" 0 = some (.ok (0, 4)) ∧
    evaluated_dimension 10 array_origins_program 2 0 = some (.ok (some (0, 4))) ∧
    transpile 10 array_origins_program =
      some (.ok (some (generated_header ++ "#define N 3\n\n\n" ++
        "int A[5]; /* bounds: [1..5] */\nint B[100]; /* bounds: [1..100] */\n" ++
        "int C[4]; /* bounds: [0..3] */\n\nint main() \x7b\n    return 0;\n\x7d\n"))) ∧
    (∀ (gen : CodeGenerator) (default : Int) (operator : String) (operand : ASTNode),
      codegen_bound gen default (AST_UNARY_OP operator operand) = .ok default) ∧
    (∀ (gen : CodeGenerator) (default : Int) (operator : String) (left right : ASTNode),
      codegen_bound gen default (AST_BINARY_OP operator left right) = .ok default) ∧
    (∀ (gen : CodeGenerator) (default n : Int),
      codegen_bound gen default (int_literal n) = .ok n) := by
  refine ⟨by decide!, by decide!, by decide!, by decide!, by decide!, by decide!, by decide!,
    fun _ _ _ _ => rfl, fun _ _ _ _ _ => rfl, fun _ _ _ => rfl⟩

/-! ## The transpiler on for loops -/

/-- C32: the transpiler writes the test `>=` only for a step that is an integer literal
below zero, and the parser builds no such literal: it reads `-1` as the negation of the
literal 1.  For the loop `FOR i := 3 TO 1 STEP -1` of Scenario B, which the evaluator runs
for 3, 2 and 1, the program emitted has the test `i <= 1`. -/
theorem C32_negative_step_gets_the_test_of_a_positive_step :
    transpile 10 descending_loop_program =
      some (.ok (some (generated_header ++ "\n\n\nint main() \x7b\n" ++
        "    for (i = 3; i <= 1; i += -(1)) \x7b\n        printf(\"%d%c\", i, '\\n');\n" ++
        "    \x7d\n    return 0;\n\x7d\n"))) ∧
    interpret 10 descending_loop_program =
      some (.ok [.text "3", .text "\n", .text "2", .text "\n", .text "1", .text "\n"]) ∧
    emitted (codegen_statement main_generator scenario_b_loop) =
      .ok (some ("    for (i = 3; i <= 1; i += -(1)) \x7b\n" ++
        "        printf(\"%d%c\", i, '\\n');\n    \x7d\n")) ∧
    emitted (codegen_statement main_generator
        (AST_FOR "i" (int_literal 3) (int_literal 1) (int_literal (-1)) [])) =
      .ok (some "    for (i = 3; i >= 1; i += -1) \x7b\n    \x7d\n") ∧
    emitted (codegen_statement main_generator
        (AST_FOR "i" (int_literal 1) (int_literal 9) (int_literal 2) [])) =
      .ok (some "    for (i = 1; i <= 9; i += 2) \x7b\n    \x7d\n") := by
  refine ⟨by decide!, by decide!, by decide!, by decide!, by decide!⟩

/-! ## The transpiler on call sites -/

/-- C33: the transpiler writes the address-of operator before an argument of a call
statement only; at a call inside an expression `codegen_expression` writes every argument
as it is.  With `r` an output parameter of the procedure `P` and of the function `F`, the
statement `P(A[1])` is emitted as `P(&A[(1 - 1)]);` and the call in `A[2] := F(A[1])` as
`F(A[(1 - 1)])`. -/
theorem C33_arguments_of_calls_in_expressions_get_no_address_operator :
    transpile 10 reference_calls_program =
      some (.ok (some (generated_header ++ "\nint F(int*);\nvoid P(int*);\n\n" ++
        "int A[3]; /* bounds: [1..3] */\n\n" ++
        "int F(int *r) \x7b\n    int F_result = 0;\n    r = 7;\n    F_result = 1;\n" ++
        "    return F_result;\n\x7d\n\nvoid P(int *r) \x7b\n    r = 7;\n\x7d\n\n" ++
        "int main() \x7b\n    P(&A[(1 - 1)]);\n    A[(2 - 1)] = F(A[(1 - 1)]);\n" ++
        "    printf(\"%d%d\", A[(1 - 1)], A[(2 - 1)]);\n    return 0;\n\x7d\n"))) ∧
    (∀ (gen : CodeGenerator) (name x : String) (flag : Bool),
      str_equals_ignore_case x "EOLN" = false →
      (codegen_expression gen (AST_CALL name [AST_IDENTIFIER x] flag)).map (fun g => g.output) =
        .ok (gen.output ++ [.text (c_text (sanitize_identifier (c_bytes name)) ++ "("),
          .text (c_text (sanitize_identifier (c_bytes x))), .text ")"])) := by
  refine ⟨by decide!, fun gen name x flag hx => ?_⟩
  simp [codegen_expression, codegen_arguments, hx, CodeGenerator.fprintf,
    CodeGenerator.sanitize, CodeGenerator.sanitized, bind, Except.bind, Except.map, pure,
    Except.pure]

/-! ## The transpiler on PRINT -/

theorem codegen_print_formats_literals (ns : List Int) :
    ∀ gen : CodeGenerator, (codegen_print_formats gen (ns.map int_literal)).output =
      gen.output ++ ns.map (fun _ => OutputItem.text "%d") := by
  induction ns with
  | nil => intro gen; simp [codegen_print_formats]
  | cons n ns ih =>
    intro gen
    simp only [List.map_cons, codegen_print_formats]
    rw [ih]
    simp [CodeGenerator.fprintf, int_literal, codegen_infer_printf_format]

/-- C34: the evaluator writes a space between the values of a PRINT statement, and the
format the transpiler writes for the statement holds the conversions only, with nothing
between them.  For `PRINT(4, 9, 16)` the evaluator writes `4 9 16` and the program emitted
calls `printf("%d%d%d", 4, 9, 16)`; so it is for the elements `A[2], A[3], A[4]` of
Scenario C. -/
theorem C34_print_format_has_no_separators :
    interpret 10 print_integers_program =
      some (.ok [.text "4", .text " ", .text "9", .text " ", .text "16"]) ∧
    transpile 10 print_integers_program =
      some (.ok (some (generated_header ++ "\n\n\nint main() \x7b\n" ++
        "    printf(\"%d%d%d\", 4, 9, 16);\n    return 0;\n\x7d\n"))) ∧
    interpret 10 print_elements_program =
      some (.ok [.text "4", .text " ", .text "9", .text " ", .text "16"]) ∧
    transpile 10 print_elements_program =
      some (.ok (some (generated_header ++ "\n\nint A[3]; /* bounds: [2..4] */\n\n" ++
        "int main() \x7b\n    A[(2 - 2)] = 4;\n    A[(3 - 2)] = 9;\n    A[(4 - 2)] = 16;\n" ++
        "    printf(\"%d%d%d\", A[(2 - 2)], A[(3 - 2)], A[(4 - 2)]);\n    return 0;\n\x7d\n"))) ∧
    (∀ (gen : CodeGenerator) (ns : List Int),
      (codegen_print_formats gen (ns.map int_literal)).output =
        gen.output ++ ns.map (fun _ => OutputItem.text "%d")) := by
  refine ⟨by decide!, by decide!, by decide!, by decide!,
    fun gen ns => codegen_print_formats_literals ns gen⟩

/-! ## A for loop past the largest integer -/

/-- The loop `FOR i := 2147483646 TO 2147483647 STEP 2`: of the values `start`,
`start + step`, ... only the first is less than or equal to `end`, and the body runs with
it without error; but the counter the loop adds the step to is an `int`, its second value
is the smallest `int`, which passes the test, and the body runs with it and divides by
zero. -/
theorem C6_counterexample :
    for_loop_values 2147483646 2147483647 2 = [2147483646] ∧
    for_loop_counter 2147483646 2 1 = -2147483648 ∧
    (execute_statements (execute_statement 5)
      [AST_ASSIGN "x" [] (AST_BINARY_OP "DIV" (int_literal 1)
        (AST_BINARY_OP "+" (AST_BINARY_OP "DIV" (AST_IDENTIFIER "i") (int_literal 2))
          (int_literal 1073741824)))]
      { scenario_b_state with
        env := env_assign scenario_b_state.env "i" (VAL_INT 2147483646) }).toBool = true ∧
    (execute_statement 6 overflowing_loop scenario_b_state).map (fun st => st.stdout) =
      .error (.runtime_error .division_by_zero) := by
  refine ⟨by decide!, by decide!, by decide!, by decide!⟩

/-! ## A function whose name a callee assigns -/

/-- The function `F` whose body is the call `P(n)` and never assigns to `F`, with the
procedure `P` whose body is `F := 5`: the scope of `P` is a child of the scope of `F`, the
assignment finds the slot of `F` there, and `F(1)` returns 5, not real zero.  With `m := 5`
in the place of `F := 5` the call returns real zero. -/
theorem C11_counterexample :
    (evaluate 6 (AST_CALL "F" [int_literal 1] false) callee_assigns_state).map Prod.fst =
      .ok (VAL_INT 5) ∧
    ¬ Keeps "F" (AST_CALL "P" [AST_IDENTIFIER "n"] true) ∧
    interpret 10 callee_assigns_program = some (.ok [.text "5"]) ∧
    interpret 10 callee_idle_program = some (.ok [.real_g 0]) := by
  refine ⟨by decide!, (fun h => by cases h), by decide!, by decide!⟩

end EAP
